import Mathlib

/-!
# MFront DSL base engine

A shallow embedding of the parsing primitives of `mfront/src/DSLBase.cxx`
(`DSLBase::checkNotEndOfFile`, `DSLBase::throwRuntimeError`,
`DSLBase::readSpecifiedToken`, `DSLBase::readNextBlock`, `DSLBase::readVarList`,
`DSLBase::readList`, `DSLBase::readString`, `DSLBase::readArrayOfString`,
`DSLBase::readArrayOfDouble`, `DSLBase::readStringOrArrayOfString`,
`DSLBase::handleMaterialLaw`, `DSLBase::treatImport`,
`DSLBase::getTemporaryVariableName`, `DSLBase::readSpecifiedValue`,
`DSLBase::ignoreKeyWord`), of the declaration of the main variables in
`mfront/src/MechanicalBehaviourDescription.cxx`, of the attributes of
`mfront/src/MaterialKnowledgeDescription.cxx`, of the variables of
`mfront/src/LocalDataStructure.cxx` and of the orthotropic stiffness tensors of
`mfront/src/CastemComputeStiffnessTensor.cxx`, and theorems about them.

Conventions of the embedding:

* the token vector is a `List Token` and the iterator `current` is an index
  into it (`current = tokens.length` is `tokens.end()`);
* a method of `DSLBase` is a function of the state `DSLBase`; it returns
  `Except Failure (result × DSLBase)`; a thrown `std::runtime_error` is a
  `Failure`, which carries the message and the state at the time of the throw;
* `std::set<std::string>` is a duplicate-free list, `std::map` an association
  list;
* `unsigned int` counters are natural numbers reduced modulo `2 ^ 32`,
  `unsigned short` ones modulo `2 ^ 16` and `std::size_t` values modulo
  `2 ^ 64`;
* the stiffness tensors are computed over a field, that is with exact
  arithmetic, where the code computes with floating-point numbers;
* the index above cannot tell a cursor moved before the first token, and a
  token read through it has a default value outside of the tokens: the section
  on the runs with a checked cursor translates the primitives once more, in the
  namespace `Checked`, with every use of the cursor checked.
-/

namespace MFront

/-! ## Data model -/

/-- Modelled from the spec: the flag of a token (the declaration of
`tfel::utilities::Token` is not among the sources); the data model lists
`flag: enum{Standard,String,Comment,Char,Number}`. -/
inductive TokenFlag where
  | Standard
  | String
  | Comment
  | Char
  | Number
deriving DecidableEq, Repr, Inhabited

/-- Modelled from the spec: a token, `{value, line, column/offset, flag,
comment}` (the declaration of `tfel::utilities::Token` is not among the
sources). -/
structure Token where
  value : String
  line : Nat
  offset : Nat
  flag : TokenFlag
  comment : String
deriving DecidableEq, Repr, Inhabited

/-- The record `CodeBlock`: the code, its description and the member and static
member names met while reading it. -/
structure CodeBlock where
  code : String
  description : String
  members : List String
  staticMembers : List String
deriving DecidableEq, Repr, Inhabited

/-- The record `DSLBase::CodeBlockParserOptions`. `modifier` is the optional
`VariableModifier` (its method `exe`), `analyser` tells whether a `WordAnalyser`
is supplied. The default values are those of the constructor. -/
structure CodeBlockParserOptions where
  modifier : Option (String → Bool → String) := none
  analyser : Bool := false
  smn : List String := []
  mn : List String := []
  delim1 : String := "\x7b"
  delim2 : String := "\x7d"
  qualifyStaticVariables : Bool := false
  qualifyMemberVariables : Bool := false
  allowSemiColon : Bool := true
  registerLine : Bool := true

/-- The part of the state of a `DSLBase` object that the parsing primitives
read or write. `className` is the value of the virtual `getClassName()`,
`debugMode` the value of the global `getDebugMode()`, and `analysed` records,
in order, the words passed to `WordAnalyser::exe` (its only observable
effect). -/
structure DSLBase where
  tokens : List Token
  current : Nat
  fileName : String
  currentComment : String
  className : String
  debugMode : Bool
  integerConstants : List (String × Int)
  analysed : List String
deriving DecidableEq, Repr, Inhabited

/-- A thrown `std::runtime_error`: its message and the state of the object when
it was thrown. -/
structure Failure where
  msg : String
  state : DSLBase
deriving DecidableEq, Repr, Inhabited

/-- The token under the cursor, `*(this->current)`. -/
def DSLBase.cur (s : DSLBase) : Token :=
  s.tokens.getD s.current default

/-- The token before the cursor, `*std::prev(this->current)`. -/
def DSLBase.prev (s : DSLBase) : Token :=
  s.tokens.getD (s.current - 1) default

/-- Insertion in a `std::set<std::string>`. -/
def setInsert (x : String) (l : List String) : List String :=
  if x ∈ l then l else l ++ [x]

/-- The 32-bit range of `unsigned int`. -/
def uintRange : Nat := 4294967296

/-! ## Error reporting -/

/-- `DSLBase::throwRuntimeError(method,m)`: the exception it throws. -/
def throwRuntimeError (s : DSLBase) (method m : String) : Failure :=
  let msg := if m ≠ "" then method ++ ": " ++ m else method
  let msg :=
    if s.tokens ≠ [] then
      let t := if s.tokens.length ≤ s.current then s.tokens.length - 1 else s.current
      msg ++ "\nError at line " ++ toString (s.tokens.getD t default).line
    else msg
  { msg := msg, state := s }

/-- The exception thrown by `DSLBase::checkNotEndOfFile(method,error)` when the
cursor is at the end of the tokens. -/
def endOfFileFailure (s : DSLBase) (method error : String) : Failure :=
  let msg := "unexpected end of file."
  let msg := if error ≠ "" then msg ++ "\n" ++ error else msg
  let msg :=
    if s.tokens ≠ [] then msg ++ "\nError at line " ++ toString s.prev.line else msg
  throwRuntimeError s method msg

/-- `DSLBase::checkNotEndOfFile(method,error)`. -/
def checkNotEndOfFile (s : DSLBase) (method error : String) : Except Failure Unit :=
  if s.tokens.length ≤ s.current then .error (endOfFileFailure s method error) else .ok ()

/-- `DSLBase::readSpecifiedToken(m,v)`. -/
def readSpecifiedToken (s : DSLBase) (m v : String) : Except Failure (Unit × DSLBase) :=
  match checkNotEndOfFile s m ("expected '" ++ v ++ "'.") with
  | .error f => .error f
  | .ok _ =>
    if s.cur.value ≠ v then
      .error (throwRuntimeError s m
        ("expected '" ++ v ++ "', read '" ++ s.cur.value ++ "'.\nError at line: "
          ++ toString s.cur.line))
    else .ok ((), { s with current := s.current + 1 })

/-! ## Reading a block -/

/-- The line directive written in the code: `#line <line> "<fileName>"` and a
newline. -/
def lineMarker (s : DSLBase) (line : Nat) : String :=
  "#line " ++ toString line ++ " \"" ++ s.fileName ++ "\"\n"

/-- The comment of a token is appended to the description of the block, after
a newline when the description is not empty. -/
def addComment (description comment : String) : String :=
  if comment ≠ "" then
    (if description ≠ "" then description ++ "\n" else description) ++ comment
  else description

/-- The call `analyser->exe(w)`, when an analyser is supplied. -/
def analyse (o : CodeBlockParserOptions) (s : DSLBase) (w : String) : DSLBase :=
  if o.analyser then { s with analysed := s.analysed ++ [w] } else s

/-- The treatment of the first token of a block (lines 231-270): the names are
registered and the text of the token is appended to the code. -/
def emitFirstToken (o : CodeBlockParserOptions) (s : DSLBase) (previous t : Token)
    (b : CodeBlock) : CodeBlock :=
  if t.value ∈ o.smn then
    let res :=
      if previous.value ≠ "->" ∧ previous.value ≠ "." ∧ previous.value ≠ "::" then
        if o.qualifyStaticVariables then b.code ++ s.className ++ "::" else b.code
      else b.code
    { b with staticMembers := setInsert t.value b.staticMembers, code := res ++ t.value }
  else if t.value ∈ o.mn then
    let currentValue :=
      if previous.value = "->" ∨ previous.value = "." ∨ previous.value = "::" then t.value
      else
        match o.modifier with
        | some modifier => modifier t.value o.qualifyMemberVariables
        | none => if o.qualifyMemberVariables then "this->" ++ t.value else t.value
    { b with
      members := setInsert t.value b.members,
      code :=
        if previous.value = "*" then b.code ++ ("(" ++ currentValue ++ ")")
        else b.code ++ currentValue }
  else { b with code := b.code ++ t.value }

/-- The treatment of a token in the loop of `readNextBlock` (lines 303-341). -/
def emitLoopToken (o : CodeBlockParserOptions) (s : DSLBase) (previous t : Token)
    (b : CodeBlock) : CodeBlock :=
  if t.value ∈ o.smn then
    let res :=
      if previous.value ≠ "->" ∧ previous.value ≠ "." ∧ previous.value ≠ "::" then
        if o.qualifyStaticVariables then b.code ++ s.className ++ "::" else b.code
      else b.code
    { b with staticMembers := setInsert t.value b.staticMembers, code := res ++ t.value }
  else if t.value ∈ o.mn then
    let currentValue :=
      if previous.value = "->" ∨ previous.value = "." ∨ previous.value = "::" then t.value
      else
        match o.modifier with
        | some modifier => modifier t.value o.qualifyMemberVariables
        | none =>
          if o.qualifyMemberVariables then
            if previous.value = "*" then "(this->" ++ t.value ++ ")"
            else "this->" ++ t.value
          else t.value
    { b with members := setInsert t.value b.members, code := b.code ++ currentValue }
  else { b with code := b.code ++ t.value }

/-- The local variables of `readNextBlock` that the loop updates: the block
`b` (with `res = b.code`), `openedBlock` and `currentLine`. -/
structure BlockAcc where
  b : CodeBlock
  openedBlock : Nat
  currentLine : Nat
deriving DecidableEq, Repr, Inhabited

/-- The update of `currentLine` and the newline and line marker written when
the token `t` is not on the current line (lines 275-287). -/
def lineChange (o : CodeBlockParserOptions) (s : DSLBase) (t : Token) (acc : BlockAcc) :
    BlockAcc :=
  if acc.currentLine ≠ t.line then
    { acc with
      currentLine := t.line,
      b := { acc.b with
        code :=
          if o.registerLine = true ∧ s.debugMode = false then
            acc.b.code ++ "\n" ++ lineMarker s t.line
          else acc.b.code ++ "\n" } }
  else acc

/-- The treatment of the token `t` in the loop, once the line and the `;` are
checked (lines 294-348): its comment is added to the description, its text and
a space to the code, and the counter of opened blocks is updated. -/
def treatToken (o : CodeBlockParserOptions) (s : DSLBase) (previous t : Token)
    (acc : BlockAcc) : BlockAcc :=
  let b2 := { acc.b with description := addComment acc.b.description t.comment }
  let b3 := emitLoopToken o s previous t b2
  let b4 := { b3 with code := b3.code ++ " " }
  let opened :=
    if t.value = o.delim1 then (acc.openedBlock + 1) % uintRange else acc.openedBlock
  let opened := if t.value = o.delim2 then (opened + uintRange - 1) % uintRange else opened
  { b := b4, openedBlock := opened, currentLine := acc.currentLine }

/-- The `while` loop of `readNextBlock` and what follows it (lines 273-359).
The first argument is the tokens from the cursor to the end of the vector (so
that the empty list is `current == tokens.end()`), the second the token before
the cursor (`std::prev(current)`); `s.current` is the cursor. -/
def readNextBlockLoop (o : CodeBlockParserOptions) :
    List Token → Token → DSLBase → BlockAcc → Except Failure (CodeBlock × DSLBase)
  | [], _, s, acc =>
    .error (throwRuntimeError { s with current := s.current - 1 } "DSLBase::readNextBlock"
      ("Expected the end of a block.\nNumber of block opened : " ++ toString acc.openedBlock))
  | t :: rest, previous, s, acc =>
    if t.value = o.delim2 ∧ acc.openedBlock = 0 then
      .ok (acc.b, { s with current := s.current + 1 })
    else
      let acc1 := lineChange o s t acc
      if t.value = ";" ∧ o.allowSemiColon = false then
        .error (throwRuntimeError s "DSLBase::readNextBlock"
          ("read ';' before the end of block.\nNumber of block opened : "
            ++ toString acc1.openedBlock))
      else
        let s2 := analyse o s t.value
        readNextBlockLoop o rest t { s2 with current := s2.current + 1 }
          (treatToken o s previous t acc1)

/-- The treatment of the first token `t` of a block that is not empty
(lines 214-271): the line of the token becomes the current line, the initial
line marker is written when markers are on, the comment of the token is added
to the description and its text and a space to the code. `s.current` is on
`t`. -/
def treatFirstToken (o : CodeBlockParserOptions) (s : DSLBase) (t : Token) (b : CodeBlock)
    (openedBlock : Nat) : BlockAcc :=
  let currentLine := t.line
  let b1 :=
    if o.registerLine = true ∧ s.debugMode = false then
      { b with code := lineMarker s currentLine }
    else b
  let b2 := { b1 with description := addComment b1.description t.comment }
  let b3 := emitFirstToken o s s.prev t b2
  let b4 := { b3 with code := b3.code ++ " " }
  { b := b4, openedBlock := openedBlock, currentLine := currentLine }

/-- The block `b` at the beginning of `readNextBlock` (lines 192-195): empty,
but for the current comment, which starts its description. -/
def initialBlock (s : DSLBase) : CodeBlock :=
  { code := "", description := if s.currentComment ≠ "" then s.currentComment else "",
    members := [], staticMembers := [] }

/-- `DSLBase::readNextBlock(options)` (lines 179-360). -/
def readNextBlock (s : DSLBase) (o : CodeBlockParserOptions) :
    Except Failure (CodeBlock × DSLBase) :=
  let b := initialBlock s
  let openedBlock : Nat := 0
  match readSpecifiedToken s "DSLBase::readNextBlock" o.delim1 with
  | .error f => .error f
  | .ok (_, s1) =>
    match checkNotEndOfFile s1 "DSLBase::readNextBlock" ("Expected a '" ++ o.delim2 ++ "'.") with
    | .error f => .error f
    | .ok _ =>
      let t := s1.cur
      if t.value = ";" ∧ o.allowSemiColon = false then
        .error (throwRuntimeError s1 "DSLBase::readNextBlock"
          ("read ';' before the end of block.\nNumber of block opened : "
            ++ toString openedBlock))
      else
        let openedBlock := if t.value = o.delim1 then (openedBlock + 1) % uintRange
          else openedBlock
        if t.value = o.delim2 then .ok (b, { s1 with current := s1.current + 1 })
        else
          let s2 := analyse o s1 t.value
          readNextBlockLoop o (s1.tokens.drop (s1.current + 1)) t
            { s2 with current := s2.current + 1 } (treatFirstToken o s1 t b openedBlock)

/-- `DSLBase::readNextBlock(res1,res2,o1,o2)` (lines 167-177): the cursor is
saved, the block is read with `o1`, the cursor is restored and the block is read
with `o2`. -/
def readNextBlock2 (s : DSLBase) (o1 o2 : CodeBlockParserOptions) :
    Except Failure ((CodeBlock × CodeBlock) × DSLBase) :=
  let pb := s.current
  match readNextBlock s o1 with
  | .error f => .error f
  | .ok (res1, s1) =>
    match readNextBlock { s1 with current := pb } o2 with
    | .error f => .error f
    | .ok (res2, s2) => .ok ((res1, res2), s2)


/-! ## Reading a list of variables -/

/-- Modelled from the spec: a variable description, `name, declared type, array
size, declaration line, free-text description` (the declaration of
`VariableDescription` is not among the sources); the constructor
`VariableDescription(type,name,arraySize,lineNumber)` leaves the description
empty. -/
structure VariableDescription where
  type : String
  name : String
  arraySize : Nat
  lineNumber : Nat
  description : String
deriving DecidableEq, Repr, Inhabited

/-- The library services called by `readVarList`, whose code is not among the
sources: `isValidIdentifier` of the tokenizer (its second argument is `true`
when it is not given), and, of `tfel::math::IntegerEvaluator` built on an
expression, `getVariablesNames` (an error is the message of the exception of the
constructor) and `getValue` once the variables are given the listed values. -/
structure Library where
  isValidIdentifier : String → Bool → Bool
  getVariablesNames : String → Except String (List String)
  getValue : String → List (String × Int) → Except String Int

/-- The loop `while(current->value!="]")` of `readVarList` (lines 532-541): the
standard tokens up to `]` are appended to `array_size`. The first argument is
the tokens from the cursor to the end of the vector. -/
def readArraySize (varName : String) :
    List Token → DSLBase → String → Except Failure (String × DSLBase)
  | [], s, _ => .error (endOfFileFailure s "DSLBase::readVarList" "")
  | t :: rest, s, array_size =>
    if t.value ≠ "]" then
      if t.flag ≠ TokenFlag.Standard ∨ t.value = ";" then
        .error (throwRuntimeError s "DSLBase::readVarList : "
          ("invalid array size for '" ++ varName ++ "'"))
      else readArraySize varName rest { s with current := s.current + 1 } (array_size ++ t.value)
    else .ok (array_size, s)

/-- The treatment of `[` after the name of a variable (lines 525-563); the
cursor of `s` is on `[`. It returns the size of the array. -/
def readArray (lib : Library) (s : DSLBase) (varName : String) (allowArray : Bool) :
    Except Failure (Nat × DSLBase) :=
  if allowArray = false then
    .error (throwRuntimeError s "DSLBase::readVarList : "
      ("variable '" ++ varName ++ "' can't be declared an array"))
  else
    let s1 := { s with current := s.current + 1 }
    match readArraySize varName (s1.tokens.drop s1.current) s1 "" with
    | .error f => .error f
    | .ok (array_size, s2) =>
      if array_size = "" then
        .error (throwRuntimeError s2 "DSLBase::readVarList : "
          ("empty array size for '" ++ varName ++ "'"))
      else
        match lib.getVariablesNames array_size with
        | .error e => .error { msg := e, state := s2 }
        | .ok vars =>
          match vars.find? (fun v => (s2.integerConstants.lookup v).isNone) with
          | some v =>
            .error (throwRuntimeError s2 "DSLBase::readVarList : "
              ("unknown constant '" ++ v ++ "'"))
          | none =>
            match lib.getValue array_size
                (vars.map (fun v => (v, (s2.integerConstants.lookup v).getD 0))) with
            | .error e => .error { msg := e, state := s2 }
            | .ok iv =>
              if iv ≤ 0 then
                .error (throwRuntimeError s2 "DSLBase::readVarList : "
                  ("invalid array size for '" ++ varName ++ "'"))
              else
                let asize := iv.toNat % uintRange
                match readSpecifiedToken s2 "DSLBase::readVarList" "]" with
                | .error f => .error f
                | .ok (_, s3) =>
                  match checkNotEndOfFile s3 "DSLBase::readVarList" "" with
                  | .error f => .error f
                  | .ok _ => .ok (asize, s3)

/-- One turn of the loop of `readVarList` (lines 515-578): a name, its optional
array size and the `,` or `;` after it are read and the variable is appended to
the container (`push_back`, that of the vector that the container is). The
third component of the result is the comment of the `;` when `endOfTreatment`
is set. -/
def readVarListItem (lib : Library) (s : DSLBase) (cont : List VariableDescription)
    (type : String) (allowArray : Bool) :
    Except Failure (List VariableDescription × DSLBase × Option String) :=
  let varName := s.cur.value
  if lib.isValidIdentifier s.cur.value true = false then
    .error (throwRuntimeError s "DSLBase::readVarList : "
      ("variable given is not valid (read '" ++ s.cur.value ++ "')."))
  else
    let lineNumber := s.cur.line
    let s1 := { s with current := s.current + 1 }
    match checkNotEndOfFile s1 "DSLBase::readVarList" "" with
    | .error f => .error f
    | .ok _ =>
      match (if s1.cur.value = "[" then readArray lib s1 varName allowArray
          else .ok (1, s1)) with
      | .error f => .error f
      | .ok (asize, s2) =>
        let v : VariableDescription :=
          { type := type, name := varName, arraySize := asize, lineNumber := lineNumber,
            description := if s.currentComment ≠ "" then s.currentComment else "" }
        if s2.cur.value = "," then
          .ok (cont ++ [v], { s2 with current := s2.current + 1 }, none)
        else if s2.cur.value = ";" then
          .ok (cont ++ [v], { s2 with current := s2.current + 1 }, some s2.cur.comment)
        else
          .error (throwRuntimeError s2 "DSLBase::readVarList"
            (", or ; expected after '" ++ varName ++ "'"))

/-- The loop `while((current!=tokens.end())&&(!endOfTreatment))` of
`readVarList`. The first argument bounds the number of turns; each turn moves
the cursor forward, so that the number of tokens after the cursor is enough
(`readVarListLoop_fuel`): the bound is reached at the end of the tokens
only. -/
def readVarListLoop (lib : Library) (type : String) (allowArray : Bool) :
    Nat → DSLBase → List VariableDescription →
      Except Failure (List VariableDescription × DSLBase × Option String)
  | 0, s, cont => .ok (cont, s, none)
  | n + 1, s, cont =>
    if s.tokens.length ≤ s.current then .ok (cont, s, none)
    else
      match readVarListItem lib s cont type allowArray with
      | .error f => .error f
      | .ok (cont1, s1, some endComment) => .ok (cont1, s1, some endComment)
      | .ok (cont1, s1, none) => readVarListLoop lib type allowArray n s1 cont1

/-- The comment of the `;` is appended to the description of a variable, after
a space when the description is not empty (lines 582-585). -/
def addEndComment (endComment : String) (c : VariableDescription) : VariableDescription :=
  { c with
    description :=
      (if c.description ≠ "" then c.description ++ " " else c.description) ++ endComment }

/-- `DSLBase::readVarList(cont,type,allowArray)` (lines 507-593). -/
def readVarList (lib : Library) (s : DSLBase) (cont : List VariableDescription)
    (type : String) (allowArray : Bool) :
    Except Failure (List VariableDescription × DSLBase) :=
  match readVarListLoop lib type allowArray (s.tokens.length - s.current) s cont with
  | .error f => .error f
  | .ok (cont1, s1, endOfTreatment) =>
    let endComment := endOfTreatment.getD ""
    let cont2 := if endComment ≠ "" then cont1.map (addEndComment endComment) else cont1
    if endOfTreatment.isNone then
      .error (throwRuntimeError { s1 with current := s1.current - 1 } "DSLBase::readVarList"
        "Expected ';' before end of file")
    else .ok (cont2, s1)

/-! ## Reading the type of a list of variables -/

/-- `isInteger(s)` (lines 52-58): every character of `s` is a decimal digit. -/
def isInteger (s : String) : Bool :=
  s.data.all Char.isDigit

/-- The range of `unsigned short`. -/
def ushortRange : Nat := 65536

/-- The test `(!isValidIdentifier(t,false))&&(!isInteger(t))` of an argument of
a type (lines 628-629 and 640-641). -/
def invalidArgument (lib : Library) (t : String) : Bool :=
  !lib.isValidIdentifier t false && !isInteger t

/-- The loop `while(current->value=="::")` of `readVarList(cont,allowArray)`
(lines 608-620). The first argument is the tokens from the cursor to the end of
the vector; the test of the end of the tokens before each turn is that of lines
607 and 619. When a name is refused the cursor is moved back before the
exception is thrown. -/
def readScope (lib : Library) : List Token → DSLBase → String → Except Failure (String × DSLBase)
  | [], s, _ => .error (endOfFileFailure s "DSLBase::readVarList" "")
  | c :: rest, s, type =>
    if c.value = "::" then
      let s1 := { s with current := s.current + 1 }
      match rest with
      | [] => .error (endOfFileFailure s1 "DSLBase::readVarList" "")
      | t :: rest1 =>
        if lib.isValidIdentifier t.value false = false then
          .error (throwRuntimeError { s1 with current := s1.current - 1 } "DSLBase::readVarList"
            ("given type '" ++ t.value ++ "' is not valid."))
        else
          readScope lib rest1 { s1 with current := s1.current + 1 } (type ++ ("::" ++ t.value))
    else .ok (type, s)

/-- The loop `while(openBrackets!=0)` of `readVarList(cont,allowArray)` (lines
626-662), entered with `openBrackets` not zero. The first argument is the tokens
from the cursor to the end of the vector; `openBrackets` is an `unsigned
short`. A turn reads an argument `t` and looks at the token after it: after `,`
the next token is checked and left to the next turn; `<` opens a list; `>`
closes one; any other token is left to the next turn, which reads it as an
argument. -/
def readTemplateArguments (lib : Library) :
    List Token → DSLBase → String → Nat → Except Failure (String × DSLBase)
  | [], s, _, _ => .error (endOfFileFailure s "DSLBase::readVarList" "")
  | t :: rest, s, type, openBrackets =>
    if invalidArgument lib t.value = true then
      .error (throwRuntimeError s "DSLBase::readVarList"
        ("given type '" ++ t.value ++ "' is not valid."))
    else
      let s1 := { s with current := s.current + 1 }
      match rest with
      | [] => .error (endOfFileFailure s1 "DSLBase::readVarList" "")
      | t2 :: rest2 =>
        let type1 := type ++ t.value
        let s2 := { s1 with current := s1.current + 1 }
        if t2.value = "," then
          match rest2 with
          | [] => .error (endOfFileFailure s2 "DSLBase::readVarList" "")
          | t3 :: rest3 =>
            if invalidArgument lib t3.value = true then
              .error (throwRuntimeError { s2 with current := s2.current - 1 }
                "DSLBase::readVarList" ("given type '" ++ t.value ++ "' is not valid."))
            else readTemplateArguments lib (t3 :: rest3) s2 (type1 ++ ",") openBrackets
        else if t2.value = "<" then
          if isInteger t.value = true then
            .error (throwRuntimeError s1 "DSLBase::readVarList"
              ("given type '" ++ t.value ++ "'is not valid."))
          else
            match rest2 with
            | [] => .error (endOfFileFailure s2 "DSLBase::readVarList" "")
            | t3 :: rest3 =>
              if (openBrackets + 1) % ushortRange ≠ 0 then
                readTemplateArguments lib (t3 :: rest3) s2 (type1 ++ "<")
                  ((openBrackets + 1) % ushortRange)
              else .ok (type1 ++ "<", s2)
        else if t2.value = ">" then
          match rest2 with
          | [] => .error (endOfFileFailure s2 "DSLBase::readVarList" "")
          | t3 :: rest3 =>
            if (openBrackets + ushortRange - 1) % ushortRange ≠ 0 then
              readTemplateArguments lib (t3 :: rest3) s2 (type1 ++ ">")
                ((openBrackets + ushortRange - 1) % ushortRange)
            else .ok (type1 ++ ">", s2)
        else readTemplateArguments lib (t2 :: rest2) s1 type1 openBrackets

/-- The type read by `readVarList(cont,allowArray)` (lines 598-663) and the
state once it is read. At the first token of the file `--current` has no
defined result in the code; the cursor of the model stays on this token. -/
def readVarListType (lib : Library) (s : DSLBase) : Except Failure (String × DSLBase) :=
  match checkNotEndOfFile s "DSLBase::readVarList" "Cannot read type of varName.\n" with
  | .error f => .error f
  | .ok _ =>
    if lib.isValidIdentifier s.cur.value false = false then
      .error (throwRuntimeError { s with current := s.current - 1 } "DSLBase::readVarList"
        ("given type " ++ s.cur.value ++ "is not valid."))
    else
      let s1 := { s with current := s.current + 1 }
      match readScope lib (s1.tokens.drop s1.current) s1 s.cur.value with
      | .error f => .error f
      | .ok (type, s2) =>
        if s2.cur.value = "<" then
          let s3 := { s2 with current := s2.current + 1 }
          readTemplateArguments lib (s3.tokens.drop s3.current) s3 (type ++ "<") 1
        else .ok (type, s2)

/-- `DSLBase::readVarList(cont,allowArray)` (lines 595-665): the type is read,
then the variables by `readVarList(cont,type,allowArray)`. -/
def readVarList2 (lib : Library) (s : DSLBase) (cont : List VariableDescription)
    (allowArray : Bool) : Except Failure (List VariableDescription × DSLBase) :=
  match readVarListType lib s with
  | .error f => .error f
  | .ok (type, s1) => readVarList lib s1 cont type allowArray

/-! ## Reading lists and strings -/

/-- The loop `while(current->value!=de)` of `readList` (lines 687-703); `l` is
the list read so far. The first argument is the tokens from the cursor to the
end of the vector; the test of the end of the tokens before the first turn is
that of line 686. On success the cursor is on the closing delimiter. -/
def readListLoop (m de : String) :
    List Token → DSLBase → List Token → Except Failure (List Token × DSLBase)
  | [], s, _ => .error (endOfFileFailure s m ("Expected '" ++ de ++ "'"))
  | t :: rest, s, l =>
    if t.value ≠ de then
      let s1 := { s with current := s.current + 1 }
      match rest with
      | [] => .error (endOfFileFailure s1 m ("Expected '" ++ de ++ "'"))
      | t2 :: rest2 =>
        if ¬ (t2.value = de ∨ t2.value = ",") then
          .error (throwRuntimeError s1 m
            ("Expected ',' or '" ++ de ++ "'," ++ " read '" ++ t2.value ++ "'"))
        else if t2.value = "," then
          let s2 := { s1 with current := s1.current + 1 }
          match rest2 with
          | [] => .error (endOfFileFailure s2 m ("Expected '" ++ de ++ "'"))
          | t3 :: rest3 =>
            if t3.value = de then .error (throwRuntimeError s2 m "Expected a new item")
            else readListLoop m de (t3 :: rest3) s2 (l ++ [t])
        else readListLoop m de (t2 :: rest2) s1 (l ++ [t])
    else .ok (l, s)

/-- `DSLBase::readList(l,m,db,de,b)` (lines 667-705); the list `l` is
returned. -/
def readList (s : DSLBase) (m db de : String) (b : Bool) :
    Except Failure (List Token × DSLBase) :=
  match checkNotEndOfFile s m ("Expected '" ++ db ++ "'") with
  | .error f => .error f
  | .ok _ =>
    if s.tokens.length ≤ s.current ∧ b = true then .ok ([], s)
    else
      match checkNotEndOfFile s m ("Expected '" ++ db ++ "'") with
      | .error f => .error f
      | .ok _ =>
        if s.cur.value ≠ db then .ok ([], s)
        else
          match readSpecifiedToken s m db with
          | .error f => .error f
          | .ok (_, s1) =>
            match readListLoop m de (s1.tokens.drop s1.current) s1 [] with
            | .error f => .error f
            | .ok (l, s2) => .ok (l, { s2 with current := s2.current + 1 })

/-- The range of `std::size_t`. -/
def sizeRange : Nat := 18446744073709551616

/-- `std::string::substr(pos,n)`: the `n` characters from the position `pos`, or
those that remain; an exception `std::out_of_range` when `pos` is beyond the
end of the string (the text of its message is that of the standard library). A
character of the model stands for a `char`. -/
def substr (v : String) (pos n : Nat) : Except String String :=
  if v.length < pos then .error "basic_string::substr"
  else .ok (String.mk ((v.data.drop pos).take n))

/-- The expression `value.substr(1,value.size()-2)` of lines 718 and 760, the
subtraction being that of `std::size_t`. -/
def unquote (v : String) : Except String String :=
  substr v 1 ((v.length + sizeRange - 2) % sizeRange)

/-- `DSLBase::readString(m)` (lines 753-763). -/
def readString (s : DSLBase) (m : String) : Except Failure (String × DSLBase) :=
  match checkNotEndOfFile s m "Expected a string or '\x7b'" with
  | .error f => .error f
  | .ok _ =>
    if s.cur.flag ≠ TokenFlag.String then .error (throwRuntimeError s m "Expected a string")
    else
      match unquote s.cur.value with
      | .error e => .error { msg := e, state := s }
      | .ok r => .ok (r, { s with current := s.current + 1 })

/-- The loop `for(const auto& t : as)` of `readArrayOfString` (lines 714-719);
`r` is the vector filled so far. -/
def readArrayOfStringLoop (s : DSLBase) (m : String) :
    List Token → List String → Except Failure (List String)
  | [], r => .ok r
  | t :: ts, r =>
    if t.flag ≠ TokenFlag.String then .error (throwRuntimeError s m "Expected a string")
    else
      match unquote t.value with
      | .error e => .error { msg := e, state := s }
      | .ok v => readArrayOfStringLoop s m ts (r ++ [v])

/-- `DSLBase::readArrayOfString(m)` (lines 707-721). -/
def readArrayOfString (s : DSLBase) (m : String) : Except Failure (List String × DSLBase) :=
  match readList s m "\x7b" "\x7d" false with
  | .error f => .error f
  | .ok (as, s1) =>
    match readArrayOfStringLoop s1 m as [] with
    | .error f => .error f
    | .ok r => .ok (r, s1)

/-- The loop `for(const auto& t : as)` of `readArrayOfDouble` (lines 730-732);
`convert` is `tfel::utilities::convert<double>`, whose code is not among the
sources, and `D` the values that it returns; an error is the message of its
exception. -/
def readArrayOfDoubleLoop {D : Type} (convert : String → Except String D) (s : DSLBase) :
    List Token → List D → Except Failure (List D)
  | [], r => .ok r
  | t :: ts, r =>
    match convert t.value with
    | .error e => .error { msg := e, state := s }
    | .ok v => readArrayOfDoubleLoop convert s ts (r ++ [v])

/-- `DSLBase::readArrayOfDouble(m)` (lines 723-734). -/
def readArrayOfDouble {D : Type} (convert : String → Except String D) (s : DSLBase)
    (m : String) : Except Failure (List D × DSLBase) :=
  match readList s m "\x7b" "\x7d" false with
  | .error f => .error f
  | .ok (as, s1) =>
    match readArrayOfDoubleLoop convert s1 as [] with
    | .error f => .error f
    | .ok r => .ok (r, s1)

/-- `DSLBase::readStringOrArrayOfString(m)` (lines 765-773); `{1u,readString(m)}`
is the vector of one string. -/
def readStringOrArrayOfString (s : DSLBase) (m : String) :
    Except Failure (List String × DSLBase) :=
  match checkNotEndOfFile s m "Expected a string or '\x7b'" with
  | .error f => .error f
  | .ok _ =>
    if s.cur.value = "\x7b" then readArrayOfString s m
    else
      match readString s m with
      | .error f => .error f
      | .ok (r, s1) => .ok ([r], s1)

/-! ## The description of a mechanical behaviour -/

/-- The type of a behaviour, `MechanicalBehaviourDescription::BehaviourType`. -/
inductive BehaviourType where
  | GENERALBEHAVIOUR
  | SMALLSTRAINSTANDARDBEHAVIOUR
  | FINITESTRAINSTANDARDBEHAVIOUR
  | COHESIVEZONEMODEL
deriving DecidableEq, Repr, Inhabited

/-- A driving variable, with the members that the code sets (the declaration of
`DrivingVariable` is not among the sources). -/
structure DrivingVariable where
  name : String
  type : String
  increment_known : Bool
deriving DecidableEq, Repr, Inhabited

/-- A thermodynamic force, with the members that the code sets (the declaration
of `ThermodynamicForce` is not among the sources). -/
structure ThermodynamicForce where
  name : String
  type : String
deriving DecidableEq, Repr, Inhabited

/-- The members of `MechanicalBehaviourDescription` that the declaration of the
main variables reads or writes: the type of the behaviour and the `std::map` of
the main variables, as the list of its pairs in the order of their keys. -/
structure MechanicalBehaviourDescription where
  type : BehaviourType
  mvariables : List (DrivingVariable × ThermodynamicForce)
deriving DecidableEq, Repr, Inhabited

/-- A `std::runtime_error` thrown by a method of `MechanicalBehaviourDescription`:
its message and the state of the object when it was thrown. -/
structure BehaviourFailure where
  msg : String
  state : MechanicalBehaviourDescription
deriving DecidableEq, Repr, Inhabited

/-- The constructor of `MechanicalBehaviourDescription` (lines 16-26): the type
is the general one and there is no main variable. -/
def newMechanicalBehaviourDescription : MechanicalBehaviourDescription :=
  { type := BehaviourType.GENERALBEHAVIOUR, mvariables := [] }

/-- The keys `a` and `b` of a `std::map` of order `less` are equivalent: neither
is before the other. -/
def equivalentKeys (less : DrivingVariable → DrivingVariable → Bool) (a b : DrivingVariable) :
    Bool :=
  !less a b && !less b a

/-- `std::map::insert(p)`, the order of the keys being `less` (`operator<` of
`DrivingVariable`, whose code is not among the sources): the pair is inserted,
at its place in the order, unless the map has an equivalent key. The result is
the map and the member `second` of the pair that `insert` returns. -/
def mapInsert (less : DrivingVariable → DrivingVariable → Bool)
    (m : List (DrivingVariable × ThermodynamicForce)) (p : DrivingVariable × ThermodynamicForce) :
    List (DrivingVariable × ThermodynamicForce) × Bool :=
  if m.any (fun q => equivalentKeys less q.1 p.1) then (m, false)
  else (m.takeWhile (fun q => less q.1 p.1) ++ p :: m.dropWhile (fun q => less q.1 p.1), true)

/-- `MechanicalBehaviourDescription::declareAsASmallStrainStandardBehaviour`
(lines 310-329). -/
def declareAsASmallStrainStandardBehaviour (less : DrivingVariable → DrivingVariable → Bool)
    (d : MechanicalBehaviourDescription) :
    Except BehaviourFailure MechanicalBehaviourDescription :=
  if d.mvariables ≠ [] then
    .error { msg := "MechanicalBehaviourDescription::declareAsASmallStrainStandardBehaviour : "
              ++ "some driving variables are already declared", state := d }
  else
    let eto : DrivingVariable :=
      { name := "eto", type := "StrainStensor", increment_known := true }
    let sig : ThermodynamicForce := { name := "sig", type := "StressStensor" }
    .ok { type := BehaviourType.SMALLSTRAINSTANDARDBEHAVIOUR,
          mvariables := (mapInsert less d.mvariables (eto, sig)).1 }

/-- `MechanicalBehaviourDescription::declareAsAFiniteStrainStandardBehaviour`
(lines 331-350). -/
def declareAsAFiniteStrainStandardBehaviour (less : DrivingVariable → DrivingVariable → Bool)
    (d : MechanicalBehaviourDescription) :
    Except BehaviourFailure MechanicalBehaviourDescription :=
  if d.mvariables ≠ [] then
    .error { msg := "MechanicalBehaviourDescription::declareAsAFiniteStrainStandardBehaviour : "
              ++ "some driving variables are already declared", state := d }
  else
    let F : DrivingVariable :=
      { name := "F", type := "DeformationGradientTensor", increment_known := false }
    let sig : ThermodynamicForce := { name := "sig", type := "StressStensor" }
    .ok { type := BehaviourType.FINITESTRAINSTANDARDBEHAVIOUR,
          mvariables := (mapInsert less d.mvariables (F, sig)).1 }

/-- `MechanicalBehaviourDescription::declareAsACohesiveZoneModel` (lines
352-371). -/
def declareAsACohesiveZoneModel (less : DrivingVariable → DrivingVariable → Bool)
    (d : MechanicalBehaviourDescription) :
    Except BehaviourFailure MechanicalBehaviourDescription :=
  if d.mvariables ≠ [] then
    .error { msg := "MechanicalBehaviourDescription::declareAsACohesiveZoneModel : "
              ++ "some driving variables are already declared", state := d }
  else
    let u : DrivingVariable :=
      { name := "u", type := "DisplacementTVector", increment_known := true }
    let t : ThermodynamicForce := { name := "t", type := "ForceTVector" }
    .ok { type := BehaviourType.COHESIVEZONEMODEL,
          mvariables := (mapInsert less d.mvariables (u, t)).1 }

/-- `MechanicalBehaviourDescription::addMainVariable(v,f)` (lines 373-390). -/
def addMainVariable (less : DrivingVariable → DrivingVariable → Bool)
    (d : MechanicalBehaviourDescription) (v : DrivingVariable) (f : ThermodynamicForce) :
    Except BehaviourFailure MechanicalBehaviourDescription :=
  if d.type ≠ BehaviourType.GENERALBEHAVIOUR then
    .error { msg := "MechanicalBehaviourDescription::addMainVariables : "
              ++ "one can not add a main variable if the behaviour "
              ++ "don't have a general behaviour type", state := d }
  else if (mapInsert less d.mvariables (v, f)).2 = false then
    .error { msg := "MechanicalBehaviourDescription::addMainVariables : "
              ++ "a driving variable '" ++ v.name ++ "' has already been declared",
             state := { d with mvariables := (mapInsert less d.mvariables (v, f)).1 } }
  else .ok { d with mvariables := (mapInsert less d.mvariables (v, f)).1 }

/-! ## The attributes of a material knowledge -/

/-- Modelled from the spec: an attribute of a material knowledge, a typed value
(the declaration of `MaterialKnowledgeAttribute` is not among the sources); the
alternatives are those that the code and the spec use, a boolean and a
string. -/
inductive MaterialKnowledgeAttribute where
  | boolean (b : Bool)
  | string (s : String)
deriving DecidableEq, Repr, Inhabited

/-- `getTypeIndex()`: the index of the type of the value that the attribute
holds. -/
def MaterialKnowledgeAttribute.getTypeIndex : MaterialKnowledgeAttribute → Nat
  | .boolean _ => 0
  | .string _ => 1

/-- The member `attributes` of `MaterialKnowledgeDescription`, a `std::map` from
the names to the attributes, as the list of its pairs in the order of their
keys. -/
structure MaterialKnowledgeDescription where
  attributes : List (String × MaterialKnowledgeAttribute)
deriving DecidableEq, Repr, Inhabited

/-- The exception that `tfel::raise(msg)` throws from a function that works on
a `MaterialKnowledgeDescription`: its message and the description when it was
thrown. -/
structure AttributeFailure where
  msg : String
  state : MaterialKnowledgeDescription
deriving DecidableEq, Repr, Inhabited

/-- `std::map::insert` on the attributes: the pair is inserted, at the place of
its key in the order of the strings, unless the map has this key. The result is
the map and the member `second` of the pair that `insert` returns. -/
def attributesInsert (m : List (String × MaterialKnowledgeAttribute)) (n : String)
    (a : MaterialKnowledgeAttribute) : List (String × MaterialKnowledgeAttribute) × Bool :=
  if (m.lookup n).isSome then (m, false)
  else (m.takeWhile (fun q => decide (q.1.data < n.data))
          ++ (n, a) :: m.dropWhile (fun q => decide (q.1.data < n.data)), true)

/-- The assignment `p->second = a` where `p` is `attributes.find(n)`. -/
def attributesAssign : List (String × MaterialKnowledgeAttribute) → String →
    MaterialKnowledgeAttribute → List (String × MaterialKnowledgeAttribute)
  | [], _, _ => []
  | q :: m, n, a => if q.1 = n then (q.1, a) :: m else q :: attributesAssign m n a

/-- `MaterialKnowledgeDescription::setAttribute(n,a,b)` (lines 39-55). -/
def setAttribute (d : MaterialKnowledgeDescription) (n : String)
    (a : MaterialKnowledgeAttribute) (b : Bool) :
    Except AttributeFailure MaterialKnowledgeDescription :=
  let differentType :=
    match d.attributes.lookup n with
    | some p => decide (a.getTypeIndex ≠ p.getTypeIndex)
    | none => false
  if differentType = true then
    .error { msg := "MaterialKnowledgeDescription::setAttribute: "
                ++ "attribute already exists with a different type", state := d }
  else if (attributesInsert d.attributes n a).2 = false then
    if b = false then
      .error { msg := "MaterialKnowledgeDescription::setAttribute: "
                  ++ ("attribute '" ++ n ++ "' already declared"),
               state := { attributes := (attributesInsert d.attributes n a).1 } }
    else .ok { attributes := (attributesInsert d.attributes n a).1 }
  else .ok { attributes := (attributesInsert d.attributes n a).1 }

/-- `MaterialKnowledgeDescription::updateAttribute(n,a)` (lines 57-70). -/
def updateAttribute (d : MaterialKnowledgeDescription) (n : String)
    (a : MaterialKnowledgeAttribute) : Except AttributeFailure MaterialKnowledgeDescription :=
  match d.attributes.lookup n with
  | none =>
    .error { msg := "MaterialKnowledgeDescription::updateAttribute: "
                ++ ("unknown attribute '" ++ n ++ "'"), state := d }
  | some p =>
    if a.getTypeIndex ≠ p.getTypeIndex then
      .error { msg := "MaterialKnowledgeDescription::updateAttribute: "
                  ++ "attribute already exists with a different type", state := d }
    else .ok { attributes := attributesAssign d.attributes n a }

/-- `MaterialKnowledgeDescription::hasAttribute(n)` (lines 72-75). -/
def hasAttribute (d : MaterialKnowledgeDescription) (n : String) : Bool :=
  (d.attributes.filter (fun q => q.1 = n)).length ≠ 0

/-- Modelled from the spec: `getAttribute<std::string>(n,v)`, a read `with typed
default fallback` (the template is not among the sources): the string held
under `n`, `v` when there is no attribute `n`; an attribute `n` that does not
hold a string is an error. -/
def getStringAttribute (d : MaterialKnowledgeDescription) (n v : String) : Except String String :=
  match d.attributes.lookup n with
  | none => .ok v
  | some (.string s) => .ok s
  | some (.boolean _) =>
    .error ("MaterialKnowledgeDescription::getAttribute: invalid type for attribute '" ++ n ++ "'")

/-- Modelled from the spec: `getAttribute<bool>(n,v)`, as
`getStringAttribute`. -/
def getBooleanAttribute (d : MaterialKnowledgeDescription) (n : String) (v : Bool) :
    Except String Bool :=
  match d.attributes.lookup n with
  | none => .ok v
  | some (.boolean b) => .ok b
  | some (.string _) =>
    .error ("MaterialKnowledgeDescription::getAttribute: invalid type for attribute '" ++ n ++ "'")

/-- `MaterialKnowledgeDescription::defaultOutOfBoundsPolicy` (lines 19-20). -/
def defaultOutOfBoundsPolicy : String := "default_out_of_bounds_policy"

/-- `MaterialKnowledgeDescription::runtimeModificationOfTheOutOfBoundsPolicy`
(lines 21-23). -/
def runtimeModificationOfTheOutOfBoundsPolicy : String :=
  "out_of_bounds_policy_runtime_modification"

/-- `MaterialKnowledgeDescription::parametersAsStaticVariables` (lines
24-25). -/
def parametersAsStaticVariables : String := "parameters_as_static_variables"

/-- `MaterialKnowledgeDescription::initializeParametersFromFile` (lines
26-27). -/
def initializeParametersFromFile : String := "parameters_initialization_from_file"

/-- The enumeration `tfel::material::OutOfBoundsPolicy`, by the enumerators that
the code returns. -/
inductive OutOfBoundsPolicy where
  | None
  | Warning
  | Strict
deriving DecidableEq, Repr, Inhabited

/-- `setDefaultOutOfBoundsPolicy(d,policy)` (lines 82-90). -/
def setDefaultOutOfBoundsPolicy (d : MaterialKnowledgeDescription) (policy : String) :
    Except AttributeFailure MaterialKnowledgeDescription :=
  if policy ≠ "None" ∧ policy ≠ "Warning" ∧ policy ≠ "Strict" then
    .error { msg := "setDefaultOutOfBoundsPolicy: invalid default policy '" ++ policy ++ "'",
             state := d }
  else setAttribute d defaultOutOfBoundsPolicy (.string policy) false

/-- `getDefaultOutOfBoundsPolicy(d)` (lines 92-106). -/
def getDefaultOutOfBoundsPolicy (d : MaterialKnowledgeDescription) :
    Except String OutOfBoundsPolicy :=
  match getStringAttribute d defaultOutOfBoundsPolicy "None" with
  | .error e => .error e
  | .ok policy =>
    if policy = "Strict" then .ok OutOfBoundsPolicy.Strict
    else if policy = "Warning" then .ok OutOfBoundsPolicy.Warning
    else if policy ≠ "None" then
      .error ("getDefaultOutOfBoundsPolicy: invalid default policy '" ++ policy ++ "'")
    else .ok OutOfBoundsPolicy.None

/-- `getDefaultOutOfBoundsPolicyAsString(d)` (lines 108-119). -/
def getDefaultOutOfBoundsPolicyAsString (d : MaterialKnowledgeDescription) :
    Except String String :=
  match getStringAttribute d defaultOutOfBoundsPolicy "None" with
  | .error e => .error e
  | .ok policy =>
    if policy ≠ "None" ∧ policy ≠ "Warning" ∧ policy ≠ "Strict" then
      .error ("getDefaultOutOfBoundsPolicyAsString:" ++ " invalid default policy '"
        ++ policy ++ "'")
    else .ok policy

/-- `getDefaultOutOfBoundsPolicyAsUpperCaseString(d)` (lines 121-137). -/
def getDefaultOutOfBoundsPolicyAsUpperCaseString (d : MaterialKnowledgeDescription) :
    Except String String :=
  match getStringAttribute d defaultOutOfBoundsPolicy "None" with
  | .error e => .error e
  | .ok policy =>
    if policy = "None" then .ok "NONE"
    else if policy = "Warning" then .ok "WARNING"
    else if policy = "Strict" then .ok "STRICT"
    else
      .error ("getDefaultOutOfBoundsPolicyAsUpperCaseString:" ++ " invalid default policy '"
        ++ policy ++ "'")

/-- `allowRuntimeModificationOfTheOutOfBoundsPolicy(d)` (lines 139-143). -/
def allowRuntimeModificationOfTheOutOfBoundsPolicy (d : MaterialKnowledgeDescription) :
    Except String Bool :=
  getBooleanAttribute d parametersAsStaticVariables true

/-- `areParametersTreatedAsStaticVariables(d)` (lines 145-149). -/
def areParametersTreatedAsStaticVariables (d : MaterialKnowledgeDescription) :
    Except String Bool :=
  getBooleanAttribute d parametersAsStaticVariables false

/-- `allowsParametersInitializationFromFile(d)` (lines 151-155). -/
def allowsParametersInitializationFromFile (d : MaterialKnowledgeDescription) :
    Except String Bool :=
  getBooleanAttribute d initializeParametersFromFile true

/-! ## The local data structures -/

/-- A modelling hypothesis: the value of an enumerator of
`ModellingHypothesis::Hypothesis`, whose declaration is not among the
sources. -/
abbrev Hypothesis := Nat

/-- The parts of `ModellingHypothesis` that `LocalDataStructure` uses, which are
not among the sources: the enumerator `UNDEFINEDHYPOTHESIS` and the function
`toString`. -/
structure ModellingHypothesis where
  UNDEFINEDHYPOTHESIS : Hypothesis
  toString : Hypothesis → String

/-- A variable of a local data structure, `LocalDataStructure::Variable`, whose
declaration is not among the sources: the member `name`, which the code reads,
and the type and the size of the variable. -/
structure Variable where
  type : String
  name : String
  asize : Nat
deriving DecidableEq, Repr, Inhabited

/-- The members of `LocalDataStructure`: the variables `uv` of the undefined
hypothesis and the `std::map` `sv` from the specialised hypotheses to their
variables, as the list of its pairs in the order of their keys. -/
structure LocalDataStructure where
  uv : List Variable
  sv : List (Hypothesis × List Variable)
deriving DecidableEq, Repr, Inhabited

/-- A `std::runtime_error` thrown by a method of `LocalDataStructure`: its
message and the state of the object when it was thrown. -/
structure LocalDataFailure where
  msg : String
  state : LocalDataStructure
deriving DecidableEq, Repr, Inhabited

/-- The lambda `add` of `addVariable` (lines 25-34) on the list `c`: the
variable is appended unless a variable of `c` has its name. -/
def addVariableTo (v : Variable) (c : List Variable) : Except String (List Variable) :=
  if c.any (fun x => decide (x.name = v.name)) then
    .error ("LocalDataStructure::addVariable: " ++ ("member '" ++ v.name ++ "' multiply defined"))
  else .ok (c ++ [v])

/-- The loop `for(auto& c: this->sv){add(c.second);}` (lines 37-39). An error
carries the map when the exception is thrown: the lists before the one that
refuses the variable are extended. -/
def addToSpecialised (v : Variable) :
    List (Hypothesis × List Variable) →
      Except (String × List (Hypothesis × List Variable)) (List (Hypothesis × List Variable))
  | [] => .ok []
  | (k, c) :: rest =>
    match addVariableTo v c with
    | .error e => .error (e, (k, c) :: rest)
    | .ok c1 =>
      match addToSpecialised v rest with
      | .error (e, rest1) => .error (e, (k, c1) :: rest1)
      | .ok rest1 => .ok ((k, c1) :: rest1)

/-- The insertion of the key `h`, with the list `c`, in the map `sv`, at the
place of `h` in the order of the keys. -/
def specialisedInsert (sv : List (Hypothesis × List Variable)) (h : Hypothesis)
    (c : List Variable) : List (Hypothesis × List Variable) :=
  sv.takeWhile (fun q => decide (q.1 < h)) ++ (h, c) :: sv.dropWhile (fun q => decide (q.1 < h))

/-- The list of the key `h` of the map `sv` becomes `c`. -/
def specialisedAssign : List (Hypothesis × List Variable) → Hypothesis → List Variable →
    List (Hypothesis × List Variable)
  | [], _, _ => []
  | q :: sv, h, c => if q.1 = h then (q.1, c) :: sv else q :: specialisedAssign sv h c

/-- `LocalDataStructure::addVariable(h,v)` (lines 21-48). For a hypothesis that
has no list, `sv[h]` creates an empty list, in which the variables of the
undefined hypothesis are copied, before `add` is called. -/
def addVariable (mh : ModellingHypothesis) (ls : LocalDataStructure) (h : Hypothesis)
    (v : Variable) : Except LocalDataFailure LocalDataStructure :=
  if h = mh.UNDEFINEDHYPOTHESIS then
    match addVariableTo v ls.uv with
    | .error e => .error { msg := e, state := ls }
    | .ok uv1 =>
      match addToSpecialised v ls.sv with
      | .error (e, sv1) => .error { msg := e, state := { uv := uv1, sv := sv1 } }
      | .ok sv1 => .ok { uv := uv1, sv := sv1 }
  else
    let sv0 := if (ls.sv.lookup h).isNone then specialisedInsert ls.sv h ls.uv else ls.sv
    match addVariableTo v ((sv0.lookup h).getD []) with
    | .error e => .error { msg := e, state := { ls with sv := sv0 } }
    | .ok c1 => .ok { ls with sv := specialisedAssign sv0 h c1 }

/-- `LocalDataStructure::getSpecialisedHypotheses()` (lines 50-57). -/
def getSpecialisedHypotheses (ls : LocalDataStructure) : List Hypothesis :=
  ls.sv.map Prod.fst

/-- `LocalDataStructure::get(h)` (lines 59-71). -/
def LocalDataStructure.get (mh : ModellingHypothesis) (ls : LocalDataStructure)
    (h : Hypothesis) : Except String (List Variable) :=
  if h = mh.UNDEFINEDHYPOTHESIS then .ok ls.uv
  else
    match ls.sv.lookup h with
    | none =>
      .error ("LocalDataStructure::get: " ++ ("no variable defined for hypothesis '"
        ++ mh.toString h ++ "'"))
    | some c => .ok c

/-- `LocalDataStructure::contains(h,n)` (lines 73-80). -/
def LocalDataStructure.contains (mh : ModellingHypothesis) (ls : LocalDataStructure)
    (h : Hypothesis) (n : String) : Except String Bool :=
  match ls.get mh h with
  | .error e => .error e
  | .ok d => .ok (d.any (fun v => decide (v.name = n)))

/-! ## The import of a material law -/

/-- The operations that `DSLBase::handleMaterialLaw` calls and that are defined
outside of `DSLBase.cxx`: `SearchFile::search`; `MaterialPropertyDSL::analyseFile`
followed by `getMaterialPropertyDescription`, of which the material and the law
are kept; `getFunctionName` and `getHeaderFileName` of
`MFrontMaterialPropertyInterface`; the virtual members `reserveName`,
`appendToIncludes` and `addMaterialLaw`, which act on the state `R` of the
derived class; `MFront::treatFile`, which returns a `TargetsDescription` (the
type `T`), and the test `!t.specific_targets.empty()`. A call that throws
yields the message of its exception. -/
structure MaterialLawServices (R T : Type) where
  search : String → Except String String
  analyseFile : String → Except String (String × String)
  getFunctionName : String → String → String
  getHeaderFileName : String → String → String
  reserveName : R → String → Except String R
  appendToIncludes : R → String → Except String R
  addMaterialLaw : R → String → Except String R
  treatFile : String → Except String T
  hasSpecificTargets : T → Bool

/-- The `try` block of `DSLBase::handleMaterialLaw(f)`: the description read
(material and law), the state of the derived class and the member `atds` at its
end, or the message of the exception that leaves it. -/
def handleMaterialLawBody {R T : Type} (sv : MaterialLawServices R T) (s : DSLBase) (r : R)
    (atds : List T) (f : String) : Except String ((String × String) × R × List T) :=
  match sv.search f with
  | .error e => .error e
  | .ok path =>
    match sv.analyseFile path with
    | .error e => .error e
    | .ok mpd =>
      let mname := sv.getFunctionName mpd.1 mpd.2
      match sv.reserveName r mname with
      | .error e => .error e
      | .ok r1 =>
        match sv.reserveName r1 (mname ++ "_checkBounds") with
        | .error e => .error e
        | .ok r2 =>
          match sv.reserveName r2 (mname ++ "_bounds_check_status") with
          | .error e => .error e
          | .ok r3 =>
            match sv.appendToIncludes r3
                ("#include\"" ++ sv.getHeaderFileName mpd.1 mpd.2 ++ ".hxx\"") with
            | .error e => .error e
            | .ok r4 =>
              match sv.addMaterialLaw r4 mname with
              | .error e => .error e
              | .ok r5 =>
                match sv.treatFile path with
                | .error e => .error e
                | .ok t =>
                  if sv.hasSpecificTargets t then
                    .error (throwRuntimeError s "DSLBase::handleMaterialLaw"
                      ("error while treating file '" ++ f ++ "'.\n"
                        ++ "Specific targets are not supported")).msg
                  else .ok (mpd, r5, atds ++ [t])

/-- `DSLBase::handleMaterialLaw(f)`: an exception that leaves the `try` block is
caught and thrown again by `throwRuntimeError` with the name of the file. -/
def handleMaterialLaw {R T : Type} (sv : MaterialLawServices R T) (s : DSLBase) (r : R)
    (atds : List T) (f : String) : Except Failure ((String × String) × R × List T) :=
  match handleMaterialLawBody sv s r atds f with
  | .error e =>
    .error (throwRuntimeError s "DSLBase::handleMaterialLaw"
      ("error while treating file '" ++ f ++ "'\n" ++ e))
  | .ok x => .ok x

/-! ## The import of a file -/

/-- The operations that `DSLBase::treatImport` calls and that are defined outside
of `DSLBase.cxx`: `SearchFile::search` (an error is the message of its
exception) and the virtual member `importFile(path,ecmds,s)`, called with no
external command and no substitution, which acts on the members of `DSLBase`
and on the state `R` of the derived class; when it throws, the states are those
at the time of the exception. -/
structure ImportServices (R : Type) where
  search : String → Except String String
  importFile : R → DSLBase → String → Except (R × Failure) (R × DSLBase)

/-- The statements of `DSLBase::treatImport` before the tokens are swapped
(lines 384-387): the names of the files and the `;` are read. -/
def readImportStatement (s : DSLBase) : Except Failure (List String × DSLBase) :=
  let m := "DSLBase::treatImport"
  match checkNotEndOfFile s m "" with
  | .error f => .error f
  | .ok _ =>
    match readStringOrArrayOfString s m with
    | .error f => .error f
    | .ok (files, s1) =>
      match checkNotEndOfFile s1 m "" with
      | .error f => .error f
      | .ok _ =>
        match readSpecifiedToken s1 m ";" with
        | .error f => .error f
        | .ok (_, s2) => .ok (files, s2)

/-- The loop `for(const auto& f : files)` of `DSLBase::treatImport` (lines
391-394). -/
def importFiles {R : Type} (sv : ImportServices R) :
    R → DSLBase → List String → Except (R × Failure) (R × DSLBase)
  | r, s, [] => .ok (r, s)
  | r, s, f :: fs =>
    match sv.search f with
    | .error e => .error (r, { msg := e, state := s })
    | .ok path =>
      match sv.importFile r s path with
      | .error x => .error x
      | .ok (r1, s1) => importFiles sv r1 s1 fs

/-- `DSLBase::treatImport()` (lines 380-398). The tokens are swapped with the
empty `oFileTokens`, the cursor is copied, the files are imported, and the file
name, the tokens and the cursor are put back after the loop. -/
def treatImport {R : Type} (sv : ImportServices R) (r : R) (s : DSLBase) :
    Except (R × Failure) (R × DSLBase) :=
  let oFileName := s.fileName
  match readImportStatement s with
  | .error f => .error (r, f)
  | .ok (files, s2) =>
    let oFileTokens := s2.tokens
    let ocurrent := s2.current
    match importFiles sv r { s2 with tokens := [] } files with
    | .error x => .error x
    | .ok (r1, s3) =>
      .ok (r1, { s3 with fileName := oFileName, tokens := oFileTokens, current := ocurrent })

/-! ## Runs with a checked cursor

The primitives below are translated once more, this time with every use of the
cursor checked: a token is read through `currentToken` or `previousToken`, the
cursor moves through `advance` and `stepBack`, and a use that has no defined
result in the code (a token read outside of the tokens, `++current` at the end,
`--current` at the first position) ends the run. A loop of the code is a
function with a bound on the number of its turns, which is the number of the
tokens plus one; every turn moves the cursor forward, so that the bound is not
reached from a position within the tokens. Where a primitive also has a model
without checks above (`readSpecifiedToken`, `readNextBlock`, `readList`,
`readVarList`), the two give the same outcome from every position at which the
checked run ends well (`readSpecifiedToken_checked`, `readNextBlock_checked`,
`readList_checked`, `readVarList_checked`, `readVarList2_checked`). -/

/-- What ends a run that does not return: an exception, `--current` or
`std::prev(current)` at the first position, a token read or `++current` at a
position that is not a position of a token, or the bound of a loop. -/
inductive Abort where
  | thrown (f : Failure)
  | beforeBegin (s : DSLBase)
  | outside (s : DSLBase)
  | unfinished (s : DSLBase)
deriving DecidableEq, Repr, Inhabited

namespace Checked

/-- The token read by `*(this->current)`. -/
def currentToken (s : DSLBase) : Except Abort Token :=
  match s.tokens[s.current]? with
  | some t => .ok t
  | none => .error (.outside s)

/-- The token read by `*std::prev(this->current)`. -/
def previousToken (s : DSLBase) : Except Abort Token :=
  if s.current = 0 then .error (.beforeBegin s)
  else
    match s.tokens[s.current - 1]? with
    | some t => .ok t
    | none => .error (.outside s)

/-- The statement `++(this->current)`. -/
def advance (s : DSLBase) : Except Abort DSLBase :=
  if s.current < s.tokens.length then .ok { s with current := s.current + 1 }
  else .error (.outside s)

/-- The statement `--(this->current)`. -/
def stepBack (s : DSLBase) : Except Abort DSLBase :=
  if s.current = 0 then .error (.beforeBegin s)
  else .ok { s with current := s.current - 1 }

/-- `DSLBase::throwRuntimeError(method,m)` (lines 362-378): when there are
tokens, the line of the token under the cursor is read, or the line of the last
token when the cursor is at the end. -/
def throwRuntimeError {α : Type} (s : DSLBase) (method m : String) : Except Abort α :=
  if s.tokens ≠ [] ∧ s.tokens.length < s.current then .error (.outside s)
  else .error (.thrown (MFront.throwRuntimeError s method m))

/-- `DSLBase::checkNotEndOfFile(method,error)` (lines 400-414): at the end of
tokens that are not empty, the line of the last token is read. -/
def checkNotEndOfFile (s : DSLBase) (method error : String) : Except Abort Unit :=
  if s.current = s.tokens.length then .error (.thrown (endOfFileFailure s method error))
  else .ok ()

/-- `DSLBase::readSpecifiedToken(m,v)` (lines 429-440). -/
def readSpecifiedToken (s : DSLBase) (m v : String) : Except Abort (Unit × DSLBase) := do
  checkNotEndOfFile s m ("expected '" ++ v ++ "'.")
  let t ← currentToken s
  if t.value ≠ v then
    throwRuntimeError s m
      ("expected '" ++ v ++ "', read '" ++ t.value ++ "'.\nError at line: " ++ toString t.line)
  else
    let s1 ← advance s
    pure ((), s1)

/-- The loop `while(current->value!=de)` of `readList` (lines 687-703). -/
def readListLoop (m de : String) :
    Nat → DSLBase → List Token → Except Abort (List Token × DSLBase)
  | 0, s, _ => .error (.unfinished s)
  | n + 1, s, l => do
    let t ← currentToken s
    if t.value ≠ de then
      let s1 ← advance s
      checkNotEndOfFile s1 m ("Expected '" ++ de ++ "'")
      let t2 ← currentToken s1
      if ¬ (t2.value = de ∨ t2.value = ",") then
        throwRuntimeError s1 m
          ("Expected ',' or '" ++ de ++ "'," ++ " read '" ++ t2.value ++ "'")
      else if t2.value = "," then
        let s2 ← advance s1
        checkNotEndOfFile s2 m ("Expected '" ++ de ++ "'")
        let t3 ← currentToken s2
        if t3.value = de then throwRuntimeError s2 m "Expected a new item"
        else readListLoop m de n s2 (l ++ [t])
      else readListLoop m de n s1 (l ++ [t])
    else pure (l, s)

/-- `DSLBase::readList(l,m,db,de,b)` (lines 667-705); the list `l` is
returned. -/
def readList (s : DSLBase) (m db de : String) (b : Bool) :
    Except Abort (List Token × DSLBase) := do
  checkNotEndOfFile s m ("Expected '" ++ db ++ "'")
  if s.current = s.tokens.length ∧ b = true then pure ([], s)
  else
    checkNotEndOfFile s m ("Expected '" ++ db ++ "'")
    let t ← currentToken s
    if t.value ≠ db then pure ([], s)
    else
      let (_, s1) ← readSpecifiedToken s m db
      checkNotEndOfFile s1 m ("Expected '" ++ de ++ "'")
      let (l, s2) ← readListLoop m de (s1.tokens.length + 1) s1 []
      let s3 ← advance s2
      pure (l, s3)

/-- The token read by `std::prev(this->current)` in the loop of `readNextBlock`,
which is read when the word is a name of `smn` or of `mn` only (lines 236, 249,
305 and 319); otherwise no token is read and the treatment of the word does not
look at it. -/
def previousOfName (o : CodeBlockParserOptions) (s : DSLBase) (t : Token) :
    Except Abort Token :=
  if t.value ∈ o.smn ∨ t.value ∈ o.mn then previousToken s else pure default

/-- The `while` loop of `readNextBlock` (lines 273-350): the local variables
and the state when the loop is left. -/
def readNextBlockLoop (o : CodeBlockParserOptions) :
    Nat → DSLBase → BlockAcc → Except Abort (BlockAcc × DSLBase)
  | 0, s, _ => .error (.unfinished s)
  | n + 1, s, acc =>
    if s.current = s.tokens.length then pure (acc, s)
    else do
      let t ← currentToken s
      if t.value = o.delim2 ∧ acc.openedBlock = 0 then pure (acc, s)
      else
        let acc1 := lineChange o s t acc
        if t.value = ";" ∧ o.allowSemiColon = false then
          throwRuntimeError s "DSLBase::readNextBlock"
            ("read ';' before the end of block.\nNumber of block opened : "
              ++ toString acc1.openedBlock)
        else
          let s2 := analyse o s t.value
          let previous ← previousOfName o s2 t
          let s3 ← advance s2
          readNextBlockLoop o n s3 (treatToken o s previous t acc1)

/-- `DSLBase::readNextBlock(options)` (lines 179-360). The token before the
first token of the block is read by `previousOfName`, and `treatFirstToken`
looks at the same token. -/
def readNextBlock (s : DSLBase) (o : CodeBlockParserOptions) :
    Except Abort (CodeBlock × DSLBase) := do
  let b := initialBlock s
  let openedBlock : Nat := 0
  let (_, s1) ← readSpecifiedToken s "DSLBase::readNextBlock" o.delim1
  checkNotEndOfFile s1 "DSLBase::readNextBlock" ("Expected a '" ++ o.delim2 ++ "'.")
  let t ← currentToken s1
  if t.value = ";" ∧ o.allowSemiColon = false then
    throwRuntimeError s1 "DSLBase::readNextBlock"
      ("read ';' before the end of block.\nNumber of block opened : " ++ toString openedBlock)
  else
    let openedBlock := if t.value = o.delim1 then (openedBlock + 1) % uintRange
      else openedBlock
    if t.value = o.delim2 then
      let s2 ← advance s1
      pure (b, s2)
    else
      let _ ← previousOfName o s1 t
      let s2 := analyse o s1 t.value
      let s3 ← advance s2
      let (acc, s4) ← readNextBlockLoop o (s3.tokens.length + 1) s3
        (treatFirstToken o s1 t b openedBlock)
      if s4.current = s4.tokens.length then
        let s5 ← stepBack s4
        throwRuntimeError s5 "DSLBase::readNextBlock"
          ("Expected the end of a block.\nNumber of block opened : "
            ++ toString acc.openedBlock)
      else
        let s5 ← advance s4
        pure (acc.b, s5)

/-- The loop `while(current->value!="]")` of `readVarList` (lines 532-541). -/
def readArraySize (varName : String) :
    Nat → DSLBase → String → Except Abort (String × DSLBase)
  | 0, s, _ => .error (.unfinished s)
  | n + 1, s, array_size => do
    let t ← currentToken s
    if t.value ≠ "]" then
      if t.flag ≠ TokenFlag.Standard ∨ t.value = ";" then
        throwRuntimeError s "DSLBase::readVarList : "
          ("invalid array size for '" ++ varName ++ "'")
      else
        let s1 ← advance s
        checkNotEndOfFile s1 "DSLBase::readVarList" ""
        readArraySize varName n s1 (array_size ++ t.value)
    else pure (array_size, s)

/-- The evaluation of the size of an array (lines 542-560), which does not use
the cursor: the size, or the exception thrown in the state `s`. -/
def evaluateArraySize (lib : Library) (s : DSLBase) (varName array_size : String) :
    Except Abort Nat :=
  if array_size = "" then
    throwRuntimeError s "DSLBase::readVarList : " ("empty array size for '" ++ varName ++ "'")
  else
    match lib.getVariablesNames array_size with
    | .error e => .error (.thrown { msg := e, state := s })
    | .ok vars =>
      match vars.find? (fun v => (s.integerConstants.lookup v).isNone) with
      | some v =>
        throwRuntimeError s "DSLBase::readVarList : " ("unknown constant '" ++ v ++ "'")
      | none =>
        match lib.getValue array_size
            (vars.map (fun v => (v, (s.integerConstants.lookup v).getD 0))) with
        | .error e => .error (.thrown { msg := e, state := s })
        | .ok iv =>
          if iv ≤ 0 then
            throwRuntimeError s "DSLBase::readVarList : "
              ("invalid array size for '" ++ varName ++ "'")
          else pure (iv.toNat % uintRange)

/-- The treatment of `[` after the name of a variable (lines 525-563); the
cursor of `s` is on `[`. -/
def readArray (lib : Library) (s : DSLBase) (varName : String) (allowArray : Bool) :
    Except Abort (Nat × DSLBase) :=
  if allowArray = false then
    throwRuntimeError s "DSLBase::readVarList : "
      ("variable '" ++ varName ++ "' can't be declared an array")
  else do
    let s1 ← advance s
    checkNotEndOfFile s1 "DSLBase::readVarList" ""
    let (array_size, s2) ← readArraySize varName (s1.tokens.length + 1) s1 ""
    let asize ← evaluateArraySize lib s2 varName array_size
    let (_, s3) ← readSpecifiedToken s2 "DSLBase::readVarList" "]"
    checkNotEndOfFile s3 "DSLBase::readVarList" ""
    pure (asize, s3)

/-- One turn of the loop of `readVarList` (lines 515-578): the container, the
comment of the `;` when `endOfTreatment` is set, and the state. -/
def readVarListItem (lib : Library) (s : DSLBase) (cont : List VariableDescription)
    (type : String) (allowArray : Bool) :
    Except Abort ((List VariableDescription × Option String) × DSLBase) := do
  let t ← currentToken s
  let varName := t.value
  if lib.isValidIdentifier t.value true = false then
    throwRuntimeError s "DSLBase::readVarList : "
      ("variable given is not valid (read '" ++ t.value ++ "').")
  else
    let lineNumber := t.line
    let s1 ← advance s
    checkNotEndOfFile s1 "DSLBase::readVarList" ""
    let t1 ← currentToken s1
    let (asize, s2) ← if t1.value = "[" then readArray lib s1 varName allowArray
      else pure (1, s1)
    let v : VariableDescription :=
      { type := type, name := varName, arraySize := asize, lineNumber := lineNumber,
        description := if s.currentComment ≠ "" then s.currentComment else "" }
    let t2 ← currentToken s2
    if t2.value = "," then
      let s3 ← advance s2
      pure ((cont ++ [v], none), s3)
    else if t2.value = ";" then
      let s3 ← advance s2
      pure ((cont ++ [v], some t2.comment), s3)
    else
      throwRuntimeError s2 "DSLBase::readVarList" (", or ; expected after '" ++ varName ++ "'")

/-- The loop `while((current!=tokens.end())&&(!endOfTreatment))` of
`readVarList`. -/
def readVarListLoop (lib : Library) (type : String) (allowArray : Bool) :
    Nat → DSLBase → List VariableDescription →
      Except Abort ((List VariableDescription × Option String) × DSLBase)
  | 0, s, _ => .error (.unfinished s)
  | n + 1, s, cont =>
    if s.current = s.tokens.length then pure ((cont, none), s)
    else do
      let r ← readVarListItem lib s cont type allowArray
      match r with
      | ((cont1, some endComment), s1) => pure ((cont1, some endComment), s1)
      | ((cont1, none), s1) => readVarListLoop lib type allowArray n s1 cont1

/-- `DSLBase::readVarList(cont,type,allowArray)` (lines 507-593). -/
def readVarList (lib : Library) (s : DSLBase) (cont : List VariableDescription)
    (type : String) (allowArray : Bool) :
    Except Abort (List VariableDescription × DSLBase) := do
  let ((cont1, endOfTreatment), s1) ←
    readVarListLoop lib type allowArray (s.tokens.length + 1) s cont
  let endComment := endOfTreatment.getD ""
  let cont2 := if endComment ≠ "" then cont1.map (addEndComment endComment) else cont1
  if endOfTreatment.isNone then
    let s2 ← stepBack s1
    throwRuntimeError s2 "DSLBase::readVarList" "Expected ';' before end of file"
  else pure (cont2, s1)

/-- The loop `while(current->value=="::")` of `readVarList(cont,allowArray)`
(lines 608-620). -/
def readScope (lib : Library) : Nat → DSLBase → String → Except Abort (String × DSLBase)
  | 0, s, _ => .error (.unfinished s)
  | n + 1, s, type => do
    let c ← currentToken s
    if c.value = "::" then
      let s1 ← advance s
      checkNotEndOfFile s1 "DSLBase::readVarList" ""
      let t ← currentToken s1
      if lib.isValidIdentifier t.value false = false then
        let s2 ← stepBack s1
        throwRuntimeError s2 "DSLBase::readVarList" ("given type '" ++ t.value ++ "' is not valid.")
      else
        let s2 ← advance s1
        checkNotEndOfFile s2 "DSLBase::readVarList" ""
        readScope lib n s2 (type ++ ("::" ++ t.value))
    else pure (type, s)

/-- The loop `while(openBrackets!=0)` of `readVarList(cont,allowArray)` (lines
626-662); `openBrackets` is an `unsigned short`. -/
def readTemplateArguments (lib : Library) :
    Nat → DSLBase → String → Nat → Except Abort (String × DSLBase)
  | 0, s, _, _ => .error (.unfinished s)
  | n + 1, s, type, openBrackets =>
    if openBrackets = 0 then pure (type, s)
    else do
      let t ← currentToken s
      if invalidArgument lib t.value = true then
        throwRuntimeError s "DSLBase::readVarList" ("given type '" ++ t.value ++ "' is not valid.")
      else
        let s1 ← advance s
        checkNotEndOfFile s1 "DSLBase::readVarList" ""
        let type1 := type ++ t.value
        let t2 ← currentToken s1
        if t2.value = "," then
          let s2 ← advance s1
          checkNotEndOfFile s2 "DSLBase::readVarList" ""
          let t3 ← currentToken s2
          if invalidArgument lib t3.value = true then
            let s3 ← stepBack s2
            throwRuntimeError s3 "DSLBase::readVarList"
              ("given type '" ++ t.value ++ "' is not valid.")
          else readTemplateArguments lib n s2 (type1 ++ ",") openBrackets
        else if t2.value = "<" then
          if isInteger t.value = true then
            throwRuntimeError s1 "DSLBase::readVarList"
              ("given type '" ++ t.value ++ "'is not valid.")
          else
            let s2 ← advance s1
            checkNotEndOfFile s2 "DSLBase::readVarList" ""
            readTemplateArguments lib n s2 (type1 ++ "<") ((openBrackets + 1) % ushortRange)
        else if t2.value = ">" then
          let s2 ← advance s1
          checkNotEndOfFile s2 "DSLBase::readVarList" ""
          readTemplateArguments lib n s2 (type1 ++ ">")
            ((openBrackets + ushortRange - 1) % ushortRange)
        else readTemplateArguments lib n s1 type1 openBrackets

/-- The type read by `readVarList(cont,allowArray)` (lines 598-663). -/
def readVarListType (lib : Library) (s : DSLBase) : Except Abort (String × DSLBase) := do
  checkNotEndOfFile s "DSLBase::readVarList" "Cannot read type of varName.\n"
  let t ← currentToken s
  if lib.isValidIdentifier t.value false = false then
    let s1 ← stepBack s
    throwRuntimeError s1 "DSLBase::readVarList" ("given type " ++ t.value ++ "is not valid.")
  else
    let s1 ← advance s
    checkNotEndOfFile s1 "DSLBase::readVarList" ""
    let (type, s2) ← readScope lib (s1.tokens.length + 1) s1 t.value
    let t2 ← currentToken s2
    if t2.value = "<" then
      let s3 ← advance s2
      checkNotEndOfFile s3 "DSLBase::readVarList" ""
      readTemplateArguments lib (s3.tokens.length + 1) s3 (type ++ "<") 1
    else pure (type, s2)

/-- `DSLBase::readVarList(cont,allowArray)` (lines 595-665). -/
def readVarList2 (lib : Library) (s : DSLBase) (cont : List VariableDescription)
    (allowArray : Bool) : Except Abort (List VariableDescription × DSLBase) := do
  let (type, s1) ← readVarListType lib s
  readVarList lib s1 cont type allowArray

/-- The first loop of `ignoreKeyWord` (lines 1082-1086). -/
def ignoreKeyWordWords (key : String) : Nat → DSLBase → Except Abort (Unit × DSLBase)
  | 0, s => .error (.unfinished s)
  | n + 1, s => do
    let t ← currentToken s
    if t.value ≠ "\x7b" ∧ t.value ≠ ";" then
      let s1 ← advance s
      checkNotEndOfFile s1 "DSLBase::ignoreKeyWord"
        ("error while treating keyword '" ++ key ++ "' ")
      ignoreKeyWordWords key n s1
    else pure ((), s)

/-- The second loop of `ignoreKeyWord` (lines 1089-1100); `openedBrackets` is
an `unsigned short`. -/
def ignoreKeyWordBlock (key : String) : Nat → DSLBase → Nat → Except Abort (Unit × DSLBase)
  | 0, s, _ => .error (.unfinished s)
  | n + 1, s, openedBrackets => do
    let t ← currentToken s
    if ¬ (t.value = "\x7d" ∧ openedBrackets = 0) then
      let s1 ← advance s
      checkNotEndOfFile s1 "DSLBase::ignoreKeyWord"
        ("error while treating keyword '" ++ key ++ "' ")
      let t1 ← currentToken s1
      let opened1 := if t1.value = "\x7b" then (openedBrackets + 1) % ushortRange
        else openedBrackets
      let opened2 := if t1.value = "\x7d" then (opened1 + ushortRange - 1) % ushortRange
        else opened1
      ignoreKeyWordBlock key n s1 opened2
    else pure ((), s)

/-- `DSLBase::ignoreKeyWord(key)` (lines 1077-1109); `std::next(current)` is
`next`. -/
def ignoreKeyWord (s : DSLBase) (key : String) : Except Abort (Unit × DSLBase) := do
  checkNotEndOfFile s "DSLBase::ignoreKeyWord" ("error while treating keyword '" ++ key ++ "' ")
  let (_, s1) ← ignoreKeyWordWords key (s.tokens.length + 1) s
  let t ← currentToken s1
  let s3 ←
    if t.value = "\x7b" then do
      let (_, s2) ← ignoreKeyWordBlock key (s1.tokens.length + 1) s1 1
      let next ← advance s2
      if next.current = next.tokens.length then pure s2
      else
        let t2 ← currentToken next
        if t2.value = ";" then pure next else pure s2
    else pure s1
  let s4 ← advance s3
  pure ((), s4)

end Checked

/-! ## Temporary variable names -/

/-- The virtual members of `DSLBase` that `getTemporaryVariableName` calls,
which are defined in the derived classes: `isNameReserved` and `reserveName`,
which act on the state `R` of the derived class. A call of `reserveName` that
throws yields the message of its exception. -/
structure NameServices (R : Type) where
  isNameReserved : R → String → Bool
  reserveName : R → String → Except String R

/-- `std::numeric_limits<unsigned int>::max()`. -/
def uintMax : Nat := 4294967295

/-- The turns `i`, `i+1`, ..., `i+n-1` of the loop of
`DSLBase::getTemporaryVariableName` (lines 113-119): the first name `p` followed
by the decimal writing of the counter that is not reserved is reserved and
returned; `none` when the loop ends without a `return`. -/
def temporaryVariableLoop {R : Type} (sv : NameServices R) (r : R) (p : String) :
    Nat → Nat → Option (Except String (String × R))
  | 0, _ => none
  | n + 1, i =>
    let c := p ++ toString i
    if sv.isNameReserved r c = false then
      match sv.reserveName r c with
      | .error e => some (.error e)
      | .ok r1 => some (.ok (c, r1))
    else temporaryVariableLoop sv r p n (i + 1)

/-- `DSLBase::getTemporaryVariableName(p)` (lines 108-122): the counter of the
loop goes from 0 to `UINT_MAX - 1`. An exception of `reserveName` leaves the
function with its message. -/
def getTemporaryVariableName {R : Type} (sv : NameServices R) (lib : Library) (s : DSLBase)
    (r : R) (p : String) : Except Failure (String × R) :=
  if lib.isValidIdentifier p true = false then
    .error (throwRuntimeError s "DSLBase::getTemporaryVariableName"
      ("invalid variable prefix '" ++ p ++ "'"))
  else
    match temporaryVariableLoop sv r p uintMax 0 with
    | some (.ok x) => .ok x
    | some (.error e) => .error { msg := e, state := s }
    | none =>
      .error (throwRuntimeError s "DSLBase::getTemporaryVariableName"
        "unable to find a temporary variable")

/-! ## Reading the value of a keyword in a file -/

/-- How a function that reads a file ends: it returns, it throws a
`std::runtime_error` of the given message, or it uses a container outside of
its range (an iterator moved before the first token, an index that is not less
than the size), which has no defined result; `unfinished` is the bound of the
turns of a loop, which no run reaches. -/
inductive Outcome (α : Type) where
  | returned (a : α)
  | thrown (msg : String)
  | outOfRange
  | unfinished
deriving DecidableEq, Repr, Inhabited

/-- The message of the exception of the lambda `throw_if` of
`DSLBase::readSpecifiedValues` (lines 836-840). -/
def specifiedValuesMessage (m : String) (l : Nat) : String :=
  "DSLBase::readSpecifiedValues : " ++ m ++ "\n" ++ "Error at line " ++ toString l

/-- The statement `throw_if(++pt==pte,m,(--pt)->line)` (lines 855-856 and
860-861) with `pt` at the position `pt` of a token of `toks`. Both arguments are
evaluated before `throw_if` is called, in an order that the language does not
fix: `leftFirst` tells whether `++pt==pte` is evaluated before `(--pt)->line`.
The result is the position of `pt` after the statement. -/
def stepAndCheck (leftFirst : Bool) (toks : List Token) (pt : Nat) (m : String) : Outcome Nat :=
  if leftFirst = true then
    let pt1 := pt + 1
    let b := decide (pt1 = toks.length)
    let pt2 := pt1 - 1
    match toks[pt2]? with
    | none => .outOfRange
    | some t => if b = true then .thrown (specifiedValuesMessage m t.line) else .returned pt2
  else if pt = 0 then .outOfRange
  else
    let pt1 := pt - 1
    match toks[pt1]? with
    | none => .outOfRange
    | some t =>
      let pt2 := pt1 + 1
      let b := decide (pt2 = toks.length)
      if b = true then .thrown (specifiedValuesMessage m t.line) else .returned pt2

/-- The test of lines 850-855 of `DSLBase::readSpecifiedValues`, for the token
`t` at the position `pt`, which is the keyword `p`: the token before it, when
there is one, has to be `;`. -/
def beginsInstruction (toks : List Token) (t : Token) (pt : Nat) (p : String) : Outcome Unit :=
  if pt ≠ 0 then
    match toks[pt - 1]? with
    | none => .outOfRange
    | some tp =>
      if tp.value ≠ ";" then
        .thrown (specifiedValuesMessage
          ("the keyword '" ++ p ++ "' does not " ++ "begin a new instruction.") t.line)
      else .returned ()
  else .returned ()

/-- The statements of lines 850-863 of `DSLBase::readSpecifiedValues`, for the
token `t` at the position `pt`, which is the keyword `p`, of index `k` in
`values`: the result is `res` after the assignment of line 863 and the position
of `pt` at that time. -/
def readKeywordValue (leftFirst : Bool) (file : String) (toks : List Token) (t : Token)
    (pt : Nat) (p : String) (k : Nat) (res : List String) : Outcome (List String × Nat) :=
  match beginsInstruction toks t pt p with
  | .outOfRange => .outOfRange
  | .unfinished => .unfinished
  | .thrown m => .thrown m
  | .returned _ =>
    match stepAndCheck leftFirst toks pt
        ("unexepected end of file '" ++ file ++ "' (expected " ++ p ++ ").\n") with
    | .outOfRange => .outOfRange
    | .unfinished => .unfinished
    | .thrown m => .thrown m
    | .returned pt1 =>
      match toks[pt1]? with
      | none => .outOfRange
      | some t1 =>
        if t1.value = ";" then
          .thrown (specifiedValuesMessage ("unexepected token ';' (exepected " ++ p ++ ")")
            t1.line)
        else
          match stepAndCheck leftFirst toks pt1
              ("unexepected end of file '" ++ file ++ "' (expected ';').\n") with
          | .outOfRange => .outOfRange
          | .unfinished => .unfinished
          | .thrown m => .thrown m
          | .returned pt2 =>
            match toks[pt2]? with
            | none => .outOfRange
            | some t2 =>
              if t2.value ≠ ";" then
                .thrown (specifiedValuesMessage
                  ("unexepected token '" ++ t2.value ++ "' (exepected ';')") t2.line)
              else .returned (res.set k t1.value, pt2)

/-- The loop `while(pt!=pte)` of `DSLBase::readSpecifiedValues` (lines
846-866), with a bound on the number of its turns. -/
def readSpecifiedValuesLoop (leftFirst : Bool) (file : String) (values : List String)
    (toks : List Token) : Nat → Nat → List String → Outcome (List String)
  | 0, _, _ => .unfinished
  | n + 1, pt, res =>
    if pt = toks.length then .returned res
    else
      match toks[pt]? with
      | none => .outOfRange
      | some t =>
        if values.indexOf t.value < values.length then
          match readKeywordValue leftFirst file toks t pt
              (values.getD (values.indexOf t.value) "") (values.indexOf t.value) res with
          | .outOfRange => .outOfRange
          | .unfinished => .unfinished
          | .thrown m => .thrown m
          | .returned (res1, pt1) =>
            readSpecifiedValuesLoop leftFirst file values toks n (pt1 + 1) res1
        else readSpecifiedValuesLoop leftFirst file values toks n (pt + 1) res

/-- `DSLBase::readSpecifiedValues(file,values)` (lines 832-869). `fileTokens`
gives the tokens of a file once its comments are stripped
(`CxxTokenizer::openFile` and `stripComments`, whose code is not among the
sources), or the message of the exception of `openFile`. Every turn of the loop
moves `pt` forward, so that there are not more turns than tokens. -/
def readSpecifiedValues (fileTokens : String → Except String (List Token)) (leftFirst : Bool)
    (file : String) (values : List String) : Outcome (List String) :=
  match fileTokens file with
  | .error e => .thrown e
  | .ok toks =>
    readSpecifiedValuesLoop leftFirst file values toks (toks.length + 1) 0
      (List.replicate values.length "")

/-- `DSLBase::readSpecifiedValue(file,value)` (lines 816-822): the element of
index 1 of the result of `readSpecifiedValues` for the one keyword `value`. -/
def readSpecifiedValue (fileTokens : String → Except String (List Token)) (leftFirst : Bool)
    (file value : String) : Outcome String :=
  match readSpecifiedValues fileTokens leftFirst file (List.replicate 1 value) with
  | .outOfRange => .outOfRange
  | .unfinished => .unfinished
  | .thrown m => .thrown m
  | .returned res =>
    match res[1]? with
    | none => .outOfRange
    | some v => .returned v

/-! ## The orthotropic stiffness tensors of the Cast3M interface

The tensors are computed over a field `K`, that is with exact arithmetic: the
code computes with `CastemReal`, a floating-point type. A tensor
`st2tost2<N,CastemReal>` is the matrix of its components, of size 3, 4 or 6 for
`N` = 1, 2 or 3, and `props` gives the material properties by their index. -/

/-- The assignment `C(i,j)=v`. -/
def assignEntry {K : Type} {n : Nat} (C : Matrix (Fin n) (Fin n) K) (i j : Fin n) (v : K) :
    Matrix (Fin n) (Fin n) K :=
  fun a b => if a = i ∧ b = j then v else C a b

/-- The statement `fill(C.begin(),C.end(),CastemReal(0.))`. -/
def fillZero {K : Type} [Field K] {n : Nat} (_ : Matrix (Fin n) (Fin n) K) :
    Matrix (Fin n) (Fin n) K :=
  fun _ _ => 0

/-- The local variables `S11`, `S22`, `S33`, `S12`, `S13`, `S23` and `inv_detS`
of the three functions, in this order. -/
structure Compliance (K : Type) where
  S11 : K
  S22 : K
  S33 : K
  S12 : K
  S13 : K
  S23 : K
  inv_detS : K

/-- The initialisation of the local variables, the same in
`CastemComputeOrthotropicStiffnessTensor1D` (lines 159-171), `2D` (lines
198-210) and `3D` (lines 325-337). -/
def compliance {K : Type} [Field K] (props : Nat → K) : Compliance K :=
  let S11 := 1 / props 0
  let S22 := 1 / props 1
  let S33 := 1 / props 2
  let S12 := -props 3 / props 0
  let S13 := -props 5 / props 0
  let S23 := -props 4 / props 1
  { S11 := S11, S22 := S22, S33 := S33, S12 := S12, S13 := S13, S23 := S23,
    inv_detS := 1 / (S11 * S22 * S33 + 2 * S23 * S13 * S12 - S11 * S23 * S23 - S22 * S13 * S13
      - S33 * S12 * S12) }

/-- `CastemComputeOrthotropicStiffnessTensor1D(C,props)` (lines 144-182). -/
def CastemComputeOrthotropicStiffnessTensor1D {K : Type} [Field K]
    (C : Matrix (Fin 3) (Fin 3) K) (props : Nat → K) : Matrix (Fin 3) (Fin 3) K :=
  let c := compliance props
  let C := assignEntry C 0 0 ((c.S22 * c.S33 - c.S23 * c.S23) * c.inv_detS)
  let C := assignEntry C 0 1 ((c.S13 * c.S23 - c.S12 * c.S33) * c.inv_detS)
  let C := assignEntry C 0 2 ((c.S12 * c.S23 - c.S13 * c.S22) * c.inv_detS)
  let C := assignEntry C 1 0 ((c.S13 * c.S23 - c.S12 * c.S33) * c.inv_detS)
  let C := assignEntry C 1 1 ((c.S11 * c.S33 - c.S13 * c.S13) * c.inv_detS)
  let C := assignEntry C 1 2 ((c.S12 * c.S13 - c.S11 * c.S23) * c.inv_detS)
  let C := assignEntry C 2 0 ((c.S12 * c.S23 - c.S13 * c.S22) * c.inv_detS)
  let C := assignEntry C 2 1 ((c.S12 * c.S13 - c.S11 * c.S23) * c.inv_detS)
  assignEntry C 2 2 ((c.S11 * c.S22 - c.S12 * c.S12) * c.inv_detS)

/-- `CastemComputeOrthotropicStiffnessTensor2D(C,props)` (lines 184-222). -/
def CastemComputeOrthotropicStiffnessTensor2D {K : Type} [Field K]
    (C : Matrix (Fin 4) (Fin 4) K) (props : Nat → K) : Matrix (Fin 4) (Fin 4) K :=
  let c := compliance props
  let C := fillZero C
  let C := assignEntry C 0 0 ((c.S22 * c.S33 - c.S23 * c.S23) * c.inv_detS)
  let C := assignEntry C 0 1 ((c.S13 * c.S23 - c.S12 * c.S33) * c.inv_detS)
  let C := assignEntry C 0 2 ((c.S12 * c.S23 - c.S13 * c.S22) * c.inv_detS)
  let C := assignEntry C 1 0 ((c.S13 * c.S23 - c.S12 * c.S33) * c.inv_detS)
  let C := assignEntry C 1 1 ((c.S11 * c.S33 - c.S13 * c.S13) * c.inv_detS)
  let C := assignEntry C 1 2 ((c.S12 * c.S13 - c.S11 * c.S23) * c.inv_detS)
  let C := assignEntry C 2 0 ((c.S12 * c.S23 - c.S13 * c.S22) * c.inv_detS)
  let C := assignEntry C 2 1 ((c.S12 * c.S13 - c.S11 * c.S23) * c.inv_detS)
  let C := assignEntry C 2 2 ((c.S11 * c.S22 - c.S12 * c.S12) * c.inv_detS)
  assignEntry C 3 3 (2 * props 6)

/-- `CastemComputeOrthotropicStiffnessTensor3D(C,props)` (lines 309-347); in
`C(0,1)=C(1,0)=v` the component `C(1,0)` is assigned first. -/
def CastemComputeOrthotropicStiffnessTensor3D {K : Type} [Field K]
    (C : Matrix (Fin 6) (Fin 6) K) (props : Nat → K) : Matrix (Fin 6) (Fin 6) K :=
  let c := compliance props
  let C := fillZero C
  let C := assignEntry C 0 0 ((c.S22 * c.S33 - c.S23 * c.S23) * c.inv_detS)
  let C := assignEntry C 1 1 ((c.S11 * c.S33 - c.S13 * c.S13) * c.inv_detS)
  let C := assignEntry C 2 2 ((c.S11 * c.S22 - c.S12 * c.S12) * c.inv_detS)
  let C := assignEntry C 1 0 ((c.S13 * c.S23 - c.S12 * c.S33) * c.inv_detS)
  let C := assignEntry C 0 1 ((c.S13 * c.S23 - c.S12 * c.S33) * c.inv_detS)
  let C := assignEntry C 2 0 ((c.S12 * c.S23 - c.S13 * c.S22) * c.inv_detS)
  let C := assignEntry C 0 2 ((c.S12 * c.S23 - c.S13 * c.S22) * c.inv_detS)
  let C := assignEntry C 2 1 ((c.S12 * c.S13 - c.S11 * c.S23) * c.inv_detS)
  let C := assignEntry C 1 2 ((c.S12 * c.S13 - c.S11 * c.S23) * c.inv_detS)
  let C := assignEntry C 3 3 (2 * props 6)
  let C := assignEntry C 4 4 (2 * props 8)
  assignEntry C 5 5 (2 * props 7)

/-! ## The second loop of `ignoreKeyWord` on the tokens after the cursor -/

/-- The counter `openedBrackets` of `DSLBase::ignoreKeyWord`, an `unsigned
short`, after the statements of lines 1094-1099 for the token `t`. -/
def countBracket (openedBrackets : Nat) (t : Token) : Nat :=
  let opened1 := if t.value = "\x7b" then (openedBrackets + 1) % ushortRange
    else openedBrackets
  if t.value = "\x7d" then (opened1 + ushortRange - 1) % ushortRange else opened1

/-- The second loop of `DSLBase::ignoreKeyWord` (lines 1089-1100) on the tokens
that follow the cursor, `openedBrackets` being the counter at its head: the
number of the tokens passed before the token on which the loop ends, a `\x7d`
that leaves the counter at 0; `none` when the tokens end before. -/
def ignoreKeyWordBlockEnd : Nat → List Token → Option Nat
  | _, [] => none
  | openedBrackets, t :: ts =>
    if t.value = "\x7d" ∧ countBracket openedBrackets t = 0 then some 0
    else (ignoreKeyWordBlockEnd (countBracket openedBrackets t) ts).map (· + 1)

/-! ## Specification of the code of a block -/

/-- The number of opening delimiters among the tokens `l`. -/
def opens (o : CodeBlockParserOptions) (l : List Token) : Nat :=
  l.countP (fun t => decide (t.value = o.delim1))

/-- The number of closing delimiters among the tokens `l`. -/
def closes (o : CodeBlockParserOptions) (l : List Token) : Nat :=
  l.countP (fun t => decide (t.value = o.delim2))

/-- Every closing delimiter of `body` is nested: strictly more opening than
closing delimiters stand before it, so that none is at depth zero. -/
def NestedClosings (o : CodeBlockParserOptions) (body : List Token) : Prop :=
  ∀ k, k < body.length → (body.getD k default).value = o.delim2 →
    closes o (body.take k) < opens o (body.take k)

instance (o : CodeBlockParserOptions) (body : List Token) : Decidable (NestedClosings o body) := by
  unfold NestedClosings
  infer_instance

/-- A member access token: `->`, `.` or `::`. -/
def isMemberAccess (v : String) : Prop :=
  v = "->" ∨ v = "." ∨ v = "::"

instance (v : String) : Decidable (isMemberAccess v) := by
  unfold isMemberAccess
  infer_instance

/-- Line markers are written when `registerLine` is set and the debug mode is
off. -/
def markersOn (o : CodeBlockParserOptions) (s : DSLBase) : Prop :=
  o.registerLine = true ∧ s.debugMode = false

instance (o : CodeBlockParserOptions) (s : DSLBase) : Decidable (markersOn o s) := by
  unfold markersOn
  infer_instance

/-- The text written for the token `t` standing after `previous`; `first`
tells whether `t` is the first token of the block. -/
def emittedWord (o : CodeBlockParserOptions) (s : DSLBase) (first : Bool)
    (previous t : Token) : String :=
  if t.value ∈ o.smn then
    if isMemberAccess previous.value then t.value
    else if o.qualifyStaticVariables then s.className ++ "::" ++ t.value
    else t.value
  else if t.value ∈ o.mn then
    if isMemberAccess previous.value then t.value
    else
      match o.modifier with
      | some modifier =>
        if first = true ∧ previous.value = "*" then
          "(" ++ modifier t.value o.qualifyMemberVariables ++ ")"
        else modifier t.value o.qualifyMemberVariables
      | none =>
        if o.qualifyMemberVariables then
          if previous.value = "*" then "(this->" ++ t.value ++ ")" else "this->" ++ t.value
        else if first = true ∧ previous.value = "*" then "(" ++ t.value ++ ")"
        else t.value
  else t.value

/-- What is written before the text of the token `t`: the initial line marker
before the first token, and a newline, followed by a line marker when markers
are on, before a token that is not on the line of the previous one. -/
def lineSeparator (o : CodeBlockParserOptions) (s : DSLBase) (first : Bool)
    (previous t : Token) : String :=
  if first then (if markersOn o s then lineMarker s t.line else "")
  else if previous.line ≠ t.line then
    (if markersOn o s then "\n" ++ lineMarker s t.line else "\n")
  else ""

/-- The chunk of code of one token: what separates it from the previous one, its
text and a space. -/
def blockChunk (o : CodeBlockParserOptions) (s : DSLBase) (first : Bool)
    (previous t : Token) : String :=
  lineSeparator o s first previous t ++ emittedWord o s first previous t ++ " "

/-- The chunks of the tokens of a body, in order; `previous` is the token before
the first one. -/
def blockChunks (o : CodeBlockParserOptions) (s : DSLBase) :
    Bool → Token → List Token → List String
  | _, _, [] => []
  | first, previous, t :: ts => blockChunk o s first previous t :: blockChunks o s false t ts

/-- The concatenation of a list of strings. -/
def concatAll : List String → String
  | [] => ""
  | x :: xs => x ++ concatAll xs

/-- The code of a block whose opening delimiter is `op` and whose body is
`body`. -/
def blockCode (o : CodeBlockParserOptions) (s : DSLBase) (op : Token) (body : List Token) :
    String :=
  concatAll (blockChunks o s true op body)

/-- The words passed to the analyser while the tokens `body` are read. -/
def analysedWords (o : CodeBlockParserOptions) (body : List Token) : List String :=
  if o.analyser then body.map (fun t => t.value) else []

/-- The block opened at the cursor of `s`: the tokens are `pre`, the opening
delimiter `op`, the tokens `body` and the tokens `rest`; the cursor is on `op`;
no closing delimiter of `body` is at depth zero; the vector of tokens is within
the range of the 32-bit counter of opened blocks. -/
structure BlockAt (s : DSLBase) (o : CodeBlockParserOptions) (pre : List Token) (op : Token)
    (body rest : List Token) : Prop where
  tokens_eq : s.tokens = pre ++ op :: (body ++ rest)
  cursor : s.current = pre.length
  opening : op.value = o.delim1
  nested : NestedClosings o body
  bound : s.tokens.length < uintRange

/-- No `;` is met in `body` when the options forbid it. -/
def SemiColonFree (o : CodeBlockParserOptions) (body : List Token) : Prop :=
  o.allowSemiColon = true ∨ ∀ t ∈ body, t.value ≠ ";"

instance (o : CodeBlockParserOptions) (body : List Token) : Decidable (SemiColonFree o body) := by
  unfold SemiColonFree
  infer_instance

/-- The block opened at the cursor of `s` is closed by the token `cl`: `cl` is a
closing delimiter at depth zero (as many closing as opening delimiters in
`body`, none of them at depth zero), no forbidden `;` is in `body`, and the
closing delimiter of an empty block is not itself a forbidden `;`. -/
structure ClosedBlockAt (s : DSLBase) (o : CodeBlockParserOptions) (pre : List Token)
    (op : Token) (body : List Token) (cl : Token) (post : List Token) : Prop where
  block : BlockAt s o pre op body (cl :: post)
  closing : cl.value = o.delim2
  balanced : opens o body = closes o body
  semicolons : SemiColonFree o body
  closing_allowed : body = [] → ¬ (o.delim2 = ";" ∧ o.allowSemiColon = false)

/-- The state of `s` once the block of body `body` is read: the cursor is after
the closing delimiter and the analyser has been given the words of `body`. -/
def afterBlock (s : DSLBase) (o : CodeBlockParserOptions) (pre body : List Token) : DSLBase :=
  { s with current := pre.length + body.length + 2,
           analysed := s.analysed ++ analysedWords o body }

/-- A piece of the code of a block: a line marker or some text. -/
inductive Piece where
  | marker (line : Nat)
  | text (str : String)
deriving DecidableEq, Repr

/-- The text of a piece; a marker is the directive `#line <line> "<fileName>"`
and a newline. -/
def Piece.render (s : DSLBase) : Piece → String
  | .marker line => lineMarker s line
  | .text str => str

/-- Whether a piece is a line marker. -/
def Piece.isMarker : Piece → Bool
  | .marker _ => true
  | .text _ => false

/-- The text of a list of pieces. -/
def renderPieces (s : DSLBase) (ps : List Piece) : String :=
  concatAll (ps.map (Piece.render s))

/-- The pieces of the code of a body whose tokens are copied unchanged: each
token value followed by a space, a newline before a token that is not on the
line of the previous one, and, when `markers` is set, a marker before the first
token and after each of these newlines. -/
def copiedPieces (markers : Bool) : Bool → Token → List Token → List Piece
  | _, _, [] => []
  | true, _, t :: ts =>
    (if markers then [Piece.marker t.line] else [])
      ++ Piece.text (t.value ++ " ") :: copiedPieces markers false t ts
  | false, previous, t :: ts =>
    (if previous.line ≠ t.line then
        Piece.text "\n" :: (if markers then [Piece.marker t.line] else [])
      else [])
      ++ Piece.text (t.value ++ " ") :: copiedPieces markers false t ts

/-- The values of the tokens of a body, each followed by a space, with a newline
before each token that is not on the line of the previous one. -/
def copiedText : Bool → Token → List Token → String
  | _, _, [] => ""
  | true, _, t :: ts => t.value ++ " " ++ copiedText false t ts
  | false, previous, t :: ts =>
    (if previous.line ≠ t.line then "\n" else "") ++ (t.value ++ " " ++ copiedText false t ts)

/-- A token of value `v` on line `l`, without comment. -/
def tok (v : String) (l : Nat) : Token :=
  { value := v, line := l, offset := 0, flag := TokenFlag.Standard, comment := "" }

/-- The state of a parser of class `Law` on the file `law.mfront`, the cursor on
the first of the tokens `ts`. -/
def parserOn (ts : List Token) : DSLBase :=
  { tokens := ts, current := 0, fileName := "law.mfront", currentComment := "",
    className := "Law", debugMode := false, integerConstants := [], analysed := [] }

/-- The code of a result of `readNextBlock`, when it is a block. -/
def codeOf (r : Except Failure (CodeBlock × DSLBase)) : Option String :=
  match r with
  | .ok (b, _) => some b.code
  | .error _ => none

/-- The values of the tokens of a body joined by single spaces. -/
def joinedBySpaces (body : List Token) : String :=
  " ".intercalate (body.map (fun t => t.value))

/-- The body `a { b } ;`, on three lines. -/
def nestedBody : List Token :=
  [tok "a" 1, tok "\x7b" 1, tok "b" 2, tok "\x7d" 2, tok ";" 3]

/-- The tokens `{ a { b } ; } x`. -/
def nestedTokens : List Token :=
  tok "\x7b" 1 :: (nestedBody ++ [tok "\x7d" 3, tok "x" 4])

/-- The body `a = b ;` of the block `{ a = b ; }`. -/
def assignBody : List Token :=
  [tok "a" 1, tok "=" 1, tok "b" 1, tok ";" 1]

/-- The tokens `{ a = b ; }`. -/
def assignTokens : List Token :=
  tok "\x7b" 1 :: (assignBody ++ [tok "\x7d" 1])

/-- The options of `treatMembers`: static and member variables are qualified;
the names `a` and `b` are member names. -/
def memberOptions : CodeBlockParserOptions :=
  { mn := ["a", "b"], qualifyStaticVariables := true, qualifyMemberVariables := true }

/-- The body `a = b . a ;`. -/
def staticBody : List Token :=
  [tok "a" 1, tok "=" 1, tok "b" 1, tok "." 1, tok "a" 1, tok ";" 1]

/-- The tokens `{ a = b . a ; }`. -/
def staticTokens : List Token :=
  tok "\x7b" 1 :: (staticBody ++ [tok "\x7d" 1])

/-- Options without line markers in which `a` is both a static member name and
a member name and `b` a member name, both kinds being qualified. -/
def staticOptions : CodeBlockParserOptions :=
  { smn := ["a"], mn := ["a", "b"], qualifyStaticVariables := true,
    qualifyMemberVariables := true, registerLine := false }

/-- The state `s` without the record of the analysed words. -/
def DSLBase.forget (s : DSLBase) : DSLBase :=
  { s with analysed := [] }

/-- The result `r` without the record of the analysed words in its state. -/
def forgetResult (r : Except Failure (CodeBlock × DSLBase)) :
    Except Failure (CodeBlock × DSLBase) :=
  match r with
  | .ok (b, s) => .ok (b, s.forget)
  | .error f => .error { f with state := f.state.forget }

/-- The state `s` without its cursor and without the record of the analysed
words: what the parsing primitives never change. -/
def DSLBase.frame (s : DSLBase) : DSLBase :=
  { s with current := 0, analysed := [] }

/-- The tokens of a declaration given as the list of its names, each with the
token that follows it. -/
def declarationTokens : List (Token × Token) → List Token
  | [] => []
  | (name, sep) :: l => name :: sep :: declarationTokens l

/-- The variables of type `type` declared by the tokens `names`, not arrays, all
of description `description`. -/
def declaredVariables (type description : String) (names : List Token) :
    List VariableDescription :=
  names.map (fun n =>
    { type := type, name := n.value, arraySize := 1, lineNumber := n.line,
      description := description })

/-- The description of a variable declared while the current comment is
`currentComment` by a statement whose `;` has the comment `endComment`. -/
def finalDescription (currentComment endComment : String) : String :=
  if endComment ≠ "" then
    (if currentComment ≠ "" then currentComment ++ " " else currentComment) ++ endComment
  else currentComment

/-- A library for the examples: every word but `,`, `;`, `[` and `]` is a valid
identifier, an expression has no variable and its value is the number that
its digits write. -/
def sampleLibrary : Library :=
  { isValidIdentifier := fun v _ => decide (v ∉ [",", ";", "[", "]", ""]),
    getVariablesNames := fun _ => .ok [],
    getValue := fun e _ => .ok (e.data.foldl (fun n c => 10 * n + (c.toNat - 48)) 0 : Nat) }

/-- A token `;` on line 1, with the comment `two moduli`. -/
def declSemi : Token :=
  { value := ";", line := 1, offset := 0, flag := TokenFlag.Standard, comment := "two moduli" }

/-- The tokens `a [ 3 ] ;`, the `;` having the comment `size`. -/
def arrayTokens : List Token :=
  [tok "a" 1, tok "[" 1, tok "3" 1, tok "]" 1,
    { value := ";", line := 1, offset := 0, flag := TokenFlag.Standard, comment := "size" }]

/-- The tokens `a , b ;`, the `;` having the comment `two moduli`, followed by
`x`. -/
def declTokens : List Token :=
  [tok "a" 1, tok "," 1, tok "b" 1, declSemi, tok "x" 2]

/-- The block `b` and the state `s1` are those of the reading of a block at the
cursor of `s`: the tokens are `pre`, the opening delimiter `op` under the
cursor, the tokens `body`, the closing delimiter `cl` and the tokens `post`;
`s1` is the state after the block; the code of `b` is the concatenation of the
chunks of the tokens of `body`. -/
structure BlockRead (s : DSLBase) (o : CodeBlockParserOptions) (pre : List Token) (op : Token)
    (body : List Token) (cl : Token) (post : List Token) (b : CodeBlock) (s1 : DSLBase) :
    Prop where
  tokens_eq : s.tokens = pre ++ op :: (body ++ cl :: post)
  cursor : s.current = pre.length
  opening : op.value = o.delim1
  closing : cl.value = o.delim2
  state_eq : s1 = afterBlock s o pre body
  code_eq : b.code = concatAll (blockChunks o s true op body)

/-- The last token of `previous :: l`: the token before the cursor once the
tokens `l` are read. -/
def lastToken : Token → List Token → Token
  | previous, [] => previous
  | _, t :: ts => lastToken t ts

/-- The condition `NestedClosings` for tokens read while `d` blocks are
opened. -/
def NestedFrom (o : CodeBlockParserOptions) (d : Nat) (bs : List Token) : Prop :=
  ∀ k, k < bs.length → (bs.getD k default).value = o.delim2 →
    closes o (bs.take k) < d + opens o (bs.take k)

/-- The pair `eto`/`sig` of a small strain standard behaviour. -/
def smallStrainPair : DrivingVariable × ThermodynamicForce :=
  ({ name := "eto", type := "StrainStensor", increment_known := true },
    { name := "sig", type := "StressStensor" })

/-- The pair `F`/`sig` of a finite strain standard behaviour. -/
def finiteStrainPair : DrivingVariable × ThermodynamicForce :=
  ({ name := "F", type := "DeformationGradientTensor", increment_known := false },
    { name := "sig", type := "StressStensor" })

/-- The pair `u`/`t` of a cohesive zone model. -/
def cohesiveZonePair : DrivingVariable × ThermodynamicForce :=
  ({ name := "u", type := "DisplacementTVector", increment_known := true },
    { name := "t", type := "ForceTVector" })

/-- The method `declare`, of name `method`, is one-shot on the description `d`:
it fails if and only if `d` has a main variable, then with the message that
some driving variables are already declared and without changing `d`;
otherwise its result has the type `kind` and the only main variables `pair`. -/
def OneShot (declare : MechanicalBehaviourDescription →
      Except BehaviourFailure MechanicalBehaviourDescription)
    (method : String) (kind : BehaviourType) (pair : DrivingVariable × ThermodynamicForce)
    (d : MechanicalBehaviourDescription) : Prop :=
  ((∃ e, declare d = .error e) ↔ d.mvariables ≠ [])
    ∧ (∀ e, declare d = .error e →
        e = { msg := "MechanicalBehaviourDescription::" ++ method
                ++ " : some driving variables are already declared", state := d })
    ∧ (d.mvariables = [] → declare d = .ok { type := kind, mvariables := [pair] })

/-- A call that declares main variables. -/
inductive BehaviourCall where
  | smallStrain
  | finiteStrain
  | cohesiveZone
  | mainVariable (v : DrivingVariable) (f : ThermodynamicForce)
deriving DecidableEq, Repr, Inhabited

/-- The result of a call on the description `d`. -/
def BehaviourCall.result (less : DrivingVariable → DrivingVariable → Bool)
    (d : MechanicalBehaviourDescription) :
    BehaviourCall → Except BehaviourFailure MechanicalBehaviourDescription
  | .smallStrain => declareAsASmallStrainStandardBehaviour less d
  | .finiteStrain => declareAsAFiniteStrainStandardBehaviour less d
  | .cohesiveZone => declareAsACohesiveZoneModel less d
  | .mainVariable v f => addMainVariable less d v f

/-- The description after a call: the result of the call, or the state of the
object when the exception was thrown. -/
def stateAfter (r : Except BehaviourFailure MechanicalBehaviourDescription) :
    MechanicalBehaviourDescription :=
  match r with
  | .ok d => d
  | .error e => e.state

/-- The description after the calls `cs`, successful or not, made in order on
the description `d`. -/
def stateAfterCalls (less : DrivingVariable → DrivingVariable → Bool) :
    MechanicalBehaviourDescription → List BehaviourCall → MechanicalBehaviourDescription
  | d, [] => d
  | d, c :: cs => stateAfterCalls less (stateAfter (c.result less d)) cs

/-- The order of the driving variables by their names (the order of the
examples). -/
def lessByName (a b : DrivingVariable) : Bool :=
  decide (a.name.data < b.name.data)

/-- A driving variable `g` of the examples. -/
def sampleGradient : DrivingVariable :=
  { name := "g", type := "TemperatureGradient", increment_known := false }

/-- A thermodynamic force `q` of the examples. -/
def sampleFlux : ThermodynamicForce :=
  { name := "q", type := "HeatFlux" }

/-- The items of the tokens `item1 , item2 , ... , itemN` (`N ≥ 0`), when the
tokens have this form: an item, then as many times as needed a token `,` and an
item. -/
def commaSeparatedItems : List Token → Option (List Token)
  | [] => some []
  | [t] => some [t]
  | t :: c :: rest =>
    if c.value = "," ∧ rest ≠ [] then (commaSeparatedItems rest).map (fun items => t :: items)
    else none

/-- The text `v` without its first and its last character. -/
def withoutEnds (v : String) : String :=
  String.mk (v.data.drop 1).dropLast

/-- A token of value `v` on line `l` that the tokenizer flagged as a string. -/
def strTok (v : String) (l : Nat) : Token :=
  { value := v, line := l, offset := 0, flag := TokenFlag.String, comment := "" }

/-- The tokens `\x7b "a" , 'bc' \x7d ;`. -/
def stringListTokens : List Token :=
  [tok "\x7b" 1, strTok "\"a\"" 1, tok "," 1, strTok "'bc'" 1, tok "\x7d" 1, tok ";" 1]

/-- The tokens `\x7b a , \x7d`, a list with a dangling comma. -/
def danglingTokens : List Token :=
  [tok "\x7b" 1, tok "a" 1, tok "," 1, tok "\x7d" 1]

/-- The tokens `\x7b , \x7d`. -/
def commaItemTokens : List Token :=
  [tok "\x7b" 1, tok "," 1, tok "\x7d" 1]

/-- The text of the expression between `[` and `]`: the values of the tokens
`body`, one after the other. -/
def arrayExpression (body : List Token) : String :=
  body.foldl (fun a t => a ++ t.value) ""

/-- The values that `readVarList` gives to the variables `vars` of an
expression: those of the integer constants of these names. -/
def constantValues (s : DSLBase) (vars : List String) : List (String × Int) :=
  vars.map (fun v => (v, (s.integerConstants.lookup v).getD 0))

/-- The container `cont` once the comment of the `;` is appended to the
descriptions of its variables. -/
def withEndComment (endComment : String) (cont : List VariableDescription) :
    List VariableDescription :=
  if endComment ≠ "" then cont.map (addEndComment endComment) else cont

/-- The tokens `a , a ;`: a name declared twice in a statement. -/
def duplicateTokens : List Token :=
  [tok "a" 1, tok "," 1, tok "a" 1, tok ";" 1]

/-- The tokens `T < U < A > , B > x ;`. -/
def nestedTypeTokens : List Token :=
  [tok "T" 1, tok "<" 1, tok "U" 1, tok "<" 1, tok "A" 1, tok ">" 1, tok "," 1, tok "B" 1,
    tok ">" 1, tok "x" 1, tok ";" 1]

/-- The tokens `T < A , 2 > x ;`. -/
def flatTypeTokens : List Token :=
  [tok "T" 1, tok "<" 1, tok "A" 1, tok "," 1, tok "2" 1, tok ">" 1, tok "x" 1, tok ";" 1]

/-- The tokens `a :: b :: c x ;`. -/
def scopeTypeTokens : List Token :=
  [tok "a" 1, tok "::" 1, tok "b" 1, tok "::" 1, tok "c" 1, tok "x" 1, tok ";" 1]

/-- A call that writes an attribute. -/
inductive AttributeCall where
  | set (n : String) (a : MaterialKnowledgeAttribute) (b : Bool)
  | update (n : String) (a : MaterialKnowledgeAttribute)
deriving DecidableEq, Repr, Inhabited

/-- The result of a call on the description `d`. -/
def AttributeCall.result (d : MaterialKnowledgeDescription) :
    AttributeCall → Except AttributeFailure MaterialKnowledgeDescription
  | .set n a b => setAttribute d n a b
  | .update n a => updateAttribute d n a

/-- The description after a call: the result of the call, or the description
when the exception was thrown. -/
def attributesAfter (r : Except AttributeFailure MaterialKnowledgeDescription) :
    MaterialKnowledgeDescription :=
  match r with
  | .ok d => d
  | .error e => e.state

/-- The description after the calls `cs`, successful or not, made in order on
the description `d`. -/
def attributesAfterCalls :
    MaterialKnowledgeDescription → List AttributeCall → MaterialKnowledgeDescription
  | d, [] => d
  | d, c :: cs => attributesAfterCalls (attributesAfter (c.result d)) cs

/-- The structure after a call of `addVariable`: the result of the call, or the
state of the object when the exception was thrown. -/
def localDataAfter (r : Except LocalDataFailure LocalDataStructure) : LocalDataStructure :=
  match r with
  | .ok ls => ls
  | .error e => e.state

/-- The structure after the calls `addVariable(h,v)`, successful or not, made in
order for the pairs `(h,v)` of `calls`. -/
def localDataAfterCalls (mh : ModellingHypothesis) :
    LocalDataStructure → List (Hypothesis × Variable) → LocalDataStructure
  | ls, [] => ls
  | ls, c :: cs => localDataAfterCalls mh (localDataAfter (addVariable mh ls c.1 c.2)) cs

/-- The names of the variables `c`. -/
def variableNames (c : List Variable) : List String :=
  c.map (fun v => v.name)

/-- The names of the variables of the undefined hypothesis are pairwise
distinct, and so are those of the list of every specialised hypothesis. -/
def DistinctNames (ls : LocalDataStructure) : Prop :=
  (variableNames ls.uv).Nodup ∧ ∀ p ∈ ls.sv, (variableNames p.2).Nodup

/-- The message of the exception of `addVariable` for the variable `v`. -/
def multiplyDefined (v : Variable) : String :=
  "LocalDataStructure::addVariable: " ++ ("member '" ++ v.name ++ "' multiply defined")

/-- The modelling hypotheses of the examples: the undefined hypothesis is the
enumerator of value 7 and the text of a hypothesis is its value. -/
def sampleHypotheses : ModellingHypothesis :=
  { UNDEFINEDHYPOTHESIS := 7, toString := fun h => toString h }

/-- A variable `real` of name `n`. -/
def realVariable (n : String) : Variable :=
  { type := "real", name := n, asize := 1 }

/-- The three names that the import of the material law of function name `m`
has to reserve. -/
def materialLawNames (m : String) : List String :=
  [m, m ++ "_checkBounds", m ++ "_bounds_check_status"]

/-- The calls of `reserve` for the names of a list, in order. -/
def reserveNames {R : Type} (reserve : R → String → Except String R) :
    R → List String → Except String R
  | r, [] => .ok r
  | r, n :: ns =>
    match reserve r n with
    | .error e => .error e
    | .ok r1 => reserveNames reserve r1 ns

/-- Sample services: every file is found and analysed, the law of a file is its
name and it has no material; the function name is the one of the `mfront`
interface (the law, after the material and `_` when there is a material); the
state of the derived class is the list of the names passed to `reserveName`. -/
def recordingServices : MaterialLawServices (List String) Unit where
  search := fun f => .ok f
  analyseFile := fun path => .ok ("", path)
  getFunctionName := fun mat law => if mat = "" then law else mat ++ "_" ++ law
  getHeaderFileName := fun mat law => if mat = "" then law else mat ++ "_" ++ law
  reserveName := fun r n => .ok (r ++ [n])
  appendToIncludes := fun r _ => .ok r
  addMaterialLaw := fun r _ => .ok r
  treatFile := fun _ => .ok ()
  hasSpecificTargets := fun _ => false

/-- An object with no token. -/
def emptyDSL : DSLBase :=
  { tokens := [], current := 0, fileName := "outer.mfront", currentComment := "",
    className := "", debugMode := false, integerConstants := [], analysed := [] }

/-- The tokens `@Import "<name>" ;`. -/
def importTokens (name : String) : List Token :=
  [tok "@Import" 1, strTok ("\"" ++ name ++ "\"") 1, tok ";" 1]

/-- Sample services: the file `inner.mfront` is found and its import leaves the
tokens of this file, its name and the cursor at their end; `broken.mfront` is
found and its import throws once its tokens are in place; no other file is
found. The state of the derived class is the list of the files imported. -/
def sampleImport : ImportServices (List String) where
  search := fun f =>
    if f = "inner.mfront" ∨ f = "broken.mfront" then .ok f
    else .error ("SearchFile::search : '" ++ f ++ "' has not been found.")
  importFile := fun r s path =>
    let s1 := { s with fileName := path, tokens := [tok "@Law" 1, tok "x" 1, tok ";" 1] }
    if path = "broken.mfront" then
      .error (r, throwRuntimeError { s1 with current := 1 } "DSLBase::treatUnknownKeyword"
        "unknown keyword (read '@Law')")
    else .ok (r ++ [path], { s1 with current := 3 })

/-- A run on the tokens `toks` ends well, with `Q` for what it returns: it
returns or throws, the tokens are still `toks`, the cursor is at a position of
`[0, length]`, and `Q` holds of the result and the state returned; no use of
the cursor was outside of its range and no bound of a loop was reached. -/
def Ends {α : Type} (toks : List Token) (Q : α → DSLBase → Prop) :
    Except Abort (α × DSLBase) → Prop
  | .ok (a, s1) => s1.tokens = toks ∧ s1.current ≤ toks.length ∧ Q a s1
  | .error (.thrown f) => f.state.tokens = toks ∧ f.state.current ≤ toks.length
  | .error _ => False

/-- A run on the tokens `toks` ends well: it returns or throws with the tokens
`toks` and the cursor at a position of `[0, length]`, it has read no token at a
position outside of `[0, length)` and has not moved the cursor out of
`[0, length]`. -/
def EndsWell {α : Type} (toks : List Token) (r : Except Abort (α × DSLBase)) : Prop :=
  Ends toks (fun _ _ => True) r

/-- The outcome of a run without checks, as an outcome of a run with a checked
cursor. -/
def unchecked {α : Type} : Except Failure α → Except Abort α
  | .ok a => .ok a
  | .error f => .error (.thrown f)

/-- The result of a turn of the loop of `readVarList` in the model without
checks, in the order of the results of the runs with a checked cursor. -/
def itemResult (r : List VariableDescription × DSLBase × Option String) :
    (List VariableDescription × Option String) × DSLBase :=
  ((r.1, r.2.2), r.2.1)

/-- The line that an error message gives for the state `s`: the line of the
token under the cursor, or the line of the last token when the cursor is not at
a token. -/
def errorLine (s : DSLBase) : Nat :=
  match s.tokens[s.current]? with
  | some t => t.line
  | none =>
    match s.tokens.getLast? with
    | some t => t.line
    | none => 0

/-- The part of the message of `throwRuntimeError` for the text `m`: nothing
when `m` is empty. -/
def errorText (m : String) : String :=
  if m = "" then "" else ": " ++ m

/-- The end of the message of `throwRuntimeError` in the state `s`: nothing
when there is no token. -/
def errorPlace (s : DSLBase) : String :=
  if s.tokens = [] then "" else "\nError at line " ++ toString (errorLine s)

/-- A description whose only attribute forbids the modification of the out of
bounds policy at runtime. -/
def frozenPolicy : MaterialKnowledgeDescription :=
  { attributes := [(runtimeModificationOfTheOutOfBoundsPolicy, .boolean false)] }

/-- The description `frozenPolicy` with one more attribute: the parameters are
not treated as static variables. -/
def frozenPolicyWithParameters : MaterialKnowledgeDescription :=
  { attributes := [(runtimeModificationOfTheOutOfBoundsPolicy, .boolean false),
      (parametersAsStaticVariables, .boolean false)] }

/-- The description `frozenPolicy` in which the modification of the out of
bounds policy at runtime is allowed. -/
def allowedPolicy : MaterialKnowledgeDescription :=
  { attributes := [(runtimeModificationOfTheOutOfBoundsPolicy, .boolean true)] }

/-- A local data structure in which the undefined hypothesis has the variable
`x` and no hypothesis is specialised: the structure after
`addVariable(UNDEFINEDHYPOTHESIS, x)` on an empty structure. -/
def baseOnly : LocalDataStructure :=
  localDataAfterCalls sampleHypotheses { uv := [], sv := [] } [(7, realVariable "x")]

/-- A local data structure in which the hypothesis 1 has the variable `x` and
the undefined hypothesis has none: the structure after `addVariable(1, x)` on an
empty structure. -/
def specialisedOnly : LocalDataStructure :=
  localDataAfterCalls sampleHypotheses { uv := [], sv := [] } [(1, realVariable "x")]

/-- The exception of `addVariable(1, x)` on the structure `baseOnly`. -/
def baseOnlyFailure : LocalDataFailure :=
  { msg := multiplyDefined (realVariable "x"),
    state := { uv := [realVariable "x"], sv := [(1, [realVariable "x"])] } }

/-- The pair of main variables that a type of behaviour declares: none for the
general type. -/
def canonicalPair : BehaviourType → Option (DrivingVariable × ThermodynamicForce)
  | .GENERALBEHAVIOUR => none
  | .SMALLSTRAINSTANDARDBEHAVIOUR => some smallStrainPair
  | .FINITESTRAINSTANDARDBEHAVIOUR => some finiteStrainPair
  | .COHESIVEZONEMODEL => some cohesiveZonePair

/-- The main variables of the description `d` are those of its type: when the
type declares a pair, it is the only main variable. -/
def CanonicalMainVariables (d : MechanicalBehaviourDescription) : Prop :=
  ∀ p, canonicalPair d.type = some p → d.mvariables = [p]

/-- Modelled from the spec: the reserved names are a set that grows, seen
through `isNameReserved` and `reserveName` (their code is not among the
sources): a name that is not reserved can be reserved, it is then reserved and
the names that were reserved still are. -/
def ReservedNamesGrow {R : Type} (sv : NameServices R) : Prop :=
  ∀ r n, sv.isNameReserved r n = false →
    ∃ r1, sv.reserveName r n = .ok r1 ∧ sv.isNameReserved r1 n = true
      ∧ ∀ k, sv.isNameReserved r k = true → sv.isNameReserved r1 k = true

/-- Sample services: the state of the derived class is the list of the reserved
names, and a name is refused when it is reserved already. -/
def listedNames : NameServices (List String) where
  isNameReserved := fun r n => decide (n ∈ r)
  reserveName := fun r n =>
    if n ∈ r then .error ("the name '" ++ n ++ "' is already reserved") else .ok (r ++ [n])

/-- The names `p0`, `p1`, ..., up to the one of the counter `UINT_MAX - 1`. -/
def allTemporaryNames (p : String) : List String :=
  (List.range uintMax).map (fun i => p ++ toString i)

/-- A library in which every identifier is valid but `1x`, and that evaluates no
expression. -/
def plainLibrary : Library where
  isValidIdentifier := fun n _ => decide (n ≠ "1x")
  getVariablesNames := fun _ => .ok []
  getValue := fun _ _ => .ok 0

/-- The files of the examples: `empty.mfront` has no token, `law.mfront` is
`@Author me ; @Law L ;`, on one line, and no other file can be opened. -/
def sampleFiles (file : String) : Except String (List Token) :=
  if file = "empty.mfront" then .ok []
  else if file = "law.mfront" then
    .ok [tok "@Author" 1, tok "me" 1, tok ";" 1, tok "@Law" 1, tok "L" 1, tok ";" 1]
  else .error ("CxxTokenizer::openFile : unable to open file '" ++ file ++ "'")

/-- A variable description without its description: the type, the name, the
size of the array and the line. -/
def VariableDescription.declaration (v : VariableDescription) : String × String × Nat × Nat :=
  (v.type, v.name, v.arraySize, v.lineNumber)

/-- The name and the line of a variable description. -/
def VariableDescription.nameAndLine (v : VariableDescription) : String × Nat :=
  (v.name, v.lineNumber)

/-- The value and the line of a token. -/
def Token.valueAndLine (t : Token) : String × Nat :=
  (t.value, t.line)

/-- A variable `z` declared before, with the description `old`. -/
def earlierVariable : VariableDescription :=
  { type := "real", name := "z", arraySize := 1, lineNumber := 0, description := "old" }

/-- The compliance matrix of the properties `props`: `E1`, `E2`, `E3` are the
properties 0, 1, 2 and `nu12`, `nu23`, `nu13` the properties 3, 4, 5;
`S11 = 1/E1`, `S22 = 1/E2`, `S33 = 1/E3`, `S12 = S21 = -nu12/E1`,
`S13 = S31 = -nu13/E1`, `S23 = S32 = -nu23/E2`. -/
def complianceMatrix {K : Type} [Field K] (props : Nat → K) : Matrix (Fin 3) (Fin 3) K :=
  Matrix.of ![![1 / props 0, -props 3 / props 0, -props 5 / props 0],
    ![-props 3 / props 0, 1 / props 1, -props 4 / props 1],
    ![-props 5 / props 0, -props 4 / props 1, 1 / props 2]]

/-- The upper-left block of size 3 of a matrix of size `n`. -/
def upperLeftBlock {K : Type} {n : Nat} (h : 3 ≤ n) (C : Matrix (Fin n) (Fin n) K) :
    Matrix (Fin 3) (Fin 3) K :=
  fun i j => C (Fin.castLE h i) (Fin.castLE h j)

/-- Sample properties: the moduli 2, 4 and 5, the ratios 1/2, 1/4 and 1/5, and
shear moduli 1, 2 and 3. -/
def sampleProperties : Nat → ℚ :=
  fun i => [2, 4, 5, 1 / 2, 1 / 4, 1 / 5, 1, 2, 3].getD i 0

/-- The matrix of the nine components that the three functions compute from
their local variables. -/
def stiffnessBlock {K : Type} [Field K] (c : Compliance K) : Matrix (Fin 3) (Fin 3) K :=
  Matrix.of ![![(c.S22 * c.S33 - c.S23 * c.S23) * c.inv_detS,
      (c.S13 * c.S23 - c.S12 * c.S33) * c.inv_detS,
      (c.S12 * c.S23 - c.S13 * c.S22) * c.inv_detS],
    ![(c.S13 * c.S23 - c.S12 * c.S33) * c.inv_detS,
      (c.S11 * c.S33 - c.S13 * c.S13) * c.inv_detS,
      (c.S12 * c.S13 - c.S11 * c.S23) * c.inv_detS],
    ![(c.S12 * c.S23 - c.S13 * c.S22) * c.inv_detS,
      (c.S12 * c.S13 - c.S11 * c.S23) * c.inv_detS,
      (c.S11 * c.S22 - c.S12 * c.S12) * c.inv_detS]]

/-- The place of the first token that is `;` or `\x7b`, when there is one. -/
def instructionStop : List Token → Option Nat
  | [] => none
  | t :: ts =>
    if t.value = "\x7b" ∨ t.value = ";" then some 0 else (instructionStop ts).map (· + 1)

/-- The number of the blocks opened after the token `t`, when `d` blocks were
opened before it. -/
def depthAfter (d : Nat) (t : Token) : Nat :=
  if t.value = "\x7b" then d + 1 else if t.value = "\x7d" then d - 1 else d

/-- The place of the `\x7d` that closes the outermost of `d` opened blocks, the
nested blocks being balanced, when there is one. -/
def matchingClose : Nat → List Token → Option Nat
  | _, [] => none
  | d, t :: ts =>
    if t.value = "\x7d" ∧ depthAfter d t = 0 then some 0
    else (matchingClose (depthAfter d t) ts).map (· + 1)

/-- The greatest number of blocks opened at a time, from `d` opened blocks up
to the `\x7d` that closes the outermost of them, or to the end of the
tokens. -/
def deepest : Nat → List Token → Nat
  | d, [] => d
  | d, t :: ts =>
    if t.value = "\x7d" ∧ depthAfter d t = 0 then d
    else max d (deepest (depthAfter d t) ts)

/-- The number of the tokens of the block whose `\x7b` is followed by the
tokens `after`, `close` being the place of its `\x7d` in `after`, with the `;`
that immediately follows the `\x7d` when there is one; the `\x7b` is not
counted. -/
def skipBlock (close : Option Nat) (after : List Token) : Option Nat :=
  match close with
  | none => none
  | some j =>
    if (after.drop (j + 1)).head?.map Token.value = some ";" then some (j + 2)
    else some (j + 1)

/-- The number of the tokens of the instruction at the head of the tokens `ts`:
the tokens up to the first `;` or `\x7b`, and, after a `\x7b`, the tokens of
the block, `close` giving the place of the `\x7d` of a block among the tokens
that follow its `\x7b`; `none` when the tokens end before the `;` or before
the `\x7d`. -/
def skipInstructionWith (close : List Token → Option Nat) (ts : List Token) : Option Nat :=
  match instructionStop ts with
  | none => none
  | some i =>
    if (ts.getD i default).value = ";" then some (i + 1)
    else (skipBlock (close (ts.drop (i + 1))) (ts.drop (i + 1))).map (· + (i + 1))

/-- The number of the tokens of the instruction at the head of the tokens `ts`,
a block being closed by the `\x7d` that matches its `\x7b`. -/
def skipInstruction (ts : List Token) : Option Nat :=
  skipInstructionWith (matchingClose 1) ts

/-- What `ignoreKeyWord(key)` has to do from the state `s` when the instruction
at the cursor has `k` tokens: the cursor moves after them; and when there is no
instruction (`none`): the exception of an unexpected end of file, thrown with
the cursor at the end. -/
def skipOutcome (s : DSLBase) (key : String) : Option Nat → Except Abort (Unit × DSLBase)
  | none =>
    .error (.thrown (endOfFileFailure { s with current := s.tokens.length }
      "DSLBase::ignoreKeyWord" ("error while treating keyword '" ++ key ++ "' ")))
  | some k => .ok ((), { s with current := s.current + k })

/-- A token `\x7b`. -/
def openingBrace : Token := tok "\x7b" 1

/-- A token `\x7d`. -/
def closingBrace : Token := tok "\x7d" 1

/-- The tokens of 65537 nested blocks: 65537 tokens `\x7b` followed by 65537
tokens `\x7d`. -/
def deepBlock : List Token :=
  openingBrace :: (List.replicate 65536 openingBrace ++ List.replicate 65537 closingBrace)

/-- The tokens `@K a \x7b b \x7b c \x7d \x7d ; d`, on one line. -/
def nestedInstruction : List Token :=
  [tok "@K" 1, tok "a" 1, tok "\x7b" 1, tok "b" 1, tok "\x7b" 1, tok "c" 1, tok "\x7d" 1,
    tok "\x7d" 1, tok ";" 1, tok "d" 1]

/-- The options of a block in which `;` is forbidden. -/
def semiColonForbidden : CodeBlockParserOptions := { allowSemiColon := false }

/-- The body of 4294967296 tokens `\x7b`. -/
def deepBody : List Token :=
  openingBrace :: List.replicate 4294967295 openingBrace

/-- The tokens of a block whose body is 4294967296 tokens `\x7b` followed by
`;`. -/
def deepSemiColon : List Token :=
  openingBrace :: openingBrace :: (List.replicate 4294967295 openingBrace ++ [tok ";" 1])

/-- A variable of a declaration: the token of its name, the tokens `[`, body
and `]` when it is declared as an array, and the token `,` or `;` that follows
it. -/
structure Declarator where
  name : Token
  array : Option (Token × List Token × Token)
  sep : Token

/-- The tokens of a declarator, in order. -/
def Declarator.tokens (d : Declarator) : List Token :=
  match d.array with
  | none => [d.name, d.sep]
  | some (lb, body, rb) => d.name :: lb :: (body ++ [rb, d.sep])

/-- The tokens of the declarators of a statement, in order. -/
def declaratorTokens : List Declarator → List Token
  | [] => []
  | d :: ds => d.tokens ++ declaratorTokens ds

theorem emitLoopToken_code (o : CodeBlockParserOptions) (s : DSLBase) (previous t : Token)
    (b : CodeBlock) :
    (emitLoopToken o s previous t b).code = b.code ++ emittedWord o s false previous t := by
  unfold emitLoopToken emittedWord isMemberAccess
  by_cases h1 : t.value ∈ o.smn
  · by_cases h2 : previous.value = "->" ∨ previous.value = "." ∨ previous.value = "::"
    · have h3 : ¬ (previous.value ≠ "->" ∧ previous.value ≠ "." ∧ previous.value ≠ "::") := by
        tauto
      simp only [if_pos h1, if_pos h2, if_neg h3]
    · have h3 : previous.value ≠ "->" ∧ previous.value ≠ "." ∧ previous.value ≠ "::" := by
        tauto
      simp only [if_pos h1, if_neg h2, if_pos h3]
      by_cases h4 : o.qualifyStaticVariables = true
      · simp only [if_pos h4, String.append_assoc]
      · simp only [if_neg h4]
  · by_cases h5 : t.value ∈ o.mn
    · simp only [if_neg h1, if_pos h5]
      by_cases h2 : previous.value = "->" ∨ previous.value = "." ∨ previous.value = "::"
      · simp only [if_pos h2]
      · simp only [if_neg h2]
        cases o.modifier with
        | some m => simp
        | none => simp
    · simp only [if_neg h1, if_neg h5]

theorem emitFirstToken_code (o : CodeBlockParserOptions) (s : DSLBase) (previous t : Token)
    (b : CodeBlock) :
    (emitFirstToken o s previous t b).code = b.code ++ emittedWord o s true previous t := by
  unfold emitFirstToken emittedWord isMemberAccess
  by_cases h1 : t.value ∈ o.smn
  · by_cases h2 : previous.value = "->" ∨ previous.value = "." ∨ previous.value = "::"
    · have h3 : ¬ (previous.value ≠ "->" ∧ previous.value ≠ "." ∧ previous.value ≠ "::") := by
        tauto
      simp only [if_pos h1, if_pos h2, if_neg h3]
    · have h3 : previous.value ≠ "->" ∧ previous.value ≠ "." ∧ previous.value ≠ "::" := by
        tauto
      simp only [if_pos h1, if_neg h2, if_pos h3]
      by_cases h4 : o.qualifyStaticVariables = true
      · simp only [if_pos h4, String.append_assoc]
      · simp only [if_neg h4]
  · by_cases h5 : t.value ∈ o.mn
    · simp only [if_neg h1, if_pos h5]
      by_cases h2 : previous.value = "->" ∨ previous.value = "." ∨ previous.value = "::"
      · have h6 : previous.value ≠ "*" := by
          rcases h2 with h | h | h <;> rw [h] <;> decide
        simp only [if_pos h2, if_neg h6]
      · simp only [if_neg h2]
        by_cases h6 : previous.value = "*"
        · cases o.modifier with
          | some m => simp [h6]
          | none =>
            by_cases h7 : o.qualifyMemberVariables = true
            · have h8 : "(" ++ ("this->" ++ (t.value ++ ")")) = "(this->" ++ (t.value ++ ")") := by
                rw [← String.append_assoc]
                rfl
              simp [h6, h7, String.append_assoc, h8]
            · simp [h6, h7]
        · cases o.modifier with
          | some m => simp [h6]
          | none => simp [h6]
    · simp only [if_neg h1, if_neg h5]

theorem lineChange_openedBlock (o : CodeBlockParserOptions) (s : DSLBase) (t : Token)
    (acc : BlockAcc) : (lineChange o s t acc).openedBlock = acc.openedBlock := by
  unfold lineChange
  split_ifs <;> rfl

theorem lineChange_currentLine (o : CodeBlockParserOptions) (s : DSLBase) (t : Token)
    (acc : BlockAcc) : (lineChange o s t acc).currentLine = t.line := by
  unfold lineChange
  by_cases h : acc.currentLine = t.line
  · simp [h]
  · simp [h]

theorem lineChange_code (o : CodeBlockParserOptions) (s : DSLBase) (previous t : Token)
    (acc : BlockAcc) (h : acc.currentLine = previous.line) :
    (lineChange o s t acc).b.code = acc.b.code ++ lineSeparator o s false previous t := by
  unfold lineChange lineSeparator markersOn
  rw [h]
  by_cases h1 : previous.line = t.line
  · simp [h1]
  · by_cases h2 : o.registerLine = true ∧ s.debugMode = false
    · simp [h1, h2, String.append_assoc]
    · simp only [ne_eq, h1, not_false_eq_true, if_true, if_neg h2]
      simp

theorem treatToken_code (o : CodeBlockParserOptions) (s : DSLBase) (previous t : Token)
    (acc : BlockAcc) :
    (treatToken o s previous t acc).b.code
      = acc.b.code ++ emittedWord o s false previous t ++ " " := by
  simp [treatToken, emitLoopToken_code]

theorem treatToken_currentLine (o : CodeBlockParserOptions) (s : DSLBase) (previous t : Token)
    (acc : BlockAcc) : (treatToken o s previous t acc).currentLine = acc.currentLine := rfl

theorem treatToken_openedBlock (o : CodeBlockParserOptions) (s : DSLBase) (previous t : Token)
    (acc : BlockAcc) (h1 : acc.openedBlock + 1 < uintRange)
    (h2 : t.value = o.delim2 → 0 < acc.openedBlock) :
    (treatToken o s previous t acc).openedBlock + closes o [t]
      = acc.openedBlock + opens o [t] := by
  unfold uintRange at h1
  simp only [treatToken, closes, opens, uintRange, List.countP_cons, List.countP_nil,
    decide_eq_true_eq, zero_add]
  by_cases hc : t.value = o.delim2
  · have := h2 hc
    by_cases ho : t.value = o.delim1
    · simp only [if_pos hc, if_pos ho]
      omega
    · simp only [if_pos hc, if_neg ho]
      omega
  · by_cases ho : t.value = o.delim1
    · simp only [if_neg hc, if_pos ho]
      omega
    · simp only [if_neg hc, if_neg ho]

theorem blockChunk_congr (o : CodeBlockParserOptions) (s s' : DSLBase)
    (h1 : s'.fileName = s.fileName) (h2 : s'.className = s.className)
    (h3 : s'.debugMode = s.debugMode) (first : Bool) (previous t : Token) :
    blockChunk o s' first previous t = blockChunk o s first previous t := by
  simp only [blockChunk, lineSeparator, markersOn, lineMarker, emittedWord, h1, h2, h3]

theorem blockChunks_congr (o : CodeBlockParserOptions) (s s' : DSLBase)
    (h1 : s'.fileName = s.fileName) (h2 : s'.className = s.className)
    (h3 : s'.debugMode = s.debugMode) (first : Bool) (previous : Token) (l : List Token) :
    blockChunks o s' first previous l = blockChunks o s first previous l := by
  induction l generalizing first previous with
  | nil => rfl
  | cons t ts ih =>
    simp only [blockChunks, ih, blockChunk_congr o s s' h1 h2 h3]

theorem analyse_eq (o : CodeBlockParserOptions) (s : DSLBase) (t : Token) :
    analyse o s t.value = { s with analysed := s.analysed ++ analysedWords o [t] } := by
  unfold analyse analysedWords
  cases o.analyser <;> simp

theorem analysedWords_cons (o : CodeBlockParserOptions) (t : Token) (l : List Token) :
    analysedWords o (t :: l) = analysedWords o [t] ++ analysedWords o l := by
  unfold analysedWords
  cases o.analyser <;> simp

theorem nestedFrom_head (o : CodeBlockParserOptions) (d : Nat) (t : Token) (bs : List Token)
    (h : NestedFrom o d (t :: bs)) : t.value = o.delim2 → 0 < d := by
  intro ht
  have := h 0 (by simp) (by simpa using ht)
  simpa [closes, opens] using this

theorem nestedFrom_tail (o : CodeBlockParserOptions) (d d' : Nat) (t : Token) (bs : List Token)
    (h : NestedFrom o d (t :: bs)) (hd : d' + closes o [t] = d + opens o [t]) :
    NestedFrom o d' bs := by
  intro k hk hv
  have := h (k + 1) (by simpa using hk) (by simpa using hv)
  simp only [closes, opens, List.take_succ_cons, List.countP_cons, List.countP_nil,
    zero_add] at this hd ⊢
  omega

theorem readNextBlockLoop_body (o : CodeBlockParserOptions) (rest : List Token)
    (bs : List Token) :
    ∀ (previous : Token) (s : DSLBase) (acc : BlockAcc),
      NestedFrom o acc.openedBlock bs → SemiColonFree o bs →
      acc.openedBlock + bs.length < uintRange → acc.currentLine = previous.line →
      ∃ acc', readNextBlockLoop o (bs ++ rest) previous s acc
          = readNextBlockLoop o rest (lastToken previous bs)
              { s with current := s.current + bs.length,
                       analysed := s.analysed ++ analysedWords o bs } acc'
        ∧ acc'.b.code = acc.b.code ++ concatAll (blockChunks o s false previous bs)
        ∧ acc'.openedBlock + closes o bs = acc.openedBlock + opens o bs
        ∧ acc'.currentLine = (lastToken previous bs).line := by
  induction bs with
  | nil =>
    intro previous s acc _ _ _ hl
    exact ⟨acc, by simp [analysedWords, lastToken], by simp [blockChunks, concatAll],
      by simp [closes, opens], hl⟩
  | cons t bs ih =>
    intro previous s acc hn hs hb hl
    have hexit : ¬ (t.value = o.delim2 ∧ acc.openedBlock = 0) := by
      rintro ⟨h1, h2⟩
      have := nestedFrom_head o _ t bs hn h1
      omega
    have hsemi : ¬ (t.value = ";" ∧ o.allowSemiColon = false) := by
      rintro ⟨h1, h2⟩
      rcases hs with h | h
      · simp [h] at h2
      · exact h t (by simp) h1
    have hstep := treatToken_openedBlock o s previous t (lineChange o s t acc)
      (by rw [lineChange_openedBlock]; simp only [List.length_cons] at hb; omega)
      (by rw [lineChange_openedBlock]; exact nestedFrom_head o _ t bs hn)
    rw [lineChange_openedBlock] at hstep
    have hs' : SemiColonFree o bs := by
      rcases hs with h | h
      · exact Or.inl h
      · exact Or.inr (fun x hx => h x (by simp [hx]))
    obtain ⟨acc', e, hc, ho, hcl⟩ := ih t
      { analyse o s t.value with current := (analyse o s t.value).current + 1 }
      (treatToken o s previous t (lineChange o s t acc))
      (nestedFrom_tail o _ _ t bs hn hstep) hs'
      (by
        have h1 : opens o [t] ≤ 1 := by
          unfold opens
          exact List.countP_le_length _
        simp only [List.length_cons] at hb
        omega)
      (by rw [treatToken_currentLine, lineChange_currentLine])
    refine ⟨acc', ?_, ?_, ?_, ?_⟩
    · rw [List.cons_append, readNextBlockLoop, if_neg hexit]
      simp only [if_neg hsemi]
      rw [e]
      have hst : ({ ({ analyse o s t.value with
              current := (analyse o s t.value).current + 1 } : DSLBase) with
            current := ({ analyse o s t.value with
              current := (analyse o s t.value).current + 1 } : DSLBase).current + bs.length,
            analysed := ({ analyse o s t.value with
              current := (analyse o s t.value).current + 1 } : DSLBase).analysed
                ++ analysedWords o bs } : DSLBase)
          = { s with current := s.current + (t :: bs).length,
                     analysed := s.analysed ++ analysedWords o (t :: bs) } := by
        rw [analysedWords_cons o t bs, analyse_eq]
        simp [Nat.add_assoc, Nat.add_comm 1]
      rw [hst]
      rfl
    · rw [hc, treatToken_code, lineChange_code o s previous t acc hl]
      rw [blockChunks_congr o s _ (by rw [analyse_eq]) (by rw [analyse_eq]) (by rw [analyse_eq])]
      simp [blockChunks, concatAll, blockChunk, String.append_assoc]
    · have e1 : closes o (t :: bs) = closes o [t] + closes o bs := by
        simp [closes, List.countP_cons, Nat.add_comm]
      have e2 : opens o (t :: bs) = opens o [t] + opens o bs := by
        simp [opens, List.countP_cons, Nat.add_comm]
      omega
    · exact hcl

theorem cur_eq (s : DSLBase) (pre : List Token) (t : Token) (post : List Token)
    (h1 : s.tokens = pre ++ t :: post) (h2 : s.current = pre.length) : s.cur = t := by
  simp only [DSLBase.cur, h1, h2, List.getD_eq_getElem?_getD]
  rw [List.getElem?_append_right (Nat.le_refl _)]
  simp

theorem prev_eq (s : DSLBase) (pre : List Token) (t : Token) (post : List Token)
    (h1 : s.tokens = pre ++ t :: post) (h2 : s.current = pre.length + 1) : s.prev = t := by
  simp only [DSLBase.prev, h1, h2, List.getD_eq_getElem?_getD, Nat.add_sub_cancel]
  rw [List.getElem?_append_right (Nat.le_refl _)]
  simp

theorem checkNotEndOfFile_ok (s : DSLBase) (method error : String)
    (h : s.current < s.tokens.length) : checkNotEndOfFile s method error = .ok () := by
  unfold checkNotEndOfFile
  rw [if_neg (by omega)]

theorem readSpecifiedToken_ok (s : DSLBase) (m v : String) (h : s.current < s.tokens.length)
    (hv : s.cur.value = v) :
    readSpecifiedToken s m v = .ok ((), { s with current := s.current + 1 }) := by
  unfold readSpecifiedToken
  rw [checkNotEndOfFile_ok s m _ h]
  simp [hv]

theorem treatFirstToken_code (o : CodeBlockParserOptions) (s : DSLBase) (t : Token)
    (b : CodeBlock) (n : Nat) (hb : b.code = "") :
    (treatFirstToken o s t b n).b.code = blockChunk o s true s.prev t := by
  by_cases h : o.registerLine = true ∧ s.debugMode = false
  · simp [treatFirstToken, emitFirstToken_code, blockChunk, lineSeparator, markersOn, h]
  · simp only [treatFirstToken, emitFirstToken_code, blockChunk, lineSeparator, markersOn,
      if_neg h, hb, if_true]

/-- The state once the opening delimiter and the tokens `body` are read. -/
theorem readNextBlock_body (s : DSLBase) (o : CodeBlockParserOptions) (pre : List Token)
    (op t0 : Token) (bs rest : List Token) (h : BlockAt s o pre op (t0 :: bs) rest)
    (hs : SemiColonFree o (t0 :: bs)) :
    ∃ acc, readNextBlock s o
        = readNextBlockLoop o rest (lastToken t0 bs)
            { s with current := pre.length + (bs.length + 2),
                     analysed := s.analysed ++ analysedWords o (t0 :: bs) } acc
      ∧ acc.b.code = blockCode o s op (t0 :: bs)
      ∧ acc.openedBlock + closes o (t0 :: bs) = opens o (t0 :: bs)
      ∧ acc.currentLine = (lastToken t0 bs).line := by
  obtain ⟨htok, hcur, hop, hn, hb⟩ := h
  have hlen : s.tokens.length = pre.length + (bs.length + rest.length + 2) := by
    rw [htok]
    simp only [List.length_append, List.length_cons]
    omega
  have hn0 : NestedFrom o 0 (t0 :: bs) := by
    intro k hk hv
    have := hn k hk hv
    omega
  have ht0 : t0.value ≠ o.delim2 := by
    intro h0
    have := nestedFrom_head o 0 t0 bs hn0 h0
    omega
  have hsemi : ¬ (t0.value = ";" ∧ o.allowSemiColon = false) := by
    rintro ⟨h1, h2⟩
    rcases hs with h | h
    · simp [h] at h2
    · exact h t0 (by simp) h1
  have hs' : SemiColonFree o bs := by
    rcases hs with h | h
    · exact Or.inl h
    · exact Or.inr (fun x hx => h x (by simp [hx]))
  have hr : readSpecifiedToken s "DSLBase::readNextBlock" o.delim1
      = .ok ((), { s with current := s.current + 1 }) :=
    readSpecifiedToken_ok s _ _ (by omega)
      (by rw [cur_eq s pre op _ htok hcur]; exact hop)
  have hc1 : ({ s with current := s.current + 1 } : DSLBase).cur = t0 :=
    cur_eq _ (pre ++ [op]) t0 (bs ++ rest) (by simp [htok]) (by simp [hcur])
  have hp1 : ({ s with current := s.current + 1 } : DSLBase).prev = op :=
    prev_eq _ pre op (t0 :: bs ++ rest) (by simp [htok]) (by simp [hcur])
  have hdrop : s.tokens.drop (s.current + 1 + 1) = bs ++ rest := by
    rw [htok, hcur]
    have : pre.length + 1 + 1 = (pre ++ [op, t0]).length := by simp
    rw [this]
    have e : pre ++ op :: (t0 :: bs ++ rest) = (pre ++ [op, t0]) ++ (bs ++ rest) := by simp
    rw [e, List.drop_left]
  set d0 : Nat := if t0.value = o.delim1 then (0 + 1) % uintRange else 0 with hd0
  have hd0' : d0 + closes o [t0] = 0 + opens o [t0] := by
    simp only [hd0, closes, opens, List.countP_cons, List.countP_nil, decide_eq_true_eq,
      zero_add, uintRange, if_neg ht0]
    split_ifs <;> rfl
  obtain ⟨acc, e, hc, ho, hcl⟩ := readNextBlockLoop_body o rest bs t0
    { analyse o ({ s with current := s.current + 1 } : DSLBase) t0.value with
      current := (analyse o ({ s with current := s.current + 1 } : DSLBase) t0.value).current
        + 1 }
    (treatFirstToken o { s with current := s.current + 1 } t0 (initialBlock s) d0)
    (nestedFrom_tail o 0 d0 t0 bs hn0 hd0') hs'
    (by
      have h1 : opens o [t0] ≤ 1 := by
        unfold opens
        exact List.countP_le_length _
      show d0 + bs.length < uintRange
      omega)
    rfl
  refine ⟨acc, ?_, ?_, ?_, ?_⟩
  · unfold readNextBlock
    simp only [hr]
    rw [checkNotEndOfFile_ok _ _ _ (by show s.current + 1 < s.tokens.length; omega)]
    simp only [hc1, if_neg hsemi, if_neg ht0]
    show readNextBlockLoop o (s.tokens.drop (s.current + 1 + 1)) t0 _ _ = _
    rw [hdrop, ← hd0, e, analyse_eq, analysedWords_cons o t0 bs, hcur]
    simp only [Nat.add_assoc, Nat.add_comm 1, List.append_assoc]
  · rw [hc, treatFirstToken_code _ _ _ _ _ rfl, hp1]
    rw [blockChunks_congr o s _ (by rw [analyse_eq]) (by rw [analyse_eq]) (by rw [analyse_eq])]
    rw [blockChunk_congr o s { s with current := s.current + 1 } rfl rfl rfl]
    simp [blockCode, blockChunks, concatAll]
  · have e1 : closes o (t0 :: bs) = closes o [t0] + closes o bs := by
      simp [closes, List.countP_cons, Nat.add_comm]
    have e2 : opens o (t0 :: bs) = opens o [t0] + opens o bs := by
      simp [opens, List.countP_cons, Nat.add_comm]
    have e3 : (treatFirstToken o { s with current := s.current + 1 } t0 (initialBlock s)
        d0).openedBlock = d0 := rfl
    omega
  · exact hcl

/-- A closed block is read: the cursor ends after the closing delimiter and the
code is the code of the body. -/
theorem readNextBlock_closed (s : DSLBase) (o : CodeBlockParserOptions) (pre : List Token)
    (op : Token) (body : List Token) (cl : Token) (post : List Token)
    (h : ClosedBlockAt s o pre op body cl post) :
    ∃ b, readNextBlock s o = .ok (b, afterBlock s o pre body)
      ∧ b.code = blockCode o s op body := by
  obtain ⟨hblock, hcl, hbal, hs, hca⟩ := h
  cases body with
  | nil =>
    obtain ⟨htok, hcur, hop, -, -⟩ := hblock
    have hlen : s.tokens.length = pre.length + (post.length + 2) := by
      rw [htok]
      simp only [List.length_append, List.length_cons, List.length_nil]
      omega
    have hr : readSpecifiedToken s "DSLBase::readNextBlock" o.delim1
        = .ok ((), { s with current := s.current + 1 }) :=
      readSpecifiedToken_ok s _ _ (by omega)
        (by rw [cur_eq s pre op _ htok hcur]; exact hop)
    have hc1 : ({ s with current := s.current + 1 } : DSLBase).cur = cl :=
      cur_eq _ (pre ++ [op]) cl post (by simp [htok]) (by simp [hcur])
    have hsemi : ¬ (cl.value = ";" ∧ o.allowSemiColon = false) := by
      rw [hcl]
      exact hca rfl
    refine ⟨initialBlock s, ?_, rfl⟩
    unfold readNextBlock
    simp only [hr]
    rw [checkNotEndOfFile_ok _ _ _ (by show s.current + 1 < s.tokens.length; omega)]
    simp only [hc1, if_neg hsemi, if_pos hcl]
    simp [afterBlock, analysedWords, hcur]
  | cons t0 bs =>
    obtain ⟨acc, e, hc, ho, -⟩ := readNextBlock_body s o pre op t0 bs (cl :: post) hblock hs
    have hz : acc.openedBlock = 0 := by omega
    refine ⟨acc.b, ?_, hc⟩
    rw [e, readNextBlockLoop, if_pos ⟨hcl, hz⟩]
    simp [afterBlock, Nat.add_assoc]

theorem append_ne_empty (a b : String) (h : a ≠ "") : a ++ b ≠ "" := by
  intro e
  apply h
  have e1 := congrArg String.data e
  rw [String.data_append] at e1
  have e2 : a.data = [] := (List.append_eq_nil.mp e1).1
  exact String.ext e2

theorem throwRuntimeError_eq (s : DSLBase) (method m : String) (hm : m ≠ "")
    (ht : s.current < s.tokens.length) :
    throwRuntimeError s method m
      = ⟨method ++ ": " ++ m ++ "\nError at line " ++ toString s.cur.line, s⟩ := by
  have hne : s.tokens ≠ [] := by
    intro e
    rw [e] at ht
    simp at ht
  unfold throwRuntimeError
  simp only [if_pos hm, if_pos hne, if_neg (Nat.not_le.mpr ht), DSLBase.cur]

theorem lastToken_eq_getD (t0 : Token) (bs : List Token) :
    (t0 :: bs).getD bs.length default = lastToken t0 bs := by
  induction bs generalizing t0 with
  | nil => rfl
  | cons t ts ih =>
    have := ih t
    simpa [lastToken] using this

theorem cur_last (s : DSLBase) (pre : List Token) (op t0 : Token) (bs : List Token)
    (h1 : s.tokens = pre ++ op :: (t0 :: bs)) (h2 : s.current = pre.length + bs.length + 1) :
    s.cur = lastToken t0 bs := by
  rw [← lastToken_eq_getD]
  simp only [DSLBase.cur, h1, h2, List.getD_eq_getElem?_getD]
  rw [List.getElem?_append_right (by omega)]
  have : pre.length + bs.length + 1 - pre.length = bs.length + 1 := by omega
  rw [this]
  simp

theorem nestedClosings_append (o : CodeBlockParserOptions) (l1 l2 : List Token)
    (h : NestedClosings o (l1 ++ l2)) : NestedClosings o l1 := by
  intro k hk hv
  have h1 := h k (by simp only [List.length_append]; omega)
  have e1 : (l1 ++ l2).getD k default = l1.getD k default := by
    simp only [List.getD_eq_getElem?_getD]
    rw [List.getElem?_append_left hk]
  have e2 : (l1 ++ l2).take k = l1.take k := by
    rw [List.take_append_of_le_length (by omega)]
  rw [e1, e2] at h1
  exact h1 hv

/-- The end of the tokens is met in a block that is not empty: the error cites
the number of blocks that are opened. -/
theorem readNextBlock_unclosed (s : DSLBase) (o : CodeBlockParserOptions) (pre : List Token)
    (op t0 : Token) (bs : List Token) (h : BlockAt s o pre op (t0 :: bs) [])
    (hs : SemiColonFree o (t0 :: bs)) :
    readNextBlock s o
      = .error ⟨"DSLBase::readNextBlock: Expected the end of a block.\nNumber of block opened : "
            ++ toString (opens o (t0 :: bs) - closes o (t0 :: bs))
            ++ "\nError at line " ++ toString (lastToken t0 bs).line,
          { s with current := pre.length + bs.length + 1,
                   analysed := s.analysed ++ analysedWords o (t0 :: bs) }⟩ := by
  obtain ⟨acc, e, -, ho, -⟩ := readNextBlock_body s o pre op t0 bs [] h hs
  have hk : acc.openedBlock = opens o (t0 :: bs) - closes o (t0 :: bs) := by omega
  have htok : s.tokens = pre ++ op :: (t0 :: bs) := by
    have := h.tokens_eq
    simpa using this
  have hc : pre.length + (bs.length + 2) - 1 = pre.length + bs.length + 1 := by omega
  rw [e, readNextBlockLoop, hk]
  dsimp only
  rw [hc]
  rw [throwRuntimeError_eq _ _ _ (append_ne_empty _ _ (by decide))
    (by
      show pre.length + bs.length + 1 < s.tokens.length
      rw [htok]
      simp only [List.length_append, List.length_cons]
      omega)]
  have hlast := cur_last
    ({ s with
        current := pre.length + bs.length + 1,
        analysed := s.analysed ++ analysedWords o (t0 :: bs) } : DSLBase)
    pre op t0 bs htok rfl
  rw [hlast]
  have hm : "DSLBase::readNextBlock" ++ ": "
      ++ ("Expected the end of a block.\nNumber of block opened : "
        ++ toString (opens o (t0 :: bs) - closes o (t0 :: bs)))
      = "DSLBase::readNextBlock: Expected the end of a block.\nNumber of block opened : "
        ++ toString (opens o (t0 :: bs) - closes o (t0 :: bs)) := by
    rw [← String.append_assoc]
    rfl
  rw [hm]

/-- The tokens end with the opening delimiter: the error is the one of
`checkNotEndOfFile`. -/
theorem readNextBlock_no_token (s : DSLBase) (o : CodeBlockParserOptions) (pre : List Token)
    (op : Token) (h : BlockAt s o pre op [] []) :
    readNextBlock s o
      = .error ⟨"DSLBase::readNextBlock: unexpected end of file.\nExpected a '" ++ o.delim2
            ++ "'.\nError at line " ++ toString op.line
            ++ "\nError at line " ++ toString op.line,
          { s with current := pre.length + 1 }⟩ := by
  obtain ⟨htok, hcur, hop, -, -⟩ := h
  have htok' : s.tokens = pre ++ [op] := by simpa using htok
  have hlen : s.tokens.length = pre.length + 1 := by
    rw [htok']
    simp
  have hne : s.tokens ≠ [] := by
    intro e
    rw [e] at hlen
    simp at hlen
  have hr : readSpecifiedToken s "DSLBase::readNextBlock" o.delim1
      = .ok ((), { s with current := s.current + 1 }) :=
    readSpecifiedToken_ok s _ _ (by omega)
      (by rw [cur_eq s pre op [] htok' hcur]; exact hop)
  have hp1 : ({ s with current := pre.length + 1 } : DSLBase).prev = op :=
    prev_eq _ pre op [] htok' rfl
  have hlast : s.tokens.getD (s.tokens.length - 1) default = op := by
    rw [htok']
    simp [List.getD_eq_getElem?_getD]
  have hm1 : ("Expected a '" ++ o.delim2 ++ "'.") ≠ "" := by
    rw [String.append_assoc]
    exact append_ne_empty _ _ (by decide)
  have hm2 : ("unexpected end of file." ++ "\n" ++ ("Expected a '" ++ o.delim2 ++ "'.")
      ++ "\nError at line " ++ toString op.line) ≠ "" := by
    rw [String.append_assoc, String.append_assoc, String.append_assoc]
    exact append_ne_empty _ _ (by decide)
  unfold readNextBlock
  simp only [hr, hcur]
  unfold checkNotEndOfFile endOfFileFailure
  rw [if_pos (by show s.tokens.length ≤ pre.length + 1; omega)]
  simp only [if_pos hm1, hp1]
  rw [if_pos (by exact hne)]
  unfold throwRuntimeError
  simp only [if_pos hm2]
  rw [if_pos (by exact hne), if_pos (by show s.tokens.length ≤ pre.length + 1; omega)]
  have hlast' : ({ s with current := pre.length + 1 } : DSLBase).tokens.getD
      (({ s with current := pre.length + 1 } : DSLBase).tokens.length - 1) default = op := hlast
  rw [hlast']
  have hm : "DSLBase::readNextBlock" ++ ": "
      ++ ("unexpected end of file." ++ "\n" ++ ("Expected a '" ++ o.delim2 ++ "'.")
        ++ "\nError at line " ++ toString op.line)
      ++ "\nError at line " ++ toString op.line
      = "DSLBase::readNextBlock: unexpected end of file.\nExpected a '" ++ o.delim2
        ++ "'.\nError at line " ++ toString op.line
        ++ "\nError at line " ++ toString op.line := by
    have hlit : "DSLBase::readNextBlock: unexpected end of file.\nExpected a '"
        = "DSLBase::readNextBlock" ++ (": " ++ ("unexpected end of file."
          ++ ("\n" ++ "Expected a '"))) := by decide
    have hlit2 : "'.\nError at line " = "'." ++ "\nError at line " := by decide
    rw [hlit, hlit2]
    simp only [String.append_assoc]
  rw [hm]

theorem semicolon_message (k line : Nat) :
    "DSLBase::readNextBlock" ++ ": "
      ++ ("read ';' before the end of block.\nNumber of block opened : " ++ toString k)
      ++ "\nError at line " ++ toString line
      = "DSLBase::readNextBlock: read ';' before the end of block.\nNumber of block opened : "
        ++ toString k ++ "\nError at line " ++ toString line := by
  have hlit : "DSLBase::readNextBlock: read ';' before the end of block.\nNumber of block opened : "
      = "DSLBase::readNextBlock" ++ (": "
        ++ "read ';' before the end of block.\nNumber of block opened : ") := by decide
  rw [hlit]
  simp only [String.append_assoc]

/-- A forbidden `;` is met in the body of a block: the error cites the number
of blocks that are opened at this `;`. -/
theorem readNextBlock_forbidden (s : DSLBase) (o : CodeBlockParserOptions) (pre : List Token)
    (op : Token) (bs : List Token) (semi : Token) (post : List Token)
    (h : BlockAt s o pre op (bs ++ [semi]) post) (hv : semi.value = ";")
    (hf : o.allowSemiColon = false) (hfirst : ∀ t ∈ bs, t.value ≠ ";") :
    readNextBlock s o
      = .error ⟨"DSLBase::readNextBlock: read ';' before the end of block.\nNumber of block opened : "
            ++ toString (opens o bs - closes o bs)
            ++ "\nError at line " ++ toString semi.line,
          { s with current := pre.length + bs.length + 1,
                   analysed := s.analysed ++ analysedWords o bs }⟩ := by
  obtain ⟨htok, hcur, hop, hn, hb⟩ := h
  have htok' : s.tokens = pre ++ op :: (bs ++ semi :: post) := by
    simpa using htok
  have hlen : s.tokens.length = pre.length + (bs.length + post.length + 2) := by
    rw [htok']
    simp only [List.length_append, List.length_cons]
    omega
  have hsemi : semi.value = ";" ∧ o.allowSemiColon = false := ⟨hv, hf⟩
  cases bs with
  | nil =>
    have hr : readSpecifiedToken s "DSLBase::readNextBlock" o.delim1
        = .ok ((), { s with current := s.current + 1 }) :=
      readSpecifiedToken_ok s _ _ (by omega)
        (by rw [cur_eq s pre op _ htok' hcur]; exact hop)
    have hc1 : ({ s with current := s.current + 1 } : DSLBase).cur = semi :=
      cur_eq _ (pre ++ [op]) semi post (by simp [htok']) (by simp [hcur])
    unfold readNextBlock
    simp only [hr]
    rw [checkNotEndOfFile_ok _ _ _ (by show s.current + 1 < s.tokens.length; omega)]
    simp only [hc1, if_pos hsemi]
    rw [throwRuntimeError_eq _ _ _ (append_ne_empty _ _ (by decide))
      (by show s.current + 1 < s.tokens.length; omega), hc1, semicolon_message]
    simp [analysedWords, opens, closes, hcur]
  | cons t0 bs =>
    simp only [List.length_cons] at hlen
    have hblock : BlockAt s o pre op (t0 :: bs) (semi :: post) :=
      ⟨htok', hcur, hop, nestedClosings_append o (t0 :: bs) [semi] hn, hb⟩
    obtain ⟨acc, e, -, ho, -⟩ := readNextBlock_body s o pre op t0 bs (semi :: post) hblock
      (Or.inr hfirst)
    have hk : acc.openedBlock = opens o (t0 :: bs) - closes o (t0 :: bs) := by omega
    have hexit : ¬ (semi.value = o.delim2 ∧ acc.openedBlock = 0) := by
      rintro ⟨h1, h2⟩
      have h3 := hn (t0 :: bs).length (by simp)
        (by
          simp only [List.getD_eq_getElem?_getD]
          rw [List.getElem?_append_right (Nat.le_refl _)]
          simpa using h1)
      rw [List.take_left] at h3
      omega
    have hcs : ({ s with
          current := pre.length + (bs.length + 2),
          analysed := s.analysed ++ analysedWords o (t0 :: bs) } : DSLBase).cur = semi :=
      cur_eq _ (pre ++ op :: t0 :: bs) semi post (by simp [htok'])
        (by
          show pre.length + (bs.length + 2) = _
          simp only [List.length_append, List.length_cons])
    rw [e, readNextBlockLoop, if_neg hexit]
    simp only [if_pos hsemi, lineChange_openedBlock]
    rw [throwRuntimeError_eq _ _ _ (append_ne_empty _ _ (by decide))
      (by show pre.length + (bs.length + 2) < s.tokens.length; omega), hcs, semicolon_message,
      hk]
    simp only [List.length_cons]
    have hc : pre.length + (bs.length + 2) = pre.length + (bs.length + 1) + 1 := by omega
    rw [hc]

theorem blockChunks_getElem? (o : CodeBlockParserOptions) (s : DSLBase) (body : List Token) :
    ∀ (first : Bool) (op : Token) (i : Nat) (p t : Token),
      (op :: body)[i]? = some p → body[i]? = some t →
      (blockChunks o s first op body)[i]? = some (blockChunk o s (first && decide (i = 0)) p t) := by
  induction body with
  | nil =>
    intro first op i p t _ h2
    simp at h2
  | cons t' ts ih =>
    intro first op i p t h1 h2
    cases i with
    | zero =>
      simp only [List.getElem?_cons_zero, Option.some.injEq] at h1 h2
      subst h1 h2
      simp [blockChunks]
    | succ j =>
      simp only [List.getElem?_cons_succ] at h1 h2
      have := ih false t' j p t h1 h2
      simpa [blockChunks] using this

theorem concatAll_append (l1 l2 : List String) :
    concatAll (l1 ++ l2) = concatAll l1 ++ concatAll l2 := by
  induction l1 with
  | nil => simp [concatAll]
  | cons x xs ih => simp [concatAll, ih, String.append_assoc]

theorem emittedWord_plain (o : CodeBlockParserOptions) (s : DSLBase) (first : Bool)
    (previous t : Token) (h1 : t.value ∉ o.smn) (h2 : t.value ∉ o.mn) :
    emittedWord o s first previous t = t.value := by
  simp [emittedWord, h1, h2]

theorem blockChunks_copied (o : CodeBlockParserOptions) (s : DSLBase) (body : List Token) :
    ∀ (first : Bool) (previous : Token),
      (∀ t ∈ body, t.value ∉ o.smn ∧ t.value ∉ o.mn) →
      concatAll (blockChunks o s first previous body)
        = renderPieces s (copiedPieces (decide (markersOn o s)) first previous body) := by
  induction body with
  | nil =>
    intro first previous _
    cases first <;> rfl
  | cons t ts ih =>
    intro first previous h
    have ht := h t (by simp)
    have hts : ∀ x ∈ ts, x.value ∉ o.smn ∧ x.value ∉ o.mn := fun x hx => h x (by simp [hx])
    have e := ih false t hts
    unfold renderPieces at e
    cases first with
    | true =>
      by_cases hm : markersOn o s
      · simp only [hm, decide_True] at e
        simp [blockChunks, blockChunk, concatAll, copiedPieces, renderPieces, lineSeparator,
          Piece.render, hm, emittedWord_plain o s _ _ t ht.1 ht.2, e,
          String.append_assoc]
      · simp only [hm, decide_False] at e
        simp [blockChunks, blockChunk, concatAll, copiedPieces, renderPieces, lineSeparator,
          Piece.render, hm, emittedWord_plain o s _ _ t ht.1 ht.2, e,
          String.append_assoc]
    | false =>
      by_cases hm : markersOn o s
      · simp only [hm, decide_True] at e
        by_cases hl : previous.line = t.line
        · simp [blockChunks, blockChunk, concatAll, copiedPieces, renderPieces, lineSeparator,
            Piece.render, hm, hl, emittedWord_plain o s _ _ t ht.1 ht.2, e,
            String.append_assoc]
        · simp [blockChunks, blockChunk, concatAll, copiedPieces, renderPieces, lineSeparator,
            Piece.render, hm, hl, emittedWord_plain o s _ _ t ht.1 ht.2, e,
            String.append_assoc]
      · simp only [hm, decide_False] at e
        by_cases hl : previous.line = t.line
        · simp [blockChunks, blockChunk, concatAll, copiedPieces, renderPieces, lineSeparator,
            Piece.render, hm, hl, emittedWord_plain o s _ _ t ht.1 ht.2, e,
            String.append_assoc]
        · simp [blockChunks, blockChunk, concatAll, copiedPieces, renderPieces, lineSeparator,
            Piece.render, hm, hl, emittedWord_plain o s _ _ t ht.1 ht.2, e,
            String.append_assoc]

theorem isMarker_marker (line : Nat) : (Piece.marker line).isMarker = true := rfl

theorem isMarker_text (str : String) : (Piece.text str).isMarker = false := rfl

theorem copiedPieces_filter (markers : Bool) (body : List Token) :
    ∀ (first : Bool) (previous : Token),
      (copiedPieces markers first previous body).filter (fun p => !p.isMarker)
        = copiedPieces false first previous body := by
  induction body with
  | nil =>
    intro first previous
    cases first <;> rfl
  | cons t ts ih =>
    intro first previous
    cases first with
    | true =>
      cases markers <;>
        simp [copiedPieces, isMarker_marker, isMarker_text, ih, List.filter_cons]
    | false =>
      by_cases hl : previous.line = t.line
      · cases markers <;>
          simp [copiedPieces, isMarker_marker, isMarker_text, ih, hl, List.filter_cons]
      · cases markers <;>
          simp [copiedPieces, isMarker_marker, isMarker_text, ih, hl, List.filter_cons]

theorem copiedPieces_text (s : DSLBase) (body : List Token) :
    ∀ (first : Bool) (previous : Token),
      renderPieces s (copiedPieces false first previous body) = copiedText first previous body := by
  induction body with
  | nil =>
    intro first previous
    cases first <;> rfl
  | cons t ts ih =>
    intro first previous
    have := ih false t
    unfold renderPieces at this
    cases first with
    | true =>
      simp [copiedPieces, copiedText, renderPieces, concatAll, Piece.render, this,
        String.append_assoc]
    | false =>
      by_cases hl : previous.line = t.line
      · simp [copiedPieces, copiedText, renderPieces, concatAll, Piece.render, this, hl,
          String.append_assoc]
      · simp [copiedPieces, copiedText, renderPieces, concatAll, Piece.render, this, hl,
          String.append_assoc]

/-! ## The record of the analysed words, the frame and the cursor -/

theorem throwRuntimeError_analysed (s : DSLBase) (a : List String) (method m : String) :
    throwRuntimeError { s with analysed := a } method m
      = { throwRuntimeError s method m with
          state := { (throwRuntimeError s method m).state with analysed := a } } := rfl

theorem readNextBlockLoop_analysed (o : CodeBlockParserOptions) (rest : List Token) :
    ∀ (previous : Token) (s : DSLBase) (acc : BlockAcc) (a : List String),
      forgetResult (readNextBlockLoop o rest previous { s with analysed := a } acc)
        = forgetResult (readNextBlockLoop o rest previous s acc) := by
  induction rest with
  | nil =>
    intro previous s acc a
    rfl
  | cons t rest ih =>
    intro previous s acc a
    rw [readNextBlockLoop, readNextBlockLoop]
    by_cases h1 : t.value = o.delim2 ∧ acc.openedBlock = 0
    · rw [if_pos h1, if_pos h1]
      rfl
    · rw [if_neg h1, if_neg h1]
      by_cases h2 : t.value = ";" ∧ o.allowSemiColon = false
      · simp only [if_pos h2]
        rfl
      · simp only [if_neg h2]
        have e1 : ({ analyse o { s with analysed := a } t.value with
              current := (analyse o { s with analysed := a } t.value).current + 1 } : DSLBase)
            = { ({ analyse o s t.value with
                  current := (analyse o s t.value).current + 1 } : DSLBase) with
                analysed := a ++ analysedWords o [t] } := by
          rw [analyse_eq, analyse_eq]
        have e2 : treatToken o { s with analysed := a } previous t
              (lineChange o { s with analysed := a } t acc)
            = treatToken o s previous t (lineChange o s t acc) := rfl
        rw [e1, e2, ih]

theorem checkNotEndOfFile_analysed (s : DSLBase) (a : List String) (method error : String) :
    checkNotEndOfFile { s with analysed := a } method error
      = match checkNotEndOfFile s method error with
        | .ok u => .ok u
        | .error f => .error { f with state := { f.state with analysed := a } } := by
  unfold checkNotEndOfFile
  by_cases h0 : s.tokens.length ≤ s.current
  · have h0' : ({ s with analysed := a } : DSLBase).tokens.length
        ≤ ({ s with analysed := a } : DSLBase).current := h0
    rw [if_pos h0, if_pos h0']
    rfl
  · have h0' : ¬ ({ s with analysed := a } : DSLBase).tokens.length
        ≤ ({ s with analysed := a } : DSLBase).current := h0
    rw [if_neg h0, if_neg h0']

theorem readSpecifiedToken_analysed (s : DSLBase) (a : List String) (m v : String) :
    readSpecifiedToken { s with analysed := a } m v
      = match readSpecifiedToken s m v with
        | .ok (u, s1) => .ok (u, { s1 with analysed := a })
        | .error f => .error { f with state := { f.state with analysed := a } } := by
  unfold readSpecifiedToken
  rw [checkNotEndOfFile_analysed]
  cases checkNotEndOfFile s m ("expected '" ++ v ++ "'.") with
  | error f => rfl
  | ok u =>
    by_cases hv : s.cur.value = v
    · have hv' : ¬ ({ s with analysed := a } : DSLBase).cur.value ≠ v := not_not.mpr hv
      have hv'' : ¬ s.cur.value ≠ v := not_not.mpr hv
      simp only [if_neg hv', if_neg hv'']
    · have hv' : ({ s with analysed := a } : DSLBase).cur.value ≠ v := hv
      simp only [if_pos hv', if_pos hv]
      rfl

theorem readNextBlock_analysed (s : DSLBase) (o : CodeBlockParserOptions) (a : List String) :
    forgetResult (readNextBlock { s with analysed := a } o)
      = forgetResult (readNextBlock s o) := by
  unfold readNextBlock
  rw [readSpecifiedToken_analysed]
  cases readSpecifiedToken s "DSLBase::readNextBlock" o.delim1 with
  | error f => rfl
  | ok r =>
    obtain ⟨u, s1⟩ := r
    simp only []
    rw [checkNotEndOfFile_analysed]
    cases checkNotEndOfFile s1 "DSLBase::readNextBlock" ("Expected a '" ++ o.delim2 ++ "'.") with
    | error f => rfl
    | ok u' =>
      simp only []
      have hc : ({ s1 with analysed := a } : DSLBase).cur = s1.cur := rfl
      rw [hc]
      by_cases h2 : s1.cur.value = ";" ∧ o.allowSemiColon = false
      · simp only [if_pos h2]
        rfl
      · simp only [if_neg h2]
        by_cases h3 : s1.cur.value = o.delim2
        · simp only [if_pos h3]
          rfl
        · simp only [if_neg h3]
          have e1 : ({ analyse o { s1 with analysed := a } s1.cur.value with
                current := (analyse o { s1 with analysed := a } s1.cur.value).current + 1 }
                  : DSLBase)
              = { ({ analyse o s1 s1.cur.value with
                    current := (analyse o s1 s1.cur.value).current + 1 } : DSLBase) with
                  analysed := a ++ analysedWords o [s1.cur] } := by
            rw [analyse_eq, analyse_eq]
          rw [e1]
          exact readNextBlockLoop_analysed o _ _ _ _ _

theorem readNextBlockLoop_frame (o : CodeBlockParserOptions) (rest : List Token) :
    ∀ (previous : Token) (s : DSLBase) (acc : BlockAcc) (b : CodeBlock) (s1 : DSLBase),
      readNextBlockLoop o rest previous s acc = .ok (b, s1) → s1.frame = s.frame := by
  induction rest with
  | nil =>
    intro previous s acc b s1 h
    rw [readNextBlockLoop] at h
    cases h
  | cons t rest ih =>
    intro previous s acc b s1 h
    rw [readNextBlockLoop] at h
    by_cases h1 : t.value = o.delim2 ∧ acc.openedBlock = 0
    · rw [if_pos h1] at h
      cases h
      rfl
    · rw [if_neg h1] at h
      by_cases h2 : t.value = ";" ∧ o.allowSemiColon = false
      · simp only [if_pos h2] at h
        cases h
      · simp only [if_neg h2] at h
        rw [ih _ _ _ _ _ h, analyse_eq]
        rfl

theorem readSpecifiedToken_frame (s : DSLBase) (m v : String) (u : Unit) (s1 : DSLBase)
    (h : readSpecifiedToken s m v = .ok (u, s1)) :
    s1 = { s with current := s.current + 1 } := by
  unfold readSpecifiedToken at h
  cases hc : checkNotEndOfFile s m ("expected '" ++ v ++ "'.") with
  | error f =>
    rw [hc] at h
    cases h
  | ok u' =>
    rw [hc] at h
    by_cases hv : s.cur.value ≠ v
    · simp only [if_pos hv] at h
      cases h
    · simp only [if_neg hv] at h
      cases h
      rfl

theorem readNextBlock_frame (s : DSLBase) (o : CodeBlockParserOptions) (b : CodeBlock)
    (s1 : DSLBase) (h : readNextBlock s o = .ok (b, s1)) : s1.frame = s.frame := by
  unfold readNextBlock at h
  cases hr : readSpecifiedToken s "DSLBase::readNextBlock" o.delim1 with
  | error f =>
    rw [hr] at h
    cases h
  | ok r =>
    obtain ⟨u, s0⟩ := r
    have hs0 := readSpecifiedToken_frame s _ _ u s0 hr
    rw [hr] at h
    simp only [] at h
    cases hc : checkNotEndOfFile s0 "DSLBase::readNextBlock"
        ("Expected a '" ++ o.delim2 ++ "'.") with
    | error f =>
      rw [hc] at h
      cases h
    | ok u' =>
      rw [hc] at h
      simp only [] at h
      by_cases h2 : s0.cur.value = ";" ∧ o.allowSemiColon = false
      · simp only [if_pos h2] at h
        cases h
      · simp only [if_neg h2] at h
        by_cases h3 : s0.cur.value = o.delim2
        · simp only [if_pos h3] at h
          cases h
          rw [hs0]
          rfl
        · simp only [if_neg h3] at h
          rw [readNextBlockLoop_frame o _ _ _ _ _ _ h, analyse_eq, hs0]
          rfl

theorem treatToken_openedBlock_congr (o1 o2 : CodeBlockParserOptions) (s s' : DSLBase)
    (previous previous' t : Token) (acc1 acc2 : BlockAcc) (hd1 : o1.delim1 = o2.delim1)
    (hd2 : o1.delim2 = o2.delim2) (ha : acc1.openedBlock = acc2.openedBlock) :
    (treatToken o1 s previous t (lineChange o1 s t acc1)).openedBlock
      = (treatToken o2 s' previous' t (lineChange o2 s' t acc2)).openedBlock := by
  simp only [treatToken, lineChange_openedBlock, hd1, hd2, ha]

theorem readNextBlockLoop_cursor (o1 o2 : CodeBlockParserOptions) (hd1 : o1.delim1 = o2.delim1)
    (hd2 : o1.delim2 = o2.delim2) (rest : List Token) :
    ∀ (previous previous' : Token) (s s' : DSLBase) (acc1 acc2 : BlockAcc) (b1 b2 : CodeBlock)
      (t1 t2 : DSLBase),
      acc1.openedBlock = acc2.openedBlock → s.current = s'.current →
      readNextBlockLoop o1 rest previous s acc1 = .ok (b1, t1) →
      readNextBlockLoop o2 rest previous' s' acc2 = .ok (b2, t2) →
      t1.current = t2.current := by
  induction rest with
  | nil =>
    intro previous previous' s s' acc1 acc2 b1 b2 t1 t2 _ _ h _
    rw [readNextBlockLoop] at h
    cases h
  | cons t rest ih =>
    intro previous previous' s s' acc1 acc2 b1 b2 t1 t2 ha hc h h'
    rw [readNextBlockLoop] at h h'
    by_cases h1 : t.value = o1.delim2 ∧ acc1.openedBlock = 0
    · have h1' : t.value = o2.delim2 ∧ acc2.openedBlock = 0 := by
        rw [← hd2, ← ha]
        exact h1
      rw [if_pos h1] at h
      rw [if_pos h1'] at h'
      cases h
      cases h'
      show s.current + 1 = s'.current + 1
      rw [hc]
    · have h1' : ¬ (t.value = o2.delim2 ∧ acc2.openedBlock = 0) := by
        rw [← hd2, ← ha]
        exact h1
      rw [if_neg h1] at h
      rw [if_neg h1'] at h'
      by_cases h2 : t.value = ";" ∧ o1.allowSemiColon = false
      · simp only [if_pos h2] at h
        cases h
      · by_cases h2' : t.value = ";" ∧ o2.allowSemiColon = false
        · simp only [if_pos h2'] at h'
          cases h'
        · simp only [if_neg h2] at h
          simp only [if_neg h2'] at h'
          refine ih _ _ _ _ _ _ _ _ _ _
            (treatToken_openedBlock_congr o1 o2 s s' previous previous' t acc1 acc2 hd1 hd2 ha)
            ?_ h h'
          rw [analyse_eq, analyse_eq]
          show s.current + 1 = s'.current + 1
          rw [hc]

theorem readNextBlock_cursor (s : DSLBase) (o1 o2 : CodeBlockParserOptions)
    (hd1 : o1.delim1 = o2.delim1) (hd2 : o1.delim2 = o2.delim2) (b1 b2 : CodeBlock)
    (t1 t2 : DSLBase) (h : readNextBlock s o1 = .ok (b1, t1))
    (h' : readNextBlock s o2 = .ok (b2, t2)) : t1.current = t2.current := by
  unfold readNextBlock at h h'
  rw [← hd1, ← hd2] at h'
  cases hr : readSpecifiedToken s "DSLBase::readNextBlock" o1.delim1 with
  | error f =>
    rw [hr] at h
    cases h
  | ok r =>
    obtain ⟨u, s0⟩ := r
    rw [hr] at h h'
    simp only [] at h h'
    cases hc : checkNotEndOfFile s0 "DSLBase::readNextBlock"
        ("Expected a '" ++ o1.delim2 ++ "'.") with
    | error f =>
      rw [hc] at h
      cases h
    | ok u' =>
      rw [hc] at h h'
      simp only [] at h h'
      by_cases h2 : s0.cur.value = ";" ∧ o1.allowSemiColon = false
      · simp only [if_pos h2] at h
        cases h
      · by_cases h2' : s0.cur.value = ";" ∧ o2.allowSemiColon = false
        · simp only [if_pos h2'] at h'
          cases h'
        · simp only [if_neg h2] at h
          simp only [if_neg h2'] at h'
          by_cases h3 : s0.cur.value = o1.delim2
          · simp only [if_pos h3] at h h'
            cases h
            cases h'
            rfl
          · simp only [if_neg h3] at h h'
            refine readNextBlockLoop_cursor o1 o2 hd1 hd2 _ _ _ _ _ _ _ _ _ _ _ ?_ ?_ h h'
            · rfl
            · rw [analyse_eq, analyse_eq]

theorem restore_cursor (s s1 : DSLBase) (hf : s1.frame = s.frame) :
    ({ s1 with current := s.current } : DSLBase) = { s with analysed := s1.analysed } := by
  obtain ⟨a1, a2, a3, a4, a5, a6, a7, a8⟩ := s
  obtain ⟨b1, b2, b3, b4, b5, b6, b7, b8⟩ := s1
  simp only [DSLBase.frame, DSLBase.mk.injEq] at hf
  obtain ⟨h1, -, h3, h4, h5, h6, h7, -⟩ := hf
  subst h1 h3 h4 h5 h6 h7
  rfl

theorem forgetResult_ok (r : Except Failure (CodeBlock × DSLBase)) (b : CodeBlock)
    (s : DSLBase) (h : forgetResult r = .ok (b, s)) : ∃ s', r = .ok (b, s') ∧ s'.forget = s := by
  cases r with
  | error f => cases h
  | ok p =>
    obtain ⟨b', s'⟩ := p
    simp only [forgetResult, Except.ok.injEq, Prod.mk.injEq] at h
    exact ⟨s', by rw [h.1], h.2⟩

/-! ## Every block that is read -/

theorem readNextBlockLoop_ok_inv (o : CodeBlockParserOptions) (rest : List Token) :
    ∀ (previous : Token) (s : DSLBase) (acc : BlockAcc) (b : CodeBlock) (s1 : DSLBase),
      acc.currentLine = previous.line →
      readNextBlockLoop o rest previous s acc = .ok (b, s1) →
      ∃ body cl post, rest = body ++ cl :: post ∧ cl.value = o.delim2
        ∧ s1 = { s with current := s.current + body.length + 1,
                        analysed := s.analysed ++ analysedWords o body }
        ∧ b.code = acc.b.code ++ concatAll (blockChunks o s false previous body) := by
  induction rest with
  | nil =>
    intro previous s acc b s1 _ h
    rw [readNextBlockLoop] at h
    cases h
  | cons t rest ih =>
    intro previous s acc b s1 hl h
    rw [readNextBlockLoop] at h
    by_cases h1 : t.value = o.delim2 ∧ acc.openedBlock = 0
    · rw [if_pos h1] at h
      cases h
      refine ⟨[], t, rest, rfl, h1.1, ?_, ?_⟩
      · simp [analysedWords]
      · simp [blockChunks, concatAll]
    · rw [if_neg h1] at h
      by_cases h2 : t.value = ";" ∧ o.allowSemiColon = false
      · simp only [if_pos h2] at h
        cases h
      · simp only [if_neg h2] at h
        obtain ⟨body, cl, post, e1, e2, e3, e4⟩ := ih _ _ _ _ _
          (by rw [treatToken_currentLine, lineChange_currentLine]) h
        refine ⟨t :: body, cl, post, by rw [e1]; rfl, e2, ?_, ?_⟩
        · rw [e3, analyse_eq, analysedWords_cons o t body]
          simp [Nat.add_assoc, Nat.add_comm 1]
        · rw [e4, treatToken_code, lineChange_code o s previous t acc hl]
          rw [blockChunks_congr o s _ (by rw [analyse_eq]) (by rw [analyse_eq])
            (by rw [analyse_eq])]
          simp [blockChunks, concatAll, blockChunk, String.append_assoc]

theorem tokens_split (s : DSLBase) (h : s.current < s.tokens.length) :
    s.tokens = s.tokens.take s.current ++ s.cur :: s.tokens.drop (s.current + 1) := by
  have h1 : s.cur = s.tokens[s.current] := by
    simp [DSLBase.cur, List.getD_eq_getElem?_getD, List.getElem?_eq_getElem h]
  rw [h1, ← List.drop_eq_getElem_cons h, List.take_append_drop]

theorem readSpecifiedToken_inv (s : DSLBase) (m v : String) (u : Unit) (s1 : DSLBase)
    (h : readSpecifiedToken s m v = .ok (u, s1)) :
    s.current < s.tokens.length ∧ s.cur.value = v := by
  unfold readSpecifiedToken checkNotEndOfFile at h
  by_cases h0 : s.tokens.length ≤ s.current
  · rw [if_pos h0] at h
    cases h
  · rw [if_neg h0] at h
    by_cases hv : s.cur.value ≠ v
    · simp only [if_pos hv] at h
      cases h
    · exact ⟨by omega, not_not.mp hv⟩

theorem checkNotEndOfFile_inv (s : DSLBase) (method error : String) (u : Unit)
    (h : checkNotEndOfFile s method error = .ok u) : s.current < s.tokens.length := by
  unfold checkNotEndOfFile at h
  by_cases h0 : s.tokens.length ≤ s.current
  · rw [if_pos h0] at h
    cases h
  · omega

/-- A block that is read: the tokens at the cursor are an opening delimiter,
the tokens `body` and a closing delimiter, the final state is the state after
this block and the code is the code of `body`. -/
theorem readNextBlock_ok_inv (s : DSLBase) (o : CodeBlockParserOptions) (b : CodeBlock)
    (s1 : DSLBase) (h : readNextBlock s o = .ok (b, s1)) :
    ∃ pre op body cl post, s.tokens = pre ++ op :: (body ++ cl :: post)
      ∧ s.current = pre.length ∧ op.value = o.delim1 ∧ cl.value = o.delim2
      ∧ s1 = afterBlock s o pre body ∧ b.code = blockCode o s op body := by
  unfold readNextBlock at h
  cases hr : readSpecifiedToken s "DSLBase::readNextBlock" o.delim1 with
  | error f =>
    rw [hr] at h
    cases h
  | ok r =>
    obtain ⟨u, s0⟩ := r
    obtain ⟨hlt, hop⟩ := readSpecifiedToken_inv s _ _ u s0 hr
    have hs0 := readSpecifiedToken_frame s _ _ u s0 hr
    subst hs0
    rw [hr] at h
    simp only [] at h
    cases hc : checkNotEndOfFile ({ s with current := s.current + 1 } : DSLBase)
        "DSLBase::readNextBlock" ("Expected a '" ++ o.delim2 ++ "'.") with
    | error f =>
      rw [hc] at h
      cases h
    | ok u' =>
      have hlt' : s.current + 1 < s.tokens.length := checkNotEndOfFile_inv _ _ _ u' hc
      rw [hc] at h
      simp only [] at h
      have hsplit1 := tokens_split s hlt
      have hsplit2 := tokens_split ({ s with current := s.current + 1 } : DSLBase) hlt'
      have hd : s.tokens.drop (s.current + 1)
          = ({ s with current := s.current + 1 } : DSLBase).cur
            :: s.tokens.drop (s.current + 1 + 1) := by
        have h1 : ({ s with current := s.current + 1 } : DSLBase).cur
            = s.tokens[s.current + 1] := by
          simp [DSLBase.cur, List.getD_eq_getElem?_getD, List.getElem?_eq_getElem hlt']
        rw [h1, ← List.drop_eq_getElem_cons hlt']
      have hp : ({ s with current := s.current + 1 } : DSLBase).prev = s.cur := by
        simp [DSLBase.prev, DSLBase.cur]
      have hlen : (s.tokens.take s.current).length = s.current := by
        rw [List.length_take]
        omega
      by_cases h2 : ({ s with current := s.current + 1 } : DSLBase).cur.value = ";"
          ∧ o.allowSemiColon = false
      · simp only [if_pos h2] at h
        cases h
      · simp only [if_neg h2] at h
        by_cases h3 : ({ s with current := s.current + 1 } : DSLBase).cur.value = o.delim2
        · simp only [if_pos h3] at h
          cases h
          refine ⟨s.tokens.take s.current, s.cur, [],
            ({ s with current := s.current + 1 } : DSLBase).cur,
            s.tokens.drop (s.current + 1 + 1), ?_, hlen.symm, hop, h3, ?_, rfl⟩
          · rw [List.nil_append, ← hd]
            exact hsplit1
          · simp [afterBlock, analysedWords, hlen]
        · simp only [if_neg h3] at h
          obtain ⟨body, cl, post, e1, e2, e3, e4⟩ := readNextBlockLoop_ok_inv o _ _ _ _ _ _ rfl h
          refine ⟨s.tokens.take s.current, s.cur,
            ({ s with current := s.current + 1 } : DSLBase).cur :: body, cl, post, ?_,
            hlen.symm, hop, e2, ?_, ?_⟩
          · change s.tokens.drop (s.current + 1 + 1) = body ++ cl :: post at e1
            rw [List.cons_append, ← e1, ← hd]
            exact hsplit1
          · rw [e3, analyse_eq]
            unfold afterBlock
            rw [analysedWords_cons o _ body]
            simp [hlen, Nat.add_assoc, Nat.add_comm 1]
            omega
          · rw [e4, treatFirstToken_code _ _ _ _ _ rfl, hp]
            rw [blockChunks_congr o s _ (by rw [analyse_eq]) (by rw [analyse_eq])
              (by rw [analyse_eq])]
            rw [blockChunk_congr o s { s with current := s.current + 1 } rfl rfl rfl]
            simp [blockCode, blockChunks, concatAll]

/-! ## Reading a list of variables: lemmas -/

theorem readVarListItem_plain (lib : Library) (s : DSLBase) (cont : List VariableDescription)
    (type : String) (allowArray : Bool) (pre : List Token) (n sep : Token) (post : List Token)
    (htok : s.tokens = pre ++ n :: sep :: post) (hcur : s.current = pre.length)
    (hvalid : lib.isValidIdentifier n.value true = true)
    (hsep : sep.value = "," ∨ sep.value = ";") :
    readVarListItem lib s cont type allowArray
      = .ok (cont ++ declaredVariables type s.currentComment [n],
          { s with current := pre.length + 2 },
          if sep.value = "," then none else some sep.comment) := by
  have hlen : s.tokens.length = pre.length + (post.length + 2) := by
    rw [htok]
    simp only [List.length_append, List.length_cons]
  have hc0 : s.cur = n := cur_eq s pre n _ htok hcur
  have hc1 : ({ s with current := s.current + 1 } : DSLBase).cur = sep :=
    cur_eq _ (pre ++ [n]) sep post (by simp [htok]) (by simp [hcur])
  have hnb : sep.value ≠ "[" := by
    rcases hsep with h | h <;> rw [h] <;> decide
  have hd : (if s.currentComment ≠ "" then s.currentComment else "") = s.currentComment := by
    by_cases h : s.currentComment = ""
    · simp [h]
    · simp [h]
  unfold readVarListItem
  simp only [hc0, hvalid]
  rw [checkNotEndOfFile_ok _ _ _ (by show s.current + 1 < s.tokens.length; omega)]
  simp only [hc1, if_neg hnb, hd, Bool.true_eq_false, if_false]
  rcases hsep with h | h
  · simp only [if_pos h, declaredVariables, List.map, hcur]
  · have h' : sep.value ≠ "," := by
      rw [h]
      decide
    simp only [if_neg h', if_pos h, declaredVariables, List.map, hcur]

theorem readVarListLoop_declaration (lib : Library) (type : String) (allowArray : Bool)
    (lastName semi : Token) (post : List Token)
    (hlast : lib.isValidIdentifier lastName.value true = true) (hsemi : semi.value = ";")
    (front : List (Token × Token)) :
    ∀ (fuel : Nat) (s : DSLBase) (cont : List VariableDescription) (pre : List Token),
      s.tokens = pre ++ (declarationTokens (front ++ [(lastName, semi)]) ++ post) →
      s.current = pre.length →
      (∀ p ∈ front, lib.isValidIdentifier p.1.value true = true ∧ p.2.value = ",") →
      front.length + 1 ≤ fuel →
      readVarListLoop lib type allowArray fuel s cont
        = .ok (cont ++ declaredVariables type s.currentComment
              (front.map Prod.fst ++ [lastName]),
            { s with current := pre.length + 2 * (front.length + 1) }, some semi.comment) := by
  induction front with
  | nil =>
    intro fuel s cont pre htok hcur _ hfuel
    obtain ⟨k, rfl⟩ : ∃ k, fuel = k + 1 := ⟨fuel - 1, by simp at hfuel; omega⟩
    have htok' : s.tokens = pre ++ lastName :: semi :: post := by
      simpa [declarationTokens] using htok
    have hlen : s.tokens.length = pre.length + (post.length + 2) := by
      rw [htok']
      simp only [List.length_append, List.length_cons]
    have hs' : semi.value ≠ "," := by
      rw [hsemi]
      decide
    rw [readVarListLoop, if_neg (by omega),
      readVarListItem_plain lib s cont type allowArray pre lastName semi post htok' hcur hlast
        (Or.inr hsemi)]
    simp only [if_neg hs']
    rfl
  | cons p front ih =>
    intro fuel s cont pre htok hcur hfront hfuel
    obtain ⟨n, sep⟩ := p
    obtain ⟨k, rfl⟩ : ∃ k, fuel = k + 1 := ⟨fuel - 1, by simp at hfuel; omega⟩
    have hp := hfront (n, sep) (by simp)
    have htok' : s.tokens
        = pre ++ n :: sep :: (declarationTokens (front ++ [(lastName, semi)]) ++ post) := by
      simpa [declarationTokens] using htok
    have hlen : pre.length + 2 ≤ s.tokens.length := by
      rw [htok']
      simp only [List.length_append, List.length_cons]
      omega
    rw [readVarListLoop, if_neg (by omega),
      readVarListItem_plain lib s cont type allowArray pre n sep _ htok' hcur hp.1
        (Or.inl hp.2)]
    simp only [if_pos hp.2]
    rw [ih k { s with current := pre.length + 2 } _ (pre ++ [n, sep])
      (by simp [htok']) (by simp) (fun q hq => hfront q (by simp [hq]))
      (by simp only [List.length_cons] at hfuel; omega)]
    simp only [declaredVariables, List.map_cons, List.map_nil, List.cons_append, List.nil_append,
      List.append_assoc, List.length_append, List.length_cons, List.length_nil, List.map_append]
    have e : pre.length + (0 + 1 + 1) + 2 * (front.length + 1)
        = pre.length + 2 * (front.length + 1 + 1) := by omega
    rw [e]

theorem declarationTokens_length (l : List (Token × Token)) :
    (declarationTokens l).length = 2 * l.length := by
  induction l with
  | nil => rfl
  | cons p l ih =>
    obtain ⟨n, sep⟩ := p
    simp only [declarationTokens, List.length_cons, ih]
    omega

theorem addEndComment_declared (type currentComment endComment : String) (h : endComment ≠ "")
    (names : List Token) :
    (declaredVariables type currentComment names).map (addEndComment endComment)
      = declaredVariables type (finalDescription currentComment endComment) names := by
  simp only [declaredVariables, List.map_map]
  apply List.map_congr_left
  intro n _
  simp only [Function.comp, addEndComment, finalDescription, if_pos h]

/-- The result of `readVarList` on a declaration `name1, ..., namek ;` without
array. -/
theorem readVarList_declaration (lib : Library) (s : DSLBase) (cont : List VariableDescription)
    (type : String) (allowArray : Bool) (pre : List Token) (front : List (Token × Token))
    (lastName semi : Token) (post : List Token)
    (htok : s.tokens = pre ++ (declarationTokens (front ++ [(lastName, semi)]) ++ post))
    (hcur : s.current = pre.length)
    (hfront : ∀ p ∈ front, lib.isValidIdentifier p.1.value true = true ∧ p.2.value = ",")
    (hlast : lib.isValidIdentifier lastName.value true = true) (hsemi : semi.value = ";") :
    readVarList lib s cont type allowArray
      = .ok ((if semi.comment ≠ "" then cont.map (addEndComment semi.comment) else cont)
            ++ declaredVariables type (finalDescription s.currentComment semi.comment)
              (front.map Prod.fst ++ [lastName]),
          { s with current := pre.length + 2 * (front.length + 1) }) := by
  have hlen : s.tokens.length = pre.length + (2 * (front.length + 1) + post.length) := by
    rw [htok]
    simp only [List.length_append, declarationTokens_length, List.length_cons, List.length_nil]
  have hloop := readVarListLoop_declaration lib type allowArray lastName semi post hlast hsemi
    front (s.tokens.length - s.current) s cont pre htok hcur hfront (by omega)
  unfold readVarList
  rw [hloop]
  by_cases hc : semi.comment = ""
  · simp [hc, finalDescription]
  · simp only [Option.getD_some, ne_eq, hc, not_false_eq_true, if_true, Option.isNone_some,
      Bool.false_eq_true, if_false, List.map_append]
    rw [addEndComment_declared type s.currentComment semi.comment hc]

theorem readArraySize_frame (varName : String) (rest : List Token) :
    ∀ (s : DSLBase) (acc : String) (r : String) (s1 : DSLBase),
      readArraySize varName rest s acc = .ok (r, s1) → s1.frame = s.frame := by
  induction rest with
  | nil =>
    intro s acc r s1 h
    rw [readArraySize] at h
    cases h
  | cons t rest ih =>
    intro s acc r s1 h
    rw [readArraySize] at h
    by_cases h1 : t.value ≠ "]"
    · rw [if_pos h1] at h
      by_cases h2 : t.flag ≠ TokenFlag.Standard ∨ t.value = ";"
      · rw [if_pos h2] at h
        cases h
      · rw [if_neg h2] at h
        rw [ih _ _ _ _ h]
        rfl
    · rw [if_neg h1] at h
      cases h
      rfl

theorem readArray_frame (lib : Library) (s : DSLBase) (varName : String) (allowArray : Bool)
    (n : Nat) (s1 : DSLBase) (h : readArray lib s varName allowArray = .ok (n, s1)) :
    s1.frame = s.frame := by
  unfold readArray at h
  by_cases h0 : allowArray = false
  · rw [if_pos h0] at h
    cases h
  · rw [if_neg h0] at h
    simp only [] at h
    split at h
    · cases h
    · rename_i array_size s2 hsize
      have hf2 := readArraySize_frame _ _ _ _ _ _ hsize
      split at h
      · cases h
      · split at h
        · cases h
        · split at h
          · cases h
          · split at h
            · cases h
            · split at h
              · cases h
              · split at h
                · cases h
                · rename_i u s3 hr
                  split at h
                  · cases h
                  · cases h
                    rw [readSpecifiedToken_frame _ _ _ _ _ hr]
                    exact hf2

theorem frame_fields (s s1 : DSLBase) (h : s1.frame = s.frame) :
    s1.tokens = s.tokens ∧ s1.currentComment = s.currentComment := by
  have h1 : s1.frame.tokens = s.frame.tokens := congrArg DSLBase.tokens h
  have h2 : s1.frame.currentComment = s.frame.currentComment :=
    congrArg DSLBase.currentComment h
  exact ⟨h1, h2⟩

theorem readVarListItem_ok (lib : Library) (s : DSLBase) (cont : List VariableDescription)
    (type : String) (allowArray : Bool) (cont1 : List VariableDescription) (s1 : DSLBase)
    (eot : Option String) (h : readVarListItem lib s cont type allowArray = .ok (cont1, s1, eot)) :
    s1.tokens = s.tokens ∧ s1.currentComment = s.currentComment ∧ 0 < s1.current
      ∧ (∃ v, cont1 = cont ++ [v] ∧ v.description = s.currentComment ∧ v.type = type)
      ∧ (∀ ec, eot = some ec → s1.prev.value = ";" ∧ s1.prev.comment = ec) := by
  have hd : (if s.currentComment ≠ "" then s.currentComment else "") = s.currentComment := by
    by_cases h : s.currentComment = ""
    · simp [h]
    · simp [h]
  unfold readVarListItem at h
  simp only [hd] at h
  split at h
  · cases h
  · split at h
    · cases h
    · split at h
      · cases h
      · rename_i asize s2 hs2
        have hf : s2.frame = s.frame := by
          by_cases hb : ({ s with current := s.current + 1 } : DSLBase).cur.value = "["
          · rw [if_pos hb] at hs2
            rw [readArray_frame lib _ _ _ _ _ hs2]
            rfl
          · rw [if_neg hb] at hs2
            cases hs2
            rfl
        obtain ⟨ht, hcc⟩ := frame_fields s s2 hf
        have hprev : ∀ (a : List String),
            ({ s2 with current := s2.current + 1, analysed := a } : DSLBase).prev = s2.cur := by
          intro a
          simp [DSLBase.prev, DSLBase.cur]
        split at h
        · cases h
          refine ⟨ht, hcc, Nat.succ_pos _, ⟨_, rfl, rfl, rfl⟩, ?_⟩
          intro ec he
          cases he
        · split at h
          · rename_i hsemi
            cases h
            refine ⟨ht, hcc, Nat.succ_pos _, ⟨_, rfl, rfl, rfl⟩, ?_⟩
            intro ec he
            cases he
            have := hprev s2.analysed
            exact ⟨by rw [this]; exact hsemi, by rw [this]⟩
          · cases h

theorem readVarListLoop_ok (lib : Library) (type : String) (allowArray : Bool) (fuel : Nat) :
    ∀ (s : DSLBase) (cont cont1 : List VariableDescription) (s1 : DSLBase)
      (eot : Option String),
      readVarListLoop lib type allowArray fuel s cont = .ok (cont1, s1, eot) →
      s1.tokens = s.tokens
        ∧ (∃ declared, cont1 = cont ++ declared
            ∧ ∀ v ∈ declared, v.description = s.currentComment ∧ v.type = type)
        ∧ (∀ ec, eot = some ec → s1.prev.value = ";" ∧ s1.prev.comment = ec) := by
  induction fuel with
  | zero =>
    intro s cont cont1 s1 eot h
    rw [readVarListLoop] at h
    cases h
    exact ⟨rfl, ⟨[], by simp, by simp⟩, fun ec he => by cases he⟩
  | succ n ih =>
    intro s cont cont1 s1 eot h
    rw [readVarListLoop] at h
    by_cases h0 : s.tokens.length ≤ s.current
    · rw [if_pos h0] at h
      cases h
      exact ⟨rfl, ⟨[], by simp, by simp⟩, fun ec he => by cases he⟩
    · rw [if_neg h0] at h
      split at h
      · cases h
      · rename_i c2 s2 ec hitem
        cases h
        obtain ⟨ht, hcc, -, ⟨v, hv1, hv2, hv3⟩, hec⟩ := readVarListItem_ok lib s cont type allowArray _ _ _ hitem
        exact ⟨ht, ⟨[v], hv1, by simp [hv2, hv3]⟩, hec⟩
      · rename_i c2 s2 hitem
        obtain ⟨ht, hcc, -, ⟨v, hv1, hv2, hv3⟩, -⟩ := readVarListItem_ok lib s cont type allowArray _ _ _ hitem
        obtain ⟨ht', ⟨declared, hd1, hd2⟩, hec⟩ := ih _ _ _ _ _ h
        refine ⟨ht'.trans ht, ⟨v :: declared, ?_, ?_⟩, hec⟩
        · rw [hd1, hv1]
          simp
        · intro x hx
          rcases List.mem_cons.mp hx with hx | hx
          · rw [hx]
            exact ⟨hv2, hv3⟩
          · rw [← hcc]
            exact hd2 x hx

theorem readArraySize_cursor (varName : String) (rest : List Token) :
    ∀ (s : DSLBase) (acc : String) (r : String) (s1 : DSLBase),
      readArraySize varName rest s acc = .ok (r, s1) → s.current ≤ s1.current := by
  induction rest with
  | nil =>
    intro s acc r s1 h
    rw [readArraySize] at h
    cases h
  | cons t rest ih =>
    intro s acc r s1 h
    rw [readArraySize] at h
    by_cases h1 : t.value ≠ "]"
    · rw [if_pos h1] at h
      by_cases h2 : t.flag ≠ TokenFlag.Standard ∨ t.value = ";"
      · rw [if_pos h2] at h
        cases h
      · rw [if_neg h2] at h
        have := ih _ _ _ _ h
        exact Nat.le_trans (Nat.le_succ _) this
    · rw [if_neg h1] at h
      cases h
      exact Nat.le_refl _

theorem readArray_cursor (lib : Library) (s : DSLBase) (varName : String) (allowArray : Bool)
    (n : Nat) (s1 : DSLBase) (h : readArray lib s varName allowArray = .ok (n, s1)) :
    s.current ≤ s1.current := by
  unfold readArray at h
  by_cases h0 : allowArray = false
  · rw [if_pos h0] at h
    cases h
  · rw [if_neg h0] at h
    simp only [] at h
    split at h
    · cases h
    · rename_i array_size s2 hsize
      have hc2 := readArraySize_cursor _ _ _ _ _ _ hsize
      split at h
      · cases h
      · split at h
        · cases h
        · split at h
          · cases h
          · split at h
            · cases h
            · split at h
              · cases h
              · split at h
                · cases h
                · rename_i u s3 hr
                  split at h
                  · cases h
                  · cases h
                    rw [readSpecifiedToken_frame _ _ _ _ _ hr]
                    show s.current ≤ s2.current + 1
                    have : s.current + 1 ≤ s2.current := hc2
                    omega

theorem readVarListItem_cursor (lib : Library) (s : DSLBase) (cont : List VariableDescription)
    (type : String) (allowArray : Bool) (cont1 : List VariableDescription) (s1 : DSLBase)
    (eot : Option String) (h : readVarListItem lib s cont type allowArray = .ok (cont1, s1, eot)) :
    s.current < s1.current := by
  have hd : (if s.currentComment ≠ "" then s.currentComment else "") = s.currentComment := by
    by_cases h : s.currentComment = ""
    · simp [h]
    · simp [h]
  unfold readVarListItem at h
  simp only [hd] at h
  split at h
  · cases h
  · split at h
    · cases h
    · split at h
      · cases h
      · rename_i asize s2 hs2
        have hc : s.current + 1 ≤ s2.current := by
          by_cases hb : ({ s with current := s.current + 1 } : DSLBase).cur.value = "["
          · rw [if_pos hb] at hs2
            exact readArray_cursor lib _ _ _ _ _ hs2
          · rw [if_neg hb] at hs2
            cases hs2
            exact Nat.le_refl _
        split at h
        · cases h
          show s.current < s2.current + 1
          omega
        · split at h
          · cases h
            show s.current < s2.current + 1
            omega
          · cases h

/-- The bound on the number of turns of the loop of `readVarList` is never
reached before the end of the tokens: one more turn changes nothing. -/
theorem readVarListLoop_fuel (lib : Library) (type : String) (allowArray : Bool) (fuel : Nat) :
    ∀ (s : DSLBase) (cont : List VariableDescription),
      s.tokens.length - s.current ≤ fuel →
      readVarListLoop lib type allowArray (fuel + 1) s cont
        = readVarListLoop lib type allowArray fuel s cont := by
  induction fuel with
  | zero =>
    intro s cont h
    have h0 : s.tokens.length ≤ s.current := by omega
    conv_lhs => rw [readVarListLoop]
    conv_rhs => rw [readVarListLoop]
    rw [if_pos h0]
  | succ n ih =>
    intro s cont h
    conv_lhs => rw [readVarListLoop]
    conv_rhs => rw [readVarListLoop]
    by_cases h0 : s.tokens.length ≤ s.current
    · rw [if_pos h0, if_pos h0]
    · rw [if_neg h0, if_neg h0]
      split
      · rfl
      · rfl
      · rename_i c1 s1 hitem
        have h1 := (readVarListItem_ok lib s cont type allowArray _ _ _ hitem).1
        have h2 := readVarListItem_cursor lib s cont type allowArray _ _ _ hitem
        exact ih s1 c1 (by rw [h1]; omega)

/-! ## Reading a block: properties -/

/-- C2 (amended): the code of every block read with `qualifyMemberVariables =
true` and no modifier is the concatenation of the chunks of its body tokens, and
the chunk of a body token that is a member name and not a static member name is
its line separator, then the token unchanged when the token before it is `->`,
`.` or `::`, `(this->token)` when the token before it is `*`, and `this->token`
otherwise, then a space; closed blocks are read. -/
theorem readNextBlock_qualifies_members (s : DSLBase) (o : CodeBlockParserOptions)
    (hq : o.qualifyMemberVariables = true) (hm : o.modifier = none) :
    (∀ pre op body cl post, ClosedBlockAt s o pre op body cl post →
        ∃ b, readNextBlock s o = .ok (b, afterBlock s o pre body))
    ∧ (∀ b s1, readNextBlock s o = .ok (b, s1) →
        ∃ pre op body cl post, BlockRead s o pre op body cl post b s1
          ∧ ∀ i p t, (op :: body)[i]? = some p → body[i]? = some t →
              t.value ∈ o.mn → t.value ∉ o.smn →
              (blockChunks o s true op body)[i]?
                = some (lineSeparator o s (decide (i = 0)) p t
                    ++ (if isMemberAccess p.value then t.value
                        else if p.value = "*" then "(this->" ++ t.value ++ ")"
                        else "this->" ++ t.value)
                    ++ " ")) := by
  constructor
  · intro pre op body cl post h
    obtain ⟨b, h1, -⟩ := readNextBlock_closed s o pre op body cl post h
    exact ⟨b, h1⟩
  · intro b s1 h
    obtain ⟨pre, op, body, cl, post, h1, h2, h3, h4, h5, h6⟩ := readNextBlock_ok_inv s o b s1 h
    refine ⟨pre, op, body, cl, post, ⟨h1, h2, h3, h4, h5, h6⟩, ?_⟩
    intro i p t hp ht hmn hsmn
    rw [blockChunks_getElem? o s body true op i p t hp ht]
    simp only [blockChunk, emittedWord, if_neg hsmn, if_pos hmn, hm, hq, if_true, Bool.true_and]

/-- Witness of C2: on the block `{ a = b ; }` with the member names `a` and `b`
the code is `this->a = this->b ; ` after the initial line marker. -/
theorem readNextBlock_qualifies_members_witness :
    codeOf (readNextBlock (parserOn assignTokens) memberOptions)
        = some "#line 1 \"law.mfront\"\nthis->a = this->b ; "
      ∧ (∃ b, readNextBlock (parserOn assignTokens) memberOptions
          = .ok (b, afterBlock (parserOn assignTokens) memberOptions [] assignBody))
      ∧ ∃ pre op body cl post,
          BlockRead (parserOn assignTokens) memberOptions pre op body cl post
            ⟨"#line 1 \"law.mfront\"\nthis->a = this->b ; ", "", ["a", "b"], []⟩
            { parserOn assignTokens with current := 6 }
          ∧ ∀ i p t, (op :: body)[i]? = some p → body[i]? = some t →
              t.value ∈ memberOptions.mn → t.value ∉ memberOptions.smn →
              (blockChunks memberOptions (parserOn assignTokens) true op body)[i]?
                = some (lineSeparator memberOptions (parserOn assignTokens) (decide (i = 0)) p t
                    ++ (if isMemberAccess p.value then t.value
                        else if p.value = "*" then "(this->" ++ t.value ++ ")"
                        else "this->" ++ t.value)
                    ++ " ") :=
  ⟨by rfl,
    (readNextBlock_qualifies_members (parserOn assignTokens) memberOptions rfl rfl).1 []
      (tok "\x7b" 1) assignBody (tok "\x7d" 1) []
      ⟨⟨rfl, rfl, rfl, by decide, by decide⟩, rfl, by decide, by decide, by decide⟩,
    (readNextBlock_qualifies_members (parserOn assignTokens) memberOptions rfl rfl).2
      ⟨"#line 1 \"law.mfront\"\nthis->a = this->b ; ", "", ["a", "b"], []⟩
      { parserOn assignTokens with current := 6 } (by rfl)⟩

/-- Counterexample to C2 as stated: with `qualifyMemberVariables = true` and no
modifier, the member name `a` standing after `*` is written `(this->a)`, and
the member name `a` that is also a static member name is written `a`, without
`this->`, although the token before it is none of `->`, `.` and `::`. -/
theorem readNextBlock_qualifies_members_counterexample :
    codeOf (readNextBlock (parserOn [tok "\x7b" 1, tok "*" 1, tok "a" 1, tok "\x7d" 1])
        { mn := ["a"], qualifyMemberVariables := true, registerLine := false })
      = some "* (this->a) "
    ∧ codeOf (readNextBlock (parserOn [tok "\x7b" 1, tok "a" 1, tok "\x7d" 1])
        { smn := ["a"], mn := ["a"], qualifyMemberVariables := true, registerLine := false })
      = some "a " :=
  ⟨by rfl, by rfl⟩

/-- C3 (amended): the code of every block read whose body tokens are neither
static member names nor member names is, line markers removed, the values of the
body tokens each followed by a single space, with a newline before each token
that is not on the line of the previous one; it is exactly this text when
markers are off; closed blocks are read. -/
theorem readNextBlock_copies_tokens (s : DSLBase) (o : CodeBlockParserOptions) :
    (∀ pre op body cl post, ClosedBlockAt s o pre op body cl post →
        ∃ b, readNextBlock s o = .ok (b, afterBlock s o pre body))
    ∧ (∀ b s1, readNextBlock s o = .ok (b, s1) →
        ∃ pre op body cl post, BlockRead s o pre op body cl post b s1
          ∧ ((∀ t ∈ body, t.value ∉ o.smn ∧ t.value ∉ o.mn) →
              b.code = renderPieces s (copiedPieces (decide (markersOn o s)) true op body)
              ∧ renderPieces s
                    ((copiedPieces (decide (markersOn o s)) true op body).filter
                      (fun p => !p.isMarker))
                  = copiedText true op body
              ∧ ((o.registerLine = false ∨ s.debugMode = true) →
                  b.code = copiedText true op body))) := by
  constructor
  · intro pre op body cl post h
    obtain ⟨b, h1, -⟩ := readNextBlock_closed s o pre op body cl post h
    exact ⟨b, h1⟩
  · intro b s1 h
    obtain ⟨pre, op, body, cl, post, h1, h2, h3, h4, h5, h6⟩ := readNextBlock_ok_inv s o b s1 h
    refine ⟨pre, op, body, cl, post, ⟨h1, h2, h3, h4, h5, h6⟩, ?_⟩
    intro hn
    have h7 : b.code = renderPieces s (copiedPieces (decide (markersOn o s)) true op body) := by
      rw [h6]
      exact blockChunks_copied o s body true op hn
    refine ⟨h7, ?_, ?_⟩
    · rw [copiedPieces_filter, copiedPieces_text]
    · intro hoff
      have hm : ¬ markersOn o s := by
        unfold markersOn
        rcases hoff with h | h <;> simp [h]
      rw [h7]
      simp only [hm, decide_False]
      exact copiedPieces_text s body true op

/-- Witness of C3: the block `{ a { b } ; }`, on three lines, without member
names, read with line markers. -/
theorem readNextBlock_copies_tokens_witness :
    copiedText true (tok "\x7b" 1) nestedBody = "a \x7b \nb \x7d \n; "
      ∧ (∃ b, readNextBlock (parserOn nestedTokens) {}
          = .ok (b, afterBlock (parserOn nestedTokens) {} [] nestedBody))
      ∧ ∃ pre op body cl post,
          BlockRead (parserOn nestedTokens) {} pre op body cl post
            ⟨"#line 1 \"law.mfront\"\na \x7b \n#line 2 \"law.mfront\"\nb \x7d \n#line 3 \"law.mfront\"\n; ",
              "", [], []⟩
            { parserOn nestedTokens with current := 7 }
          ∧ ((∀ t ∈ body, t.value ∉ ({} : CodeBlockParserOptions).smn
                ∧ t.value ∉ ({} : CodeBlockParserOptions).mn) →
              "#line 1 \"law.mfront\"\na \x7b \n#line 2 \"law.mfront\"\nb \x7d \n#line 3 \"law.mfront\"\n; "
                = renderPieces (parserOn nestedTokens)
                    (copiedPieces (decide (markersOn {} (parserOn nestedTokens))) true op body)
              ∧ renderPieces (parserOn nestedTokens)
                    ((copiedPieces (decide (markersOn {} (parserOn nestedTokens))) true op
                      body).filter (fun p => !p.isMarker))
                  = copiedText true op body
              ∧ ((({} : CodeBlockParserOptions).registerLine = false
                    ∨ (parserOn nestedTokens).debugMode = true) →
                  "#line 1 \"law.mfront\"\na \x7b \n#line 2 \"law.mfront\"\nb \x7d \n#line 3 \"law.mfront\"\n; "
                    = copiedText true op body)) :=
  ⟨by rfl,
    (readNextBlock_copies_tokens (parserOn nestedTokens) {}).1 [] (tok "\x7b" 1) nestedBody
      (tok "\x7d" 3) [tok "x" 4]
      ⟨⟨rfl, rfl, rfl, by decide, by decide⟩, rfl, by decide, by decide, by decide⟩,
    (readNextBlock_copies_tokens (parserOn nestedTokens) {}).2
      ⟨"#line 1 \"law.mfront\"\na \x7b \n#line 2 \"law.mfront\"\nb \x7d \n#line 3 \"law.mfront\"\n; ",
        "", [], []⟩
      { parserOn nestedTokens with current := 7 } (by rfl)⟩

/-- Counterexample to C3 as stated: with line markers disabled the code of the
block `{ a }` is `a` followed by a space, not `a`; the code of the block
`{ a b }` whose `b` is on the next line is `a`, a space, a newline, `b` and a
space, not `a b`. -/
theorem readNextBlock_copies_tokens_counterexample :
    codeOf (readNextBlock (parserOn [tok "\x7b" 1, tok "a" 1, tok "\x7d" 1])
        { registerLine := false }) = some "a "
    ∧ joinedBySpaces [tok "a" 1] = "a"
    ∧ codeOf (readNextBlock (parserOn [tok "\x7b" 1, tok "a" 1, tok "b" 2, tok "\x7d" 2])
        { registerLine := false }) = some "a \nb "
    ∧ joinedBySpaces [tok "a" 1, tok "b" 2] = "a b" :=
  ⟨by rfl, by rfl, by rfl, by rfl⟩

/-- C4 (amended): when the cursor is on an opening delimiter and the end of the
tokens is met before a closing delimiter at depth zero (and before any forbidden
`;`), `readNextBlock` fails and returns no block; when at least one token
follows the opening delimiter the cursor is left on the last token and the
message is `Expected the end of a block.` followed by `Number of block opened :
k`, `k` being the number of opening delimiters of the body that are not closed;
when no token follows the opening delimiter the message is that of an
unexpected end of file, which cites the closing delimiter. -/
theorem readNextBlock_end_of_tokens (s : DSLBase) (o : CodeBlockParserOptions)
    (pre : List Token) (op : Token) (body : List Token) (h : BlockAt s o pre op body [])
    (hs : SemiColonFree o body) :
    ∃ f, readNextBlock s o = .error f
      ∧ f.state.tokens = s.tokens
      ∧ (body ≠ [] →
          f.msg = "DSLBase::readNextBlock: Expected the end of a block.\nNumber of block opened : "
              ++ toString (opens o body - closes o body)
              ++ "\nError at line " ++ toString (lastToken op body).line
            ∧ f.state.current = s.tokens.length - 1)
      ∧ (body = [] →
          f.msg = "DSLBase::readNextBlock: unexpected end of file.\nExpected a '" ++ o.delim2
              ++ "'.\nError at line " ++ toString op.line
              ++ "\nError at line " ++ toString op.line
            ∧ f.state.current = s.tokens.length) := by
  cases body with
  | nil =>
    have hlen : s.tokens.length = pre.length + 1 := by
      rw [h.tokens_eq]
      simp
    exact ⟨_, readNextBlock_no_token s o pre op h, rfl, fun hne => absurd rfl hne,
      fun _ => ⟨rfl, hlen.symm⟩⟩
  | cons t0 bs =>
    have hlen : s.tokens.length - 1 = pre.length + bs.length + 1 := by
      rw [h.tokens_eq]
      simp only [List.length_append, List.length_cons, List.length_nil]
      omega
    exact ⟨_, readNextBlock_unclosed s o pre op t0 bs h hs, rfl, fun _ => ⟨rfl, hlen.symm⟩,
      fun he => by simp at he⟩

/-- Witness of C4: the tokens `{ a { b`, with one block still opened in the
body. -/
theorem readNextBlock_end_of_tokens_witness :
    BlockAt (parserOn [tok "\x7b" 1, tok "a" 1, tok "\x7b" 2, tok "b" 3]) {} []
        (tok "\x7b" 1) [tok "a" 1, tok "\x7b" 2, tok "b" 3] []
      ∧ readNextBlock (parserOn [tok "\x7b" 1, tok "a" 1, tok "\x7b" 2, tok "b" 3]) {}
        = .error ⟨"DSLBase::readNextBlock: Expected the end of a block.\nNumber of block opened : 1\nError at line 3",
            { parserOn [tok "\x7b" 1, tok "a" 1, tok "\x7b" 2, tok "b" 3] with current := 3 }⟩
      ∧ ∃ f, readNextBlock (parserOn [tok "\x7b" 1, tok "a" 1, tok "\x7b" 2, tok "b" 3]) {}
            = .error f
          ∧ f.state.tokens = (parserOn [tok "\x7b" 1, tok "a" 1, tok "\x7b" 2, tok "b" 3]).tokens
          ∧ ([tok "a" 1, tok "\x7b" 2, tok "b" 3] ≠ [] →
              f.msg = "DSLBase::readNextBlock: Expected the end of a block.\nNumber of block opened : "
                  ++ toString (opens {} [tok "a" 1, tok "\x7b" 2, tok "b" 3]
                    - closes {} [tok "a" 1, tok "\x7b" 2, tok "b" 3])
                  ++ "\nError at line "
                  ++ toString (lastToken (tok "\x7b" 1)
                    [tok "a" 1, tok "\x7b" 2, tok "b" 3]).line
                ∧ f.state.current
                  = (parserOn [tok "\x7b" 1, tok "a" 1, tok "\x7b" 2, tok "b" 3]).tokens.length - 1)
          ∧ ([tok "a" 1, tok "\x7b" 2, tok "b" 3] = [] →
              f.msg = "DSLBase::readNextBlock: unexpected end of file.\nExpected a '"
                  ++ ({} : CodeBlockParserOptions).delim2
                  ++ "'.\nError at line " ++ toString (tok "\x7b" 1).line
                  ++ "\nError at line " ++ toString (tok "\x7b" 1).line
                ∧ f.state.current
                  = (parserOn [tok "\x7b" 1, tok "a" 1, tok "\x7b" 2, tok "b" 3]).tokens.length) :=
  ⟨⟨rfl, rfl, rfl, by decide, by decide⟩, by rfl,
    readNextBlock_end_of_tokens (parserOn [tok "\x7b" 1, tok "a" 1, tok "\x7b" 2, tok "b" 3]) {}
      [] (tok "\x7b" 1) [tok "a" 1, tok "\x7b" 2, tok "b" 3]
      ⟨rfl, rfl, rfl, by decide, by decide⟩ (by decide)⟩

set_option maxRecDepth 100000 in
/-- Counterexample to C4 as stated: on the single token `{` the end of the
tokens is met before a closing delimiter, and the message of the error, that of
an unexpected end of file, does not cite the number of opened blocks. -/
theorem readNextBlock_end_of_tokens_counterexample :
    BlockAt (parserOn [tok "\x7b" 1]) {} [] (tok "\x7b" 1) [] []
      ∧ readNextBlock (parserOn [tok "\x7b" 1]) {}
        = .error ⟨"DSLBase::readNextBlock: unexpected end of file.\nExpected a '\x7d'.\nError at line 1\nError at line 1",
            { parserOn [tok "\x7b" 1] with current := 1 }⟩
      ∧ ¬ ("Number of block opened".toList <:+:
          "DSLBase::readNextBlock: unexpected end of file.\nExpected a '\x7d'.\nError at line 1\nError at line 1".toList) :=
  ⟨⟨rfl, rfl, rfl, by decide, by decide⟩, by rfl, by decide⟩

/-- C5 (amended): on a token sequence of fewer than `2 ^ 32` tokens (the range
of the `unsigned int` counter of the opened blocks, the field `bound` of
`BlockAt`), when `allowSemiColon` is false and a `;` stands in the body of the
block (before the closing delimiter at depth zero), `readNextBlock` fails at the
first `;`, and the message cites the number of blocks opened at this `;`; when
`allowSemiColon` is true no `;` is an error: a closed block is read whatever its
`;` tokens, and the chunk of a `;` that is no registered name is its line
separator, `;` and a space, as for any other token. -/
theorem readNextBlock_semicolon (s : DSLBase) (o : CodeBlockParserOptions)
    (pre : List Token) (op : Token) :
    (∀ (bs : List Token) (semi : Token) (post : List Token),
        BlockAt s o pre op (bs ++ [semi]) post → semi.value = ";" →
        o.allowSemiColon = false → (∀ t ∈ bs, t.value ≠ ";") →
        readNextBlock s o
          = .error ⟨"DSLBase::readNextBlock: read ';' before the end of block.\nNumber of block opened : "
                ++ toString (opens o bs - closes o bs)
                ++ "\nError at line " ++ toString semi.line,
              { s with current := pre.length + bs.length + 1,
                       analysed := s.analysed ++ analysedWords o bs }⟩)
    ∧ (∀ (body : List Token) (cl : Token) (post : List Token),
        BlockAt s o pre op body (cl :: post) → cl.value = o.delim2 →
        opens o body = closes o body → o.allowSemiColon = true →
        (∃ b, readNextBlock s o = .ok (b, afterBlock s o pre body)
          ∧ b.code = concatAll (blockChunks o s true op body)
          ∧ ∀ i p t, (op :: body)[i]? = some p → body[i]? = some t →
              t.value = ";" → ";" ∉ o.smn → ";" ∉ o.mn →
              (blockChunks o s true op body)[i]?
                = some (lineSeparator o s (decide (i = 0)) p t ++ ";" ++ " "))) := by
  constructor
  · intro bs semi post h hv hf hfirst
    exact readNextBlock_forbidden s o pre op bs semi post h hv hf hfirst
  · intro body cl post h hcl hbal ha
    obtain ⟨b, h1, h2⟩ := readNextBlock_closed s o pre op body cl post
      ⟨h, hcl, hbal, Or.inl ha, fun _ hc => by simp [ha] at hc⟩
    refine ⟨b, h1, h2, ?_⟩
    intro i p t hp ht hv h3 h4
    rw [blockChunks_getElem? o s body true op i p t hp ht]
    rw [← hv] at h3 h4
    simp only [blockChunk, emittedWord_plain o s _ p t h3 h4, hv, Bool.true_and]

/-- Witness of C5: with `allowSemiColon = false` the block `{ a { b } ; }` fails
at its `;`, no block being opened there; with `allowSemiColon = true` it is
read. -/
theorem readNextBlock_semicolon_witness :
    readNextBlock (parserOn nestedTokens) { allowSemiColon := false }
        = .error ⟨"DSLBase::readNextBlock: read ';' before the end of block.\nNumber of block opened : "
              ++ toString (opens { allowSemiColon := false }
                  [tok "a" 1, tok "\x7b" 1, tok "b" 2, tok "\x7d" 2]
                - closes { allowSemiColon := false }
                  [tok "a" 1, tok "\x7b" 1, tok "b" 2, tok "\x7d" 2])
              ++ "\nError at line " ++ toString (tok ";" 3).line,
            { parserOn nestedTokens with
              current := ([] : List Token).length
                + [tok "a" 1, tok "\x7b" 1, tok "b" 2, tok "\x7d" 2].length + 1,
              analysed := (parserOn nestedTokens).analysed
                ++ analysedWords { allowSemiColon := false }
                  [tok "a" 1, tok "\x7b" 1, tok "b" 2, tok "\x7d" 2] }⟩
      ∧ codeOf (readNextBlock (parserOn nestedTokens) { registerLine := false })
        = some "a \x7b \nb \x7d \n; "
      ∧ ∃ b, readNextBlock (parserOn nestedTokens) {}
            = .ok (b, afterBlock (parserOn nestedTokens) {} [] nestedBody)
          ∧ b.code = concatAll (blockChunks {} (parserOn nestedTokens) true (tok "\x7b" 1)
              nestedBody)
          ∧ ∀ i p t, (tok "\x7b" 1 :: nestedBody)[i]? = some p → nestedBody[i]? = some t →
              t.value = ";" → ";" ∉ ({} : CodeBlockParserOptions).smn →
              ";" ∉ ({} : CodeBlockParserOptions).mn →
              (blockChunks {} (parserOn nestedTokens) true (tok "\x7b" 1) nestedBody)[i]?
                = some (lineSeparator {} (parserOn nestedTokens) (decide (i = 0)) p t
                    ++ ";" ++ " ") :=
  ⟨(readNextBlock_semicolon (parserOn nestedTokens) { allowSemiColon := false } []
      (tok "\x7b" 1)).1 [tok "a" 1, tok "\x7b" 1, tok "b" 2, tok "\x7d" 2] (tok ";" 3)
      [tok "\x7d" 3, tok "x" 4] ⟨rfl, rfl, rfl, by decide, by decide⟩ rfl rfl (by decide),
    by rfl,
    (readNextBlock_semicolon (parserOn nestedTokens) {} [] (tok "\x7b" 1)).2 nestedBody
      (tok "\x7d" 3) [tok "x" 4] ⟨rfl, rfl, rfl, by decide, by decide⟩ rfl (by decide) rfl⟩

/-- C6: the code of every block read with `qualifyStaticVariables = true` is the
concatenation of the chunks of its body tokens, and the chunk of a body token
that is a static member name is its line separator, then the token unchanged
when the token before it is `->`, `.` or `::` and the class name, `::` and the
token otherwise, then a space; this holds whether or not the token is also a
member name; closed blocks are read. -/
theorem readNextBlock_qualifies_statics (s : DSLBase) (o : CodeBlockParserOptions)
    (hq : o.qualifyStaticVariables = true) :
    (∀ pre op body cl post, ClosedBlockAt s o pre op body cl post →
        ∃ b, readNextBlock s o = .ok (b, afterBlock s o pre body))
    ∧ (∀ b s1, readNextBlock s o = .ok (b, s1) →
        ∃ pre op body cl post, BlockRead s o pre op body cl post b s1
          ∧ ∀ i p t, (op :: body)[i]? = some p → body[i]? = some t → t.value ∈ o.smn →
              (blockChunks o s true op body)[i]?
                = some (lineSeparator o s (decide (i = 0)) p t
                    ++ (if isMemberAccess p.value then t.value
                        else s.className ++ "::" ++ t.value)
                    ++ " ")) := by
  constructor
  · intro pre op body cl post h
    obtain ⟨b, h1, -⟩ := readNextBlock_closed s o pre op body cl post h
    exact ⟨b, h1⟩
  · intro b s1 h
    obtain ⟨pre, op, body, cl, post, h1, h2, h3, h4, h5, h6⟩ := readNextBlock_ok_inv s o b s1 h
    refine ⟨pre, op, body, cl, post, ⟨h1, h2, h3, h4, h5, h6⟩, ?_⟩
    intro i p t hp ht hsmn
    rw [blockChunks_getElem? o s body true op i p t hp ht]
    simp only [blockChunk, emittedWord, if_pos hsmn, hq, if_true, Bool.true_and]

/-- Witness of C6: the block `{ a = b . a ; }` of the class `Law`, `a` being
both a static member name and a member name. -/
theorem readNextBlock_qualifies_statics_witness :
    codeOf (readNextBlock (parserOn staticTokens) staticOptions)
        = some "Law::a = this->b . a ; "
      ∧ (∃ b, readNextBlock (parserOn staticTokens) staticOptions
          = .ok (b, afterBlock (parserOn staticTokens) staticOptions [] staticBody))
      ∧ ∃ pre op body cl post,
          BlockRead (parserOn staticTokens) staticOptions pre op body cl post
            ⟨"Law::a = this->b . a ; ", "", ["b"], ["a"]⟩
            { parserOn staticTokens with current := 8 }
          ∧ ∀ i p t, (op :: body)[i]? = some p → body[i]? = some t →
              t.value ∈ staticOptions.smn →
              (blockChunks staticOptions (parserOn staticTokens) true op body)[i]?
                = some (lineSeparator staticOptions (parserOn staticTokens) (decide (i = 0)) p t
                    ++ (if isMemberAccess p.value then t.value
                        else (parserOn staticTokens).className ++ "::" ++ t.value)
                    ++ " ") :=
  ⟨by rfl,
    (readNextBlock_qualifies_statics (parserOn staticTokens) staticOptions rfl).1 []
      (tok "\x7b" 1) staticBody (tok "\x7d" 1) []
      ⟨⟨rfl, rfl, rfl, by decide, by decide⟩, rfl, by decide, by decide, by decide⟩,
    (readNextBlock_qualifies_statics (parserOn staticTokens) staticOptions rfl).2
      ⟨"Law::a = this->b . a ; ", "", ["b"], ["a"]⟩
      { parserOn staticTokens with current := 8 } (by rfl)⟩

/-- C7: the code of every block read that is not empty, with `registerLine =
true` and the debug mode off, starts with the marker `#line <L> "<fileName>"`
and a newline, `L` being the line of the first body token, and the chunk of each
later body token that is not on the line of the token before it starts with a
newline and the marker of its own line, while the chunk of a token on the line
of the token before it has no marker; when `registerLine` is false or the debug
mode is on no marker is written: the chunk of a token is its text and a space,
after a newline when the line changes; closed blocks are read. -/
theorem readNextBlock_line_markers (s : DSLBase) (o : CodeBlockParserOptions) :
    (∀ pre op body cl post, ClosedBlockAt s o pre op body cl post →
        ∃ b, readNextBlock s o = .ok (b, afterBlock s o pre body))
    ∧ (∀ b s1, readNextBlock s o = .ok (b, s1) →
        ∃ pre op body cl post, BlockRead s o pre op body cl post b s1
          ∧ (o.registerLine = true → s.debugMode = false →
              (∀ t0 bs, body = t0 :: bs →
                b.code = "#line " ++ toString t0.line ++ " \"" ++ s.fileName ++ "\"\n"
                  ++ (emittedWord o s true op t0 ++ " "
                    ++ concatAll (blockChunks o s false t0 bs)))
              ∧ ∀ i p t, body[i]? = some p → body[i + 1]? = some t →
                  (blockChunks o s true op body)[i + 1]?
                    = some ((if p.line ≠ t.line then
                            "\n" ++ ("#line " ++ toString t.line ++ " \"" ++ s.fileName ++ "\"\n")
                          else "")
                        ++ emittedWord o s false p t ++ " "))
          ∧ ((o.registerLine = false ∨ s.debugMode = true) →
              ∀ i p t, (op :: body)[i]? = some p → body[i]? = some t →
                (blockChunks o s true op body)[i]?
                  = some ((if 0 < i ∧ p.line ≠ t.line then "\n" else "")
                      ++ emittedWord o s (decide (i = 0)) p t ++ " "))) := by
  constructor
  · intro pre op body cl post h
    obtain ⟨b, h1, -⟩ := readNextBlock_closed s o pre op body cl post h
    exact ⟨b, h1⟩
  · intro b s1 h
    obtain ⟨pre, op, body, cl, post, h1, h2, h3, h4, h5, h6⟩ := readNextBlock_ok_inv s o b s1 h
    refine ⟨pre, op, body, cl, post, ⟨h1, h2, h3, h4, h5, h6⟩, ?_, ?_⟩
    · intro hr hd
      have hm : markersOn o s := ⟨hr, hd⟩
      constructor
      · intro t0 bs hb
        rw [h6, hb]
        simp only [blockCode, blockChunks, concatAll, blockChunk, lineSeparator, if_pos hm,
          if_true, lineMarker, String.append_assoc]
      · intro i p t hp ht
        rw [blockChunks_getElem? o s body true op (i + 1) p t (by simpa using hp) ht]
        by_cases hl : p.line = t.line
        · simp [blockChunk, lineSeparator, hl]
        · simp [blockChunk, lineSeparator, hl, hm, lineMarker]
    · intro hoff i p t hp ht
      have hm : ¬ markersOn o s := by
        unfold markersOn
        rcases hoff with h | h <;> simp [h]
      rw [blockChunks_getElem? o s body true op i p t hp ht]
      cases i with
      | zero => simp [blockChunk, lineSeparator, hm]
      | succ j =>
        by_cases hl : p.line = t.line
        · simp [blockChunk, lineSeparator, hl]
        · simp [blockChunk, lineSeparator, hl, hm]

/-- Witness of C7: the block `{ a { b } ; }`, on three lines, of the file
`law.mfront`, read with and without line markers. -/
theorem readNextBlock_line_markers_witness :
    codeOf (readNextBlock (parserOn nestedTokens) { registerLine := false })
        = some "a \x7b \nb \x7d \n; "
      ∧ (∃ b, readNextBlock (parserOn nestedTokens) {}
          = .ok (b, afterBlock (parserOn nestedTokens) {} [] nestedBody))
      ∧ ∃ pre op body cl post,
          BlockRead (parserOn nestedTokens) {} pre op body cl post
            ⟨"#line 1 \"law.mfront\"\na \x7b \n#line 2 \"law.mfront\"\nb \x7d \n#line 3 \"law.mfront\"\n; ",
              "", [], []⟩
            { parserOn nestedTokens with current := 7 }
          ∧ (({} : CodeBlockParserOptions).registerLine = true →
              (parserOn nestedTokens).debugMode = false →
              (∀ t0 bs, body = t0 :: bs →
                "#line 1 \"law.mfront\"\na \x7b \n#line 2 \"law.mfront\"\nb \x7d \n#line 3 \"law.mfront\"\n; "
                  = "#line " ++ toString t0.line ++ " \"" ++ (parserOn nestedTokens).fileName
                    ++ "\"\n"
                    ++ (emittedWord {} (parserOn nestedTokens) true op t0 ++ " "
                      ++ concatAll (blockChunks {} (parserOn nestedTokens) false t0 bs)))
              ∧ ∀ i p t, body[i]? = some p → body[i + 1]? = some t →
                  (blockChunks {} (parserOn nestedTokens) true op body)[i + 1]?
                    = some ((if p.line ≠ t.line then
                            "\n" ++ ("#line " ++ toString t.line ++ " \""
                              ++ (parserOn nestedTokens).fileName ++ "\"\n")
                          else "")
                        ++ emittedWord {} (parserOn nestedTokens) false p t ++ " "))
          ∧ ((({} : CodeBlockParserOptions).registerLine = false
                ∨ (parserOn nestedTokens).debugMode = true) →
              ∀ i p t, (op :: body)[i]? = some p → body[i]? = some t →
                (blockChunks {} (parserOn nestedTokens) true op body)[i]?
                  = some ((if 0 < i ∧ p.line ≠ t.line then "\n" else "")
                      ++ emittedWord {} (parserOn nestedTokens) (decide (i = 0)) p t ++ " ")) :=
  ⟨by rfl,
    (readNextBlock_line_markers (parserOn nestedTokens) {}).1 [] (tok "\x7b" 1) nestedBody
      (tok "\x7d" 3) [tok "x" 4]
      ⟨⟨rfl, rfl, rfl, by decide, by decide⟩, rfl, by decide, by decide, by decide⟩,
    (readNextBlock_line_markers (parserOn nestedTokens) {}).2
      ⟨"#line 1 \"law.mfront\"\na \x7b \n#line 2 \"law.mfront\"\nb \x7d \n#line 3 \"law.mfront\"\n; ",
        "", [], []⟩
      { parserOn nestedTokens with current := 7 } (by rfl)⟩

/-! ## Reading a block twice -/

/-- C8: `readNextBlock(res1,res2,o1,o2)` reads the block from the same cursor
twice: when it returns, `res1` is the block returned by `readNextBlock(o1)` and
`res2` the block returned by `readNextBlock(o2)`, both called in the state at
entry, and the final state is that of the second call (up to the record of the
analysed words); when both calls succeed so does the reading in pair; when the
two options have the same delimiters the final cursor is also the cursor after
the first call. -/
theorem readNextBlock2_spec (s : DSLBase) (o1 o2 : CodeBlockParserOptions) :
    (∀ b1 b2 s2, readNextBlock2 s o1 o2 = .ok ((b1, b2), s2) →
      ∃ s1 s2', readNextBlock s o1 = .ok (b1, s1) ∧ readNextBlock s o2 = .ok (b2, s2')
        ∧ s2.forget = s2'.forget
        ∧ (o1.delim1 = o2.delim1 → o1.delim2 = o2.delim2 → s2.current = s1.current))
    ∧ (∀ b1 s1 b2 s2', readNextBlock s o1 = .ok (b1, s1) → readNextBlock s o2 = .ok (b2, s2') →
      ∃ s2, readNextBlock2 s o1 o2 = .ok ((b1, b2), s2) ∧ s2.forget = s2'.forget) := by
  constructor
  · intro b1 b2 s2 h
    unfold readNextBlock2 at h
    cases h1 : readNextBlock s o1 with
    | error f =>
      rw [h1] at h
      cases h
    | ok r1 =>
      obtain ⟨b1', s1⟩ := r1
      rw [h1] at h
      simp only [] at h
      rw [restore_cursor s s1 (readNextBlock_frame s o1 b1' s1 h1)] at h
      cases h2 : readNextBlock { s with analysed := s1.analysed } o2 with
      | error f =>
        rw [h2] at h
        cases h
      | ok r2 =>
        obtain ⟨b2', s2''⟩ := r2
        rw [h2] at h
        simp only [Except.ok.injEq, Prod.mk.injEq] at h
        obtain ⟨⟨e1, e2⟩, e3⟩ := h
        subst e1 e2 e3
        have h3 := readNextBlock_analysed s o2 s1.analysed
        rw [h2] at h3
        obtain ⟨s2', h4, h5⟩ := forgetResult_ok (readNextBlock s o2) b2' s2''.forget h3.symm
        refine ⟨s1, s2', rfl, h4, h5.symm, ?_⟩
        intro hd1 hd2
        have h6 := readNextBlock_cursor s o1 o2 hd1 hd2 b1' b2' s1 s2' h1 h4
        have h7 : s2'.forget.current = s2''.forget.current := congrArg DSLBase.current h5
        change s2'.current = s2''.current at h7
        rw [h6, h7]
  · intro b1 s1 b2 s2' h1 h2
    unfold readNextBlock2
    rw [h1]
    simp only []
    rw [restore_cursor s s1 (readNextBlock_frame s o1 b1 s1 h1)]
    have h3 := readNextBlock_analysed s o2 s1.analysed
    rw [h2] at h3
    obtain ⟨s2, h4, h5⟩ := forgetResult_ok _ b2 s2'.forget h3
    rw [h4]
    exact ⟨s2, rfl, h5⟩

/-- Witness of C8: the block `{ a = b ; }` read without and with the
qualification of its member names. -/
theorem readNextBlock2_spec_witness :
    (∃ s2, readNextBlock2 (parserOn assignTokens) { registerLine := false }
        { mn := ["a", "b"], qualifyMemberVariables := true, registerLine := false }
        = .ok ((⟨"a = b ; ", "", [], []⟩, ⟨"this->a = this->b ; ", "", ["a", "b"], []⟩), s2)
      ∧ s2.forget = ({ parserOn assignTokens with current := 6 } : DSLBase).forget)
    ∧ ∃ s1 s2', readNextBlock (parserOn assignTokens) { registerLine := false }
          = .ok (⟨"a = b ; ", "", [], []⟩, s1)
        ∧ readNextBlock (parserOn assignTokens)
            { mn := ["a", "b"], qualifyMemberVariables := true, registerLine := false }
          = .ok (⟨"this->a = this->b ; ", "", ["a", "b"], []⟩, s2')
        ∧ ({ parserOn assignTokens with current := 6 } : DSLBase).forget = s2'.forget
        ∧ (({ registerLine := false } : CodeBlockParserOptions).delim1
              = ({ mn := ["a", "b"], qualifyMemberVariables := true, registerLine := false }
                  : CodeBlockParserOptions).delim1 →
            ({ registerLine := false } : CodeBlockParserOptions).delim2
              = ({ mn := ["a", "b"], qualifyMemberVariables := true, registerLine := false }
                  : CodeBlockParserOptions).delim2 →
            ({ parserOn assignTokens with current := 6 } : DSLBase).current = s1.current) :=
  ⟨(readNextBlock2_spec (parserOn assignTokens) { registerLine := false }
      { mn := ["a", "b"], qualifyMemberVariables := true, registerLine := false }).2
      ⟨"a = b ; ", "", [], []⟩ { parserOn assignTokens with current := 6 }
      ⟨"this->a = this->b ; ", "", ["a", "b"], []⟩ { parserOn assignTokens with current := 6 }
      (by rfl) (by rfl),
    (readNextBlock2_spec (parserOn assignTokens) { registerLine := false }
      { mn := ["a", "b"], qualifyMemberVariables := true, registerLine := false }).1
      ⟨"a = b ; ", "", [], []⟩ ⟨"this->a = this->b ; ", "", ["a", "b"], []⟩
      { parserOn assignTokens with current := 6 } (by rfl)⟩

/-! ## Reading a given token -/

/-- C9: `readSpecifiedToken(m,v)` succeeds if and only if the cursor is not at
the end of the tokens and the value of the current token is `v`; it then
advances the cursor by one token and changes nothing else; at the end of the
tokens it fails with the message `unexpected end of file.` followed by
`expected 'v'.`, and on another token with the message `expected 'v', read
'...'.`; in both cases the state, hence the cursor, is left as it was. -/
theorem readSpecifiedToken_spec (s : DSLBase) (m v : String) :
    ((∃ r, readSpecifiedToken s m v = .ok r) ↔ (s.current < s.tokens.length ∧ s.cur.value = v))
    ∧ (∀ r, readSpecifiedToken s m v = .ok r → r = ((), { s with current := s.current + 1 }))
    ∧ (s.tokens.length ≤ s.current →
        readSpecifiedToken s m v
          = .error ⟨m ++ ": " ++ ("unexpected end of file." ++ "\n" ++ ("expected '" ++ v ++ "'.")
                ++ (if s.tokens ≠ [] then "\nError at line " ++ toString s.prev.line else ""))
              ++ (if s.tokens ≠ [] then
                    "\nError at line "
                      ++ toString (s.tokens.getD (s.tokens.length - 1) default).line
                  else ""), s⟩)
    ∧ (s.current < s.tokens.length → s.cur.value ≠ v →
        readSpecifiedToken s m v
          = .error ⟨m ++ ": " ++ ("expected '" ++ v ++ "', read '" ++ s.cur.value
                ++ "'.\nError at line: " ++ toString s.cur.line)
              ++ "\nError at line " ++ toString s.cur.line, s⟩) := by
  have hend : s.tokens.length ≤ s.current →
      readSpecifiedToken s m v
        = .error ⟨m ++ ": " ++ ("unexpected end of file." ++ "\n" ++ ("expected '" ++ v ++ "'.")
              ++ (if s.tokens ≠ [] then "\nError at line " ++ toString s.prev.line else ""))
            ++ (if s.tokens ≠ [] then
                  "\nError at line "
                    ++ toString (s.tokens.getD (s.tokens.length - 1) default).line
                else ""), s⟩ := by
    intro h
    have hm1 : ("expected '" ++ v ++ "'.") ≠ "" := by
      rw [String.append_assoc]
      exact append_ne_empty _ _ (by decide)
    unfold readSpecifiedToken checkNotEndOfFile endOfFileFailure
    simp only [if_pos h, if_pos hm1]
    unfold throwRuntimeError
    by_cases hne : s.tokens = []
    · have hm2 : ("unexpected end of file." ++ "\n" ++ ("expected '" ++ v ++ "'.")) ≠ "" := by
        rw [String.append_assoc]
        exact append_ne_empty _ _ (by decide)
      simp only [ne_eq, hne, not_true_eq_false, if_false, String.append_empty]
      rw [if_pos hm2]
    · have hm2 : ("unexpected end of file." ++ "\n" ++ ("expected '" ++ v ++ "'.")
          ++ "\nError at line " ++ toString s.prev.line) ≠ "" := by
        rw [String.append_assoc, String.append_assoc, String.append_assoc]
        exact append_ne_empty _ _ (by decide)
      simp only [ne_eq, hne, not_false_eq_true, if_true, if_pos h]
      rw [if_pos hm2]
      simp only [String.append_assoc]
  have hbad : s.current < s.tokens.length → s.cur.value ≠ v →
      readSpecifiedToken s m v
        = .error ⟨m ++ ": " ++ ("expected '" ++ v ++ "', read '" ++ s.cur.value
              ++ "'.\nError at line: " ++ toString s.cur.line)
            ++ "\nError at line " ++ toString s.cur.line, s⟩ := by
    intro h hv
    unfold readSpecifiedToken
    rw [checkNotEndOfFile_ok s m _ h]
    simp only [if_pos hv]
    rw [throwRuntimeError_eq s m _ (by
      rw [String.append_assoc, String.append_assoc, String.append_assoc, String.append_assoc]
      exact append_ne_empty _ _ (by decide)) h]
  have hok : s.current < s.tokens.length → s.cur.value = v →
      readSpecifiedToken s m v = .ok ((), { s with current := s.current + 1 }) :=
    readSpecifiedToken_ok s m v
  refine ⟨⟨?_, fun h => ⟨_, hok h.1 h.2⟩⟩, ?_, hend, hbad⟩
  · rintro ⟨r, hr⟩
    by_cases h : s.tokens.length ≤ s.current
    · rw [hend h] at hr
      cases hr
    · by_cases hv : s.cur.value = v
      · exact ⟨by omega, hv⟩
      · rw [hbad (by omega) hv] at hr
        cases hr
  · intro r hr
    by_cases h : s.tokens.length ≤ s.current
    · rw [hend h] at hr
      cases hr
    · by_cases hv : s.cur.value = v
      · rw [hok (by omega) hv] at hr
        cases hr
        rfl
      · rw [hbad (by omega) hv] at hr
        cases hr

/-- Witness of C9: on the tokens `a b`, the token `a` is read at the cursor,
the token `b` is refused there, and nothing is read at the end of the tokens. -/
theorem readSpecifiedToken_spec_witness :
    (∃ r, readSpecifiedToken (parserOn [tok "a" 1, tok "b" 2]) "M" "a" = .ok r)
    ∧ readSpecifiedToken (parserOn [tok "a" 1, tok "b" 2]) "M" "a"
        = .ok ((), { parserOn [tok "a" 1, tok "b" 2] with current := 1 })
    ∧ readSpecifiedToken (parserOn [tok "a" 1, tok "b" 2]) "M" "b"
        = .error ⟨"M: expected 'b', read 'a'.\nError at line: 1\nError at line 1",
            parserOn [tok "a" 1, tok "b" 2]⟩
    ∧ readSpecifiedToken { parserOn [tok "a" 1, tok "b" 2] with current := 2 } "M" "b"
        = .error ⟨"M: unexpected end of file.\nexpected 'b'.\nError at line 2\nError at line 2",
            { parserOn [tok "a" 1, tok "b" 2] with current := 2 }⟩ :=
  ⟨(readSpecifiedToken_spec (parserOn [tok "a" 1, tok "b" 2]) "M" "a").1.mpr
      ⟨by decide, by rfl⟩,
    by rfl,
    ((readSpecifiedToken_spec (parserOn [tok "a" 1, tok "b" 2]) "M" "b").2.2.2
      (by decide) (by decide)).trans (by rfl),
    ((readSpecifiedToken_spec { parserOn [tok "a" 1, tok "b" 2] with current := 2 } "M"
      "b").2.2.1 (by decide)).trans (by rfl)⟩

/-! ## Reading a list of variables: the comment of the `;` -/

/-- C10: for a declaration `name1, ..., namek ;` of valid names at the cursor,
`readVarList` succeeds, leaves the cursor after the `;`, and appends to the
container the `k` variables, in order, all with the same description: the
current comment, followed, when the comment of the terminating `;` is not empty,
by this comment (after a space when the current comment is not empty); and
whenever `readVarList` succeeds, arrays included, the token before the final
cursor is the terminating `;` and every variable that the call appended has this
same description. The comment of the `;` is thus in the description of every
variable of the statement, not only of the last. -/
theorem readVarList_end_comment (lib : Library) (s : DSLBase) (cont : List VariableDescription)
    (type : String) (allowArray : Bool) :
    (∀ (pre : List Token) (front : List (Token × Token)) (lastName semi : Token)
        (post : List Token),
        s.tokens = pre ++ (declarationTokens (front ++ [(lastName, semi)]) ++ post) →
        s.current = pre.length →
        (∀ p ∈ front, lib.isValidIdentifier p.1.value true = true ∧ p.2.value = ",") →
        lib.isValidIdentifier lastName.value true = true → semi.value = ";" →
        readVarList lib s cont type allowArray
          = .ok ((if semi.comment ≠ "" then cont.map (addEndComment semi.comment) else cont)
                ++ declaredVariables type (finalDescription s.currentComment semi.comment)
                  (front.map Prod.fst ++ [lastName]),
              { s with current := pre.length + 2 * (front.length + 1) }))
    ∧ (∀ (cont1 : List VariableDescription) (s1 : DSLBase),
        readVarList lib s cont type allowArray = .ok (cont1, s1) →
        s1.prev.value = ";"
          ∧ ∃ declared,
              cont1 = (if s1.prev.comment ≠ "" then cont.map (addEndComment s1.prev.comment)
                  else cont) ++ declared
              ∧ ∀ v ∈ declared, v.type = type
                  ∧ v.description = finalDescription s.currentComment s1.prev.comment) := by
  constructor
  · intro pre front lastName semi post htok hcur hfront hlast hsemi
    exact readVarList_declaration lib s cont type allowArray pre front lastName semi post htok
      hcur hfront hlast hsemi
  · intro cont1 s1 h
    unfold readVarList at h
    split at h
    · cases h
    · rename_i c2 s2 eot hloop
      obtain ⟨-, ⟨declared, hd1, hd2⟩, hec⟩ := readVarListLoop_ok lib type allowArray _ _ _ _ _ _
        hloop
      cases eot with
      | none => simp at h
      | some ec =>
        obtain ⟨hv, hc⟩ := hec ec rfl
        simp only [Option.getD_some, Option.isNone_some, Bool.false_eq_true, if_false,
          Except.ok.injEq, Prod.mk.injEq] at h
        obtain ⟨h1, h2⟩ := h
        subst h2
        refine ⟨hv, ?_⟩
        rw [hc]
        by_cases he : ec = ""
        · refine ⟨declared, ?_, ?_⟩
          · rw [← h1, hd1]
            simp [he]
          · intro v hvm
            have := hd2 v hvm
            simp [finalDescription, he, this.1, this.2]
        · refine ⟨declared.map (addEndComment ec), ?_, ?_⟩
          · rw [← h1, hd1]
            simp [he]
          · intro v hvm
            obtain ⟨w, hw, rfl⟩ := List.mem_map.mp hvm
            have := hd2 w hw
            simp [addEndComment, finalDescription, he, this.1, this.2]

/-- Witness of C10: the declaration `a , b ;` whose `;` has the comment `two
moduli`, read in a container that holds a variable `z`, and the declaration
`a [ 3 ] ;` of an array. -/
theorem readVarList_end_comment_witness :
    readVarList sampleLibrary (parserOn declTokens) [] "real" true
      = .ok ([⟨"real", "a", 1, 1, "two moduli"⟩, ⟨"real", "b", 1, 1, "two moduli"⟩],
          { parserOn declTokens with current := 4 })
    ∧ readVarList sampleLibrary (parserOn declTokens) [⟨"real", "z", 1, 0, "old"⟩] "real" true
      = .ok ((if declSemi.comment ≠ "" then
                [(⟨"real", "z", 1, 0, "old"⟩ : VariableDescription)].map
                  (addEndComment declSemi.comment)
              else [⟨"real", "z", 1, 0, "old"⟩])
            ++ declaredVariables "real"
              (finalDescription (parserOn declTokens).currentComment declSemi.comment)
              ([(tok "a" 1, tok "," 1)].map Prod.fst ++ [tok "b" 1]),
          { parserOn declTokens with
            current := ([] : List Token).length + 2 * ([(tok "a" 1, tok "," 1)].length + 1) })
    ∧ (({ parserOn arrayTokens with current := 5 } : DSLBase).prev.value = ";"
      ∧ ∃ declared,
          [(⟨"real", "a", 3, 1, "size"⟩ : VariableDescription)]
            = (if ({ parserOn arrayTokens with current := 5 } : DSLBase).prev.comment ≠ "" then
                ([] : List VariableDescription).map
                  (addEndComment ({ parserOn arrayTokens with current := 5 } : DSLBase).prev.comment)
              else []) ++ declared
          ∧ ∀ v ∈ declared, v.type = "real"
              ∧ v.description = finalDescription (parserOn arrayTokens).currentComment
                  ({ parserOn arrayTokens with current := 5 } : DSLBase).prev.comment) :=
  ⟨by rfl,
    (readVarList_end_comment sampleLibrary (parserOn declTokens) [⟨"real", "z", 1, 0, "old"⟩]
      "real" true).1 [] [(tok "a" 1, tok "," 1)] (tok "b" 1) declSemi [tok "x" 2] rfl rfl
      (by decide) (by decide) rfl,
    (readVarList_end_comment sampleLibrary (parserOn arrayTokens) [] "real" true).2
      [⟨"real", "a", 3, 1, "size"⟩] { parserOn arrayTokens with current := 5 } (by rfl)⟩

/-! ## The main variables of a mechanical behaviour -/

theorem mapInsert_nil (less : DrivingVariable → DrivingVariable → Bool)
    (p : DrivingVariable × ThermodynamicForce) : mapInsert less [] p = ([p], true) := rfl

theorem mapInsert_failed (less : DrivingVariable → DrivingVariable → Bool)
    (m : List (DrivingVariable × ThermodynamicForce)) (p : DrivingVariable × ThermodynamicForce)
    (h : (mapInsert less m p).2 = false) : (mapInsert less m p).1 = m := by
  unfold mapInsert at h ⊢
  split
  · rfl
  · rename_i hany
    rw [if_neg hany] at h
    cases h

theorem mapInsert_second (less : DrivingVariable → DrivingVariable → Bool)
    (m : List (DrivingVariable × ThermodynamicForce)) (p : DrivingVariable × ThermodynamicForce) :
    (mapInsert less m p).2 = true ↔ ∀ q ∈ m, equivalentKeys less q.1 p.1 = false := by
  unfold mapInsert
  split
  · rename_i hany
    obtain ⟨q, hq, he⟩ := List.any_eq_true.mp hany
    constructor
    · intro h
      cases h
    · intro h
      rw [h q hq] at he
      cases he
  · rename_i hany
    constructor
    · intro _ q hq
      by_contra hne
      exact hany (List.any_eq_true.mpr ⟨q, hq, by simpa using hne⟩)
    · intro _
      rfl

theorem oneShot_of_eq (declare : MechanicalBehaviourDescription →
      Except BehaviourFailure MechanicalBehaviourDescription)
    (method : String) (kind : BehaviourType) (pair : DrivingVariable × ThermodynamicForce)
    (d : MechanicalBehaviourDescription)
    (h : declare d = if d.mvariables ≠ [] then
        .error { msg := "MechanicalBehaviourDescription::" ++ method
                  ++ " : some driving variables are already declared", state := d }
      else .ok { type := kind, mvariables := [pair] }) :
    OneShot declare method kind pair d := by
  by_cases hm : d.mvariables = []
  · rw [if_neg (by simpa using hm)] at h
    refine ⟨⟨?_, fun hne => absurd hm hne⟩, ?_, fun _ => h⟩
    · rintro ⟨e, he⟩
      rw [h] at he
      cases he
    · intro e he
      rw [h] at he
      cases he
  · rw [if_pos hm] at h
    refine ⟨⟨fun _ => hm, fun _ => ⟨_, h⟩⟩, ?_, fun h0 => absurd h0 hm⟩
    intro e he
    rw [h] at he
    cases he
    rfl

theorem declareAsASmallStrainStandardBehaviour_eq
    (less : DrivingVariable → DrivingVariable → Bool) (d : MechanicalBehaviourDescription) :
    declareAsASmallStrainStandardBehaviour less d
      = if d.mvariables ≠ [] then
          .error { msg := "MechanicalBehaviourDescription::"
                    ++ "declareAsASmallStrainStandardBehaviour"
                    ++ " : some driving variables are already declared", state := d }
        else .ok { type := BehaviourType.SMALLSTRAINSTANDARDBEHAVIOUR,
                   mvariables := [smallStrainPair] } := by
  unfold declareAsASmallStrainStandardBehaviour
  by_cases hm : d.mvariables = []
  · rw [if_neg (by simpa using hm), if_neg (by simpa using hm), hm]
    rfl
  · rw [if_pos hm, if_pos hm]
    have : "MechanicalBehaviourDescription::declareAsASmallStrainStandardBehaviour : "
          ++ "some driving variables are already declared"
        = "MechanicalBehaviourDescription::" ++ "declareAsASmallStrainStandardBehaviour"
          ++ " : some driving variables are already declared" := by decide
    rw [this]

theorem declareAsAFiniteStrainStandardBehaviour_eq
    (less : DrivingVariable → DrivingVariable → Bool) (d : MechanicalBehaviourDescription) :
    declareAsAFiniteStrainStandardBehaviour less d
      = if d.mvariables ≠ [] then
          .error { msg := "MechanicalBehaviourDescription::"
                    ++ "declareAsAFiniteStrainStandardBehaviour"
                    ++ " : some driving variables are already declared", state := d }
        else .ok { type := BehaviourType.FINITESTRAINSTANDARDBEHAVIOUR,
                   mvariables := [finiteStrainPair] } := by
  unfold declareAsAFiniteStrainStandardBehaviour
  by_cases hm : d.mvariables = []
  · rw [if_neg (by simpa using hm), if_neg (by simpa using hm), hm]
    rfl
  · rw [if_pos hm, if_pos hm]
    have : "MechanicalBehaviourDescription::declareAsAFiniteStrainStandardBehaviour : "
          ++ "some driving variables are already declared"
        = "MechanicalBehaviourDescription::" ++ "declareAsAFiniteStrainStandardBehaviour"
          ++ " : some driving variables are already declared" := by decide
    rw [this]

theorem declareAsACohesiveZoneModel_eq
    (less : DrivingVariable → DrivingVariable → Bool) (d : MechanicalBehaviourDescription) :
    declareAsACohesiveZoneModel less d
      = if d.mvariables ≠ [] then
          .error { msg := "MechanicalBehaviourDescription::"
                    ++ "declareAsACohesiveZoneModel"
                    ++ " : some driving variables are already declared", state := d }
        else .ok { type := BehaviourType.COHESIVEZONEMODEL,
                   mvariables := [cohesiveZonePair] } := by
  unfold declareAsACohesiveZoneModel
  by_cases hm : d.mvariables = []
  · rw [if_neg (by simpa using hm), if_neg (by simpa using hm), hm]
    rfl
  · rw [if_pos hm, if_pos hm]
    have : "MechanicalBehaviourDescription::declareAsACohesiveZoneModel : "
          ++ "some driving variables are already declared"
        = "MechanicalBehaviourDescription::" ++ "declareAsACohesiveZoneModel"
          ++ " : some driving variables are already declared" := by decide
    rw [this]

/-- A call leaves a type that is not the general one as it is. -/
theorem result_type (less : DrivingVariable → DrivingVariable → Bool)
    (d : MechanicalBehaviourDescription) (c : BehaviourCall)
    (h : d.type ≠ BehaviourType.GENERALBEHAVIOUR) :
    (stateAfter (c.result less d)).type ≠ BehaviourType.GENERALBEHAVIOUR := by
  cases c with
  | smallStrain =>
    simp only [BehaviourCall.result, declareAsASmallStrainStandardBehaviour_eq]
    split
    · exact h
    · simp [stateAfter]
  | finiteStrain =>
    simp only [BehaviourCall.result, declareAsAFiniteStrainStandardBehaviour_eq]
    split
    · exact h
    · simp [stateAfter]
  | cohesiveZone =>
    simp only [BehaviourCall.result, declareAsACohesiveZoneModel_eq]
    split
    · exact h
    · simp [stateAfter]
  | mainVariable v f =>
    simp only [BehaviourCall.result, addMainVariable, if_pos h]
    exact h

theorem stateAfterCalls_type (less : DrivingVariable → DrivingVariable → Bool)
    (cs : List BehaviourCall) :
    ∀ d : MechanicalBehaviourDescription, d.type ≠ BehaviourType.GENERALBEHAVIOUR →
      (stateAfterCalls less d cs).type ≠ BehaviourType.GENERALBEHAVIOUR := by
  induction cs with
  | nil => intro d h; exact h
  | cons c cs ih =>
    intro d h
    exact ih _ (result_type less d c h)

/-- The type is not the general one after a successful `declareAsA...`. -/
theorem declared_type (less : DrivingVariable → DrivingVariable → Bool)
    (d d1 : MechanicalBehaviourDescription) (c : BehaviourCall)
    (hc : ∀ v f, c ≠ BehaviourCall.mainVariable v f) (h : c.result less d = .ok d1) :
    d1.type ≠ BehaviourType.GENERALBEHAVIOUR := by
  cases c with
  | smallStrain =>
    simp only [BehaviourCall.result, declareAsASmallStrainStandardBehaviour_eq] at h
    split at h
    · cases h
    · cases h
      simp
  | finiteStrain =>
    simp only [BehaviourCall.result, declareAsAFiniteStrainStandardBehaviour_eq] at h
    split at h
    · cases h
    · cases h
      simp
  | cohesiveZone =>
    simp only [BehaviourCall.result, declareAsACohesiveZoneModel_eq] at h
    split at h
    · cases h
    · cases h
      simp
  | mainVariable v f => exact absurd rfl (hc v f)

/-- C19: each of `declareAsASmallStrainStandardBehaviour`,
`declareAsAFiniteStrainStandardBehaviour` and `declareAsACohesiveZoneModel` is
one-shot: it fails, with the message that some driving variables are already
declared and without changing the description, if and only if a main variable
is registered; otherwise it leaves exactly the pair of its kind (`eto`/`sig`,
`F`/`sig`, `u`/`t`) as main variables and sets the type of the behaviour to its
kind. A second call of `declareAsASmallStrainStandardBehaviour` fails. -/
theorem declareAsA_one_shot (less : DrivingVariable → DrivingVariable → Bool)
    (d : MechanicalBehaviourDescription) :
    OneShot (declareAsASmallStrainStandardBehaviour less)
        "declareAsASmallStrainStandardBehaviour" BehaviourType.SMALLSTRAINSTANDARDBEHAVIOUR
        smallStrainPair d
      ∧ OneShot (declareAsAFiniteStrainStandardBehaviour less)
        "declareAsAFiniteStrainStandardBehaviour" BehaviourType.FINITESTRAINSTANDARDBEHAVIOUR
        finiteStrainPair d
      ∧ OneShot (declareAsACohesiveZoneModel less)
        "declareAsACohesiveZoneModel" BehaviourType.COHESIVEZONEMODEL cohesiveZonePair d
      ∧ ∀ d1, declareAsASmallStrainStandardBehaviour less d = .ok d1 →
          ∃ e, declareAsASmallStrainStandardBehaviour less d1 = .error e := by
  refine ⟨oneShot_of_eq _ _ _ _ d (declareAsASmallStrainStandardBehaviour_eq less d),
    oneShot_of_eq _ _ _ _ d (declareAsAFiniteStrainStandardBehaviour_eq less d),
    oneShot_of_eq _ _ _ _ d (declareAsACohesiveZoneModel_eq less d), ?_⟩
  intro d1 h
  rw [declareAsASmallStrainStandardBehaviour_eq] at h
  split at h
  · cases h
  · cases h
    exact ⟨_, declareAsASmallStrainStandardBehaviour_eq less _⟩

/-- Witness of C19: on a new description the first
`declareAsASmallStrainStandardBehaviour` leaves the pair `eto`/`sig` and the
second fails. -/
theorem declareAsA_one_shot_witness :
    declareAsASmallStrainStandardBehaviour lessByName newMechanicalBehaviourDescription
        = .ok { type := BehaviourType.SMALLSTRAINSTANDARDBEHAVIOUR,
                mvariables := [smallStrainPair] }
      ∧ ∃ e, declareAsASmallStrainStandardBehaviour lessByName
          { type := BehaviourType.SMALLSTRAINSTANDARDBEHAVIOUR, mvariables := [smallStrainPair] }
            = .error e :=
  ⟨(declareAsA_one_shot lessByName newMechanicalBehaviourDescription).1.2.2 rfl,
    (declareAsA_one_shot lessByName newMechanicalBehaviourDescription).2.2.2 _
      ((declareAsA_one_shot lessByName newMechanicalBehaviourDescription).1.2.2 rfl)⟩

/-- C20: `addMainVariable(v,f)` succeeds if and only if the type of the
behaviour is the general one and no main variable has a driving variable
equivalent to `v` in the order of the map; on success the pair is inserted; it
fails in every state reached, by any calls, after a successful
`declareAsASmallStrainStandardBehaviour`,
`declareAsAFiniteStrainStandardBehaviour` or `declareAsACohesiveZoneModel`; and
a failed call leaves the main variables and the type unchanged. -/
theorem addMainVariable_spec (less : DrivingVariable → DrivingVariable → Bool)
    (d : MechanicalBehaviourDescription) (v : DrivingVariable) (f : ThermodynamicForce) :
    ((∃ d1, addMainVariable less d v f = .ok d1)
        ↔ d.type = BehaviourType.GENERALBEHAVIOUR
          ∧ ∀ q ∈ d.mvariables, equivalentKeys less q.1 v = false)
      ∧ (∀ d1, addMainVariable less d v f = .ok d1 →
          d1 = { d with mvariables := (mapInsert less d.mvariables (v, f)).1 }
            ∧ (v, f) ∈ d1.mvariables)
      ∧ (∀ (d0 d1 : MechanicalBehaviourDescription) (c : BehaviourCall)
          (cs : List BehaviourCall),
          (∀ v0 f0, c ≠ BehaviourCall.mainVariable v0 f0) → c.result less d0 = .ok d1 →
          ∃ e, addMainVariable less (stateAfterCalls less d1 cs) v f = .error e)
      ∧ (∀ e, addMainVariable less d v f = .error e →
          e.state.mvariables = d.mvariables ∧ e.state.type = d.type) := by
  refine ⟨?_, ?_, ?_, ?_⟩
  · constructor
    · rintro ⟨d1, h⟩
      unfold addMainVariable at h
      split at h
      · cases h
      · rename_i ht
        split at h
        · cases h
        · rename_i hi
          exact ⟨by simpa using ht, (mapInsert_second less _ _).mp (by simpa using hi)⟩
    · rintro ⟨ht, hq⟩
      have hi := (mapInsert_second less d.mvariables (v, f)).mpr hq
      unfold addMainVariable
      rw [if_neg (by simp [ht]), if_neg (by simp [hi])]
      exact ⟨_, rfl⟩
  · intro d1 h
    unfold addMainVariable at h
    split at h
    · cases h
    · split at h
      · cases h
      · rename_i hi
        cases h
        refine ⟨rfl, ?_⟩
        have hi2 : (mapInsert less d.mvariables (v, f)).2 = true := by simpa using hi
        unfold mapInsert at hi2 ⊢
        split
        · rename_i hany
          rw [if_pos hany] at hi2
          cases hi2
        · simp
  · intro d0 d1 c cs hc h
    have ht := stateAfterCalls_type less cs d1 (declared_type less d0 d1 c hc h)
    unfold addMainVariable
    rw [if_pos ht]
    exact ⟨_, rfl⟩
  · intro e h
    unfold addMainVariable at h
    split at h
    · cases h
      exact ⟨rfl, rfl⟩
    · split at h
      · rename_i hi
        cases h
        exact ⟨mapInsert_failed less _ _ hi, rfl⟩
      · cases h

/-- Witness of C20: on a new description the variable `g` is added once, a
second `g` is refused and the description is left as it was; after
`declareAsACohesiveZoneModel` the variable is refused. -/
theorem addMainVariable_spec_witness :
    addMainVariable lessByName newMechanicalBehaviourDescription sampleGradient sampleFlux
        = .ok { type := BehaviourType.GENERALBEHAVIOUR,
                mvariables := [(sampleGradient, sampleFlux)] }
      ∧ (∃ d1, addMainVariable lessByName newMechanicalBehaviourDescription sampleGradient
          sampleFlux = .ok d1)
      ∧ (∃ e, addMainVariable lessByName
          (stateAfterCalls lessByName
            { type := BehaviourType.COHESIVEZONEMODEL, mvariables := [cohesiveZonePair] } [])
          sampleGradient sampleFlux = .error e)
      ∧ addMainVariable lessByName
          { type := BehaviourType.GENERALBEHAVIOUR, mvariables := [(sampleGradient, sampleFlux)] }
          sampleGradient sampleFlux
        = .error { msg := "MechanicalBehaviourDescription::addMainVariables : "
                    ++ "a driving variable 'g' has already been declared",
                   state := { type := BehaviourType.GENERALBEHAVIOUR,
                              mvariables := [(sampleGradient, sampleFlux)] } } :=
  ⟨by rfl,
    (addMainVariable_spec lessByName newMechanicalBehaviourDescription sampleGradient
      sampleFlux).1.mpr ⟨rfl, by decide⟩,
    (addMainVariable_spec lessByName newMechanicalBehaviourDescription sampleGradient
      sampleFlux).2.2.1 newMechanicalBehaviourDescription _ BehaviourCall.cohesiveZone []
      (by intro v0 f0 h; cases h) rfl,
    by rfl⟩

/-! ## Reading a list: lemmas -/

theorem commaSeparatedItems_head (t : Token) (r items : List Token)
    (h : commaSeparatedItems (t :: r) = some items) : ∃ tl, items = t :: tl := by
  cases r with
  | nil =>
    simp only [commaSeparatedItems, Option.some.injEq] at h
    exact ⟨[], h.symm⟩
  | cons c rest =>
    simp only [commaSeparatedItems] at h
    split at h
    · cases hr : commaSeparatedItems rest with
      | none => rw [hr] at h; cases h
      | some items1 =>
        rw [hr] at h
        simp only [Option.map_some', Option.some.injEq] at h
        exact ⟨items1, h.symm⟩
    · cases h

/-- The items, each with its comma, and the last item of tokens `item1 , ... ,
itemN` with `N ≥ 1`. -/
theorem commaSeparatedItems_pairs :
    ∀ (n : Nat) (body items : List Token), body.length ≤ n →
      commaSeparatedItems body = some items → items ≠ [] →
      ∃ front last, body = declarationTokens front ++ [last]
        ∧ (∀ p ∈ front, p.2.value = ",") ∧ items = front.map Prod.fst ++ [last] := by
  intro n
  induction n with
  | zero =>
    intro body items hn h hne
    have : body = [] := List.length_eq_zero.mp (Nat.le_zero.mp hn)
    subst this
    simp only [commaSeparatedItems, Option.some.injEq] at h
    exact absurd h.symm hne
  | succ n ih =>
    intro body items hn h hne
    match body, h, hn with
    | [], h, _ =>
      simp only [commaSeparatedItems, Option.some.injEq] at h
      exact absurd h.symm hne
    | [t], h, _ =>
      simp only [commaSeparatedItems, Option.some.injEq] at h
      exact ⟨[], t, rfl, by simp, by simp [← h]⟩
    | t :: c :: rest, h, hn =>
      simp only [commaSeparatedItems] at h
      split at h
      · rename_i hc
        cases hr : commaSeparatedItems rest with
        | none => rw [hr] at h; cases h
        | some items1 =>
          rw [hr] at h
          simp only [Option.map_some', Option.some.injEq] at h
          have hne1 : items1 ≠ [] := by
            intro e
            subst e
            cases rest with
            | nil => exact hc.2 rfl
            | cons t3 r3 =>
              obtain ⟨tl, htl⟩ := commaSeparatedItems_head t3 r3 [] hr
              cases htl
          have hlen : rest.length ≤ n := by
            simp only [List.length_cons] at hn
            omega
          obtain ⟨front, last, h1, h2, h3⟩ := ih rest items1 hlen hr hne1
          refine ⟨(t, c) :: front, last, ?_, ?_, ?_⟩
          · simp only [declarationTokens, List.cons_append, h1]
          · intro p hp
            rcases List.mem_cons.mp hp with rfl | hp
            · exact hc.1
            · exact h2 p hp
          · rw [← h, h3]
            simp
      · cases h

theorem commaSeparatedItems_declaration (front : List (Token × Token)) (last : Token)
    (h : ∀ p ∈ front, p.2.value = ",") :
    commaSeparatedItems (declarationTokens front ++ [last])
      = some (front.map Prod.fst ++ [last]) := by
  induction front with
  | nil => rfl
  | cons p front ih =>
    obtain ⟨t, c⟩ := p
    have hc : c.value = "," := h (t, c) (List.mem_cons_self _ _)
    have hne : declarationTokens front ++ [last] ≠ [] := by simp
    have e : declarationTokens ((t, c) :: front) ++ [last]
        = t :: c :: (declarationTokens front ++ [last]) := rfl
    rw [e, commaSeparatedItems, if_pos ⟨hc, hne⟩,
      ih (fun p hp => h p (List.mem_cons_of_mem _ hp))]
    rfl

/-- A turn of the loop of `readList` on an item followed by a comma and a token
that is not the closing delimiter. -/
theorem readListLoop_comma (m de : String) (t c t3 : Token) (r : List Token) (s : DSLBase)
    (l : List Token) (ht : t.value ≠ de) (hc : c.value = ",") (ht3 : t3.value ≠ de) :
    readListLoop m de (t :: c :: t3 :: r) s l
      = readListLoop m de (t3 :: r) { s with current := s.current + 2 } (l ++ [t]) := by
  conv_lhs => rw [readListLoop]
  simp only [ht, hc, ht3, ne_eq, not_false_eq_true, if_true, or_true, not_true_eq_false,
    if_false]

/-- The loop of `readList` on the items that a comma follows. -/
theorem readListLoop_pairs (m de : String) (front : List (Token × Token)) :
    ∀ (s : DSLBase) (l : List Token) (last : Token) (rest : List Token),
      (∀ p ∈ front, p.1.value ≠ de ∧ p.2.value = ",") → last.value ≠ de →
      readListLoop m de (declarationTokens front ++ last :: rest) s l
        = readListLoop m de (last :: rest) { s with current := s.current + 2 * front.length }
            (l ++ front.map Prod.fst) := by
  induction front with
  | nil =>
    intro s l last rest _ _
    simp only [declarationTokens, List.nil_append, List.length_nil, Nat.mul_zero, Nat.add_zero,
      List.map_nil, List.append_nil]
  | cons p front ih =>
    intro s l last rest hp hlast
    obtain ⟨t, c⟩ := p
    have h1 := hp (t, c) (List.mem_cons_self _ _)
    have hrest : ∀ q ∈ front, q.1.value ≠ de ∧ q.2.value = "," :=
      fun q hq => hp q (List.mem_cons_of_mem _ hq)
    have hstep : readListLoop m de (declarationTokens ((t, c) :: front) ++ last :: rest) s l
        = readListLoop m de (declarationTokens front ++ last :: rest)
            { s with current := s.current + 2 } (l ++ [t]) := by
      cases front with
      | nil =>
        simp only [declarationTokens, List.cons_append, List.nil_append]
        exact readListLoop_comma m de t c last rest s l h1.1 h1.2 hlast
      | cons q front =>
        obtain ⟨t3, c3⟩ := q
        simp only [declarationTokens, List.cons_append]
        exact readListLoop_comma m de t c t3 _ s l h1.1 h1.2
          (hp (t3, c3) (List.mem_cons_of_mem _ (List.mem_cons_self _ _))).1
    rw [hstep, ih _ _ last rest hrest hlast]
    simp only [List.length_cons, List.map_cons, List.append_assoc, List.singleton_append]
    have : s.current + 2 + 2 * front.length = s.current + 2 * (front.length + 1) := by omega
    rw [this]

/-- The loop of `readList` on tokens `item1 , ... , itemN` with `N ≥ 1`: the
items before the last are read. -/
theorem readListLoop_items (m de : String) (body items : List Token) (s : DSLBase)
    (l rest : List Token) (h : commaSeparatedItems body = some items) (hne : items ≠ [])
    (hde : ∀ t ∈ items, t.value ≠ de) :
    ∃ last, last.value ≠ de ∧ items = items.dropLast ++ [last]
      ∧ readListLoop m de (body ++ rest) s l
        = readListLoop m de (last :: rest) { s with current := s.current + (body.length - 1) }
            (l ++ items.dropLast) := by
  obtain ⟨front, last, h1, h2, h3⟩ := commaSeparatedItems_pairs body.length body items
    (Nat.le_refl _) h hne
  have hlast : last.value ≠ de := hde last (by rw [h3]; simp)
  have hfront : ∀ p ∈ front, p.1.value ≠ de ∧ p.2.value = "," := by
    intro p hp
    refine ⟨hde p.1 ?_, h2 p hp⟩
    rw [h3]
    exact List.mem_append_left _ (List.mem_map_of_mem _ hp)
  have hd : items.dropLast = front.map Prod.fst := by
    rw [h3, List.dropLast_concat]
  refine ⟨last, hlast, by rw [hd, ← h3], ?_⟩
  rw [hd, h1, List.append_assoc, List.singleton_append,
    readListLoop_pairs m de front s l last rest hfront hlast]
  simp only [List.length_append, declarationTokens_length, List.length_cons, List.length_nil,
    Nat.zero_add, Nat.add_sub_cancel]

/-- The call of `readList` on an opening delimiter. -/
theorem readList_open (s : DSLBase) (m db de : String) (b : Bool) (pre : List Token) (op : Token)
    (rest : List Token) (htok : s.tokens = pre ++ op :: rest) (hcur : s.current = pre.length)
    (hop : op.value = db) :
    readList s m db de b
      = match readListLoop m de rest { s with current := s.current + 1 } [] with
        | .error f => .error f
        | .ok (l, s2) => .ok (l, { s2 with current := s2.current + 1 }) := by
  have hlt : s.current < s.tokens.length := by
    rw [htok, hcur]
    simp
  have hcv : s.cur.value = db := by
    rw [cur_eq s pre op rest htok hcur, hop]
  have hdrop : s.tokens.drop (s.current + 1) = rest := by
    rw [htok, hcur, List.drop_append_eq_append_drop]
    simp
  unfold readList
  rw [checkNotEndOfFile_ok s m _ hlt, readSpecifiedToken_ok s m db hlt hcv]
  simp only [Nat.not_le.mpr hlt, false_and, if_false, hcv, ne_eq, not_true_eq_false, hdrop]

/-- Every list that the loop of `readList` reads. -/
theorem readListLoop_ok_inv (m de : String) :
    ∀ (n : Nat) (rest : List Token), rest.length ≤ n →
      ∀ (s : DSLBase) (l l1 : List Token) (s1 : DSLBase),
        readListLoop m de rest s l = .ok (l1, s1) →
        ∃ body cl post items, rest = body ++ cl :: post ∧ cl.value = de
          ∧ commaSeparatedItems body = some items ∧ (∀ t ∈ items, t.value ≠ de)
          ∧ l1 = l ++ items ∧ s1 = { s with current := s.current + body.length } := by
  intro n
  induction n with
  | zero =>
    intro rest hn s l l1 s1 h
    have : rest = [] := List.length_eq_zero.mp (Nat.le_zero.mp hn)
    subst this
    rw [readListLoop] at h
    cases h
  | succ n ih =>
    intro rest hn s l l1 s1 h
    match rest, hn, h with
    | [], _, h =>
      rw [readListLoop] at h
      cases h
    | t :: rest1, hn, h =>
      rw [readListLoop] at h
      by_cases ht : t.value = de
      · simp only [ht, ne_eq, not_true_eq_false, if_false, Except.ok.injEq, Prod.mk.injEq] at h
        refine ⟨[], t, rest1, [], rfl, ht, rfl, by simp, by simp [h.1], ?_⟩
        rw [← h.2]
        rfl
      · simp only [ht, ne_eq, not_false_eq_true, if_true] at h
        match rest1, hn, h with
        | [], _, h => cases h
        | t2 :: rest2, hn, h =>
          simp only at h
          by_cases h2 : t2.value = de ∨ t2.value = ","
          · simp only [h2, not_true_eq_false, if_false] at h
            by_cases hc : t2.value = ","
            · simp only [hc, if_true] at h
              match rest2, hn, h with
              | [], _, h => cases h
              | t3 :: rest3, hn, h =>
                simp only at h
                by_cases h3 : t3.value = de
                · simp only [h3, if_true] at h
                  cases h
                · simp only [h3, if_false] at h
                  have hlen : (t3 :: rest3).length ≤ n := by
                    simp only [List.length_cons] at hn ⊢
                    omega
                  obtain ⟨body, cl, post, items, e1, e2, e3, e4, e5, e6⟩ :=
                    ih (t3 :: rest3) hlen _ _ _ _ h
                  have hbne : body ≠ [] := by
                    intro e
                    subst e
                    simp only [List.nil_append, List.cons.injEq] at e1
                    exact h3 (e1.1 ▸ e2)
                  refine ⟨t :: t2 :: body, cl, post, t :: items, ?_, e2, ?_, ?_, ?_, ?_⟩
                  · simp only [List.cons_append, e1]
                  · simp only [commaSeparatedItems, hc, hbne, ne_eq, not_false_eq_true,
                      and_self, if_true, e3, Option.map_some']
                  · intro x hx
                    rcases List.mem_cons.mp hx with rfl | hx
                    · exact ht
                    · exact e4 x hx
                  · rw [e5]
                    simp
                  · rw [e6]
                    simp only [List.length_cons, DSLBase.mk.injEq, and_true, true_and]
                    omega
            · simp only [hc, if_false] at h
              have hde : t2.value = de := h2.resolve_right hc
              rw [readListLoop] at h
              simp only [hde, ne_eq, not_true_eq_false, if_false, Except.ok.injEq,
                Prod.mk.injEq] at h
              refine ⟨[t], t2, rest2, [t], rfl, hde, rfl, ?_, h.1.symm, ?_⟩
              · intro x hx
                rw [List.mem_singleton.mp hx]
                exact ht
              · rw [← h.2]
                rfl
          · simp only [h2, not_false_eq_true, if_true] at h
            cases h

theorem commaSeparatedItems_nil (body : List Token) (h : commaSeparatedItems body = some []) :
    body = [] := by
  cases body with
  | nil => rfl
  | cons t r =>
    obtain ⟨tl, htl⟩ := commaSeparatedItems_head t r [] h
    cases htl

theorem commaSeparatedItems_length (body items : List Token)
    (h : commaSeparatedItems body = some items) (hne : items ≠ []) : 1 ≤ body.length := by
  cases body with
  | nil =>
    simp only [commaSeparatedItems, Option.some.injEq] at h
    exact absurd h.symm hne
  | cons t r => simp

/-- The list `item1 , ... , itemN` between its delimiters is read, when the
closing delimiter is not a comma. -/
theorem readList_closed (s : DSLBase) (m db de : String) (b : Bool) (pre : List Token)
    (op : Token) (body items : List Token) (cl : Token) (post : List Token)
    (htok : s.tokens = pre ++ op :: (body ++ cl :: post)) (hcur : s.current = pre.length)
    (hop : op.value = db) (hitems : commaSeparatedItems body = some items)
    (hde : ∀ t ∈ items, t.value ≠ de) (hcl : cl.value = de) (hcomma : de ≠ ",") :
    readList s m db de b = .ok (items, { s with current := pre.length + body.length + 2 }) := by
  rw [readList_open s m db de b pre op _ htok hcur hop]
  by_cases hne : items = []
  · subst hne
    have hb := commaSeparatedItems_nil body hitems
    subst hb
    rw [List.nil_append, readListLoop]
    simp only [hcl, ne_eq, not_true_eq_false, if_false, hcur, List.length_nil, Nat.add_zero]
  · obtain ⟨last, hlast, hl, hloop⟩ := readListLoop_items m de body items
      { s with current := s.current + 1 } [] (cl :: post) hitems hne hde
    have hlen := commaSeparatedItems_length body items hitems hne
    have hc2 : ¬ cl.value = "," := by rw [hcl]; exact hcomma
    rw [hloop, readListLoop]
    simp only [hlast, ne_eq, not_false_eq_true, if_true, hcl, true_or, not_true_eq_false,
      if_false, hcomma]
    rw [readListLoop]
    simp only [hcl, ne_eq, not_true_eq_false, if_false, List.nil_append, ← hl, hcur,
      Except.ok.injEq, Prod.mk.injEq, true_and, DSLBase.mk.injEq, and_true]
    omega

/-! ## Reading a string: lemmas -/

theorem unquote_eq (v : String) (h1 : v ≠ "") (h2 : v.length < sizeRange) :
    unquote v = .ok (withoutEnds v) := by
  obtain ⟨data⟩ := v
  cases data with
  | nil => exact absurd rfl h1
  | cons c cs =>
    have hlen : (String.mk (c :: cs)).length = cs.length + 1 := rfl
    rw [hlen] at h2
    unfold unquote substr withoutEnds
    rw [hlen, if_neg (by omega)]
    simp only [List.drop_succ_cons, List.drop_zero]
    by_cases h0 : cs.length = 0
    · have : cs = [] := List.length_eq_zero.mp h0
      subst this
      rfl
    · have hn : (cs.length + 1 + sizeRange - 2) % sizeRange = cs.length - 1 := by
        have : cs.length + 1 + sizeRange - 2 = (cs.length - 1) + sizeRange := by omega
        rw [this, Nat.add_mod_right, Nat.mod_eq_of_lt (by omega)]
      rw [hn, List.dropLast_eq_take]

theorem unquote_empty : unquote "" = .error "basic_string::substr" := rfl

theorem unquote_inv (v r : String) (h : unquote v = .ok r) :
    v ≠ "" ∧ (v.length < sizeRange → r = withoutEnds v) := by
  constructor
  · intro e
    subst e
    rw [unquote_empty] at h
    cases h
  · intro hlt
    have hne : v ≠ "" := by
      intro e
      subst e
      rw [unquote_empty] at h
      cases h
    rw [unquote_eq v hne hlt] at h
    cases h
    rfl

/-- The result of `readString` on a token in the range. -/
theorem readString_eq (s : DSLBase) (m : String) (h : s.current < s.tokens.length) :
    readString s m
      = if s.cur.flag ≠ TokenFlag.String then .error (throwRuntimeError s m "Expected a string")
        else
          match unquote s.cur.value with
          | .error e => .error { msg := e, state := s }
          | .ok r => .ok (r, { s with current := s.current + 1 }) := by
  unfold readString
  rw [checkNotEndOfFile_ok s m _ h]

theorem readArrayOfStringLoop_ok (s : DSLBase) (m : String) (items : List Token) :
    ∀ r : List String,
      (∀ t ∈ items, t.flag = TokenFlag.String ∧ t.value ≠ "" ∧ t.value.length < sizeRange) →
      readArrayOfStringLoop s m items r
        = .ok (r ++ items.map (fun t => withoutEnds t.value)) := by
  induction items with
  | nil =>
    intro r _
    simp [readArrayOfStringLoop]
  | cons t ts ih =>
    intro r h
    obtain ⟨h1, h2, h3⟩ := h t (List.mem_cons_self _ _)
    rw [readArrayOfStringLoop, if_neg (by simp [h1]), unquote_eq t.value h2 h3]
    simp only
    rw [ih _ (fun x hx => h x (List.mem_cons_of_mem _ hx))]
    simp

theorem readArrayOfStringLoop_error (s : DSLBase) (m : String) (items : List Token) :
    ∀ r : List String, (∃ t ∈ items, t.flag ≠ TokenFlag.String) →
      ∃ f, readArrayOfStringLoop s m items r = .error f := by
  induction items with
  | nil =>
    intro r h
    obtain ⟨t, ht, -⟩ := h
    cases ht
  | cons t ts ih =>
    intro r h
    rw [readArrayOfStringLoop]
    by_cases hf : t.flag = TokenFlag.String
    · rw [if_neg (by simp [hf])]
      cases hu : unquote t.value with
      | error e => exact ⟨_, rfl⟩
      | ok v =>
        simp only
        apply ih
        obtain ⟨x, hx, hxf⟩ := h
        rcases List.mem_cons.mp hx with rfl | hx
        · exact absurd hf hxf
        · exact ⟨x, hx, hxf⟩
    · rw [if_pos hf]
      exact ⟨_, rfl⟩

theorem readArrayOfStringLoop_inv (s : DSLBase) (m : String) (items : List Token) :
    ∀ r r1 : List String, readArrayOfStringLoop s m items r = .ok r1 →
      (∀ t ∈ items, t.flag = TokenFlag.String)
        ∧ ((∀ t ∈ items, t.value.length < sizeRange) →
            r1 = r ++ items.map (fun t => withoutEnds t.value)) := by
  induction items with
  | nil =>
    intro r r1 h
    rw [readArrayOfStringLoop] at h
    cases h
    simp
  | cons t ts ih =>
    intro r r1 h
    rw [readArrayOfStringLoop] at h
    by_cases hf : t.flag = TokenFlag.String
    · rw [if_neg (by simp [hf])] at h
      cases hu : unquote t.value with
      | error e =>
        rw [hu] at h
        cases h
      | ok v =>
        rw [hu] at h
        simp only at h
        obtain ⟨h1, h2⟩ := ih _ _ h
        refine ⟨?_, ?_⟩
        · intro x hx
          rcases List.mem_cons.mp hx with rfl | hx
          · exact hf
          · exact h1 x hx
        · intro hb
          rw [h2 (fun x hx => hb x (List.mem_cons_of_mem _ hx)),
            (unquote_inv t.value v hu).2 (hb t (List.mem_cons_self _ _))]
          simp
    · rw [if_pos hf] at h
      cases h

/-! ## Reading a list: properties -/

/-- C14: on a list opened at the cursor in which an item is followed by `,` and
then directly by the closing delimiter, `readList` fails with the error
`Expected a new item`; it also fails, with the error that names the token read,
when an item is followed by a token that is neither `,` nor the closing
delimiter, and, with the error of the unexpected end of the file, when the
tokens end before the closing delimiter (after the opening delimiter, after an
item or after a comma). -/
theorem readList_failures (s : DSLBase) (m db de : String) (b : Bool) (pre : List Token)
    (op : Token) (body items : List Token) (hcur : s.current = pre.length)
    (hop : op.value = db) (hitems : commaSeparatedItems body = some items)
    (hde : ∀ t ∈ items, t.value ≠ de) :
    (∀ comma cl post, s.tokens = pre ++ op :: (body ++ comma :: cl :: post) → items ≠ [] →
        comma.value = "," → cl.value = de →
        readList s m db de b
          = .error (throwRuntimeError { s with current := pre.length + body.length + 2 } m
              "Expected a new item"))
      ∧ (∀ x post, s.tokens = pre ++ op :: (body ++ x :: post) → items ≠ [] →
          x.value ≠ "," → x.value ≠ de →
          readList s m db de b
            = .error (throwRuntimeError { s with current := pre.length + body.length + 1 } m
                ("Expected ',' or '" ++ de ++ "'," ++ " read '" ++ x.value ++ "'")))
      ∧ (s.tokens = pre ++ op :: body →
          readList s m db de b
            = .error (endOfFileFailure { s with current := s.tokens.length } m
                ("Expected '" ++ de ++ "'")))
      ∧ (∀ comma, s.tokens = pre ++ op :: (body ++ [comma]) → items ≠ [] →
          comma.value = "," →
          readList s m db de b
            = .error (endOfFileFailure { s with current := s.tokens.length } m
                ("Expected '" ++ de ++ "'"))) := by
  refine ⟨?_, ?_, ?_, ?_⟩
  · intro comma cl post htok hne hcomma hcl
    obtain ⟨last, hlast, -, hloop⟩ := readListLoop_items m de body items
      { s with current := s.current + 1 } [] (comma :: cl :: post) hitems hne hde
    have hlen := commaSeparatedItems_length body items hitems hne
    rw [readList_open s m db de b pre op _ htok hcur hop, hloop, readListLoop]
    simp only [hlast, ne_eq, not_false_eq_true, if_true, hcomma, or_true, not_true_eq_false,
      if_false, hcl, hcur]
    have : pre.length + 1 + (body.length - 1) + 1 + 1 = pre.length + body.length + 2 := by omega
    rw [this]
  · intro x post htok hne hx1 hx2
    obtain ⟨last, hlast, -, hloop⟩ := readListLoop_items m de body items
      { s with current := s.current + 1 } [] (x :: post) hitems hne hde
    have hlen := commaSeparatedItems_length body items hitems hne
    rw [readList_open s m db de b pre op _ htok hcur hop, hloop, readListLoop]
    simp only [hlast, ne_eq, not_false_eq_true, if_true, hx1, hx2, or_self, hcur]
    have : pre.length + 1 + (body.length - 1) + 1 = pre.length + body.length + 1 := by omega
    rw [this]
  · intro htok
    have hl : s.tokens.length = pre.length + body.length + 1 := by
      rw [htok]
      simp only [List.length_append, List.length_cons]
      omega
    have htok2 : s.tokens = pre ++ op :: (body ++ []) := by rw [List.append_nil]; exact htok
    rw [readList_open s m db de b pre op _ htok2 hcur hop]
    by_cases hne : items = []
    · subst hne
      have hb := commaSeparatedItems_nil body hitems
      subst hb
      rw [List.nil_append, readListLoop, hl, hcur]
      rfl
    · obtain ⟨last, hlast, -, hloop⟩ := readListLoop_items m de body items
        { s with current := s.current + 1 } [] [] hitems hne hde
      have hlen := commaSeparatedItems_length body items hitems hne
      rw [hloop, readListLoop]
      simp only [hlast, ne_eq, not_false_eq_true, if_true, hcur, hl]
      have : pre.length + 1 + (body.length - 1) + 1 = pre.length + body.length + 1 := by omega
      rw [this]
  · intro comma htok hne hcomma
    have hl : s.tokens.length = pre.length + body.length + 2 := by
      rw [htok]
      simp only [List.length_append, List.length_cons, List.length_nil]
      omega
    obtain ⟨last, hlast, -, hloop⟩ := readListLoop_items m de body items
      { s with current := s.current + 1 } [] [comma] hitems hne hde
    have hlen := commaSeparatedItems_length body items hitems hne
    rw [readList_open s m db de b pre op _ htok hcur hop, hloop, readListLoop]
    simp only [hlast, ne_eq, not_false_eq_true, if_true, hcomma, or_true, not_true_eq_false,
      if_false, hcur, hl]
    have : pre.length + 1 + (body.length - 1) + 1 + 1 = pre.length + body.length + 2 := by omega
    rw [this]

/-- Witness of C14: the list `\x7b a , \x7d` has a dangling comma. -/
theorem readList_failures_witness :
    readList (parserOn danglingTokens) "DSLBase::treatLink" "\x7b" "\x7d" false
      = .error (throwRuntimeError
          { parserOn danglingTokens with current := ([] : List Token).length + [tok "a" 1].length + 2 }
          "DSLBase::treatLink" "Expected a new item")
    ∧ (throwRuntimeError { parserOn danglingTokens with current := 3 } "DSLBase::treatLink"
        "Expected a new item").msg = "DSLBase::treatLink: Expected a new item\nError at line 1" :=
  ⟨(readList_failures (parserOn danglingTokens) "DSLBase::treatLink" "\x7b" "\x7d" false []
      (tok "\x7b" 1) [tok "a" 1] [tok "a" 1] rfl rfl rfl (by decide)).1
      (tok "," 1) (tok "\x7d" 1) [] rfl (by decide) rfl rfl,
    by rfl⟩

/-- C15 (amended): whenever `readList` succeeds on an opening delimiter, the
tokens at the cursor are the opening delimiter, tokens `item1 , ... , itemN`
(`N ≥ 0`) and the closing delimiter, the list returned is that of the items in
their order, the cursor is just after the closing delimiter, and no item is the
closing delimiter (an item may be the token `,`); and every list of this form
whose closing delimiter is not `,` is read. -/
theorem readList_reads_items (s : DSLBase) (m db de : String) (b : Bool) :
    (∀ l s1, s.current < s.tokens.length → s.cur.value = db →
        readList s m db de b = .ok (l, s1) →
        ∃ pre op body cl post, s.tokens = pre ++ op :: (body ++ cl :: post)
          ∧ s.current = pre.length ∧ op.value = db ∧ cl.value = de
          ∧ commaSeparatedItems body = some l ∧ (∀ t ∈ l, t.value ≠ de)
          ∧ s1 = { s with current := pre.length + body.length + 2 })
      ∧ (∀ pre op body items cl post, s.tokens = pre ++ op :: (body ++ cl :: post) →
          s.current = pre.length → op.value = db → cl.value = de → de ≠ "," →
          commaSeparatedItems body = some items → (∀ t ∈ items, t.value ≠ de) →
          readList s m db de b
            = .ok (items, { s with current := pre.length + body.length + 2 })) := by
  constructor
  · intro l s1 hlt hv h
    have hsplit := tokens_split s hlt
    have hpre : s.current = (s.tokens.take s.current).length := by
      rw [List.length_take]
      omega
    rw [readList_open s m db de b _ _ _ hsplit hpre hv] at h
    split at h
    · cases h
    · rename_i l2 s2 hloop
      simp only [Except.ok.injEq, Prod.mk.injEq] at h
      obtain ⟨body, cl, post, items, e1, e2, e3, e4, e5, e6⟩ :=
        readListLoop_ok_inv m de _ _ (Nat.le_refl _) _ _ _ _ hloop
      refine ⟨s.tokens.take s.current, s.cur, body, cl, post, ?_, hpre, hv, e2, ?_, ?_, ?_⟩
      · rw [← e1]
        exact hsplit
      · rw [← h.1, e5]
        exact e3
      · rw [← h.1, e5]
        exact e4
      · rw [← h.2, e6]
        simp only [DSLBase.mk.injEq, true_and, and_true]
        omega
  · intro pre op body items cl post htok hcur hop hcl hcomma hitems hde
    exact readList_closed s m db de b pre op body items cl post htok hcur hop hitems hde hcl
      hcomma

/-- Witness of C15: the list `\x7b "a" , 'bc' \x7d` is read; the two strings are
its items. -/
theorem readList_reads_items_witness :
    readList (parserOn stringListTokens) "DSLBase::treatLink" "\x7b" "\x7d" false
        = .ok ([strTok "\"a\"" 1, strTok "'bc'" 1], { parserOn stringListTokens with current := 5 })
      ∧ ∃ pre op body cl post, (parserOn stringListTokens).tokens = pre ++ op :: (body ++ cl :: post)
          ∧ (parserOn stringListTokens).current = pre.length ∧ op.value = "\x7b"
          ∧ cl.value = "\x7d"
          ∧ commaSeparatedItems body = some [strTok "\"a\"" 1, strTok "'bc'" 1]
          ∧ (∀ t ∈ [strTok "\"a\"" 1, strTok "'bc'" 1], t.value ≠ "\x7d")
          ∧ ({ parserOn stringListTokens with current := 5 } : DSLBase)
            = { parserOn stringListTokens with current := pre.length + body.length + 2 } :=
  ⟨by rfl,
    (readList_reads_items (parserOn stringListTokens) "DSLBase::treatLink" "\x7b" "\x7d"
      false).1 _ _ (by decide) rfl (by rfl)⟩

/-- Counterexample of C15: on `\x7b , \x7d` the list that `readList` returns has
one item, the token `,`. -/
theorem readList_comma_item_counterexample :
    readList (parserOn commaItemTokens) "DSLBase::treatLink" "\x7b" "\x7d" false
      = .ok ([tok "," 1], { parserOn commaItemTokens with current := 3 }) := by
  rfl

/-- C16 (amended): when the token at the cursor is not `\x7b`,
`readStringOrArrayOfString` reads one token flagged as a string and returns its
text without its ends as a list of one element (it fails on a token that is not
flagged as a string), whereas `readList` (on a token that is not its opening
delimiter), `readArrayOfString` and `readArrayOfDouble` return an empty list,
without an error and without moving the cursor. -/
theorem readList_absent_delimiter (s : DSLBase) (m : String)
    (hlt : s.current < s.tokens.length) :
    (s.cur.value ≠ "\x7b" → s.cur.flag = TokenFlag.String → s.cur.value ≠ "" →
        s.cur.value.length < sizeRange →
        readStringOrArrayOfString s m
          = .ok ([withoutEnds s.cur.value], { s with current := s.current + 1 }))
      ∧ (s.cur.value ≠ "\x7b" → s.cur.flag ≠ TokenFlag.String →
          readStringOrArrayOfString s m = .error (throwRuntimeError s m "Expected a string"))
      ∧ (∀ db de b, s.cur.value ≠ db → readList s m db de b = .ok ([], s))
      ∧ (s.cur.value ≠ "\x7b" → readArrayOfString s m = .ok ([], s))
      ∧ (∀ (D : Type) (convert : String → Except String D), s.cur.value ≠ "\x7b" →
          readArrayOfDouble convert s m = .ok ([], s)) := by
  have hlist : ∀ db de b, s.cur.value ≠ db → readList s m db de b = .ok ([], s) := by
    intro db de b hv
    unfold readList
    rw [checkNotEndOfFile_ok s m _ hlt]
    simp only [Nat.not_le.mpr hlt, false_and, if_false, hv, ne_eq, not_false_eq_true, if_true]
  refine ⟨?_, ?_, hlist, ?_, ?_⟩
  · intro hv hf hne hb
    unfold readStringOrArrayOfString
    rw [checkNotEndOfFile_ok s m _ hlt, readString_eq s m hlt, unquote_eq _ hne hb]
    simp only [hv, if_false, hf, ne_eq, not_true_eq_false]
  · intro hv hf
    unfold readStringOrArrayOfString
    rw [checkNotEndOfFile_ok s m _ hlt, readString_eq s m hlt]
    simp only [hv, if_false, hf, ne_eq, not_false_eq_true, if_true]
  · intro hv
    unfold readArrayOfString
    rw [hlist _ _ _ hv]
    rfl
  · intro D convert hv
    unfold readArrayOfDouble
    rw [hlist _ _ _ hv]
    rfl

/-- Witness of C16: at the token `"a"`, flagged as a string,
`readStringOrArrayOfString` returns the list of `a`, and `readList`,
`readArrayOfString` and `readArrayOfDouble` return an empty list. -/
theorem readList_absent_delimiter_witness :
    readStringOrArrayOfString (parserOn [strTok "\"a\"" 1]) "DSLBase::treatLink"
        = .ok (["a"], { parserOn [strTok "\"a\"" 1] with current := 1 })
      ∧ readArrayOfString (parserOn [strTok "\"a\"" 1]) "DSLBase::treatLink"
        = .ok ([], parserOn [strTok "\"a\"" 1]) :=
  ⟨(readList_absent_delimiter (parserOn [strTok "\"a\"" 1]) "DSLBase::treatLink"
      (by decide)).1 (by decide) rfl (by decide) (by decide),
    (readList_absent_delimiter (parserOn [strTok "\"a\"" 1]) "DSLBase::treatLink"
      (by decide)).2.2.2.1 (by decide)⟩

/-- Counterexample of C16: at the token `a`, which is not `\x7b`, `readList`,
`readArrayOfString` and `readArrayOfDouble` (here with a conversion that gives
the length of the text) return an empty list and raise no error. -/
theorem readList_absent_delimiter_counterexample :
    readList (parserOn [tok "a" 1]) "DSLBase::treatLink" "\x7b" "\x7d" false
        = .ok ([], parserOn [tok "a" 1])
      ∧ readArrayOfString (parserOn [tok "a" 1]) "DSLBase::treatLink"
        = .ok ([], parserOn [tok "a" 1])
      ∧ readArrayOfDouble (fun v => (.ok v.length : Except String Nat)) (parserOn [tok "a" 1])
          "DSLBase::treatLink"
        = .ok ([], parserOn [tok "a" 1]) :=
  ⟨by rfl, by rfl, by rfl⟩

/-- C17: with the cursor at the end of the tokens, `readList` throws the error
of the unexpected end of the file whatever the flag `b` is: the test of line 675
throws before the flag is looked at on line 677. -/
theorem readList_end_of_tokens (s : DSLBase) (m db de : String) (b : Bool)
    (h : s.tokens.length ≤ s.current) :
    readList s m db de b = .error (endOfFileFailure s m ("Expected '" ++ db ++ "'")) := by
  unfold readList checkNotEndOfFile
  rw [if_pos h]

/-- Witness of C17: without any token, and at the end of the tokens `\x7b \x7d`,
`readList` called with the flag `true` throws. -/
theorem readList_end_of_tokens_witness :
    readList (parserOn []) "DSLBase::treatLink" "\x7b" "\x7d" true
        = .error { msg := "DSLBase::treatLink: unexpected end of file.\nExpected '\x7b'",
                   state := parserOn [] }
      ∧ readList { parserOn [tok "\x7b" 1, tok "\x7d" 1] with current := 2 } "DSLBase::treatLink"
          "\x7b" "\x7d" true
        = .error (endOfFileFailure { parserOn [tok "\x7b" 1, tok "\x7d" 1] with current := 2 }
            "DSLBase::treatLink" ("Expected '" ++ "\x7b" ++ "'")) :=
  ⟨by rfl,
    readList_end_of_tokens { parserOn [tok "\x7b" 1, tok "\x7d" 1] with current := 2 }
      "DSLBase::treatLink" "\x7b" "\x7d" true (by decide)⟩

/-! ## Reading strings: properties -/

/-- C18: `readString` succeeds only on a token flagged as a string; it then
returns the text of the token without its first and last characters and moves
the cursor by one token, and it does succeed on every such token whose text is
not empty. `readArrayOfString` returns, for the items of the list between
braces, the texts of the items without their first and last characters, in
order, when every item is flagged as a string (and has a text that is not
empty), and fails when an item is not flagged as a string; whenever it succeeds
every item that `readList` read is flagged as a string. The texts are shorter
than the range of `std::size_t`. -/
theorem readString_spec (s : DSLBase) (m : String) :
    (∀ r s1, readString s m = .ok (r, s1) →
        s.current < s.tokens.length ∧ s.cur.flag = TokenFlag.String
          ∧ (s.cur.value.length < sizeRange → r = withoutEnds s.cur.value)
          ∧ s1 = { s with current := s.current + 1 })
      ∧ (s.current < s.tokens.length → s.cur.flag = TokenFlag.String → s.cur.value ≠ "" →
          s.cur.value.length < sizeRange →
          readString s m = .ok (withoutEnds s.cur.value, { s with current := s.current + 1 }))
      ∧ (∀ pre op body items cl post, s.tokens = pre ++ op :: (body ++ cl :: post) →
          s.current = pre.length → op.value = "\x7b" → cl.value = "\x7d" →
          commaSeparatedItems body = some items → (∀ t ∈ items, t.value ≠ "\x7d") →
          ((∀ t ∈ items, t.flag = TokenFlag.String ∧ t.value ≠ ""
                ∧ t.value.length < sizeRange) →
              readArrayOfString s m
                = .ok (items.map (fun t => withoutEnds t.value),
                    { s with current := pre.length + body.length + 2 }))
            ∧ ((∃ t ∈ items, t.flag ≠ TokenFlag.String) →
                ∃ f, readArrayOfString s m = .error f))
      ∧ (∀ r s1, readArrayOfString s m = .ok (r, s1) →
          ∃ items, readList s m "\x7b" "\x7d" false = .ok (items, s1)
            ∧ (∀ t ∈ items, t.flag = TokenFlag.String)
            ∧ ((∀ t ∈ items, t.value.length < sizeRange) →
                r = items.map (fun t => withoutEnds t.value))) := by
  refine ⟨?_, ?_, ?_, ?_⟩
  · intro r s1 h
    have hlt : s.current < s.tokens.length := by
      unfold readString at h
      split at h
      · cases h
      · rename_i u hc
        exact checkNotEndOfFile_inv s m _ u hc
    rw [readString_eq s m hlt] at h
    by_cases hf : s.cur.flag = TokenFlag.String
    · rw [if_neg (by simp [hf])] at h
      cases hu : unquote s.cur.value with
      | error e =>
        rw [hu] at h
        cases h
      | ok v =>
        rw [hu] at h
        simp only [Except.ok.injEq, Prod.mk.injEq] at h
        refine ⟨hlt, hf, ?_, h.2.symm⟩
        intro hb
        rw [← h.1]
        exact (unquote_inv _ _ hu).2 hb
    · rw [if_pos hf] at h
      cases h
  · intro hlt hf hne hb
    rw [readString_eq s m hlt, if_neg (by simp [hf]), unquote_eq _ hne hb]
  · intro pre op body items cl post htok hcur hop hcl hitems hde
    have hlist := readList_closed s m "\x7b" "\x7d" false pre op body items cl post htok hcur hop
      hitems hde hcl (by decide)
    constructor
    · intro hall
      unfold readArrayOfString
      rw [hlist]
      simp only
      rw [readArrayOfStringLoop_ok _ m items [] hall]
      rfl
    · intro hex
      unfold readArrayOfString
      rw [hlist]
      simp only
      obtain ⟨f, hf⟩ := readArrayOfStringLoop_error
        { s with current := pre.length + body.length + 2 } m items [] hex
      rw [hf]
      exact ⟨f, rfl⟩
  · intro r s1 h
    unfold readArrayOfString at h
    split at h
    · cases h
    · rename_i as s2 hlist
      split at h
      · cases h
      · rename_i r2 hloop
        simp only [Except.ok.injEq, Prod.mk.injEq] at h
        obtain ⟨h1, h2⟩ := readArrayOfStringLoop_inv s2 m as [] r2 hloop
        refine ⟨as, ?_, h1, ?_⟩
        · rw [← h.2]
          exact hlist
        · intro hb
          rw [← h.1, h2 hb]
          rfl

/-- Witness of C18: `readString` on the token `"abc"` and `readArrayOfString` on
the list `\x7b "a" , 'bc' \x7d`. -/
theorem readString_spec_witness :
    readString (parserOn [strTok "\"abc\"" 1]) "DSLBase::treatLink"
        = .ok ("abc", { parserOn [strTok "\"abc\"" 1] with current := 1 })
      ∧ readString (parserOn [strTok "\"abc\"" 1]) "DSLBase::treatLink"
        = .ok (withoutEnds (parserOn [strTok "\"abc\"" 1]).cur.value,
            { parserOn [strTok "\"abc\"" 1] with current := 0 + 1 })
      ∧ readArrayOfString (parserOn stringListTokens) "DSLBase::treatLink"
        = .ok (["a", "bc"], { parserOn stringListTokens with current := 5 })
      ∧ readArrayOfString (parserOn stringListTokens) "DSLBase::treatLink"
        = .ok ([strTok "\"a\"" 1, strTok "'bc'" 1].map (fun t => withoutEnds t.value),
            { parserOn stringListTokens with
              current := ([] : List Token).length
                + [strTok "\"a\"" 1, tok "," 1, strTok "'bc'" 1].length + 2 }) :=
  ⟨by rfl,
    (readString_spec (parserOn [strTok "\"abc\"" 1]) "DSLBase::treatLink").2.1
      (by decide) rfl (by decide) (by decide),
    by rfl,
    ((readString_spec (parserOn stringListTokens) "DSLBase::treatLink").2.2.1 []
      (tok "\x7b" 1) [strTok "\"a\"" 1, tok "," 1, strTok "'bc'" 1]
      [strTok "\"a\"" 1, strTok "'bc'" 1] (tok "\x7d" 1) [tok ";" 1] rfl rfl rfl rfl rfl
      (by decide)).1 (by decide)⟩

/-! ## Reading the size of an array: lemmas -/

theorem readArraySize_body (varName : String) (rb : Token) (post : List Token)
    (hrb : rb.value = "]") (body : List Token) :
    ∀ (s : DSLBase) (acc : String),
      (∀ t ∈ body, t.flag = TokenFlag.Standard ∧ t.value ≠ "]" ∧ t.value ≠ ";") →
      readArraySize varName (body ++ rb :: post) s acc
        = .ok (body.foldl (fun a t => a ++ t.value) acc,
            { s with current := s.current + body.length }) := by
  induction body with
  | nil =>
    intro s acc _
    simp only [List.nil_append, readArraySize, hrb, ne_eq, not_true_eq_false, if_false,
      List.foldl_nil, List.length_nil, Nat.add_zero]
  | cons t body ih =>
    intro s acc h
    obtain ⟨h1, h2, h3⟩ := h t (List.mem_cons_self _ _)
    rw [List.cons_append, readArraySize, if_pos h2, if_neg (by simp [h1, h3]),
      ih _ _ (fun x hx => h x (List.mem_cons_of_mem _ hx))]
    simp only [List.foldl_cons, List.length_cons, Except.ok.injEq, Prod.mk.injEq, true_and,
      DSLBase.mk.injEq, and_true]
    omega

/-- The treatment of `[ body ]` once the expression is read: the cursor of `s`
is on `[` and a token follows `]`. -/
theorem readArray_body (lib : Library) (s : DSLBase) (varName : String) (pre : List Token)
    (lb : Token) (body : List Token) (rb sep : Token) (post : List Token)
    (htok : s.tokens = pre ++ lb :: (body ++ rb :: sep :: post)) (hcur : s.current = pre.length)
    (hbody : ∀ t ∈ body, t.flag = TokenFlag.Standard ∧ t.value ≠ "]" ∧ t.value ≠ ";")
    (hrb : rb.value = "]") :
    readArray lib s varName true
      = if arrayExpression body = "" then
          .error (throwRuntimeError { s with current := pre.length + body.length + 1 }
            "DSLBase::readVarList : " ("empty array size for '" ++ varName ++ "'"))
        else
          match lib.getVariablesNames (arrayExpression body) with
          | .error e =>
            .error { msg := e, state := { s with current := pre.length + body.length + 1 } }
          | .ok vars =>
            match vars.find? (fun v => (s.integerConstants.lookup v).isNone) with
            | some v =>
              .error (throwRuntimeError { s with current := pre.length + body.length + 1 }
                "DSLBase::readVarList : " ("unknown constant '" ++ v ++ "'"))
            | none =>
              match lib.getValue (arrayExpression body) (constantValues s vars) with
              | .error e =>
                .error { msg := e, state := { s with current := pre.length + body.length + 1 } }
              | .ok iv =>
                if iv ≤ 0 then
                  .error (throwRuntimeError { s with current := pre.length + body.length + 1 }
                    "DSLBase::readVarList : " ("invalid array size for '" ++ varName ++ "'"))
                else
                  .ok (iv.toNat % uintRange,
                    { s with current := pre.length + body.length + 2 }) := by
  have hdrop : s.tokens.drop (s.current + 1) = body ++ rb :: sep :: post := by
    rw [htok, hcur, List.drop_append_eq_append_drop]
    simp
  have hsize := readArraySize_body varName rb (sep :: post) hrb body
    { s with current := s.current + 1 } "" hbody
  have hcur2 : s.current + 1 + body.length = pre.length + body.length + 1 := by omega
  have hlen : s.tokens.length = pre.length + body.length + post.length + 3 := by
    rw [htok]
    simp only [List.length_append, List.length_cons]
    omega
  have hrbcur : ({ s with current := pre.length + body.length + 1 } : DSLBase).cur = rb :=
    cur_eq _ (pre ++ lb :: body) rb (sep :: post) (by simp [htok])
      (by simp only [List.length_append, List.length_cons]; omega)
  have hread : readSpecifiedToken { s with current := pre.length + body.length + 1 }
      "DSLBase::readVarList" "]"
      = .ok ((), { s with current := pre.length + body.length + 2 }) := by
    rw [readSpecifiedToken_ok _ _ _ (by show pre.length + body.length + 1 < s.tokens.length; omega)
      (by rw [hrbcur, hrb])]
  have hcheck : checkNotEndOfFile { s with current := pre.length + body.length + 2 }
      "DSLBase::readVarList" "" = .ok () :=
    checkNotEndOfFile_ok _ _ _ (by show pre.length + body.length + 2 < s.tokens.length; omega)
  unfold readArray
  simp only [Bool.true_eq_false, if_false, hdrop, hsize, hcur2, arrayExpression, constantValues,
    hread, hcheck]

theorem readVarListItem_array (lib : Library) (s : DSLBase) (cont : List VariableDescription)
    (type : String) (pre : List Token) (name lb : Token) (rest : List Token)
    (htok : s.tokens = pre ++ name :: lb :: rest) (hcur : s.current = pre.length)
    (hname : lib.isValidIdentifier name.value true = true) (hlb : lb.value = "[") :
    readVarListItem lib s cont type true
      = match readArray lib { s with current := pre.length + 1 } name.value true with
        | .error f => .error f
        | .ok (asize, s2) =>
          if s2.cur.value = "," then
            .ok (cont ++ [{ type := type, name := name.value, arraySize := asize,
                            lineNumber := name.line, description := s.currentComment }],
              { s2 with current := s2.current + 1 }, none)
          else if s2.cur.value = ";" then
            .ok (cont ++ [{ type := type, name := name.value, arraySize := asize,
                            lineNumber := name.line, description := s.currentComment }],
              { s2 with current := s2.current + 1 }, some s2.cur.comment)
          else
            .error (throwRuntimeError s2 "DSLBase::readVarList"
              (", or ; expected after '" ++ name.value ++ "'")) := by
  have hlen : s.tokens.length = pre.length + (rest.length + 2) := by
    rw [htok]
    simp only [List.length_append, List.length_cons]
  have hc0 : s.cur = name := cur_eq s pre name _ htok hcur
  have hc1 : ({ s with current := s.current + 1 } : DSLBase).cur = lb :=
    cur_eq _ (pre ++ [name]) lb rest (by simp [htok]) (by simp [hcur])
  have hd : (if s.currentComment ≠ "" then s.currentComment else "") = s.currentComment := by
    by_cases h : s.currentComment = ""
    · simp [h]
    · simp [h]
  unfold readVarListItem
  simp only [hc0, hname]
  rw [checkNotEndOfFile_ok _ _ _ (by show s.current + 1 < s.tokens.length; omega)]
  simp only [hc1, hlb, if_true, hd, Bool.true_eq_false, if_false]
  simp only [hcur]

/-- The loop of `readVarList` on the names that a comma follows. -/
theorem readVarListLoop_front (lib : Library) (type : String) (allowArray : Bool)
    (front : List (Token × Token)) :
    ∀ (fuel : Nat) (s : DSLBase) (cont : List VariableDescription) (pre rest : List Token),
      s.tokens = pre ++ (declarationTokens front ++ rest) → s.current = pre.length →
      (∀ p ∈ front, lib.isValidIdentifier p.1.value true = true ∧ p.2.value = ",") →
      readVarListLoop lib type allowArray (fuel + front.length) s cont
        = readVarListLoop lib type allowArray fuel
            { s with current := pre.length + 2 * front.length }
            (cont ++ declaredVariables type s.currentComment (front.map Prod.fst)) := by
  induction front with
  | nil =>
    intro fuel s cont pre rest _ hcur _
    simp only [List.length_nil, Nat.add_zero, Nat.mul_zero, List.map_nil, declaredVariables,
      List.append_nil, ← hcur]
  | cons p front ih =>
    intro fuel s cont pre rest htok hcur hfront
    obtain ⟨n, sep⟩ := p
    have hp := hfront (n, sep) (by simp)
    have htok' : s.tokens = pre ++ n :: sep :: (declarationTokens front ++ rest) := by
      simpa [declarationTokens] using htok
    have hlen : pre.length + 2 ≤ s.tokens.length := by
      rw [htok']
      simp only [List.length_append, List.length_cons]
      omega
    have hf : fuel + ((n, sep) :: front).length = (fuel + front.length) + 1 := by
      simp only [List.length_cons]
      omega
    rw [hf, readVarListLoop, if_neg (by omega),
      readVarListItem_plain lib s cont type allowArray pre n sep _ htok' hcur hp.1
        (Or.inl hp.2)]
    simp only [if_pos hp.2]
    rw [ih fuel { s with current := pre.length + 2 } _ (pre ++ [n, sep]) rest
      (by simp [htok']) (by simp) (fun q hq => hfront q (by simp [hq]))]
    simp only [declaredVariables, List.map_cons, List.map_nil, List.cons_append, List.nil_append,
      List.append_assoc, List.length_append, List.length_cons, List.length_nil]
    have e : pre.length + (0 + 1 + 1) + 2 * front.length
        = pre.length + 2 * (front.length + 1) := by omega
    rw [e]

/-- The turn of the loop of `readVarList` on `name [ body ]` followed by `;`. -/
theorem readVarListItem_array_body (lib : Library) (s : DSLBase)
    (cont : List VariableDescription) (type : String) (pre : List Token) (name lb : Token)
    (body : List Token) (rb semi : Token) (post : List Token)
    (htok : s.tokens = pre ++ name :: lb :: (body ++ rb :: semi :: post))
    (hcur : s.current = pre.length) (hname : lib.isValidIdentifier name.value true = true)
    (hlb : lb.value = "[")
    (hbody : ∀ t ∈ body, t.flag = TokenFlag.Standard ∧ t.value ≠ "]" ∧ t.value ≠ ";")
    (hrb : rb.value = "]") (hsemi : semi.value = ";") :
    readVarListItem lib s cont type true
      = if arrayExpression body = "" then
          .error (throwRuntimeError { s with current := pre.length + body.length + 2 }
            "DSLBase::readVarList : " ("empty array size for '" ++ name.value ++ "'"))
        else
          match lib.getVariablesNames (arrayExpression body) with
          | .error e =>
            .error { msg := e, state := { s with current := pre.length + body.length + 2 } }
          | .ok vars =>
            match vars.find? (fun v => (s.integerConstants.lookup v).isNone) with
            | some v =>
              .error (throwRuntimeError { s with current := pre.length + body.length + 2 }
                "DSLBase::readVarList : " ("unknown constant '" ++ v ++ "'"))
            | none =>
              match lib.getValue (arrayExpression body) (constantValues s vars) with
              | .error e =>
                .error { msg := e, state := { s with current := pre.length + body.length + 2 } }
              | .ok iv =>
                if iv ≤ 0 then
                  .error (throwRuntimeError { s with current := pre.length + body.length + 2 }
                    "DSLBase::readVarList : " ("invalid array size for '" ++ name.value ++ "'"))
                else
                  .ok (cont ++ [{ type := type, name := name.value,
                                  arraySize := iv.toNat % uintRange, lineNumber := name.line,
                                  description := s.currentComment }],
                    { s with current := pre.length + body.length + 4 }, some semi.comment) := by
  have hA := readArray_body lib { s with current := pre.length + 1 } name.value (pre ++ [name])
    lb body rb semi post (by simp [htok]) (by simp) hbody hrb
  have e1 : (pre ++ [name]).length + body.length + 1 = pre.length + body.length + 2 := by
    simp only [List.length_append, List.length_cons, List.length_nil]
    omega
  have e2 : (pre ++ [name]).length + body.length + 2 = pre.length + body.length + 3 := by
    simp only [List.length_append, List.length_cons, List.length_nil]
    omega
  rw [e1, e2] at hA
  have hsc : ({ s with current := pre.length + body.length + 3 } : DSLBase).cur = semi :=
    cur_eq _ (pre ++ name :: lb :: (body ++ [rb])) semi post (by simp [htok])
      (by simp only [List.length_append, List.length_cons, List.length_nil]; omega)
  have hs' : semi.value ≠ "," := by
    rw [hsemi]
    decide
  rw [readVarListItem_array lib s cont type pre name lb _ htok hcur hname hlb, hA]
  by_cases h0 : arrayExpression body = ""
  · simp only [if_pos h0]
  · simp only [if_neg h0]
    cases hv : lib.getVariablesNames (arrayExpression body) with
    | error e => rfl
    | ok vars =>
      simp only [constantValues]
      cases hf : vars.find? (fun v => (s.integerConstants.lookup v).isNone) with
      | some v => rfl
      | none =>
        simp only
        cases hg : lib.getValue (arrayExpression body)
            (vars.map (fun v => (v, (s.integerConstants.lookup v).getD 0))) with
        | error e => rfl
        | ok iv =>
          simp only
          by_cases hi : iv ≤ 0
          · simp only [if_pos hi]
          · simp only [if_neg hi, hsc, if_neg hs', if_pos hsemi]

/-- The result of `readVarList` on names that a comma follows and a last
variable `name [ body ] ;`, from the result of the turn that reads this
variable. -/
theorem readVarList_last_item (lib : Library) (s : DSLBase) (cont : List VariableDescription)
    (type : String) (allowArray : Bool) (pre : List Token) (front : List (Token × Token))
    (rest : List Token) (htok : s.tokens = pre ++ (declarationTokens front ++ rest))
    (hcur : s.current = pre.length)
    (hfront : ∀ p ∈ front, lib.isValidIdentifier p.1.value true = true ∧ p.2.value = ",") :
    readVarList lib s cont type allowArray
      = match readVarListLoop lib type allowArray rest.length
            { s with current := pre.length + 2 * front.length }
            (cont ++ declaredVariables type s.currentComment (front.map Prod.fst)) with
        | .error f => .error f
        | .ok (cont1, s1, endOfTreatment) =>
          if endOfTreatment.isNone then
            .error (throwRuntimeError { s1 with current := s1.current - 1 } "DSLBase::readVarList"
              "Expected ';' before end of file")
          else .ok (withEndComment (endOfTreatment.getD "") cont1, s1) := by
  have hlen : s.tokens.length - s.current = (front.length + rest.length) + front.length := by
    rw [htok, hcur]
    simp only [List.length_append, declarationTokens_length]
    omega
  have hfuel := readVarListLoop_fuel lib type allowArray
  have hmore : ∀ (k : Nat) (s0 : DSLBase) (c0 : List VariableDescription),
      s0.tokens.length - s0.current ≤ rest.length →
      readVarListLoop lib type allowArray (rest.length + k) s0 c0
        = readVarListLoop lib type allowArray rest.length s0 c0 := by
    intro k
    induction k with
    | zero => intro s0 c0 _; rfl
    | succ k ih =>
      intro s0 c0 h0
      rw [← Nat.add_assoc, hfuel (rest.length + k) s0 c0 (by omega), ih s0 c0 h0]
  unfold readVarList
  rw [hlen, readVarListLoop_front lib type allowArray front _ s cont pre rest htok hcur hfront,
    Nat.add_comm front.length rest.length, hmore]
  · rfl
  · show s.tokens.length - (pre.length + 2 * front.length) ≤ rest.length
    rw [htok]
    simp only [List.length_append, declarationTokens_length]
    omega

theorem declarationTokens_append (front : List (Token × Token)) (name sep : Token) :
    declarationTokens (front ++ [(name, sep)]) = declarationTokens front ++ [name, sep] := by
  induction front with
  | nil => rfl
  | cons p front ih =>
    obtain ⟨n, c⟩ := p
    show n :: c :: declarationTokens (front ++ [(name, sep)])
      = n :: c :: (declarationTokens front ++ [name, sep])
    rw [ih]

/-- The result of `readVarList` on names that a comma follows and a last
variable `name [ body ] ;`. -/
theorem readVarList_array (lib : Library) (s : DSLBase) (cont : List VariableDescription)
    (type : String) (pre : List Token) (front : List (Token × Token)) (name lb : Token)
    (body : List Token) (rb semi : Token) (post : List Token)
    (htok : s.tokens
      = pre ++ (declarationTokens front ++ name :: lb :: (body ++ rb :: semi :: post)))
    (hcur : s.current = pre.length)
    (hfront : ∀ p ∈ front, lib.isValidIdentifier p.1.value true = true ∧ p.2.value = ",")
    (hname : lib.isValidIdentifier name.value true = true) (hlb : lb.value = "[")
    (hbody : ∀ t ∈ body, t.flag = TokenFlag.Standard ∧ t.value ≠ "]" ∧ t.value ≠ ";")
    (hrb : rb.value = "]") (hsemi : semi.value = ";") :
    readVarList lib s cont type true
      = if arrayExpression body = "" then
          .error (throwRuntimeError
            { s with current := pre.length + 2 * front.length + body.length + 2 }
            "DSLBase::readVarList : " ("empty array size for '" ++ name.value ++ "'"))
        else
          match lib.getVariablesNames (arrayExpression body) with
          | .error e =>
            .error { msg := e,
                     state := { s with
                       current := pre.length + 2 * front.length + body.length + 2 } }
          | .ok vars =>
            match vars.find? (fun v => (s.integerConstants.lookup v).isNone) with
            | some v =>
              .error (throwRuntimeError
                { s with current := pre.length + 2 * front.length + body.length + 2 }
                "DSLBase::readVarList : " ("unknown constant '" ++ v ++ "'"))
            | none =>
              match lib.getValue (arrayExpression body) (constantValues s vars) with
              | .error e =>
                .error { msg := e,
                         state := { s with
                           current := pre.length + 2 * front.length + body.length + 2 } }
              | .ok iv =>
                if iv ≤ 0 then
                  .error (throwRuntimeError
                    { s with current := pre.length + 2 * front.length + body.length + 2 }
                    "DSLBase::readVarList : " ("invalid array size for '" ++ name.value ++ "'"))
                else
                  .ok (withEndComment semi.comment
                      (cont ++ declaredVariables type s.currentComment (front.map Prod.fst)
                        ++ [{ type := type, name := name.value,
                              arraySize := iv.toNat % uintRange, lineNumber := name.line,
                              description := s.currentComment }]),
                    { s with current := pre.length + 2 * front.length + body.length + 4 }) := by
  have hitem := readVarListItem_array_body lib
    { s with current := pre.length + 2 * front.length }
    (cont ++ declaredVariables type s.currentComment (front.map Prod.fst)) type
    (pre ++ declarationTokens front) name lb body rb semi post
    (by simp [htok]) (by simp [declarationTokens_length]) hname hlb hbody hrb hsemi
  have e1 : (pre ++ declarationTokens front).length + body.length + 2
      = pre.length + 2 * front.length + body.length + 2 := by
    simp only [List.length_append, declarationTokens_length]
  have e2 : (pre ++ declarationTokens front).length + body.length + 4
      = pre.length + 2 * front.length + body.length + 4 := by
    simp only [List.length_append, declarationTokens_length]
  rw [e1, e2] at hitem
  have hlen : s.tokens.length = pre.length + 2 * front.length + body.length + post.length + 4 := by
    rw [htok]
    simp only [List.length_append, declarationTokens_length, List.length_cons]
    omega
  have hrl : (name :: lb :: (body ++ rb :: semi :: post)).length
      = (body.length + post.length + 3) + 1 := by
    simp only [List.length_append, List.length_cons]
    omega
  rw [readVarList_last_item lib s cont type true pre front _ htok hcur hfront, hrl,
    readVarListLoop,
    if_neg (by show ¬ s.tokens.length ≤ pre.length + 2 * front.length; omega), hitem]
  by_cases h0 : arrayExpression body = ""
  · simp only [if_pos h0]
  · simp only [if_neg h0]
    cases hv : lib.getVariablesNames (arrayExpression body) with
    | error e => rfl
    | ok vars =>
      simp only
      cases hf : vars.find? (fun v => (s.integerConstants.lookup v).isNone) with
      | some v => rfl
      | none =>
        simp only [constantValues]
        cases hg : lib.getValue (arrayExpression body)
            (vars.map (fun v => (v, (s.integerConstants.lookup v).getD 0))) with
        | error e => rfl
        | ok iv =>
          simp only
          by_cases hi : iv ≤ 0
          · simp only [if_pos hi]
          · simp only [if_neg hi]
            rfl

/-! ## Reading a list of variables: names declared twice -/

theorem addEndComment_name (endComment : String) (cont : List VariableDescription) :
    (cont.map (addEndComment endComment)).map (fun v => v.name) = cont.map (fun v => v.name) := by
  rw [List.map_map]
  rfl

theorem declaredVariables_name (type description : String) (names : List Token) :
    (declaredVariables type description names).map (fun v => v.name)
      = names.map (fun t => t.value) := by
  simp only [declaredVariables, List.map_map]
  rfl

/-- C11 (amended): `readVarList` compares no name. For every declaration
`name1, ..., namek ;` of valid names it raises no error and appends one
variable for each name of the statement, in order, also when this name is the
name of a variable that the container holds already or is repeated in the
statement: the names of the container are then those that it had followed by
the names of the statement, and the number of variables of any name `n` is the
number that the container had plus the number of times that the statement has
`n`. -/
theorem readVarList_duplicates (lib : Library) (s : DSLBase) (cont : List VariableDescription)
    (type : String) (allowArray : Bool) (pre : List Token) (front : List (Token × Token))
    (lastName semi : Token) (post : List Token)
    (htok : s.tokens = pre ++ (declarationTokens (front ++ [(lastName, semi)]) ++ post))
    (hcur : s.current = pre.length)
    (hfront : ∀ p ∈ front, lib.isValidIdentifier p.1.value true = true ∧ p.2.value = ",")
    (hlast : lib.isValidIdentifier lastName.value true = true) (hsemi : semi.value = ";") :
    ∃ c s1, readVarList lib s cont type allowArray = .ok (c, s1)
      ∧ c.map (fun v => v.name)
        = cont.map (fun v => v.name) ++ (front.map Prod.fst ++ [lastName]).map (fun t => t.value)
      ∧ ∀ n, (c.map (fun v => v.name)).count n
          = (cont.map (fun v => v.name)).count n
            + ((front.map Prod.fst ++ [lastName]).map (fun t => t.value)).count n := by
  have hnames : ((if semi.comment ≠ "" then cont.map (addEndComment semi.comment) else cont)
        ++ declaredVariables type (finalDescription s.currentComment semi.comment)
          (front.map Prod.fst ++ [lastName])).map (fun v => v.name)
      = cont.map (fun v => v.name)
        ++ (front.map Prod.fst ++ [lastName]).map (fun t => t.value) := by
    rw [List.map_append, declaredVariables_name]
    by_cases hc : semi.comment = ""
    · rw [if_neg (by simp [hc])]
    · rw [if_pos hc, addEndComment_name]
  refine ⟨_, _, readVarList_declaration lib s cont type allowArray pre front lastName semi post
    htok hcur hfront hlast hsemi, hnames, ?_⟩
  intro n
  rw [hnames, List.count_append]

/-- Witness of C11: the statement `a , a ;` read in a container that holds a
variable `a`. -/
theorem readVarList_duplicates_witness :
    ∃ c s1, readVarList sampleLibrary (parserOn duplicateTokens) [⟨"real", "a", 1, 0, ""⟩]
          "real" true = .ok (c, s1)
      ∧ c.map (fun v => v.name)
        = [(⟨"real", "a", 1, 0, ""⟩ : VariableDescription)].map (fun v => v.name)
          ++ ([(tok "a" 1, tok "," 1)].map Prod.fst ++ [tok "a" 1]).map (fun t => t.value)
      ∧ ∀ n, (c.map (fun v => v.name)).count n
          = ([(⟨"real", "a", 1, 0, ""⟩ : VariableDescription)].map (fun v => v.name)).count n
            + (([(tok "a" 1, tok "," 1)].map Prod.fst ++ [tok "a" 1]).map
                (fun t => t.value)).count n :=
  readVarList_duplicates sampleLibrary (parserOn duplicateTokens) [⟨"real", "a", 1, 0, ""⟩]
    "real" true [] [(tok "a" 1, tok "," 1)] (tok "a" 1) (tok ";" 1) [] rfl rfl (by decide)
    (by decide) rfl

/-- Counterexample of C11: the statement `a , a ;` is read without an error,
and the container, which held a variable `a`, holds three variables `a`
afterwards. -/
theorem readVarList_duplicates_counterexample :
    readVarList sampleLibrary (parserOn duplicateTokens) [⟨"real", "a", 1, 0, ""⟩] "real" true
      = .ok ([⟨"real", "a", 1, 0, ""⟩, ⟨"real", "a", 1, 1, ""⟩, ⟨"real", "a", 1, 1, ""⟩],
          { parserOn duplicateTokens with current := 4 }) := by
  rfl

/-! ## Reading the type of a list of variables: nested arguments -/

/-- A turn of the loop that reads the arguments of a type, on an argument that
a token follows. -/
theorem readTemplateArguments_turn (lib : Library) (t t2 : Token) (rest2 : List Token)
    (s : DSLBase) (type : String) (openBrackets : Nat) :
    readTemplateArguments lib (t :: t2 :: rest2) s type openBrackets
      = if invalidArgument lib t.value = true then
          .error (throwRuntimeError s "DSLBase::readVarList"
            ("given type '" ++ t.value ++ "' is not valid."))
        else if t2.value = "," then
          match rest2 with
          | [] => .error (endOfFileFailure { s with current := s.current + 1 + 1 }
              "DSLBase::readVarList" "")
          | t3 :: rest3 =>
            if invalidArgument lib t3.value = true then
              .error (throwRuntimeError { s with current := s.current + 1 + 1 - 1 }
                "DSLBase::readVarList" ("given type '" ++ t.value ++ "' is not valid."))
            else
              readTemplateArguments lib (t3 :: rest3) { s with current := s.current + 1 + 1 }
                (type ++ t.value ++ ",") openBrackets
        else if t2.value = "<" then
          if isInteger t.value = true then
            .error (throwRuntimeError { s with current := s.current + 1 } "DSLBase::readVarList"
              ("given type '" ++ t.value ++ "'is not valid."))
          else
            match rest2 with
            | [] => .error (endOfFileFailure { s with current := s.current + 1 + 1 }
                "DSLBase::readVarList" "")
            | t3 :: rest3 =>
              if (openBrackets + 1) % ushortRange ≠ 0 then
                readTemplateArguments lib (t3 :: rest3) { s with current := s.current + 1 + 1 }
                  (type ++ t.value ++ "<") ((openBrackets + 1) % ushortRange)
              else .ok (type ++ t.value ++ "<", { s with current := s.current + 1 + 1 })
        else if t2.value = ">" then
          match rest2 with
          | [] => .error (endOfFileFailure { s with current := s.current + 1 + 1 }
              "DSLBase::readVarList" "")
          | t3 :: rest3 =>
            if (openBrackets + ushortRange - 1) % ushortRange ≠ 0 then
              readTemplateArguments lib (t3 :: rest3) { s with current := s.current + 1 + 1 }
                (type ++ t.value ++ ">") ((openBrackets + ushortRange - 1) % ushortRange)
            else .ok (type ++ t.value ++ ">", { s with current := s.current + 1 + 1 })
        else
          readTemplateArguments lib (t2 :: rest2) { s with current := s.current + 1 }
            (type ++ t.value) openBrackets := by
  cases rest2 <;> rfl

/-- The loop that reads the arguments of a type refuses a token that is neither
a valid identifier nor an integer. -/
theorem readTemplateArguments_invalid (lib : Library) (t : Token) (rest : List Token)
    (s : DSLBase) (type : String) (openBrackets : Nat)
    (h : invalidArgument lib t.value = true) :
    readTemplateArguments lib (t :: rest) s type openBrackets
      = .error (throwRuntimeError s "DSLBase::readVarList"
          ("given type '" ++ t.value ++ "' is not valid.")) := by
  cases rest with
  | nil =>
    show (if invalidArgument lib t.value = true then _ else _) = _
    rw [if_pos h]
  | cons t2 rest2 => rw [readTemplateArguments_turn, if_pos h]

/-- C13: in the loop that reads the arguments of a type, once the `>` that
closes a nested list of arguments is read, a list being still opened, the next
token is read as an argument: when it is neither a valid identifier nor an
integer, as are the `,` and the `>` that follow a nested list, the exception
`given type '...' is not valid` is thrown, so that a declaration such as
`T<U<A>,B> x;` is refused. -/
theorem readTemplateArguments_nested (lib : Library) (t gt x : Token) (rest : List Token)
    (s : DSLBase) (type : String) (openBrackets : Nat)
    (ht : invalidArgument lib t.value = false) (hgt : gt.value = ">")
    (hob : (openBrackets + ushortRange - 1) % ushortRange ≠ 0)
    (hx : invalidArgument lib x.value = true) :
    readTemplateArguments lib (t :: gt :: x :: rest) s type openBrackets
      = .error (throwRuntimeError { s with current := s.current + 2 } "DSLBase::readVarList"
          ("given type '" ++ x.value ++ "' is not valid.")) := by
  have h1 : ¬ gt.value = "," := by rw [hgt]; decide
  have h2 : ¬ gt.value = "<" := by rw [hgt]; decide
  have ht' : ¬ invalidArgument lib t.value = true := by rw [ht]; decide
  rw [readTemplateArguments_turn, if_neg ht', if_neg h1, if_neg h2, if_pos hgt]
  dsimp only
  rw [if_pos hob, readTemplateArguments_invalid lib x rest _ _ _ hx]

/-- Witness of C13: `readVarList(cont,allowArray)` refuses the declaration
`T<U<A>,B> x;` at the `,` that follows the nested list, whereas it reads
`T<A,2> x;` and `a::b::c x;` with the types `T<A,2>` and `a::b::c`. -/
theorem readTemplateArguments_nested_witness :
    readTemplateArguments sampleLibrary
        [tok "A" 1, tok ">" 1, tok "," 1, tok "B" 1, tok ">" 1, tok "x" 1, tok ";" 1]
        { parserOn nestedTypeTokens with current := 4 } "T<U<" 2
      = .error (throwRuntimeError
          { ({ parserOn nestedTypeTokens with current := 4 } : DSLBase) with
            current := ({ parserOn nestedTypeTokens with current := 4 } : DSLBase).current + 2 }
          "DSLBase::readVarList" ("given type '" ++ (tok "," 1).value ++ "' is not valid."))
    ∧ readVarList2 sampleLibrary (parserOn nestedTypeTokens) [] true
      = .error { msg := "DSLBase::readVarList: given type ',' is not valid.\nError at line 1",
                 state := { parserOn nestedTypeTokens with current := 6 } }
    ∧ readVarList2 sampleLibrary (parserOn flatTypeTokens) [] true
      = .ok ([⟨"T<A,2>", "x", 1, 1, ""⟩], { parserOn flatTypeTokens with current := 8 })
    ∧ readVarList2 sampleLibrary (parserOn scopeTypeTokens) [] true
      = .ok ([⟨"a::b::c", "x", 1, 1, ""⟩], { parserOn scopeTypeTokens with current := 7 }) :=
  ⟨readTemplateArguments_nested sampleLibrary (tok "A" 1) (tok ">" 1) (tok "," 1)
      [tok "B" 1, tok ">" 1, tok "x" 1, tok ";" 1] { parserOn nestedTypeTokens with current := 4 }
      "T<U<" 2 (by decide) rfl (by decide) (by decide),
    by rfl, by rfl, by rfl⟩

/-! ## The attributes of a material knowledge: lemmas -/

theorem lookup_ne_cons (m : List (String × MaterialKnowledgeAttribute)) (k n : String)
    (a : MaterialKnowledgeAttribute) (h : k ≠ n) : ((n, a) :: m).lookup k = m.lookup k := by
  rw [List.lookup_cons]
  have : (k == n) = false := by simpa using h
  rw [this]

/-- The attributes after an insertion, seen by their names. -/
theorem lookup_insert_place (m : List (String × MaterialKnowledgeAttribute)) (n : String)
    (a : MaterialKnowledgeAttribute) (p : String × MaterialKnowledgeAttribute → Bool)
    (h : m.lookup n = none) :
    (m.takeWhile p ++ (n, a) :: m.dropWhile p).lookup n = some a
      ∧ ∀ k, k ≠ n → (m.takeWhile p ++ (n, a) :: m.dropWhile p).lookup k = m.lookup k := by
  have hsplit : m.lookup n = ((m.takeWhile p).lookup n).or ((m.dropWhile p).lookup n) := by
    rw [← List.lookup_append, List.takeWhile_append_dropWhile]
  constructor
  · rw [List.lookup_append, List.lookup_cons_self]
    rw [h] at hsplit
    cases ht : (m.takeWhile p).lookup n with
    | none => rfl
    | some x =>
      rw [ht] at hsplit
      cases hsplit
  · intro k hk
    rw [List.lookup_append, lookup_ne_cons _ k n a hk, ← List.lookup_append,
      List.takeWhile_append_dropWhile]

theorem attributesInsert_absent (m : List (String × MaterialKnowledgeAttribute)) (n : String)
    (a : MaterialKnowledgeAttribute) (h : m.lookup n = none) :
    (attributesInsert m n a).2 = true ∧ (attributesInsert m n a).1.lookup n = some a
      ∧ ∀ k, k ≠ n → (attributesInsert m n a).1.lookup k = m.lookup k := by
  unfold attributesInsert
  rw [h]
  simp only [Option.isSome_none, Bool.false_eq_true, if_false, true_and]
  exact lookup_insert_place m n a _ h

theorem attributesInsert_present (m : List (String × MaterialKnowledgeAttribute)) (n : String)
    (a p : MaterialKnowledgeAttribute) (h : m.lookup n = some p) :
    attributesInsert m n a = (m, false) := by
  unfold attributesInsert
  rw [h]
  rfl

theorem attributesAssign_lookup (n : String) (a : MaterialKnowledgeAttribute)
    (m : List (String × MaterialKnowledgeAttribute)) :
    (∀ p, m.lookup n = some p → (attributesAssign m n a).lookup n = some a)
      ∧ (∀ k, k ≠ n → (attributesAssign m n a).lookup k = m.lookup k)
      ∧ (attributesAssign m n a).map Prod.fst = m.map Prod.fst := by
  induction m with
  | nil =>
    refine ⟨?_, fun _ _ => rfl, rfl⟩
    intro p hp
    cases hp
  | cons q m ih =>
    obtain ⟨q1, q2⟩ := q
    obtain ⟨ih1, ih2, ih3⟩ := ih
    by_cases hq : q1 = n
    · subst hq
      simp only [attributesAssign, if_true]
      refine ⟨fun _ _ => List.lookup_cons_self, ?_, rfl⟩
      intro k hk
      rw [lookup_ne_cons _ k q1 a hk, lookup_ne_cons _ k q1 q2 hk]
    · simp only [attributesAssign, if_neg hq]
      have hne : n ≠ q1 := fun e => hq e.symm
      refine ⟨?_, ?_, ?_⟩
      · intro p hp
        rw [lookup_ne_cons _ n q1 q2 hne] at hp ⊢
        exact ih1 p hp
      · intro k hk
        by_cases hkq : k = q1
        · subst hkq
          rw [List.lookup_cons_self, List.lookup_cons_self]
        · rw [lookup_ne_cons _ k q1 q2 hkq, lookup_ne_cons _ k q1 q2 hkq]
          exact ih2 k hk
      · simp only [List.map_cons, ih3]

/-- The result of `setAttribute` when there is no attribute `n`. -/
theorem setAttribute_absent (d : MaterialKnowledgeDescription) (n : String)
    (a : MaterialKnowledgeAttribute) (b : Bool) (h : d.attributes.lookup n = none) :
    setAttribute d n a b = .ok { attributes := (attributesInsert d.attributes n a).1 } := by
  have hi := (attributesInsert_absent d.attributes n a h).1
  unfold setAttribute
  rw [h]
  simp only [Bool.false_eq_true, if_false, hi, Bool.true_eq_false]

/-- The result of `setAttribute` when there is an attribute `n`. -/
theorem setAttribute_present (d : MaterialKnowledgeDescription) (n : String)
    (a p : MaterialKnowledgeAttribute) (b : Bool) (h : d.attributes.lookup n = some p) :
    setAttribute d n a b
      = if a.getTypeIndex ≠ p.getTypeIndex then
          .error { msg := "MaterialKnowledgeDescription::setAttribute: "
                      ++ "attribute already exists with a different type", state := d }
        else if b = false then
          .error { msg := "MaterialKnowledgeDescription::setAttribute: "
                      ++ ("attribute '" ++ n ++ "' already declared"), state := d }
        else .ok d := by
  unfold setAttribute
  rw [h, attributesInsert_present d.attributes n a p h]
  by_cases ht : a.getTypeIndex = p.getTypeIndex
  · simp [ht]
  · simp [ht]

/-- The result of `updateAttribute` when there is an attribute `n`. -/
theorem updateAttribute_present (d : MaterialKnowledgeDescription) (n : String)
    (a p : MaterialKnowledgeAttribute) (h : d.attributes.lookup n = some p) :
    updateAttribute d n a
      = if a.getTypeIndex ≠ p.getTypeIndex then
          .error { msg := "MaterialKnowledgeDescription::updateAttribute: "
                      ++ "attribute already exists with a different type", state := d }
        else .ok { attributes := attributesAssign d.attributes n a } := by
  unfold updateAttribute
  rw [h]

theorem updateAttribute_absent (d : MaterialKnowledgeDescription) (n : String)
    (a : MaterialKnowledgeAttribute) (h : d.attributes.lookup n = none) :
    updateAttribute d n a
      = .error { msg := "MaterialKnowledgeDescription::updateAttribute: "
                    ++ ("unknown attribute '" ++ n ++ "'"), state := d } := by
  unfold updateAttribute
  rw [h]

/-- A call keeps the attributes and the types of their values. -/
theorem result_keeps_type (d : MaterialKnowledgeDescription) (c : AttributeCall) (k : String)
    (a0 : MaterialKnowledgeAttribute) (h : d.attributes.lookup k = some a0) :
    ∃ a1, (attributesAfter (c.result d)).attributes.lookup k = some a1
      ∧ a1.getTypeIndex = a0.getTypeIndex := by
  cases c with
  | set n a b =>
    simp only [AttributeCall.result]
    cases hn : d.attributes.lookup n with
    | none =>
      have hkn : k ≠ n := by
        intro e
        rw [e, hn] at h
        cases h
      rw [setAttribute_absent d n a b hn]
      exact ⟨a0, by
        simp only [attributesAfter]
        rw [(attributesInsert_absent d.attributes n a hn).2.2 k hkn, h], rfl⟩
    | some p =>
      rw [setAttribute_present d n a p b hn]
      refine ⟨a0, ?_, rfl⟩
      split
      · exact h
      · split
        · exact h
        · exact h
  | update n a =>
    simp only [AttributeCall.result]
    cases hn : d.attributes.lookup n with
    | none =>
      rw [updateAttribute_absent d n a hn]
      exact ⟨a0, h, rfl⟩
    | some p =>
      rw [updateAttribute_present d n a p hn]
      by_cases ht : a.getTypeIndex = p.getTypeIndex
      · rw [if_neg (by simp [ht])]
        simp only [attributesAfter]
        by_cases hkn : k = n
        · subst hkn
          rw [hn] at h
          cases h
          exact ⟨a, (attributesAssign_lookup k a d.attributes).1 a0 hn, ht⟩
        · exact ⟨a0, by rw [(attributesAssign_lookup n a d.attributes).2.1 k hkn, h], rfl⟩
      · rw [if_pos ht]
        exact ⟨a0, h, rfl⟩

/-! ## The attributes of a material knowledge: properties -/

/-- C21: `setAttribute(n,a,b)` stores `a` under `n`, and changes no other
attribute, when there is no attribute `n`; it fails, whatever `b` is, when the
attribute `n` holds a value of another type than `a`; and when the attribute `n`
holds a value of the type of `a` it fails, with the message that the attribute
is already declared, exactly when `b` is false. -/
theorem setAttribute_spec (d : MaterialKnowledgeDescription) (n : String)
    (a : MaterialKnowledgeAttribute) (b : Bool) :
    (d.attributes.lookup n = none →
        ∃ d1, setAttribute d n a b = .ok d1 ∧ d1.attributes.lookup n = some a
          ∧ ∀ k, k ≠ n → d1.attributes.lookup k = d.attributes.lookup k)
      ∧ (∀ p, d.attributes.lookup n = some p → a.getTypeIndex ≠ p.getTypeIndex →
          setAttribute d n a b
            = .error { msg := "MaterialKnowledgeDescription::setAttribute: "
                          ++ "attribute already exists with a different type", state := d })
      ∧ (∀ p, d.attributes.lookup n = some p → a.getTypeIndex = p.getTypeIndex →
          ((∃ e, setAttribute d n a b = .error e) ↔ b = false)
            ∧ (b = false →
                setAttribute d n a b
                  = .error { msg := "MaterialKnowledgeDescription::setAttribute: "
                                ++ ("attribute '" ++ n ++ "' already declared"),
                             state := d })) := by
  refine ⟨?_, ?_, ?_⟩
  · intro h
    obtain ⟨-, h2, h3⟩ := attributesInsert_absent d.attributes n a h
    exact ⟨_, setAttribute_absent d n a b h, h2, h3⟩
  · intro p h ht
    rw [setAttribute_present d n a p b h, if_pos ht]
  · intro p h ht
    rw [setAttribute_present d n a p b h, if_neg (by simp [ht])]
    cases b with
    | false => exact ⟨⟨fun _ => rfl, fun _ => ⟨_, rfl⟩⟩, fun _ => rfl⟩
    | true =>
      refine ⟨⟨?_, fun h0 => by cases h0⟩, fun h0 => by cases h0⟩
      rintro ⟨e, he⟩
      simp at he

/-- Witness of C21: a boolean is stored under `b`; then a string is refused
under `b`, and a boolean is refused exactly without the flag. -/
theorem setAttribute_spec_witness :
    setAttribute ⟨[]⟩ "b" (.boolean true) false = .ok ⟨[("b", .boolean true)]⟩
      ∧ (∃ d1, setAttribute ⟨[]⟩ "b" (.boolean true) false = .ok d1
          ∧ d1.attributes.lookup "b" = some (.boolean true)
          ∧ ∀ k, k ≠ "b" → d1.attributes.lookup k
              = (⟨[]⟩ : MaterialKnowledgeDescription).attributes.lookup k)
      ∧ setAttribute ⟨[("b", .boolean true)]⟩ "b" (.string "x") true
        = .error { msg := "MaterialKnowledgeDescription::setAttribute: "
                      ++ "attribute already exists with a different type",
                   state := ⟨[("b", .boolean true)]⟩ }
      ∧ setAttribute ⟨[("b", .boolean true)]⟩ "b" (.boolean false) false
        = .error { msg := "MaterialKnowledgeDescription::setAttribute: "
                      ++ ("attribute '" ++ "b" ++ "' already declared"),
                   state := ⟨[("b", .boolean true)]⟩ } :=
  ⟨by rfl,
    (setAttribute_spec ⟨[]⟩ "b" (.boolean true) false).1 rfl,
    (setAttribute_spec ⟨[("b", .boolean true)]⟩ "b" (.string "x") true).2.1 (.boolean true) rfl
      (by decide),
    ((setAttribute_spec ⟨[("b", .boolean true)]⟩ "b" (.boolean false) false).2.2
      (.boolean true) rfl rfl).2 rfl⟩

/-- C22: `updateAttribute(n,a)` succeeds if and only if there is an attribute
`n` and it holds a value of the type of `a`; on success `a` is held under `n`
and no other attribute changes; on failure the attributes are unchanged. After
a boolean is set under `n` (without the flag), the update with a string fails
and the update with a boolean replaces the value. -/
theorem updateAttribute_spec (d : MaterialKnowledgeDescription) (n : String)
    (a : MaterialKnowledgeAttribute) :
    ((∃ d1, updateAttribute d n a = .ok d1)
        ↔ ∃ p, d.attributes.lookup n = some p ∧ a.getTypeIndex = p.getTypeIndex)
      ∧ (∀ d1, updateAttribute d n a = .ok d1 →
          d1.attributes.lookup n = some a
            ∧ (∀ k, k ≠ n → d1.attributes.lookup k = d.attributes.lookup k)
            ∧ d1.attributes.map Prod.fst = d.attributes.map Prod.fst)
      ∧ (∀ e, updateAttribute d n a = .error e → e.state = d)
      ∧ (∀ (b1 b2 : Bool) (s : String) (d1 : MaterialKnowledgeDescription),
          setAttribute d n (.boolean b1) false = .ok d1 →
          (∃ e, updateAttribute d1 n (.string s) = .error e)
            ∧ ∃ d2, updateAttribute d1 n (.boolean b2) = .ok d2
                ∧ d2.attributes.lookup n = some (.boolean b2)) := by
  refine ⟨?_, ?_, ?_, ?_⟩
  · constructor
    · rintro ⟨d1, h⟩
      cases hn : d.attributes.lookup n with
      | none =>
        rw [updateAttribute_absent d n a hn] at h
        cases h
      | some p =>
        rw [updateAttribute_present d n a p hn] at h
        by_cases ht : a.getTypeIndex = p.getTypeIndex
        · exact ⟨p, rfl, ht⟩
        · rw [if_pos ht] at h
          cases h
    · rintro ⟨p, hn, ht⟩
      rw [updateAttribute_present d n a p hn, if_neg (by simp [ht])]
      exact ⟨_, rfl⟩
  · intro d1 h
    cases hn : d.attributes.lookup n with
    | none =>
      rw [updateAttribute_absent d n a hn] at h
      cases h
    | some p =>
      rw [updateAttribute_present d n a p hn] at h
      split at h
      · cases h
      · cases h
        obtain ⟨h1, h2, h3⟩ := attributesAssign_lookup n a d.attributes
        exact ⟨h1 p hn, h2, h3⟩
  · intro e h
    cases hn : d.attributes.lookup n with
    | none =>
      rw [updateAttribute_absent d n a hn] at h
      cases h
      rfl
    | some p =>
      rw [updateAttribute_present d n a p hn] at h
      split at h
      · cases h
        rfl
      · cases h
  · intro b1 b2 s d1 hset
    have hl : d1.attributes.lookup n = some (.boolean b1) := by
      cases hn : d.attributes.lookup n with
      | none =>
        rw [setAttribute_absent d n _ false hn] at hset
        cases hset
        exact (attributesInsert_absent d.attributes n _ hn).2.1
      | some p =>
        rw [setAttribute_present d n _ p false hn] at hset
        split at hset
        · cases hset
        · simp at hset
    constructor
    · rw [updateAttribute_present d1 n _ _ hl,
        if_pos (by simp [MaterialKnowledgeAttribute.getTypeIndex])]
      exact ⟨_, rfl⟩
    · rw [updateAttribute_present d1 n _ _ hl, if_neg (by simp [MaterialKnowledgeAttribute.getTypeIndex])]
      exact ⟨_, rfl, (attributesAssign_lookup n _ d1.attributes).1 _ hl⟩

/-- Witness of C22: a boolean set under `b`, then updated with a string and with
a boolean. -/
theorem updateAttribute_spec_witness :
    updateAttribute ⟨[("b", .boolean true)]⟩ "b" (.boolean false)
        = .ok ⟨[("b", .boolean false)]⟩
      ∧ updateAttribute ⟨[("b", .boolean true)]⟩ "b" (.string "x")
        = .error { msg := "MaterialKnowledgeDescription::updateAttribute: "
                      ++ "attribute already exists with a different type",
                   state := ⟨[("b", .boolean true)]⟩ }
      ∧ ((∃ e, updateAttribute ⟨[("b", .boolean true)]⟩ "b" (.string "x") = .error e)
          ∧ ∃ d2, updateAttribute ⟨[("b", .boolean true)]⟩ "b" (.boolean false) = .ok d2
              ∧ d2.attributes.lookup "b" = some (.boolean false)) :=
  ⟨by rfl, by rfl,
    (updateAttribute_spec ⟨[]⟩ "b" (.boolean true)).2.2.2 true false "x"
      ⟨[("b", .boolean true)]⟩ (by rfl)⟩

/-- C23: whatever calls of `setAttribute` and `updateAttribute` are made,
successful or not, an attribute that holds a value keeps holding a value of the
same type: in the description after the calls the name is still there, with a
value of the type that it had. -/
theorem attribute_type_stability (d : MaterialKnowledgeDescription) (cs : List AttributeCall)
    (k : String) (a0 : MaterialKnowledgeAttribute) (h : d.attributes.lookup k = some a0) :
    ∃ a1, (attributesAfterCalls d cs).attributes.lookup k = some a1
      ∧ a1.getTypeIndex = a0.getTypeIndex := by
  induction cs generalizing d a0 with
  | nil => exact ⟨a0, h, rfl⟩
  | cons c cs ih =>
    obtain ⟨a1, h1, h2⟩ := result_keeps_type d c k a0 h
    obtain ⟨a2, h3, h4⟩ := ih _ a1 h1
    exact ⟨a2, h3, by rw [h4, h2]⟩

/-- Witness of C23: the boolean held under `b` is still a boolean after a
refused `setAttribute` with a string, an update with a boolean and a refused
update with a string. -/
theorem attribute_type_stability_witness :
    ∃ a1, (attributesAfterCalls ⟨[("b", .boolean true)]⟩
          [.set "b" (.string "x") true, .update "b" (.boolean false),
            .update "b" (.string "y")]).attributes.lookup "b" = some a1
      ∧ a1.getTypeIndex = (MaterialKnowledgeAttribute.boolean true).getTypeIndex :=
  attribute_type_stability ⟨[("b", .boolean true)]⟩ _ "b" (.boolean true) rfl

/-- C24: `setDefaultOutOfBoundsPolicy(d,p)` fails for every string `p` other
than `None`, `Warning` and `Strict` and leaves `d` unchanged;
`getDefaultOutOfBoundsPolicy`, `getDefaultOutOfBoundsPolicyAsString` and
`getDefaultOutOfBoundsPolicyAsUpperCaseString` each fail when the string held
under `default_out_of_bounds_policy` is not one of the three; otherwise they
return the policy of this string, the string, and the string in upper case,
those of `None` when the attribute is not set. -/
theorem outOfBoundsPolicy_validated (d : MaterialKnowledgeDescription) :
    (∀ p, p ≠ "None" → p ≠ "Warning" → p ≠ "Strict" →
        setDefaultOutOfBoundsPolicy d p
          = .error { msg := "setDefaultOutOfBoundsPolicy: invalid default policy '" ++ p ++ "'",
                     state := d })
      ∧ (∀ p, d.attributes.lookup defaultOutOfBoundsPolicy = some (.string p) →
          p ≠ "None" → p ≠ "Warning" → p ≠ "Strict" →
          getDefaultOutOfBoundsPolicy d
              = .error ("getDefaultOutOfBoundsPolicy: invalid default policy '" ++ p ++ "'")
            ∧ getDefaultOutOfBoundsPolicyAsString d
              = .error ("getDefaultOutOfBoundsPolicyAsString:" ++ " invalid default policy '"
                  ++ p ++ "'")
            ∧ getDefaultOutOfBoundsPolicyAsUpperCaseString d
              = .error ("getDefaultOutOfBoundsPolicyAsUpperCaseString:"
                  ++ " invalid default policy '" ++ p ++ "'"))
      ∧ ((d.attributes.lookup defaultOutOfBoundsPolicy = none
            ∨ d.attributes.lookup defaultOutOfBoundsPolicy = some (.string "None")) →
          getDefaultOutOfBoundsPolicy d = .ok OutOfBoundsPolicy.None
            ∧ getDefaultOutOfBoundsPolicyAsString d = .ok "None"
            ∧ getDefaultOutOfBoundsPolicyAsUpperCaseString d = .ok "NONE")
      ∧ (d.attributes.lookup defaultOutOfBoundsPolicy = some (.string "Warning") →
          getDefaultOutOfBoundsPolicy d = .ok OutOfBoundsPolicy.Warning
            ∧ getDefaultOutOfBoundsPolicyAsString d = .ok "Warning"
            ∧ getDefaultOutOfBoundsPolicyAsUpperCaseString d = .ok "WARNING")
      ∧ (d.attributes.lookup defaultOutOfBoundsPolicy = some (.string "Strict") →
          getDefaultOutOfBoundsPolicy d = .ok OutOfBoundsPolicy.Strict
            ∧ getDefaultOutOfBoundsPolicyAsString d = .ok "Strict"
            ∧ getDefaultOutOfBoundsPolicyAsUpperCaseString d = .ok "STRICT") := by
  refine ⟨?_, ?_, ?_, ?_, ?_⟩
  · intro p h1 h2 h3
    unfold setDefaultOutOfBoundsPolicy
    rw [if_pos ⟨h1, h2, h3⟩]
  · intro p h h1 h2 h3
    have hg : getStringAttribute d defaultOutOfBoundsPolicy "None" = .ok p := by
      unfold getStringAttribute
      rw [h]
    unfold getDefaultOutOfBoundsPolicy getDefaultOutOfBoundsPolicyAsString
      getDefaultOutOfBoundsPolicyAsUpperCaseString
    rw [hg]
    simp only [h1, h2, h3, if_false, ne_eq, not_false_eq_true, and_self, if_true]
  · intro h
    have hg : getStringAttribute d defaultOutOfBoundsPolicy "None" = .ok "None" := by
      unfold getStringAttribute
      rcases h with h | h <;> rw [h]
    unfold getDefaultOutOfBoundsPolicy getDefaultOutOfBoundsPolicyAsString
      getDefaultOutOfBoundsPolicyAsUpperCaseString
    rw [hg]
    exact ⟨by rfl, by rfl, by rfl⟩
  · intro h
    have hg : getStringAttribute d defaultOutOfBoundsPolicy "None" = .ok "Warning" := by
      unfold getStringAttribute
      rw [h]
    unfold getDefaultOutOfBoundsPolicy getDefaultOutOfBoundsPolicyAsString
      getDefaultOutOfBoundsPolicyAsUpperCaseString
    rw [hg]
    exact ⟨by rfl, by rfl, by rfl⟩
  · intro h
    have hg : getStringAttribute d defaultOutOfBoundsPolicy "None" = .ok "Strict" := by
      unfold getStringAttribute
      rw [h]
    unfold getDefaultOutOfBoundsPolicy getDefaultOutOfBoundsPolicyAsString
      getDefaultOutOfBoundsPolicyAsUpperCaseString
    rw [hg]
    exact ⟨by rfl, by rfl, by rfl⟩

/-- Witness of C24: the policy `strict` is refused at the write and at the
reads; without attribute the policy is `None`. -/
theorem outOfBoundsPolicy_validated_witness :
    setDefaultOutOfBoundsPolicy ⟨[]⟩ "strict"
        = .error { msg := "setDefaultOutOfBoundsPolicy: invalid default policy '" ++ "strict"
                      ++ "'", state := ⟨[]⟩ }
      ∧ getDefaultOutOfBoundsPolicy ⟨[(defaultOutOfBoundsPolicy, .string "strict")]⟩
        = .error ("getDefaultOutOfBoundsPolicy: invalid default policy '" ++ "strict" ++ "'")
      ∧ getDefaultOutOfBoundsPolicy ⟨[]⟩ = .ok OutOfBoundsPolicy.None
      ∧ getDefaultOutOfBoundsPolicyAsUpperCaseString
          ⟨[(defaultOutOfBoundsPolicy, .string "Strict")]⟩ = .ok "STRICT" :=
  ⟨(outOfBoundsPolicy_validated ⟨[]⟩).1 "strict" (by decide) (by decide) (by decide),
    ((outOfBoundsPolicy_validated ⟨[(defaultOutOfBoundsPolicy, .string "strict")]⟩).2.1
      "strict" rfl (by decide) (by decide) (by decide)).1,
    ((outOfBoundsPolicy_validated ⟨[]⟩).2.2.1 (Or.inl rfl)).1,
    ((outOfBoundsPolicy_validated
      ⟨[(defaultOutOfBoundsPolicy, .string "Strict")]⟩).2.2.2.2 rfl).2.2⟩

/-! ## The local data structures: lemmas -/

theorem addVariableTo_eq (v : Variable) (c : List Variable) :
    addVariableTo v c
      = if v.name ∈ variableNames c then .error (multiplyDefined v) else .ok (c ++ [v]) := by
  unfold addVariableTo variableNames multiplyDefined
  by_cases h : v.name ∈ c.map (fun x => x.name)
  · rw [if_pos h, if_pos]
    obtain ⟨x, hx, hxn⟩ := List.mem_map.mp h
    exact List.any_eq_true.mpr ⟨x, hx, by simpa using hxn⟩
  · rw [if_neg h, if_neg]
    intro hany
    obtain ⟨x, hx, hxn⟩ := List.any_eq_true.mp hany
    exact h (List.mem_map.mpr ⟨x, hx, by simpa using hxn⟩)

theorem nodup_names_append (v : Variable) (c : List Variable)
    (h1 : (variableNames c).Nodup) (h2 : v.name ∉ variableNames c) :
    (variableNames (c ++ [v])).Nodup := by
  unfold variableNames at *
  rw [List.map_append, List.nodup_append]
  refine ⟨h1, by simp, ?_⟩
  intro a ha hb
  simp only [List.map_cons, List.map_nil, List.mem_singleton] at hb
  rw [hb] at ha
  exact h2 ha

/-- When every specialised list accepts the variable, it is appended to each of
them. -/
theorem addToSpecialised_ok (v : Variable) (sv : List (Hypothesis × List Variable)) :
    (∀ p ∈ sv, v.name ∉ variableNames p.2) →
      addToSpecialised v sv = .ok (sv.map (fun p => (p.1, p.2 ++ [v]))) := by
  induction sv with
  | nil => intro _; rfl
  | cons p sv ih =>
    intro h
    obtain ⟨k, c⟩ := p
    have hc : v.name ∉ variableNames c := h (k, c) (List.mem_cons_self _ _)
    rw [addToSpecialised, addVariableTo_eq, if_neg hc]
    simp only
    rw [ih (fun q hq => h q (List.mem_cons_of_mem _ hq))]
    rfl

/-- When a specialised list has the name of the variable, the loop throws; in
the map at that time every list is the list that it was, or this list followed
by the variable, whose name it had not. -/
theorem addToSpecialised_error (v : Variable) (sv : List (Hypothesis × List Variable)) :
    (∃ p ∈ sv, v.name ∈ variableNames p.2) →
      ∃ sv1, addToSpecialised v sv = .error (multiplyDefined v, sv1)
        ∧ ∀ q ∈ sv1, ∃ p ∈ sv, q.1 = p.1
            ∧ (q.2 = p.2 ∨ (q.2 = p.2 ++ [v] ∧ v.name ∉ variableNames p.2)) := by
  induction sv with
  | nil =>
    rintro ⟨p, hp, -⟩
    cases hp
  | cons p sv ih =>
    intro h
    obtain ⟨k, c⟩ := p
    rw [addToSpecialised, addVariableTo_eq]
    by_cases hc : v.name ∈ variableNames c
    · rw [if_pos hc]
      refine ⟨(k, c) :: sv, rfl, ?_⟩
      intro q hq
      exact ⟨q, hq, rfl, Or.inl rfl⟩
    · rw [if_neg hc]
      simp only
      have hrest : ∃ p ∈ sv, v.name ∈ variableNames p.2 := by
        obtain ⟨p, hp, hpn⟩ := h
        rcases List.mem_cons.mp hp with rfl | hp
        · exact absurd hpn hc
        · exact ⟨p, hp, hpn⟩
      obtain ⟨sv1, h1, h2⟩ := ih hrest
      rw [h1]
      refine ⟨(k, c ++ [v]) :: sv1, rfl, ?_⟩
      intro q hq
      rcases List.mem_cons.mp hq with rfl | hq
      · exact ⟨(k, c), List.mem_cons_self _ _, rfl, Or.inr ⟨rfl, hc⟩⟩
      · obtain ⟨p, hp, hp1, hp2⟩ := h2 q hq
        exact ⟨p, List.mem_cons_of_mem _ hp, hp1, hp2⟩

theorem mem_specialisedInsert (sv : List (Hypothesis × List Variable)) (h : Hypothesis)
    (c : List Variable) (q : Hypothesis × List Variable) :
    q ∈ specialisedInsert sv h c ↔ q = (h, c) ∨ q ∈ sv := by
  have hsplit : q ∈ sv ↔ q ∈ sv.takeWhile (fun q => decide (q.1 < h))
      ∨ q ∈ sv.dropWhile (fun q => decide (q.1 < h)) := by
    rw [← List.mem_append, List.takeWhile_append_dropWhile]
  unfold specialisedInsert
  rw [List.mem_append, List.mem_cons, hsplit]
  constructor
  · rintro (h1 | h1 | h1)
    · exact Or.inr (Or.inl h1)
    · exact Or.inl h1
    · exact Or.inr (Or.inr h1)
  · rintro (h1 | h1 | h1)
    · exact Or.inr (Or.inl h1)
    · exact Or.inl h1
    · exact Or.inr (Or.inr h1)

theorem lookup_hypothesis_ne (sv : List (Hypothesis × List Variable)) (k h : Hypothesis)
    (c : List Variable) (hk : k ≠ h) : ((h, c) :: sv).lookup k = sv.lookup k := by
  rw [List.lookup_cons]
  have : (k == h) = false := by simpa using hk
  rw [this]

theorem lookup_specialisedInsert (sv : List (Hypothesis × List Variable)) (h : Hypothesis)
    (c : List Variable) (hn : sv.lookup h = none) :
    (specialisedInsert sv h c).lookup h = some c := by
  have hsplit : sv.lookup h
      = ((sv.takeWhile (fun q => decide (q.1 < h))).lookup h).or
          ((sv.dropWhile (fun q => decide (q.1 < h))).lookup h) := by
    rw [← List.lookup_append, List.takeWhile_append_dropWhile]
  unfold specialisedInsert
  rw [List.lookup_append, List.lookup_cons_self]
  rw [hn] at hsplit
  cases ht : (sv.takeWhile (fun q => decide (q.1 < h))).lookup h with
  | none => rfl
  | some x =>
    rw [ht] at hsplit
    cases hsplit

theorem specialisedAssign_spec (h : Hypothesis) (c : List Variable)
    (sv : List (Hypothesis × List Variable)) :
    (∀ c0, sv.lookup h = some c0 → (specialisedAssign sv h c).lookup h = some c)
      ∧ (∀ q ∈ specialisedAssign sv h c, q ∈ sv ∨ q = (h, c)) := by
  induction sv with
  | nil =>
    refine ⟨?_, ?_⟩
    · intro c0 h0
      cases h0
    · intro q hq
      cases hq
  | cons p sv ih =>
    obtain ⟨k, c1⟩ := p
    obtain ⟨ih1, ih2⟩ := ih
    by_cases hk : k = h
    · subst hk
      simp only [specialisedAssign, if_true]
      refine ⟨fun _ _ => List.lookup_cons_self, ?_⟩
      intro q hq
      rcases List.mem_cons.mp hq with rfl | hq
      · exact Or.inr rfl
      · exact Or.inl (List.mem_cons_of_mem _ hq)
    · simp only [specialisedAssign, if_neg hk]
      have hne : h ≠ k := fun e => hk e.symm
      refine ⟨?_, ?_⟩
      · intro c0 h0
        rw [lookup_hypothesis_ne _ h k c1 hne] at h0 ⊢
        exact ih1 c0 h0
      · intro q hq
        rcases List.mem_cons.mp hq with rfl | hq
        · exact Or.inl (List.mem_cons_self _ _)
        · rcases ih2 q hq with h1 | h1
          · exact Or.inl (List.mem_cons_of_mem _ h1)
          · exact Or.inr h1

theorem mem_of_lookup (sv : List (Hypothesis × List Variable)) (h : Hypothesis)
    (c : List Variable) (hl : sv.lookup h = some c) : (h, c) ∈ sv := by
  obtain ⟨l1, l2, e, -⟩ := List.lookup_eq_some_iff.mp hl
  rw [e]
  simp

/-- The result of `addVariable` for the undefined hypothesis. -/
theorem addVariable_undefined (mh : ModellingHypothesis) (ls : LocalDataStructure)
    (v : Variable) :
    (v.name ∈ variableNames ls.uv →
        addVariable mh ls mh.UNDEFINEDHYPOTHESIS v
          = .error { msg := multiplyDefined v, state := ls })
      ∧ (v.name ∉ variableNames ls.uv → (∃ p ∈ ls.sv, v.name ∈ variableNames p.2) →
          ∃ sv1, addVariable mh ls mh.UNDEFINEDHYPOTHESIS v
              = .error { msg := multiplyDefined v, state := { uv := ls.uv ++ [v], sv := sv1 } }
            ∧ ∀ q ∈ sv1, ∃ p ∈ ls.sv, q.1 = p.1
                ∧ (q.2 = p.2 ∨ (q.2 = p.2 ++ [v] ∧ v.name ∉ variableNames p.2)))
      ∧ (v.name ∉ variableNames ls.uv → (∀ p ∈ ls.sv, v.name ∉ variableNames p.2) →
          addVariable mh ls mh.UNDEFINEDHYPOTHESIS v
            = .ok { uv := ls.uv ++ [v], sv := ls.sv.map (fun p => (p.1, p.2 ++ [v])) }) := by
  refine ⟨?_, ?_, ?_⟩
  · intro h
    unfold addVariable
    rw [if_pos rfl, addVariableTo_eq, if_pos h]
  · intro h hex
    obtain ⟨sv1, h1, h2⟩ := addToSpecialised_error v ls.sv hex
    refine ⟨sv1, ?_, h2⟩
    unfold addVariable
    rw [if_pos rfl, addVariableTo_eq, if_neg h]
    simp only
    rw [h1]
  · intro h hall
    unfold addVariable
    rw [if_pos rfl, addVariableTo_eq, if_neg h]
    simp only
    rw [addToSpecialised_ok v ls.sv hall]

/-- The result of `addVariable` for a hypothesis that is not the undefined
one. -/
theorem addVariable_specialised (mh : ModellingHypothesis) (ls : LocalDataStructure)
    (h : Hypothesis) (v : Variable) (hh : h ≠ mh.UNDEFINEDHYPOTHESIS) :
    (∀ c, ls.sv.lookup h = some c →
        addVariable mh ls h v
          = if v.name ∈ variableNames c then .error { msg := multiplyDefined v, state := ls }
            else .ok { ls with sv := specialisedAssign ls.sv h (c ++ [v]) })
      ∧ (ls.sv.lookup h = none →
          addVariable mh ls h v
            = if v.name ∈ variableNames ls.uv then
                .error { msg := multiplyDefined v,
                         state := { ls with sv := specialisedInsert ls.sv h ls.uv } }
              else
                .ok { ls with
                  sv := specialisedAssign (specialisedInsert ls.sv h ls.uv) h
                    (ls.uv ++ [v]) }) := by
  constructor
  · intro c hl
    unfold addVariable
    rw [if_neg hh]
    simp only [hl, Option.isNone_some, Bool.false_eq_true, if_false, Option.getD_some]
    rw [addVariableTo_eq]
    by_cases hn : v.name ∈ variableNames c
    · rw [if_pos hn, if_pos hn]
    · rw [if_neg hn, if_neg hn]
  · intro hl
    unfold addVariable
    rw [if_neg hh]
    simp only [hl, Option.isNone_none, if_true, lookup_specialisedInsert ls.sv h ls.uv hl,
      Option.getD_some]
    rw [addVariableTo_eq]
    by_cases hn : v.name ∈ variableNames ls.uv
    · rw [if_pos hn, if_pos hn]
    · rw [if_neg hn, if_neg hn]

/-- A call of `addVariable`, successful or not, keeps the names of every list
distinct. -/
theorem addVariable_keeps_distinct (mh : ModellingHypothesis) (ls : LocalDataStructure)
    (h : Hypothesis) (v : Variable) (hd : DistinctNames ls) :
    DistinctNames (localDataAfter (addVariable mh ls h v)) := by
  obtain ⟨hu, hs⟩ := hd
  by_cases hh : h = mh.UNDEFINEDHYPOTHESIS
  · subst hh
    obtain ⟨h1, h2, h3⟩ := addVariable_undefined mh ls v
    by_cases hin : v.name ∈ variableNames ls.uv
    · rw [h1 hin]
      exact ⟨hu, hs⟩
    · by_cases hex : ∃ p ∈ ls.sv, v.name ∈ variableNames p.2
      · obtain ⟨sv1, e1, e2⟩ := h2 hin hex
        rw [e1]
        refine ⟨nodup_names_append v ls.uv hu hin, ?_⟩
        intro q hq
        obtain ⟨p, hp, -, hp2⟩ := e2 q hq
        rcases hp2 with e | ⟨e, hn⟩
        · rw [e]
          exact hs p hp
        · rw [e]
          exact nodup_names_append v p.2 (hs p hp) hn
      · have hall : ∀ p ∈ ls.sv, v.name ∉ variableNames p.2 := by
          intro p hp hn
          exact hex ⟨p, hp, hn⟩
        rw [h3 hin hall]
        refine ⟨nodup_names_append v ls.uv hu hin, ?_⟩
        intro q hq
        obtain ⟨p, hp, rfl⟩ := List.mem_map.mp hq
        exact nodup_names_append v p.2 (hs p hp) (hall p hp)
  · obtain ⟨h1, h2⟩ := addVariable_specialised mh ls h v hh
    cases hl : ls.sv.lookup h with
    | some c =>
      rw [h1 c hl]
      have hc : (variableNames c).Nodup := hs (h, c) (mem_of_lookup ls.sv h c hl)
      split
      · exact ⟨hu, hs⟩
      · rename_i hn
        refine ⟨hu, ?_⟩
        intro q hq
        rcases (specialisedAssign_spec h (c ++ [v]) ls.sv).2 q hq with h3 | h3
        · exact hs q h3
        · rw [h3]
          exact nodup_names_append v c hc hn
    | none =>
      rw [h2 hl]
      split
      · refine ⟨hu, ?_⟩
        intro q hq
        rcases (mem_specialisedInsert ls.sv h ls.uv q).mp hq with h3 | h3
        · rw [h3]
          exact hu
        · exact hs q h3
      · rename_i hn
        refine ⟨hu, ?_⟩
        intro q hq
        rcases (specialisedAssign_spec h (ls.uv ++ [v]) _).2 q hq with h3 | h3
        · rcases (mem_specialisedInsert ls.sv h ls.uv q).mp h3 with h4 | h4
          · rw [h4]
            exact hu
          · exact hs q h4
        · rw [h3]
          exact nodup_names_append v ls.uv hu hn

theorem localDataAfterCalls_distinct (mh : ModellingHypothesis)
    (calls : List (Hypothesis × Variable)) :
    ∀ ls, DistinctNames ls → DistinctNames (localDataAfterCalls mh ls calls) := by
  induction calls with
  | nil => intro ls h; exact h
  | cons c cs ih =>
    intro ls h
    exact ih _ (addVariable_keeps_distinct mh ls c.1 c.2 h)

/-! ## The local data structures: properties -/

/-- C25: in every structure reached from the empty one by calls of
`addVariable`, successful or not, the names of the variables of the undefined
hypothesis are pairwise distinct and so are the names of the list of every
specialised hypothesis; `addVariable` fails with the error `multiply defined`
whenever the name of the variable is in a list that it has to extend (for the
undefined hypothesis its list and the list of every specialised hypothesis; for
another hypothesis its list, or the list of the undefined hypothesis when it has
none), and succeeds otherwise. -/
theorem addVariable_distinct_names (mh : ModellingHypothesis) :
    (∀ calls, DistinctNames (localDataAfterCalls mh { uv := [], sv := [] } calls))
      ∧ (∀ ls v,
          ((∃ e, addVariable mh ls mh.UNDEFINEDHYPOTHESIS v = .error e)
              ↔ (v.name ∈ variableNames ls.uv ∨ ∃ p ∈ ls.sv, v.name ∈ variableNames p.2))
            ∧ ∀ e, addVariable mh ls mh.UNDEFINEDHYPOTHESIS v = .error e →
                e.msg = multiplyDefined v)
      ∧ (∀ ls h v, h ≠ mh.UNDEFINEDHYPOTHESIS →
          ((∃ e, addVariable mh ls h v = .error e)
              ↔ v.name ∈ variableNames ((ls.sv.lookup h).getD ls.uv))
            ∧ ∀ e, addVariable mh ls h v = .error e → e.msg = multiplyDefined v) := by
  refine ⟨?_, ?_, ?_⟩
  · intro calls
    exact localDataAfterCalls_distinct mh calls _ ⟨List.nodup_nil, fun p hp => by cases hp⟩
  · intro ls v
    obtain ⟨h1, h2, h3⟩ := addVariable_undefined mh ls v
    by_cases hin : v.name ∈ variableNames ls.uv
    · rw [h1 hin]
      refine ⟨⟨fun _ => Or.inl hin, fun _ => ⟨_, rfl⟩⟩, ?_⟩
      intro e he
      cases he
      rfl
    · by_cases hex : ∃ p ∈ ls.sv, v.name ∈ variableNames p.2
      · obtain ⟨sv1, e1, -⟩ := h2 hin hex
        rw [e1]
        refine ⟨⟨fun _ => Or.inr hex, fun _ => ⟨_, rfl⟩⟩, ?_⟩
        intro e he
        cases he
        rfl
      · have hall : ∀ p ∈ ls.sv, v.name ∉ variableNames p.2 := by
          intro p hp hn
          exact hex ⟨p, hp, hn⟩
        rw [h3 hin hall]
        refine ⟨⟨?_, ?_⟩, ?_⟩
        · rintro ⟨e, he⟩
          cases he
        · rintro (h | h)
          · exact absurd h hin
          · exact absurd h hex
        · intro e he
          cases he
  · intro ls h v hh
    obtain ⟨h1, h2⟩ := addVariable_specialised mh ls h v hh
    cases hl : ls.sv.lookup h with
    | some c =>
      rw [h1 c hl]
      simp only [Option.getD_some]
      split
      · rename_i hn
        refine ⟨⟨fun _ => hn, fun _ => ⟨_, rfl⟩⟩, ?_⟩
        intro e he
        cases he
        rfl
      · rename_i hn
        refine ⟨⟨?_, fun h0 => absurd h0 hn⟩, ?_⟩
        · rintro ⟨e, he⟩
          cases he
        · intro e he
          cases he
    | none =>
      rw [h2 hl]
      simp only [Option.getD_none]
      split
      · rename_i hn
        refine ⟨⟨fun _ => hn, fun _ => ⟨_, rfl⟩⟩, ?_⟩
        intro e he
        cases he
        rfl
      · rename_i hn
        refine ⟨⟨?_, fun h0 => absurd h0 hn⟩, ?_⟩
        · rintro ⟨e, he⟩
          cases he
        · intro e he
          cases he

/-- Witness of C25: after `a` is declared for the undefined hypothesis and `b`
for the hypothesis 3, a second `b` for the undefined hypothesis is refused, and
the names of the lists are distinct. -/
theorem addVariable_distinct_names_witness :
    DistinctNames (localDataAfterCalls sampleHypotheses { uv := [], sv := [] }
        [(7, realVariable "a"), (3, realVariable "b"), (7, realVariable "b")])
      ∧ localDataAfterCalls sampleHypotheses { uv := [], sv := [] }
          [(7, realVariable "a"), (3, realVariable "b")]
        = { uv := [realVariable "a"], sv := [(3, [realVariable "a", realVariable "b"])] }
      ∧ ∃ e, addVariable sampleHypotheses
          { uv := [realVariable "a"], sv := [(3, [realVariable "a", realVariable "b"])] }
          sampleHypotheses.UNDEFINEDHYPOTHESIS (realVariable "b") = .error e :=
  ⟨(addVariable_distinct_names sampleHypotheses).1 _, by rfl,
    ((addVariable_distinct_names sampleHypotheses).2.1
      { uv := [realVariable "a"], sv := [(3, [realVariable "a", realVariable "b"])] }
      (realVariable "b")).1.mpr
      (Or.inr ⟨(3, [realVariable "a", realVariable "b"]), by simp, by decide⟩)⟩

/-- C26: when a hypothesis `h` other than the undefined one has no list and
`addVariable(h,v)` succeeds, the list of `h` is the list of the undefined
hypothesis at that time followed by `v`, the list of the undefined hypothesis
being unchanged; and every successful `addVariable` for the undefined
hypothesis appends the variable to the list of the undefined hypothesis and to
the list of every specialised hypothesis. The first call succeeds when the name
of `v` is not a name of the list of the undefined hypothesis. -/
theorem addVariable_specialises (mh : ModellingHypothesis) (ls : LocalDataStructure) :
    (∀ h v ls1, h ≠ mh.UNDEFINEDHYPOTHESIS → ls.sv.lookup h = none →
        addVariable mh ls h v = .ok ls1 →
        ls1.get mh h = .ok (ls.uv ++ [v]) ∧ ls1.uv = ls.uv)
      ∧ (∀ h v, h ≠ mh.UNDEFINEDHYPOTHESIS → ls.sv.lookup h = none →
          v.name ∉ variableNames ls.uv → ∃ ls1, addVariable mh ls h v = .ok ls1)
      ∧ (∀ w ls1, addVariable mh ls mh.UNDEFINEDHYPOTHESIS w = .ok ls1 →
          ls1.uv = ls.uv ++ [w] ∧ ls1.sv = ls.sv.map (fun p => (p.1, p.2 ++ [w]))) := by
  refine ⟨?_, ?_, ?_⟩
  · intro h v ls1 hh hl hok
    rw [(addVariable_specialised mh ls h v hh).2 hl] at hok
    split at hok
    · cases hok
    · cases hok
      refine ⟨?_, rfl⟩
      unfold LocalDataStructure.get
      rw [if_neg hh]
      simp only
      rw [(specialisedAssign_spec h (ls.uv ++ [v]) _).1 ls.uv
        (lookup_specialisedInsert ls.sv h ls.uv hl)]
  · intro h v hh hl hn
    rw [(addVariable_specialised mh ls h v hh).2 hl, if_neg hn]
    exact ⟨_, rfl⟩
  · intro w ls1 hok
    obtain ⟨h1, h2, h3⟩ := addVariable_undefined mh ls w
    by_cases hin : w.name ∈ variableNames ls.uv
    · rw [h1 hin] at hok
      cases hok
    · by_cases hex : ∃ p ∈ ls.sv, w.name ∈ variableNames p.2
      · obtain ⟨sv1, e1, -⟩ := h2 hin hex
        rw [e1] at hok
        cases hok
      · have hall : ∀ p ∈ ls.sv, w.name ∉ variableNames p.2 := by
          intro p hp hn
          exact hex ⟨p, hp, hn⟩
        rw [h3 hin hall] at hok
        cases hok
        exact ⟨rfl, rfl⟩

/-- Witness of C26: with the variable `a` of the undefined hypothesis, `b` is
declared for the hypothesis 3, whose list is then `a`, `b`; `c` declared for the
undefined hypothesis is then appended to both lists. -/
theorem addVariable_specialises_witness :
    (∃ ls1, addVariable sampleHypotheses { uv := [realVariable "a"], sv := [] } 3
        (realVariable "b") = .ok ls1)
      ∧ (LocalDataStructure.get sampleHypotheses
            { uv := [realVariable "a"], sv := [(3, [realVariable "a", realVariable "b"])] } 3
          = .ok ([realVariable "a"] ++ [realVariable "b"])
        ∧ ({ uv := [realVariable "a"], sv := [(3, [realVariable "a", realVariable "b"])] }
            : LocalDataStructure).uv = [realVariable "a"])
      ∧ addVariable sampleHypotheses
          { uv := [realVariable "a"], sv := [(3, [realVariable "a", realVariable "b"])] } 7
          (realVariable "c")
        = .ok { uv := [realVariable "a", realVariable "c"],
                sv := [(3, [realVariable "a", realVariable "b", realVariable "c"])] } :=
  ⟨(addVariable_specialises sampleHypotheses { uv := [realVariable "a"], sv := [] }).2.1 3
      (realVariable "b") (by decide) rfl (by decide),
    (addVariable_specialises sampleHypotheses { uv := [realVariable "a"], sv := [] }).1 3
      (realVariable "b") _ (by decide) rfl (by rfl),
    by rfl⟩

/-- C27 (amended): `get(h)` raises its error exactly when `h` is not the
undefined hypothesis and has no list, whether variables are declared for the
undefined hypothesis or not; for the undefined hypothesis it yields the list of
this hypothesis, also when it is empty, and for a specialised hypothesis its
list. `contains(h,n)` raises the same error in the same case and tells
otherwise whether `n` is a name of the list that `get(h)` yields. -/
theorem get_lookup_error (mh : ModellingHypothesis) (ls : LocalDataStructure)
    (h : Hypothesis) :
    ((∃ e, ls.get mh h = .error e) ↔ (h ≠ mh.UNDEFINEDHYPOTHESIS ∧ ls.sv.lookup h = none))
      ∧ (h = mh.UNDEFINEDHYPOTHESIS → ls.get mh h = .ok ls.uv)
      ∧ (∀ c, h ≠ mh.UNDEFINEDHYPOTHESIS → ls.sv.lookup h = some c → ls.get mh h = .ok c)
      ∧ (∀ n, ((∃ e, ls.contains mh h n = .error e)
              ↔ (h ≠ mh.UNDEFINEDHYPOTHESIS ∧ ls.sv.lookup h = none))
          ∧ ∀ d, ls.get mh h = .ok d →
              ls.contains mh h n = .ok (decide (n ∈ variableNames d))) := by
  have hget : (∃ e, ls.get mh h = .error e)
      ↔ (h ≠ mh.UNDEFINEDHYPOTHESIS ∧ ls.sv.lookup h = none) := by
    unfold LocalDataStructure.get
    by_cases hh : h = mh.UNDEFINEDHYPOTHESIS
    · rw [if_pos hh]
      constructor
      · rintro ⟨e, he⟩
        cases he
      · rintro ⟨h1, -⟩
        exact absurd hh h1
    · rw [if_neg hh]
      cases hl : ls.sv.lookup h with
      | none => exact ⟨fun _ => ⟨hh, rfl⟩, fun _ => ⟨_, rfl⟩⟩
      | some c =>
        constructor
        · rintro ⟨e, he⟩
          cases he
        · rintro ⟨-, h2⟩
          cases h2
  refine ⟨hget, ?_, ?_, ?_⟩
  · intro hh
    unfold LocalDataStructure.get
    rw [if_pos hh]
  · intro c hh hl
    unfold LocalDataStructure.get
    rw [if_neg hh, hl]
  · intro n
    constructor
    · rw [← hget]
      unfold LocalDataStructure.contains
      cases hg : ls.get mh h with
      | error e => exact ⟨fun _ => ⟨e, rfl⟩, fun _ => ⟨e, rfl⟩⟩
      | ok d =>
        constructor
        · rintro ⟨e, he⟩
          cases he
        · rintro ⟨e, he⟩
          cases he
    · intro d hg
      unfold LocalDataStructure.contains
      rw [hg]
      simp only [Except.ok.injEq]
      unfold variableNames
      rw [Bool.eq_iff_iff]
      simp only [List.any_eq_true, decide_eq_true_eq, List.mem_map]

/-- Witness of C27: no list for the hypothesis 3; the list of the undefined
hypothesis. -/
theorem get_lookup_error_witness :
    (∃ e, LocalDataStructure.get sampleHypotheses { uv := [realVariable "a"], sv := [] } 3
        = .error e)
      ∧ LocalDataStructure.get sampleHypotheses { uv := [realVariable "a"], sv := [] } 7
        = .ok [realVariable "a"] :=
  ⟨(get_lookup_error sampleHypotheses { uv := [realVariable "a"], sv := [] } 3).1.mpr
      ⟨by decide, rfl⟩,
    (get_lookup_error sampleHypotheses { uv := [realVariable "a"], sv := [] } 7).2.1 rfl⟩

/-- Counterexample of C27: the hypothesis 3 has no list and the variable `a` is
declared for the undefined hypothesis: `get` raises its error and does not
yield the list of the undefined hypothesis; and for the undefined hypothesis
`get` yields the empty list, without an error, when nothing is declared. -/
theorem get_lookup_error_counterexample :
    LocalDataStructure.get sampleHypotheses { uv := [realVariable "a"], sv := [] } 3
        = .error "LocalDataStructure::get: no variable defined for hypothesis '3'"
      ∧ LocalDataStructure.contains sampleHypotheses { uv := [realVariable "a"], sv := [] } 3 "a"
        = .error "LocalDataStructure::get: no variable defined for hypothesis '3'"
      ∧ LocalDataStructure.get sampleHypotheses { uv := [], sv := [] } 7 = .ok [] := by
  exact ⟨by rfl, by rfl, by rfl⟩

/-! ## The import of a material law: properties -/

theorem append_right_cancel_string (a b t : String) (h : a ++ t = b ++ t) : a = b := by
  have h1 := congrArg String.data h
  rw [String.data_append, String.data_append] at h1
  exact String.ext (List.append_cancel_right h1)

/-- A name that ends with `_checkBounds` does not end with
`_bounds_check_status`. -/
theorem checkBounds_ne_status (a b : String) :
    a ++ "_checkBounds" ≠ b ++ "_bounds_check_status" := by
  intro h
  have h1 := congrArg (fun s => (s.data.reverse).take 12) h
  simp only [String.data_append, List.reverse_append] at h1
  rw [List.take_append_of_le_length (by decide), List.take_append_of_le_length (by decide)] at h1
  revert h1
  decide

/-- C28 (amended): a successful `handleMaterialLaw` has called `reserveName`
for the three names of the function name `m` of the law read, `m`,
`m_checkBounds` and `m_bounds_check_status`, in this order and for no other
name; and the three names of two different function names have no name in
common unless one of the function names is the other one followed by
`_checkBounds` or by `_bounds_check_status`. -/
theorem handleMaterialLaw_reserves {R T : Type} (sv : MaterialLawServices R T) :
    (∀ s r atds f mpd r5 atds1,
        handleMaterialLaw sv s r atds f = .ok (mpd, r5, atds1) →
        ∃ path r3 r4 t, sv.search f = .ok path ∧ sv.analyseFile path = .ok mpd
          ∧ reserveNames sv.reserveName r (materialLawNames (sv.getFunctionName mpd.1 mpd.2))
              = .ok r3
          ∧ sv.appendToIncludes r3
              ("#include\"" ++ sv.getHeaderFileName mpd.1 mpd.2 ++ ".hxx\"") = .ok r4
          ∧ sv.addMaterialLaw r4 (sv.getFunctionName mpd.1 mpd.2) = .ok r5
          ∧ sv.treatFile path = .ok t ∧ atds1 = atds ++ [t])
      ∧ (∀ m, materialLawNames m = [m, m ++ "_checkBounds", m ++ "_bounds_check_status"])
      ∧ (∀ m1 m2, m1 ≠ m2 →
          ((∃ n, n ∈ materialLawNames m1 ∧ n ∈ materialLawNames m2)
            ↔ (m1 = m2 ++ "_checkBounds" ∨ m1 = m2 ++ "_bounds_check_status"
                ∨ m2 = m1 ++ "_checkBounds" ∨ m2 = m1 ++ "_bounds_check_status"))) := by
  refine ⟨?_, fun _ => rfl, ?_⟩
  · intro s r atds f mpd r5 atds1 h
    unfold handleMaterialLaw at h
    cases hb : handleMaterialLawBody sv s r atds f with
    | error e =>
      rw [hb] at h
      cases h
    | ok x =>
      rw [hb] at h
      cases h
      unfold handleMaterialLawBody at hb
      cases h1 : sv.search f with
      | error e => rw [h1] at hb; cases hb
      | ok path =>
        rw [h1] at hb
        simp only at hb
        cases h2 : sv.analyseFile path with
        | error e => rw [h2] at hb; cases hb
        | ok mpd0 =>
          rw [h2] at hb
          simp only at hb
          cases h3 : sv.reserveName r (sv.getFunctionName mpd0.1 mpd0.2) with
          | error e => rw [h3] at hb; cases hb
          | ok r1 =>
            rw [h3] at hb
            simp only at hb
            cases h4 : sv.reserveName r1 (sv.getFunctionName mpd0.1 mpd0.2 ++ "_checkBounds") with
            | error e => rw [h4] at hb; cases hb
            | ok r2 =>
              rw [h4] at hb
              simp only at hb
              cases h5 : sv.reserveName r2
                  (sv.getFunctionName mpd0.1 mpd0.2 ++ "_bounds_check_status") with
              | error e => rw [h5] at hb; cases hb
              | ok r3 =>
                rw [h5] at hb
                simp only at hb
                cases h6 : sv.appendToIncludes r3
                    ("#include\"" ++ sv.getHeaderFileName mpd0.1 mpd0.2 ++ ".hxx\"") with
                | error e => rw [h6] at hb; cases hb
                | ok r4 =>
                  rw [h6] at hb
                  simp only at hb
                  cases h7 : sv.addMaterialLaw r4 (sv.getFunctionName mpd0.1 mpd0.2) with
                  | error e => rw [h7] at hb; cases hb
                  | ok r6 =>
                    rw [h7] at hb
                    simp only at hb
                    cases h8 : sv.treatFile path with
                    | error e => rw [h8] at hb; cases hb
                    | ok t =>
                      rw [h8] at hb
                      simp only at hb
                      split at hb
                      · cases hb
                      · cases hb
                        refine ⟨path, r3, r4, t, rfl, h2, ?_, h6, h7, h8, rfl⟩
                        simp only [materialLawNames, reserveNames, h3, h4, h5]
  · intro m1 m2 hne
    simp only [materialLawNames, List.mem_cons, List.mem_singleton, List.not_mem_nil, or_false]
    constructor
    · rintro ⟨n, h1 | h1 | h1, h2 | h2 | h2⟩
      · exact absurd (h1.symm.trans h2) hne
      · exact Or.inl (h1.symm.trans h2)
      · exact Or.inr (Or.inl (h1.symm.trans h2))
      · exact Or.inr (Or.inr (Or.inl (h2.symm.trans h1)))
      · exact absurd (append_right_cancel_string _ _ _ (h1.symm.trans h2)) hne
      · exact absurd (h1.symm.trans h2) (checkBounds_ne_status m1 m2)
      · exact Or.inr (Or.inr (Or.inr (h2.symm.trans h1)))
      · exact absurd (h2.symm.trans h1) (checkBounds_ne_status m2 m1)
      · exact absurd (append_right_cancel_string _ _ _ (h1.symm.trans h2)) hne
    · rintro (h | h | h | h)
      · exact ⟨m1, Or.inl rfl, Or.inr (Or.inl h)⟩
      · exact ⟨m1, Or.inl rfl, Or.inr (Or.inr h)⟩
      · exact ⟨m2, Or.inr (Or.inl h), Or.inl rfl⟩
      · exact ⟨m2, Or.inr (Or.inr h), Or.inl rfl⟩

/-- Witness of C28: the import of the law `f` reserves `f`, `f_checkBounds` and
`f_bounds_check_status`, and the three names of `f` and `g` have no name in
common. -/
theorem handleMaterialLaw_reserves_witness :
    handleMaterialLaw recordingServices emptyDSL [] [] "f"
        = .ok (("", "f"), ["f", "f_checkBounds", "f_bounds_check_status"], [()])
      ∧ (∃ path r3 r4 t, recordingServices.search "f" = .ok path
          ∧ recordingServices.analyseFile path = .ok ("", "f")
          ∧ reserveNames recordingServices.reserveName []
              (materialLawNames (recordingServices.getFunctionName "" "f")) = .ok r3
          ∧ recordingServices.appendToIncludes r3
              ("#include\"" ++ recordingServices.getHeaderFileName "" "f" ++ ".hxx\"") = .ok r4
          ∧ recordingServices.addMaterialLaw r4 (recordingServices.getFunctionName "" "f")
              = .ok ["f", "f_checkBounds", "f_bounds_check_status"]
          ∧ recordingServices.treatFile path = .ok t ∧ [()] = [] ++ [t])
      ∧ ¬ (∃ n, n ∈ materialLawNames "f" ∧ n ∈ materialLawNames "g") :=
  ⟨by rfl,
    (handleMaterialLaw_reserves recordingServices).1 emptyDSL [] [] "f" ("", "f")
      ["f", "f_checkBounds", "f_bounds_check_status"] [()] (by rfl),
    fun h => by
      have h1 := ((handleMaterialLaw_reserves recordingServices).2.2 "f" "g" (by decide)).mp h
      revert h1
      decide⟩

/-- Counterexample of C28: the function names `f` and `f_checkBounds` are
different, both imports succeed, and the name `f_checkBounds` is reserved by
the first import and again by the second one. -/
theorem handleMaterialLaw_reserves_counterexample :
    "f" ≠ "f_checkBounds"
      ∧ handleMaterialLaw recordingServices emptyDSL [] [] "f"
        = .ok (("", "f"), ["f", "f_checkBounds", "f_bounds_check_status"], [()])
      ∧ handleMaterialLaw recordingServices emptyDSL
          ["f", "f_checkBounds", "f_bounds_check_status"] [()] "f_checkBounds"
        = .ok (("", "f_checkBounds"),
            ["f", "f_checkBounds", "f_bounds_check_status",
             "f_checkBounds", "f_checkBounds_checkBounds", "f_checkBounds_bounds_check_status"],
            [(), ()])
      ∧ "f_checkBounds" ∈ materialLawNames "f"
      ∧ "f_checkBounds" ∈ materialLawNames "f_checkBounds" := by
  exact ⟨by decide, by rfl, by rfl, by decide, by decide⟩

/-! ## The import of a file: properties -/

/-- A list that is read: the state is the initial one with the cursor moved
forward, within the tokens. -/
theorem readList_frame (s : DSLBase) (m db de : String) (b : Bool) (l : List Token)
    (s1 : DSLBase) (h : readList s m db de b = .ok (l, s1)) :
    ∃ c, s1 = { s with current := c } := by
  unfold readList at h
  cases h0 : checkNotEndOfFile s m ("Expected '" ++ db ++ "'") with
  | error f =>
    rw [h0] at h
    cases h
  | ok u =>
    rw [h0] at h
    simp only at h
    split at h
    · cases h
      exact ⟨s.current, rfl⟩
    · split at h
      · cases h
        exact ⟨s.current, rfl⟩
      · cases h1 : readSpecifiedToken s m db with
        | error f =>
          rw [h1] at h
          cases h
        | ok x =>
          obtain ⟨u1, s2⟩ := x
          have hinv := readSpecifiedToken_inv s m db u1 s2 h1
          rw [readSpecifiedToken_ok s m db hinv.1 hinv.2] at h1
          cases h1
          rw [readSpecifiedToken_ok s m db hinv.1 hinv.2] at h
          simp only at h
          cases h2 : readListLoop m de (s.tokens.drop (s.current + 1))
              { s with current := s.current + 1 } [] with
          | error f =>
            rw [h2] at h
            cases h
          | ok y =>
            obtain ⟨l2, s3⟩ := y
            rw [h2] at h
            cases h
            obtain ⟨body, cl, post, items, -, -, -, -, -, hs⟩ :=
              readListLoop_ok_inv m de _ _ (Nat.le_refl _) _ _ _ _ h2
            rw [hs]
            exact ⟨_, rfl⟩

/-- The names of the files that are read: the state is the initial one with
the cursor moved. -/
theorem readStringOrArrayOfString_frame (s : DSLBase) (m : String) (l : List String)
    (s1 : DSLBase) (h : readStringOrArrayOfString s m = .ok (l, s1)) :
    ∃ c, s1 = { s with current := c } := by
  unfold readStringOrArrayOfString at h
  cases h0 : checkNotEndOfFile s m "Expected a string or '\x7b'" with
  | error f =>
    rw [h0] at h
    cases h
  | ok u =>
    have hlt := checkNotEndOfFile_inv s m _ u h0
    rw [h0] at h
    simp only at h
    split at h
    · unfold readArrayOfString at h
      cases h1 : readList s m "\x7b" "\x7d" false with
      | error f =>
        rw [h1] at h
        cases h
      | ok x =>
        obtain ⟨as, s2⟩ := x
        rw [h1] at h
        simp only at h
        cases h2 : readArrayOfStringLoop s2 m as [] with
        | error f =>
          rw [h2] at h
          cases h
        | ok r =>
          rw [h2] at h
          cases h
          exact readList_frame s m _ _ _ as s1 h1
    · cases h4 : readString s m with
      | error f =>
        rw [h4] at h
        cases h
      | ok x =>
        obtain ⟨r0, s2⟩ := x
        rw [h4] at h
        cases h
        rw [readString_eq s m hlt] at h4
        by_cases hf : s.cur.flag ≠ TokenFlag.String
        · rw [if_pos hf] at h4
          cases h4
        · rw [if_neg hf] at h4
          cases h3 : unquote s.cur.value with
          | error e =>
            rw [h3] at h4
            cases h4
          | ok r =>
            rw [h3] at h4
            cases h4
            exact ⟨_, rfl⟩

/-- The statement of an import that is read: the state is the initial one with
the cursor just after a `;`. -/
theorem readImportStatement_frame (s : DSLBase) (files : List String) (s2 : DSLBase)
    (h : readImportStatement s = .ok (files, s2)) :
    ∃ c, s2 = { s with current := c + 1 } ∧ c < s.tokens.length
      ∧ (s.tokens.getD c default).value = ";" := by
  unfold readImportStatement at h
  simp only at h
  cases h0 : checkNotEndOfFile s "DSLBase::treatImport" "" with
  | error f =>
    rw [h0] at h
    cases h
  | ok u =>
    rw [h0] at h
    simp only at h
    cases h1 : readStringOrArrayOfString s "DSLBase::treatImport" with
    | error f =>
      rw [h1] at h
      cases h
    | ok x =>
      obtain ⟨l, s1⟩ := x
      rw [h1] at h
      simp only at h
      obtain ⟨c, hc⟩ := readStringOrArrayOfString_frame s _ l s1 h1
      cases h2 : checkNotEndOfFile s1 "DSLBase::treatImport" "" with
      | error f =>
        rw [h2] at h
        cases h
      | ok u2 =>
        rw [h2] at h
        simp only at h
        cases h3 : readSpecifiedToken s1 "DSLBase::treatImport" ";" with
        | error f =>
          rw [h3] at h
          cases h
        | ok y =>
          obtain ⟨u3, s3⟩ := y
          rw [h3] at h
          cases h
          have hinv := readSpecifiedToken_inv s1 _ _ u3 s2 h3
          rw [readSpecifiedToken_ok s1 _ _ hinv.1 hinv.2] at h3
          cases h3
          subst hc
          exact ⟨c, rfl, hinv.1, hinv.2⟩

/-- C29: when `treatImport` returns, the tokens and the file name are those
before the call and the cursor is just after the `;` of the import statement,
whatever the imports did; but when the search of a file or its import throws,
the exception leaves `treatImport` with the state that the object has at that
time, which is not put back: at the failure of the search of the first file the
object has no token at all. -/
theorem treatImport_restores {R : Type} (sv : ImportServices R) (r : R) (s : DSLBase) :
    (∀ r1 s1, treatImport sv r s = .ok (r1, s1) →
        s1.tokens = s.tokens ∧ s1.fileName = s.fileName
          ∧ 0 < s1.current ∧ s1.current ≤ s.tokens.length
          ∧ (s.tokens.getD (s1.current - 1) default).value = ";")
      ∧ (∀ f fs s2 e, readImportStatement s = .ok (f :: fs, s2) → sv.search f = .error e →
          treatImport sv r s = .error (r, { msg := e, state := { s2 with tokens := [] } }))
      ∧ (∀ f fs s2 path x, readImportStatement s = .ok (f :: fs, s2) →
          sv.search f = .ok path → sv.importFile r { s2 with tokens := [] } path = .error x →
          treatImport sv r s = .error x) := by
  refine ⟨?_, ?_, ?_⟩
  · intro r1 s1 h
    unfold treatImport at h
    simp only at h
    cases h0 : readImportStatement s with
    | error f =>
      rw [h0] at h
      cases h
    | ok x =>
      obtain ⟨files, s2⟩ := x
      rw [h0] at h
      simp only at h
      obtain ⟨c, hc, hlt, hv⟩ := readImportStatement_frame s files s2 h0
      cases h1 : importFiles sv r { s2 with tokens := [] } files with
      | error y =>
        rw [h1] at h
        cases h
      | ok y =>
        obtain ⟨r2, s3⟩ := y
        rw [h1] at h
        cases h
        subst hc
        refine ⟨rfl, rfl, Nat.succ_pos c, hlt, ?_⟩
        simpa using hv
  · intro f fs s2 e h0 h1
    unfold treatImport
    simp only [h0]
    rw [importFiles, h1]
  · intro f fs s2 path x h0 h1 h2
    unfold treatImport
    simp only [h0]
    rw [importFiles, h1]
    simp only [h2]

/-- Witness of C29: the import of `inner.mfront` returns with the tokens and the
file name of the outer file and the cursor after the `;`; the search of
`missing.mfront` throws and leaves an object without tokens; the import of
`broken.mfront` throws and leaves the tokens and the name of the inner file. -/
theorem treatImport_restores_witness :
    (treatImport sampleImport [] { parserOn (importTokens "inner.mfront") with current := 1 }
        = .ok (["inner.mfront"],
            { parserOn (importTokens "inner.mfront") with current := 3 })
      ∧ ({ parserOn (importTokens "inner.mfront") with current := 3 } : DSLBase).tokens
          = ({ parserOn (importTokens "inner.mfront") with current := 1 } : DSLBase).tokens)
      ∧ treatImport sampleImport [] { parserOn (importTokens "missing.mfront") with current := 1 }
        = .error ([],
            { msg := "SearchFile::search : 'missing.mfront' has not been found.",
              state := { parserOn [] with current := 3 } })
      ∧ treatImport sampleImport [] { parserOn (importTokens "broken.mfront") with current := 1 }
        = .error ([],
            { msg := "DSLBase::treatUnknownKeyword: unknown keyword (read '@Law')\nError at line 1",
              state :=
                { parserOn [tok "@Law" 1, tok "x" 1, tok ";" 1] with
                  current := 1, fileName := "broken.mfront" } }) :=
  ⟨⟨by rfl,
      ((treatImport_restores sampleImport []
        { parserOn (importTokens "inner.mfront") with current := 1 }).1 _ _ (by rfl)).1⟩,
    (treatImport_restores sampleImport []
      { parserOn (importTokens "missing.mfront") with current := 1 }).2.1
      "missing.mfront" [] { parserOn (importTokens "missing.mfront") with current := 3 } _
      (by rfl) (by rfl),
    (treatImport_restores sampleImport []
      { parserOn (importTokens "broken.mfront") with current := 1 }).2.2
      "broken.mfront" [] { parserOn (importTokens "broken.mfront") with current := 3 }
      "broken.mfront" _ (by rfl) (by rfl) (by rfl)⟩

/-! ## Runs with a checked cursor: lemmas -/

theorem currentToken_ok (s : DSLBase) (h : s.current < s.tokens.length) :
    Checked.currentToken s = .ok s.cur := by
  unfold Checked.currentToken DSLBase.cur
  rw [List.getElem?_eq_getElem h]
  simp [List.getD_eq_getElem?_getD, List.getElem?_eq_getElem h]

theorem previousToken_ok (s : DSLBase) (h0 : 0 < s.current) (h : s.current ≤ s.tokens.length) :
    Checked.previousToken s = .ok s.prev := by
  unfold Checked.previousToken DSLBase.prev
  have h1 : s.current - 1 < s.tokens.length := by omega
  rw [if_neg (by omega), List.getElem?_eq_getElem h1]
  simp [List.getD_eq_getElem?_getD, List.getElem?_eq_getElem h1]

theorem advance_ok (s : DSLBase) (h : s.current < s.tokens.length) :
    Checked.advance s = .ok { s with current := s.current + 1 } := by
  unfold Checked.advance
  rw [if_pos h]

theorem stepBack_ok (s : DSLBase) (h : 0 < s.current) :
    Checked.stepBack s = .ok { s with current := s.current - 1 } := by
  unfold Checked.stepBack
  rw [if_neg (by omega)]

theorem throwChecked_ok {α : Type} (s : DSLBase) (method m : String)
    (h : s.current ≤ s.tokens.length) :
    (Checked.throwRuntimeError s method m : Except Abort α)
      = .error (.thrown (throwRuntimeError s method m)) := by
  unfold Checked.throwRuntimeError
  rw [if_neg]
  intro h1
  omega

theorem throwRuntimeError_state (s : DSLBase) (method m : String) :
    (throwRuntimeError s method m).state = s := rfl

theorem endOfFileFailure_state (s : DSLBase) (method m : String) :
    (endOfFileFailure s method m).state = s := rfl

/-- An exception thrown by `throwRuntimeError` within the tokens ends the run
well. -/
theorem ends_throw {α : Type} (Q : α → DSLBase → Prop) (s : DSLBase) (method m : String)
    (h : s.current ≤ s.tokens.length) :
    Ends s.tokens Q (Checked.throwRuntimeError s method m) := by
  rw [throwChecked_ok s method m h]
  exact ⟨rfl, h⟩

/-- The rule of a sequence: a run that ends well, followed by a run that ends
well from every state that the first one may return. -/
theorem ends_bind {α β : Type} (toks : List Token) (Q : α → DSLBase → Prop)
    (R : β → DSLBase → Prop) (x : Except Abort (α × DSLBase))
    (k : α × DSLBase → Except Abort (β × DSLBase)) (hx : Ends toks Q x)
    (hk : ∀ a s1, s1.tokens = toks → s1.current ≤ toks.length → Q a s1 →
      Ends toks R (k (a, s1))) :
    Ends toks R (x >>= k) := by
  cases x with
  | error e =>
    cases e with
    | thrown f => exact hx
    | beforeBegin s => exact hx.elim
    | outside s => exact hx.elim
    | unfinished s => exact hx.elim
  | ok p =>
    obtain ⟨a, s1⟩ := p
    obtain ⟨h1, h2, h3⟩ := hx
    exact hk a s1 h1 h2 h3

theorem ends_weaken {α : Type} (toks : List Token) (Q R : α → DSLBase → Prop)
    (x : Except Abort (α × DSLBase)) (hx : Ends toks Q x)
    (h : ∀ a s1, s1.tokens = toks → s1.current ≤ toks.length → Q a s1 → R a s1) :
    Ends toks R x := by
  cases x with
  | error e =>
    cases e with
    | thrown f => exact hx
    | beforeBegin s => exact hx.elim
    | outside s => exact hx.elim
    | unfinished s => exact hx.elim
  | ok p =>
    obtain ⟨a, s1⟩ := p
    obtain ⟨h1, h2, h3⟩ := hx
    exact ⟨h1, h2, h a s1 h1 h2 h3⟩

/-- `checkNotEndOfFile` followed by a run: the run is made when the cursor is
not at the end. -/
theorem ends_check {β : Type} (R : β → DSLBase → Prop) (s : DSLBase) (method error : String)
    (k : Unit → Except Abort (β × DSLBase)) (h : s.current ≤ s.tokens.length)
    (hk : s.current < s.tokens.length → Ends s.tokens R (k ())) :
    Ends s.tokens R (Checked.checkNotEndOfFile s method error >>= k) := by
  unfold Checked.checkNotEndOfFile
  by_cases he : s.current = s.tokens.length
  · rw [if_pos he]
    exact ⟨rfl, h⟩
  · rw [if_neg he]
    exact hk (by omega)

theorem bind_currentToken {β : Type} (s : DSLBase) (h : s.current < s.tokens.length)
    (k : Token → Except Abort β) : (Checked.currentToken s >>= k) = k s.cur := by
  rw [currentToken_ok s h]
  rfl

theorem bind_advance {β : Type} (s : DSLBase) (h : s.current < s.tokens.length)
    (k : DSLBase → Except Abort β) :
    (Checked.advance s >>= k) = k { s with current := s.current + 1 } := by
  rw [advance_ok s h]
  rfl

theorem bind_stepBack {β : Type} (s : DSLBase) (h : 0 < s.current)
    (k : DSLBase → Except Abort β) :
    (Checked.stepBack s >>= k) = k { s with current := s.current - 1 } := by
  rw [stepBack_ok s h]
  rfl

theorem readSpecifiedToken_ends (s : DSLBase) (m v : String) (h : s.current ≤ s.tokens.length) :
    Ends s.tokens
      (fun _ s1 => s1.current = s.current + 1 ∧ s.current < s.tokens.length ∧ s.cur.value = v)
      (Checked.readSpecifiedToken s m v) := by
  unfold Checked.readSpecifiedToken
  apply ends_check _ s _ _ _ h
  intro hlt
  simp only [bind_currentToken s hlt]
  by_cases hv : s.cur.value ≠ v
  · rw [if_pos hv]
    exact ends_throw _ s _ _ h
  · rw [if_neg hv]
    simp only [bind_advance s hlt]
    exact ⟨rfl, hlt, rfl, hlt, not_not.mp hv⟩

theorem readListLoop_ends (m de : String) :
    ∀ (n : Nat) (s : DSLBase) (l : List Token), s.current < s.tokens.length →
      s.tokens.length - s.current ≤ n →
      Ends s.tokens (fun _ s1 => s1.current < s.tokens.length)
        (Checked.readListLoop m de n s l) := by
  intro n
  induction n with
  | zero =>
    intro s l h1 h2
    omega
  | succ n ih =>
    intro s l h1 h2
    rw [Checked.readListLoop]
    simp only [bind_currentToken s h1]
    by_cases hv : s.cur.value ≠ de
    · rw [if_pos hv]
      simp only [bind_advance s h1]
      apply ends_check _ { s with current := s.current + 1 } _ _ _ h1
      intro hlt1
      simp only [bind_currentToken _ hlt1]
      by_cases hv2 : ¬ (({ s with current := s.current + 1 } : DSLBase).cur.value = de
          ∨ ({ s with current := s.current + 1 } : DSLBase).cur.value = ",")
      · rw [if_pos hv2]
        exact ends_throw _ { s with current := s.current + 1 } _ _ h1
      · rw [if_neg hv2]
        by_cases hv3 : ({ s with current := s.current + 1 } : DSLBase).cur.value = ","
        · rw [if_pos hv3]
          simp only [bind_advance _ hlt1]
          apply ends_check _ { s with current := s.current + 1 + 1 } _ _ _ hlt1
          intro hlt2
          simp only [bind_currentToken _ hlt2]
          by_cases hv4 : ({ s with current := s.current + 1 + 1 } : DSLBase).cur.value = de
          · rw [if_pos hv4]
            exact ends_throw _ { s with current := s.current + 1 + 1 } _ _ hlt1
          · rw [if_neg hv4]
            exact ih { s with current := s.current + 1 + 1 } _ hlt2 (by simp only; omega)
        · rw [if_neg hv3]
          exact ih { s with current := s.current + 1 } _ hlt1 (by simp only; omega)
    · rw [if_neg hv]
      exact ⟨rfl, Nat.le_of_lt h1, h1⟩

theorem ignoreKeyWordWords_ends (key : String) :
    ∀ (n : Nat) (s : DSLBase), s.current < s.tokens.length →
      s.tokens.length - s.current ≤ n →
      Ends s.tokens (fun _ s1 => s1.current < s.tokens.length)
        (Checked.ignoreKeyWordWords key n s) := by
  intro n
  induction n with
  | zero =>
    intro s h1 h2
    omega
  | succ n ih =>
    intro s h1 h2
    rw [Checked.ignoreKeyWordWords]
    simp only [bind_currentToken s h1]
    by_cases hv : s.cur.value ≠ "\x7b" ∧ s.cur.value ≠ ";"
    · rw [if_pos hv]
      simp only [bind_advance s h1]
      apply ends_check _ { s with current := s.current + 1 } _ _ _ h1
      intro hlt1
      exact ih { s with current := s.current + 1 } hlt1 (by simp only; omega)
    · rw [if_neg hv]
      exact ⟨rfl, Nat.le_of_lt h1, h1⟩

theorem ignoreKeyWordBlock_ends (key : String) :
    ∀ (n : Nat) (s : DSLBase) (openedBrackets : Nat), s.current < s.tokens.length →
      s.tokens.length - s.current ≤ n →
      Ends s.tokens (fun _ s1 => s1.current < s.tokens.length)
        (Checked.ignoreKeyWordBlock key n s openedBrackets) := by
  intro n
  induction n with
  | zero =>
    intro s o h1 h2
    omega
  | succ n ih =>
    intro s o h1 h2
    rw [Checked.ignoreKeyWordBlock]
    simp only [bind_currentToken s h1]
    by_cases hv : ¬ (s.cur.value = "\x7d" ∧ o = 0)
    · rw [if_pos hv]
      simp only [bind_advance s h1]
      apply ends_check _ { s with current := s.current + 1 } _ _ _ h1
      intro hlt1
      simp only [bind_currentToken _ hlt1]
      exact ih { s with current := s.current + 1 } _ hlt1 (by simp only; omega)
    · rw [if_neg hv]
      exact ⟨rfl, Nat.le_of_lt h1, h1⟩

theorem ignoreKeyWord_ends (s : DSLBase) (key : String) (h : s.current ≤ s.tokens.length) :
    EndsWell s.tokens (Checked.ignoreKeyWord s key) := by
  unfold Checked.ignoreKeyWord EndsWell
  apply ends_check _ s _ _ _ h
  intro hlt
  apply ends_bind s.tokens _ _ _ _ (ignoreKeyWordWords_ends key _ s hlt (by omega))
  intro u s1 ht hc hq
  simp only
  rw [← ht] at hc hq ⊢
  simp only [bind_currentToken s1 hq]
  by_cases hv : s1.cur.value = "\x7b"
  · rw [if_pos hv]
    apply ends_bind s1.tokens _ _ _ _
      (ignoreKeyWordBlock_ends key (s1.tokens.length + 1) s1 1 hq (by omega))
    intro u2 s2 ht2 hc2 hq2
    simp only
    rw [← ht2] at hc2 hq2 ⊢
    simp only [bind_advance s2 hq2]
    by_cases he : s2.current + 1 = s2.tokens.length
    · rw [if_pos he]
      simp only [pure_bind, bind_advance s2 hq2]
      exact ⟨rfl, hq2, trivial⟩
    · have hlt2 : ({ s2 with current := s2.current + 1 } : DSLBase).current
          < ({ s2 with current := s2.current + 1 } : DSLBase).tokens.length := by
        simp only
        omega
      rw [if_neg he]
      simp only [bind_currentToken _ hlt2]
      by_cases hv2 : ({ s2 with current := s2.current + 1 } : DSLBase).cur.value = ";"
      · rw [if_pos hv2]
        simp only [pure_bind, bind_advance _ hlt2]
        exact ⟨rfl, hlt2, trivial⟩
      · rw [if_neg hv2]
        simp only [pure_bind, bind_advance s2 hq2]
        exact ⟨rfl, hq2, trivial⟩
  · rw [if_neg hv]
    simp only [pure_bind, bind_advance s1 hq]
    exact ⟨rfl, hq, trivial⟩

theorem ok_bind {α β : Type} (a : α) (k : α → Except Abort β) :
    ((Except.ok a : Except Abort α) >>= k) = k a := rfl

theorem analyse_tokens (o : CodeBlockParserOptions) (s : DSLBase) (w : String) :
    (analyse o s w).tokens = s.tokens := by
  unfold analyse
  split <;> rfl

theorem analyse_current (o : CodeBlockParserOptions) (s : DSLBase) (w : String) :
    (analyse o s w).current = s.current := by
  unfold analyse
  split <;> rfl

theorem previousOfName_ok (o : CodeBlockParserOptions) (s : DSLBase) (t : Token)
    (h0 : 0 < s.current) (h : s.current ≤ s.tokens.length) :
    ∃ p, Checked.previousOfName o s t = .ok p := by
  unfold Checked.previousOfName
  split
  · exact ⟨_, previousToken_ok s h0 h⟩
  · exact ⟨_, rfl⟩

theorem cur_getLast (s : DSLBase) (h : s.current + 1 = s.tokens.length) :
    s.tokens.getLast? = some s.cur := by
  have hlt : s.current < s.tokens.length := by omega
  have e : s.tokens.length - 1 = s.current := by omega
  rw [List.getLast?_eq_getElem?, e]
  unfold DSLBase.cur
  rw [List.getElem?_eq_getElem hlt]
  simp [List.getD_eq_getElem?_getD, List.getElem?_eq_getElem hlt]

theorem readArraySize_ends (varName : String) :
    ∀ (n : Nat) (s : DSLBase) (a : String), s.current < s.tokens.length →
      s.tokens.length - s.current ≤ n →
      Ends s.tokens (fun _ s1 => s1.current < s.tokens.length ∧ s.current ≤ s1.current)
        (Checked.readArraySize varName n s a) := by
  intro n
  induction n with
  | zero =>
    intro s a h1 h2
    omega
  | succ n ih =>
    intro s a h1 h2
    rw [Checked.readArraySize]
    simp only [bind_currentToken s h1]
    by_cases hv : s.cur.value ≠ "]"
    · rw [if_pos hv]
      by_cases hf : s.cur.flag ≠ TokenFlag.Standard ∨ s.cur.value = ";"
      · rw [if_pos hf]
        exact ends_throw _ s _ _ (Nat.le_of_lt h1)
      · rw [if_neg hf]
        simp only [bind_advance s h1]
        apply ends_check _ { s with current := s.current + 1 } _ _ _ h1
        intro hlt1
        apply ends_weaken s.tokens _ _ _
          (ih { s with current := s.current + 1 } _ hlt1 (by simp only; omega))
        intro r s1 _ _ hq
        simp only at hq
        exact ⟨hq.1, by omega⟩
    · rw [if_neg hv]
      exact ⟨rfl, Nat.le_of_lt h1, h1, Nat.le_refl _⟩

theorem evaluateArraySize_cases (lib : Library) (s : DSLBase) (varName a : String)
    (h : s.current ≤ s.tokens.length) :
    (∃ n, Checked.evaluateArraySize lib s varName a = .ok n)
      ∨ ∃ f, Checked.evaluateArraySize lib s varName a = .error (.thrown f) ∧ f.state = s := by
  unfold Checked.evaluateArraySize
  by_cases h1 : a = ""
  · rw [if_pos h1, throwChecked_ok s _ _ h]
    exact Or.inr ⟨_, rfl, rfl⟩
  · rw [if_neg h1]
    cases h2 : lib.getVariablesNames a with
    | error e => exact Or.inr ⟨_, rfl, rfl⟩
    | ok vars =>
      simp only
      cases h3 : vars.find? (fun v => (s.integerConstants.lookup v).isNone) with
      | some v =>
        simp only
        rw [throwChecked_ok s _ _ h]
        exact Or.inr ⟨_, rfl, rfl⟩
      | none =>
        simp only
        cases h4 : lib.getValue a
            (vars.map (fun v => (v, (s.integerConstants.lookup v).getD 0))) with
        | error e => exact Or.inr ⟨_, rfl, rfl⟩
        | ok iv =>
          simp only
          by_cases h5 : iv ≤ 0
          · rw [if_pos h5, throwChecked_ok s _ _ h]
            exact Or.inr ⟨_, rfl, rfl⟩
          · rw [if_neg h5]
            exact Or.inl ⟨_, rfl⟩

theorem readArray_ends (lib : Library) (s : DSLBase) (varName : String) (allowArray : Bool)
    (h : s.current < s.tokens.length) :
    Ends s.tokens (fun _ s1 => s1.current < s.tokens.length ∧ s.current < s1.current)
      (Checked.readArray lib s varName allowArray) := by
  unfold Checked.readArray
  by_cases ha : allowArray = false
  · rw [if_pos ha]
    exact ends_throw _ s _ _ (Nat.le_of_lt h)
  · rw [if_neg ha]
    simp only [bind_advance s h]
    apply ends_check _ { s with current := s.current + 1 } _ _ _ h
    intro hlt1
    apply ends_bind s.tokens _ _ _ _
      (readArraySize_ends varName _ { s with current := s.current + 1 } "" hlt1
        (by simp only; omega))
    intro a s2 ht2 hc2 hq2
    simp only at hq2 ⊢
    rcases evaluateArraySize_cases lib s2 varName a (by rw [ht2]; exact hc2) with
      ⟨n, hn⟩ | ⟨f, hf, hfs⟩
    · rw [hn, ok_bind]
      rw [← ht2]
      apply ends_bind s2.tokens _ _ _ _
        (readSpecifiedToken_ends s2 _ _ (by rw [ht2]; exact hc2))
      intro u s3 ht3 hc3 hq3
      simp only
      rw [← ht3] at hc3 ⊢
      apply ends_check _ s3 _ _ _ hc3
      intro hlt3
      exact ⟨rfl, hc3, hlt3, by omega⟩
    · rw [hf]
      exact ⟨by rw [hfs]; exact ht2, by rw [hfs]; exact hc2⟩

theorem readVarListItem_ends (lib : Library) (s : DSLBase) (cont : List VariableDescription)
    (type : String) (allowArray : Bool) (h : s.current < s.tokens.length) :
    Ends s.tokens (fun _ s1 => s.current < s1.current)
      (Checked.readVarListItem lib s cont type allowArray) := by
  unfold Checked.readVarListItem
  simp only [bind_currentToken s h]
  by_cases hv : lib.isValidIdentifier s.cur.value true = false
  · rw [if_pos hv]
    exact ends_throw _ s _ _ (Nat.le_of_lt h)
  · rw [if_neg hv]
    simp only [bind_advance s h]
    apply ends_check _ { s with current := s.current + 1 } _ _ _ h
    intro hlt1
    simp only [bind_currentToken _ hlt1]
    have hrest : ∀ (p : VariableDescription) (s2 : DSLBase), s2.tokens = s.tokens →
        s2.current < s.tokens.length → s.current < s2.current →
        Ends s.tokens (fun _ s1 => s.current < s1.current)
          (Checked.currentToken s2 >>= fun t2 =>
            if t2.value = "," then
              Checked.advance s2 >>= fun s3 => pure ((cont ++ [p], none), s3)
            else if t2.value = ";" then
              Checked.advance s2 >>= fun s3 => pure ((cont ++ [p], some t2.comment), s3)
            else
              Checked.throwRuntimeError s2 "DSLBase::readVarList"
                (", or ; expected after '" ++ s.cur.value ++ "'")) := by
      intro p s2 ht2 hlt2 hgt
      rw [← ht2] at hlt2 ⊢
      simp only [bind_currentToken s2 hlt2]
      by_cases hc1 : s2.cur.value = ","
      · rw [if_pos hc1]
        simp only [bind_advance s2 hlt2]
        exact ⟨rfl, hlt2, by simp only; omega⟩
      · rw [if_neg hc1]
        by_cases hc2 : s2.cur.value = ";"
        · rw [if_pos hc2]
          simp only [bind_advance s2 hlt2]
          exact ⟨rfl, hlt2, by simp only; omega⟩
        · rw [if_neg hc2]
          exact ends_throw _ s2 _ _ (Nat.le_of_lt hlt2)
    by_cases hb : ({ s with current := s.current + 1 } : DSLBase).cur.value = "["
    · rw [if_pos hb]
      apply ends_bind s.tokens _ _ _ _
        (readArray_ends lib { s with current := s.current + 1 } s.cur.value allowArray hlt1)
      intro asize s2 ht2 hc2 hq2
      simp only at hq2 ⊢
      exact hrest _ s2 ht2 hq2.1 (by omega)
    · rw [if_neg hb]
      simp only [pure_bind]
      exact hrest _ { s with current := s.current + 1 } rfl hlt1 (by simp only; omega)

theorem readVarListLoop_ends (lib : Library) (type : String) (allowArray : Bool) :
    ∀ (n : Nat) (s : DSLBase) (cont : List VariableDescription),
      s.current ≤ s.tokens.length → s.tokens.length - s.current < n →
      Ends s.tokens (fun r s1 => r.2 = none → s1.current = s.tokens.length)
        (Checked.readVarListLoop lib type allowArray n s cont) := by
  intro n
  induction n with
  | zero =>
    intro s cont h1 h2
    omega
  | succ n ih =>
    intro s cont h1 h2
    rw [Checked.readVarListLoop]
    by_cases he : s.current = s.tokens.length
    · rw [if_pos he]
      exact ⟨rfl, h1, fun _ => he⟩
    · have hlt : s.current < s.tokens.length := by omega
      rw [if_neg he]
      apply ends_bind s.tokens _ _ _ _ (readVarListItem_ends lib s cont type allowArray hlt)
      intro r s1 ht hc hq
      obtain ⟨cont1, e⟩ := r
      cases e with
      | some c =>
        simp only
        exact ⟨ht, hc, fun h0 => by cases h0⟩
      | none =>
        simp only
        rw [← ht] at hc ⊢
        apply ends_weaken s1.tokens _ _ _ (ih s1 cont1 hc (by rw [ht]; omega))
        intro r2 s2 _ _ hq2 hnone
        rw [hq2 hnone]

theorem readScope_ends (lib : Library) :
    ∀ (n : Nat) (s : DSLBase) (type : String), s.current < s.tokens.length →
      s.tokens.length - s.current ≤ n →
      Ends s.tokens (fun _ s1 => s1.current < s.tokens.length)
        (Checked.readScope lib n s type) := by
  intro n
  induction n with
  | zero =>
    intro s type h1 h2
    omega
  | succ n ih =>
    intro s type h1 h2
    rw [Checked.readScope]
    simp only [bind_currentToken s h1]
    by_cases hv : s.cur.value = "::"
    · rw [if_pos hv]
      simp only [bind_advance s h1]
      apply ends_check _ { s with current := s.current + 1 } _ _ _ h1
      intro hlt1
      simp only [bind_currentToken _ hlt1]
      by_cases hi : lib.isValidIdentifier
          ({ s with current := s.current + 1 } : DSLBase).cur.value false = false
      · rw [if_pos hi]
        have hpos1 : 0 < ({ s with current := s.current + 1 } : DSLBase).current :=
          Nat.succ_pos _
        simp only [bind_stepBack { s with current := s.current + 1 } hpos1]
        exact ends_throw _ { s with current := s.current + 1 - 1 } _ _
          (by show s.current + 1 - 1 ≤ s.tokens.length; omega)
      · rw [if_neg hi]
        simp only [bind_advance _ hlt1]
        apply ends_check _ { s with current := s.current + 1 + 1 } _ _ _ hlt1
        intro hlt2
        exact ih { s with current := s.current + 1 + 1 } _ hlt2 (by simp only; omega)
    · rw [if_neg hv]
      exact ⟨rfl, Nat.le_of_lt h1, h1⟩

theorem readTemplateArguments_ends (lib : Library) :
    ∀ (n : Nat) (s : DSLBase) (type : String) (openBrackets : Nat),
      s.current < s.tokens.length → s.tokens.length - s.current ≤ n →
      Ends s.tokens (fun _ s1 => s1.current < s.tokens.length)
        (Checked.readTemplateArguments lib n s type openBrackets) := by
  intro n
  induction n with
  | zero =>
    intro s type ob h1 h2
    omega
  | succ n ih =>
    intro s type ob h1 h2
    rw [Checked.readTemplateArguments]
    by_cases h0 : ob = 0
    · rw [if_pos h0]
      exact ⟨rfl, Nat.le_of_lt h1, h1⟩
    · rw [if_neg h0]
      simp only [bind_currentToken s h1]
      by_cases hi : invalidArgument lib s.cur.value = true
      · rw [if_pos hi]
        exact ends_throw _ s _ _ (Nat.le_of_lt h1)
      · rw [if_neg hi]
        simp only [bind_advance s h1]
        apply ends_check _ { s with current := s.current + 1 } _ _ _ h1
        intro hlt1
        simp only [bind_currentToken _ hlt1]
        by_cases hc : ({ s with current := s.current + 1 } : DSLBase).cur.value = ","
        · rw [if_pos hc]
          simp only [bind_advance _ hlt1]
          apply ends_check _ { s with current := s.current + 1 + 1 } _ _ _ hlt1
          intro hlt2
          simp only [bind_currentToken _ hlt2]
          by_cases hi3 : invalidArgument lib
              ({ s with current := s.current + 1 + 1 } : DSLBase).cur.value = true
          · rw [if_pos hi3]
            have hpos2 : 0 < ({ s with current := s.current + 1 + 1 } : DSLBase).current :=
              Nat.succ_pos _
            simp only [bind_stepBack { s with current := s.current + 1 + 1 } hpos2]
            exact ends_throw _ { s with current := s.current + 1 + 1 - 1 } _ _
              (by show s.current + 1 + 1 - 1 ≤ s.tokens.length; omega)
          · rw [if_neg hi3]
            exact ih { s with current := s.current + 1 + 1 } _ _ hlt2 (by simp only; omega)
        · rw [if_neg hc]
          by_cases hl : ({ s with current := s.current + 1 } : DSLBase).cur.value = "<"
          · rw [if_pos hl]
            by_cases hint : isInteger s.cur.value = true
            · rw [if_pos hint]
              exact ends_throw _ { s with current := s.current + 1 } _ _ h1
            · rw [if_neg hint]
              simp only [bind_advance _ hlt1]
              apply ends_check _ { s with current := s.current + 1 + 1 } _ _ _ hlt1
              intro hlt2
              exact ih { s with current := s.current + 1 + 1 } _ _ hlt2 (by simp only; omega)
          · rw [if_neg hl]
            by_cases hg : ({ s with current := s.current + 1 } : DSLBase).cur.value = ">"
            · rw [if_pos hg]
              simp only [bind_advance _ hlt1]
              apply ends_check _ { s with current := s.current + 1 + 1 } _ _ _ hlt1
              intro hlt2
              exact ih { s with current := s.current + 1 + 1 } _ _ hlt2 (by simp only; omega)
            · rw [if_neg hg]
              exact ih { s with current := s.current + 1 } _ _ hlt1 (by simp only; omega)

theorem readVarListType_ends (lib : Library) (s : DSLBase) (h : s.current ≤ s.tokens.length)
    (h0 : 0 < s.current ∨ lib.isValidIdentifier s.cur.value false = true) :
    Ends s.tokens (fun _ s1 => s1.current < s.tokens.length)
      (Checked.readVarListType lib s) := by
  unfold Checked.readVarListType
  apply ends_check _ s _ _ _ h
  intro hlt
  simp only [bind_currentToken s hlt]
  by_cases hv : lib.isValidIdentifier s.cur.value false = false
  · rw [if_pos hv]
    have hpos : 0 < s.current := by
      rcases h0 with h1 | h1
      · exact h1
      · rw [hv] at h1
        cases h1
    simp only [bind_stepBack s hpos]
    exact ends_throw _ { s with current := s.current - 1 } _ _ (by simp only; omega)
  · rw [if_neg hv]
    simp only [bind_advance s hlt]
    apply ends_check _ { s with current := s.current + 1 } _ _ _ hlt
    intro hlt1
    apply ends_bind s.tokens _ _ _ _
      (readScope_ends lib _ { s with current := s.current + 1 } s.cur.value hlt1
        (by simp only; omega))
    intro type s2 ht2 hc2 hq2
    simp only at hq2 ⊢
    rw [← ht2] at hq2 ⊢
    simp only [bind_currentToken s2 hq2]
    by_cases hl : s2.cur.value = "<"
    · rw [if_pos hl]
      simp only [bind_advance s2 hq2]
      apply ends_check _ { s2 with current := s2.current + 1 } _ _ _ hq2
      intro hlt3
      exact readTemplateArguments_ends lib _ { s2 with current := s2.current + 1 } _ _ hlt3
        (by simp only; omega)
    · rw [if_neg hl]
      exact ⟨rfl, Nat.le_of_lt hq2, hq2⟩

theorem drop_cursor (s : DSLBase) (h : s.current < s.tokens.length) :
    s.tokens.drop s.current = s.cur :: s.tokens.drop (s.current + 1) := by
  unfold DSLBase.cur
  rw [List.drop_eq_getElem_cons h]
  simp [List.getD_eq_getElem?_getD, List.getElem?_eq_getElem h]

theorem drop_end (s : DSLBase) (h : s.current = s.tokens.length) :
    s.tokens.drop s.current = [] := by
  rw [h, List.drop_length]

theorem checkNotEndOfFile_checked (s : DSLBase) (method error : String)
    (h : s.current ≤ s.tokens.length) :
    Checked.checkNotEndOfFile s method error
      = match checkNotEndOfFile s method error with
        | .ok u => .ok u
        | .error f => .error (.thrown f) := by
  unfold Checked.checkNotEndOfFile checkNotEndOfFile
  by_cases he : s.current = s.tokens.length
  · rw [if_pos he, if_pos (by omega)]
  · rw [if_neg he, if_neg (by omega)]

theorem bind_check_end {β : Type} (s : DSLBase) (method error : String)
    (h : s.current = s.tokens.length) (k : Unit → Except Abort β) :
    (Checked.checkNotEndOfFile s method error >>= k)
      = .error (.thrown (endOfFileFailure s method error)) := by
  unfold Checked.checkNotEndOfFile
  rw [if_pos h]
  rfl

theorem bind_check_ok {β : Type} (s : DSLBase) (method error : String)
    (h : s.current < s.tokens.length) (k : Unit → Except Abort β) :
    (Checked.checkNotEndOfFile s method error >>= k) = k () := by
  unfold Checked.checkNotEndOfFile
  rw [if_neg (by omega)]
  rfl

theorem readSpecifiedToken_checked (s : DSLBase) (m v : String)
    (h : s.current ≤ s.tokens.length) :
    Checked.readSpecifiedToken s m v = unchecked (readSpecifiedToken s m v) := by
  unfold Checked.readSpecifiedToken readSpecifiedToken checkNotEndOfFile
  by_cases he : s.current = s.tokens.length
  · rw [bind_check_end s _ _ he, if_pos (by omega)]
    rfl
  · have hlt : s.current < s.tokens.length := by omega
    rw [bind_check_ok s _ _ hlt, if_neg (by omega)]
    simp only [bind_currentToken s hlt]
    by_cases hv : s.cur.value ≠ v
    · rw [if_pos hv, if_pos hv, throwChecked_ok s _ _ h]
      rfl
    · rw [if_neg hv, if_neg hv]
      simp only [bind_advance s hlt]
      rfl

theorem readListLoop_checked (m de : String) :
    ∀ (n : Nat) (s : DSLBase) (l : List Token), s.current < s.tokens.length →
      s.tokens.length - s.current ≤ n →
      Checked.readListLoop m de n s l
        = unchecked (readListLoop m de (s.tokens.drop s.current) s l) := by
  intro n
  induction n with
  | zero =>
    intro s l h1 h2
    omega
  | succ n ih =>
    intro s l h1 h2
    rw [Checked.readListLoop, drop_cursor s h1, readListLoop]
    simp only [bind_currentToken s h1]
    by_cases hv : s.cur.value ≠ de
    · rw [if_pos hv, if_pos hv]
      simp only [bind_advance s h1]
      by_cases he1 : s.current + 1 = s.tokens.length
      · rw [bind_check_end { s with current := s.current + 1 } _ _ he1,
          drop_end { s with current := s.current + 1 } he1]
        rfl
      · have hlt1 : ({ s with current := s.current + 1 } : DSLBase).current
            < ({ s with current := s.current + 1 } : DSLBase).tokens.length := by
          simp only
          omega
        rw [bind_check_ok { s with current := s.current + 1 } _ _ hlt1,
          drop_cursor { s with current := s.current + 1 } hlt1]
        simp only [bind_currentToken _ hlt1]
        by_cases hv2 : ¬ (({ s with current := s.current + 1 } : DSLBase).cur.value = de
            ∨ ({ s with current := s.current + 1 } : DSLBase).cur.value = ",")
        · rw [if_pos hv2, if_pos hv2, throwChecked_ok _ _ _ (Nat.le_of_lt hlt1)]
          rfl
        · rw [if_neg hv2, if_neg hv2]
          by_cases hv3 : ({ s with current := s.current + 1 } : DSLBase).cur.value = ","
          · rw [if_pos hv3, if_pos hv3]
            simp only [bind_advance _ hlt1]
            by_cases he2 : s.current + 1 + 1 = s.tokens.length
            · rw [bind_check_end { s with current := s.current + 1 + 1 } _ _ he2,
                drop_end { s with current := s.current + 1 + 1 } he2]
              rfl
            · have hlt2 : ({ s with current := s.current + 1 + 1 } : DSLBase).current
                  < ({ s with current := s.current + 1 + 1 } : DSLBase).tokens.length := by
                simp only at hlt1 ⊢
                omega
              rw [bind_check_ok { s with current := s.current + 1 + 1 } _ _ hlt2,
                drop_cursor { s with current := s.current + 1 + 1 } hlt2]
              simp only [bind_currentToken _ hlt2]
              by_cases hv4 : ({ s with current := s.current + 1 + 1 } : DSLBase).cur.value = de
              · rw [if_pos hv4, if_pos hv4, throwChecked_ok _ _ _ (Nat.le_of_lt hlt2)]
                rfl
              · rw [if_neg hv4, if_neg hv4,
                  ih { s with current := s.current + 1 + 1 } _ hlt2 (by simp only; omega),
                  drop_cursor { s with current := s.current + 1 + 1 } hlt2]
          · rw [if_neg hv3, if_neg hv3,
              ih { s with current := s.current + 1 } _ hlt1 (by simp only; omega),
              drop_cursor { s with current := s.current + 1 } hlt1]
    · rw [if_neg hv, if_neg hv]
      rfl

theorem error_bind {α β : Type} (e : Abort) (k : α → Except Abort β) :
    ((Except.error e : Except Abort α) >>= k) = .error e := rfl

theorem checkNotEndOfFile_end (s : DSLBase) (method error : String)
    (h : s.tokens.length ≤ s.current) :
    checkNotEndOfFile s method error = .error (endOfFileFailure s method error) := by
  unfold checkNotEndOfFile
  rw [if_pos h]

theorem readList_checked (s : DSLBase) (m db de : String) (b : Bool)
    (h : s.current ≤ s.tokens.length) :
    Checked.readList s m db de b = unchecked (readList s m db de b) := by
  unfold Checked.readList readList
  by_cases he : s.current = s.tokens.length
  · rw [bind_check_end s _ _ he, checkNotEndOfFile_end s _ _ (by omega)]
    rfl
  · have hlt : s.current < s.tokens.length := by omega
    rw [bind_check_ok s _ _ hlt, checkNotEndOfFile_ok s _ _ hlt]
    simp only
    rw [if_neg (by omega), if_neg (by omega), bind_check_ok s _ _ hlt]
    simp only [bind_currentToken s hlt]
    by_cases hv : s.cur.value ≠ db
    · rw [if_pos hv, if_pos hv]
      rfl
    · rw [if_neg hv, if_neg hv, readSpecifiedToken_checked s m db h,
        readSpecifiedToken_ok s m db hlt (not_not.mp hv)]
      simp only [unchecked, ok_bind]
      have hs := readListLoop_ends m de (s.tokens.length + 1) { s with current := s.current + 1 }
        [] 
      by_cases he1 : s.current + 1 = s.tokens.length
      · rw [bind_check_end { s with current := s.current + 1 } _ _ he1,
          drop_end { s with current := s.current + 1 } he1]
        rfl
      · have hlt1 : ({ s with current := s.current + 1 } : DSLBase).current
            < ({ s with current := s.current + 1 } : DSLBase).tokens.length := by
          simp only
          omega
        have hs1 := hs hlt1 (by simp only; omega)
        rw [bind_check_ok { s with current := s.current + 1 } _ _ hlt1]
        rw [readListLoop_checked m de _ { s with current := s.current + 1 } [] hlt1
          (by simp only; omega)] at hs1 ⊢
        cases hl : readListLoop m de
            (({ s with current := s.current + 1 } : DSLBase).tokens.drop
              ({ s with current := s.current + 1 } : DSLBase).current)
            { s with current := s.current + 1 } [] with
        | error f => rfl
        | ok p =>
          obtain ⟨l, s2⟩ := p
          rw [hl] at hs1
          obtain ⟨ht2, hc2, hq2⟩ := hs1
          simp only at ht2 hq2
          rw [← ht2] at hq2
          simp only [unchecked, ok_bind, bind_advance s2 hq2]
          rfl

theorem treatToken_previous (o : CodeBlockParserOptions) (s : DSLBase) (p q t : Token)
    (acc : BlockAcc) (h : ¬ (t.value ∈ o.smn ∨ t.value ∈ o.mn)) :
    treatToken o s p t acc = treatToken o s q t acc := by
  have h1 : t.value ∉ o.smn := fun h0 => h (Or.inl h0)
  have h2 : t.value ∉ o.mn := fun h0 => h (Or.inr h0)
  simp only [treatToken, emitLoopToken, h1, h2, if_false]

theorem previousOfName_treatToken (o : CodeBlockParserOptions) (s s0 : DSLBase) (t : Token)
    (acc : BlockAcc) (h0 : 0 < s.current) (h : s.current ≤ s.tokens.length) :
    ∃ p, Checked.previousOfName o s t = .ok p
      ∧ treatToken o s0 p t acc = treatToken o s0 s.prev t acc := by
  unfold Checked.previousOfName
  by_cases hc : t.value ∈ o.smn ∨ t.value ∈ o.mn
  · rw [if_pos hc]
    exact ⟨_, previousToken_ok s h0 h, rfl⟩
  · rw [if_neg hc]
    exact ⟨default, rfl, treatToken_previous o s0 _ _ t acc hc⟩

theorem prev_after (s s2 : DSLBase) (ht : s2.tokens = s.tokens)
    (hc : s2.current = s.current + 1) : s2.prev = s.cur := by
  unfold DSLBase.prev DSLBase.cur
  rw [ht, hc, Nat.add_sub_cancel]

/-- The loop of `readNextBlock` with a checked cursor, followed by the end of
the function, is the loop of the model without checks. -/
theorem readNextBlockLoop_checked (o : CodeBlockParserOptions) :
    ∀ (n : Nat) (s : DSLBase) (acc : BlockAcc),
      0 < s.current → s.current ≤ s.tokens.length → s.tokens.length - s.current < n →
      (Checked.readNextBlockLoop o n s acc >>= fun p =>
          if p.2.current = p.2.tokens.length then
            Checked.stepBack p.2 >>= fun s5 =>
              Checked.throwRuntimeError s5 "DSLBase::readNextBlock"
                ("Expected the end of a block.\nNumber of block opened : "
                  ++ toString p.1.openedBlock)
          else Checked.advance p.2 >>= fun s5 => pure (p.1.b, s5))
        = unchecked (readNextBlockLoop o (s.tokens.drop s.current) s.prev s acc) := by
  intro n
  induction n with
  | zero =>
    intro s acc h0 h1 h2
    omega
  | succ n ih =>
    intro s acc h0 h1 h2
    rw [Checked.readNextBlockLoop]
    by_cases he : s.current = s.tokens.length
    · rw [if_pos he, drop_end s he, readNextBlockLoop]
      simp only [pure_bind]
      rw [if_pos he]
      simp only [bind_stepBack s h0]
      rw [throwChecked_ok _ _ _ (by simp only; omega)]
      rfl
    · have hlt : s.current < s.tokens.length := by omega
      rw [if_neg he, drop_cursor s hlt, readNextBlockLoop]
      simp only [bind_currentToken s hlt]
      by_cases hv : s.cur.value = o.delim2 ∧ acc.openedBlock = 0
      · rw [if_pos hv, if_pos hv]
        simp only [pure_bind]
        rw [if_neg he]
        simp only [bind_advance s hlt]
        rfl
      · rw [if_neg hv, if_neg hv]
        by_cases hsc : s.cur.value = ";" ∧ o.allowSemiColon = false
        · simp only [hsc, and_self, if_true]
          rw [throwChecked_ok s _ _ h1]
          rfl
        · rw [if_neg hsc]
          simp only [hsc, if_false]
          have ha1 := analyse_tokens o s s.cur.value
          have ha2 := analyse_current o s s.cur.value
          obtain ⟨p, hp, hpt⟩ := previousOfName_treatToken o (analyse o s s.cur.value) s s.cur
            (lineChange o s s.cur acc) (by rw [ha2]; exact h0) (by rw [ha1, ha2]; exact h1)
          have hlt2 : (analyse o s s.cur.value).current
              < (analyse o s s.cur.value).tokens.length := by
            rw [ha1, ha2]
            exact hlt
          rw [hp, ok_bind]
          simp only [bind_advance _ hlt2]
          have hprev : (analyse o s s.cur.value).prev = s.prev := by
            unfold DSLBase.prev
            rw [ha1, ha2]
          rw [hpt, hprev]
          have hi := ih { analyse o s s.cur.value with
              current := (analyse o s s.cur.value).current + 1 }
            (treatToken o s s.prev s.cur (lineChange o s s.cur acc)) (Nat.succ_pos _)
            hlt2 (by simp only; rw [ha1, ha2]; omega)
          rw [hi]
          have hpv : ({ analyse o s s.cur.value with
              current := (analyse o s s.cur.value).current + 1 } : DSLBase).prev = s.cur :=
            prev_after s _ ha1 (by simp only; rw [ha2])
          rw [hpv]
          simp only [ha1, ha2]

theorem readNextBlock_checked (s : DSLBase) (o : CodeBlockParserOptions)
    (h : s.current ≤ s.tokens.length) :
    Checked.readNextBlock s o = unchecked (readNextBlock s o) := by
  unfold Checked.readNextBlock readNextBlock
  rw [readSpecifiedToken_checked s _ _ h]
  by_cases he : s.current = s.tokens.length
  · rw [readSpecifiedToken, checkNotEndOfFile_end s _ _ (by omega)]
    rfl
  · have hlt : s.current < s.tokens.length := by omega
    by_cases hv : s.cur.value = o.delim1
    · rw [readSpecifiedToken_ok s _ _ hlt hv]
      simp only [unchecked, ok_bind]
      by_cases he1 : s.current + 1 = s.tokens.length
      · rw [bind_check_end { s with current := s.current + 1 } _ _ he1,
          checkNotEndOfFile_end { s with current := s.current + 1 } _ _
            (by simp only; omega)]
      · have hlt1 : ({ s with current := s.current + 1 } : DSLBase).current
            < ({ s with current := s.current + 1 } : DSLBase).tokens.length := by
          simp only
          omega
        rw [bind_check_ok { s with current := s.current + 1 } _ _ hlt1,
          checkNotEndOfFile_ok { s with current := s.current + 1 } _ _ hlt1]
        simp only [bind_currentToken _ hlt1]
        by_cases hsc : ({ s with current := s.current + 1 } : DSLBase).cur.value = ";"
            ∧ o.allowSemiColon = false
        · rw [if_pos hsc, if_pos hsc, throwChecked_ok _ _ _ (Nat.le_of_lt hlt1)]
        · rw [if_neg hsc, if_neg hsc]
          by_cases hd : ({ s with current := s.current + 1 } : DSLBase).cur.value = o.delim2
          · rw [if_pos hd, if_pos hd]
            simp only [bind_advance _ hlt1]
            rfl
          · rw [if_neg hd, if_neg hd]
            have ha1 := analyse_tokens o { s with current := s.current + 1 }
              ({ s with current := s.current + 1 } : DSLBase).cur.value
            have ha2 := analyse_current o { s with current := s.current + 1 }
              ({ s with current := s.current + 1 } : DSLBase).cur.value
            obtain ⟨p, hp⟩ := previousOfName_ok o { s with current := s.current + 1 }
              ({ s with current := s.current + 1 } : DSLBase).cur (Nat.succ_pos _)
              (Nat.le_of_lt hlt1)
            rw [hp, ok_bind]
            have hlt2 : (analyse o { s with current := s.current + 1 }
                ({ s with current := s.current + 1 } : DSLBase).cur.value).current
                < (analyse o { s with current := s.current + 1 }
                ({ s with current := s.current + 1 } : DSLBase).cur.value).tokens.length := by
              rw [ha1, ha2]
              exact hlt1
            simp only [bind_advance _ hlt2]
            have hl := readNextBlockLoop_checked o
              ((analyse o { s with current := s.current + 1 }
                ({ s with current := s.current + 1 } : DSLBase).cur.value).tokens.length + 1)
              { analyse o { s with current := s.current + 1 }
                  ({ s with current := s.current + 1 } : DSLBase).cur.value with
                current := (analyse o { s with current := s.current + 1 }
                  ({ s with current := s.current + 1 } : DSLBase).cur.value).current + 1 }
              (treatFirstToken o { s with current := s.current + 1 }
                ({ s with current := s.current + 1 } : DSLBase).cur (initialBlock s)
                (if ({ s with current := s.current + 1 } : DSLBase).cur.value = o.delim1
                  then (0 + 1) % uintRange else 0))
              (Nat.succ_pos _) hlt2 (by simp only; omega)
            have hpv : ({ analyse o { s with current := s.current + 1 }
                  ({ s with current := s.current + 1 } : DSLBase).cur.value with
                current := (analyse o { s with current := s.current + 1 }
                  ({ s with current := s.current + 1 } : DSLBase).cur.value).current + 1 }
                  : DSLBase).prev = ({ s with current := s.current + 1 } : DSLBase).cur :=
              prev_after { s with current := s.current + 1 } _ ha1
                (by simp only; rw [ha2])
            rw [hpv] at hl
            simp only [ha1, ha2] at hl ⊢
            exact hl
    · rw [readSpecifiedToken, checkNotEndOfFile_ok s _ _ hlt]
      simp only [hv, ne_eq, not_false_eq_true, if_true]
      rfl

theorem bind_check {β : Type} (s : DSLBase) (method error : String)
    (h : s.current ≤ s.tokens.length) (k : Unit → Except Abort β) :
    (Checked.checkNotEndOfFile s method error >>= k)
      = match checkNotEndOfFile s method error with
        | .error f => .error (.thrown f)
        | .ok u => k u := by
  by_cases he : s.current = s.tokens.length
  · rw [bind_check_end s _ _ he, checkNotEndOfFile_end s _ _ (by omega)]
  · have hlt : s.current < s.tokens.length := by omega
    rw [bind_check_ok s _ _ hlt, checkNotEndOfFile_ok s _ _ hlt]

theorem readArraySize_checked (varName : String) :
    ∀ (n : Nat) (s : DSLBase) (a : String), s.current < s.tokens.length →
      s.tokens.length - s.current ≤ n →
      Checked.readArraySize varName n s a
        = unchecked (readArraySize varName (s.tokens.drop s.current) s a) := by
  intro n
  induction n with
  | zero =>
    intro s a h1 h2
    omega
  | succ n ih =>
    intro s a h1 h2
    rw [Checked.readArraySize, drop_cursor s h1, readArraySize]
    simp only [bind_currentToken s h1]
    by_cases hv : s.cur.value ≠ "]"
    · rw [if_pos hv, if_pos hv]
      by_cases hf : s.cur.flag ≠ TokenFlag.Standard ∨ s.cur.value = ";"
      · rw [if_pos hf, if_pos hf, throwChecked_ok s _ _ (Nat.le_of_lt h1)]
        rfl
      · rw [if_neg hf, if_neg hf]
        simp only [bind_advance s h1]
        by_cases he1 : s.current + 1 = s.tokens.length
        · rw [bind_check_end { s with current := s.current + 1 } _ _ he1,
            drop_end { s with current := s.current + 1 } he1, readArraySize]
          rfl
        · have hlt1 : ({ s with current := s.current + 1 } : DSLBase).current
              < ({ s with current := s.current + 1 } : DSLBase).tokens.length := by
            simp only
            omega
          rw [bind_check_ok { s with current := s.current + 1 } _ _ hlt1,
            ih { s with current := s.current + 1 } _ hlt1 (by simp only; omega)]
    · rw [if_neg hv, if_neg hv]
      rfl

theorem readArray_checked (lib : Library) (s : DSLBase) (varName : String) (allowArray : Bool)
    (h : s.current < s.tokens.length) :
    Checked.readArray lib s varName allowArray
      = unchecked (readArray lib s varName allowArray) := by
  unfold Checked.readArray readArray
  by_cases ha : allowArray = false
  · rw [if_pos ha, if_pos ha, throwChecked_ok s _ _ (Nat.le_of_lt h)]
    rfl
  · rw [if_neg ha, if_neg ha]
    simp only [bind_advance s h]
    by_cases he1 : s.current + 1 = s.tokens.length
    · rw [bind_check_end { s with current := s.current + 1 } _ _ he1,
        drop_end { s with current := s.current + 1 } he1, readArraySize]
      rfl
    · have hlt1 : ({ s with current := s.current + 1 } : DSLBase).current
          < ({ s with current := s.current + 1 } : DSLBase).tokens.length := by
        simp only
        omega
      have hs := readArraySize_ends varName
        (({ s with current := s.current + 1 } : DSLBase).tokens.length + 1)
        { s with current := s.current + 1 } "" hlt1 (by simp only; omega)
      rw [bind_check_ok { s with current := s.current + 1 } _ _ hlt1]
      rw [readArraySize_checked varName _ { s with current := s.current + 1 } "" hlt1
        (by simp only; omega)] at hs ⊢
      cases hl : readArraySize varName
          (({ s with current := s.current + 1 } : DSLBase).tokens.drop
            ({ s with current := s.current + 1 } : DSLBase).current)
          { s with current := s.current + 1 } "" with
      | error f => rfl
      | ok p =>
        obtain ⟨a, s2⟩ := p
        rw [hl] at hs
        obtain ⟨ht2, hc2, hq2, -⟩ := hs
        simp only at ht2 hq2
        rw [← ht2] at hq2 hc2
        simp only [unchecked, ok_bind]
        unfold Checked.evaluateArraySize
        by_cases h1 : a = ""
        · rw [if_pos h1, if_pos h1, throwChecked_ok s2 _ _ hc2]
          rfl
        · rw [if_neg h1, if_neg h1]
          cases h2 : lib.getVariablesNames a with
          | error e => rfl
          | ok vars =>
            simp only
            cases h3 : vars.find? (fun v => (s2.integerConstants.lookup v).isNone) with
            | some v =>
              simp only
              rw [throwChecked_ok s2 _ _ hc2]
              rfl
            | none =>
              simp only
              cases h4 : lib.getValue a
                  (vars.map (fun v => (v, (s2.integerConstants.lookup v).getD 0))) with
              | error e => rfl
              | ok iv =>
                simp only
                by_cases h5 : iv ≤ 0
                · rw [if_pos h5, if_pos h5, throwChecked_ok s2 _ _ hc2]
                  rfl
                · rw [if_neg h5, if_neg h5]
                  simp only [pure_bind]
                  rw [readSpecifiedToken_checked s2 _ _ hc2]
                  by_cases hv : s2.cur.value = "]"
                  · rw [readSpecifiedToken_ok s2 _ _ hq2 hv]
                    simp only [unchecked, ok_bind]
                    rw [bind_check { s2 with current := s2.current + 1 } _ _ hq2]
                    cases hck : checkNotEndOfFile { s2 with current := s2.current + 1 }
                        "DSLBase::readVarList" "" with
                    | error f => rfl
                    | ok u => rfl
                  · rw [readSpecifiedToken, checkNotEndOfFile_ok s2 _ _ hq2]
                    simp only [hv, ne_eq, not_false_eq_true, if_true]
                    rfl

theorem readVarListItem_checked (lib : Library) (s : DSLBase)
    (cont : List VariableDescription) (type : String) (allowArray : Bool)
    (h : s.current < s.tokens.length) :
    Checked.readVarListItem lib s cont type allowArray
      = unchecked ((readVarListItem lib s cont type allowArray).map itemResult) := by
  unfold Checked.readVarListItem readVarListItem
  simp only [bind_currentToken s h]
  by_cases hv : lib.isValidIdentifier s.cur.value true = false
  · rw [if_pos hv, if_pos hv, throwChecked_ok s _ _ (Nat.le_of_lt h)]
    rfl
  · rw [if_neg hv, if_neg hv]
    simp only [bind_advance s h]
    rw [bind_check { s with current := s.current + 1 } _ _ h]
    cases hck : checkNotEndOfFile { s with current := s.current + 1 }
        "DSLBase::readVarList" "" with
    | error f => rfl
    | ok u =>
      have hlt1 := checkNotEndOfFile_inv _ _ _ u hck
      simp only [bind_currentToken _ hlt1]
      have hrest : ∀ (asize : Nat) (s2 : DSLBase), s2.current < s2.tokens.length →
          (Checked.currentToken s2 >>= fun t2 =>
            if t2.value = "," then
              Checked.advance s2 >>= fun s3 =>
                pure ((cont ++ [VariableDescription.mk type s.cur.value asize s.cur.line
                  (if s.currentComment ≠ "" then s.currentComment else "")], none), s3)
            else if t2.value = ";" then
              Checked.advance s2 >>= fun s3 =>
                pure ((cont ++ [VariableDescription.mk type s.cur.value asize s.cur.line
                  (if s.currentComment ≠ "" then s.currentComment else "")],
                  some t2.comment), s3)
            else
              Checked.throwRuntimeError s2 "DSLBase::readVarList"
                (", or ; expected after '" ++ s.cur.value ++ "'"))
            = unchecked (Except.map itemResult
                (if s2.cur.value = "," then
                  .ok (cont ++ [VariableDescription.mk type s.cur.value asize s.cur.line
                    (if s.currentComment ≠ "" then s.currentComment else "")],
                    { s2 with current := s2.current + 1 }, none)
                else if s2.cur.value = ";" then
                  .ok (cont ++ [VariableDescription.mk type s.cur.value asize s.cur.line
                    (if s.currentComment ≠ "" then s.currentComment else "")],
                    { s2 with current := s2.current + 1 }, some s2.cur.comment)
                else
                  .error (throwRuntimeError s2 "DSLBase::readVarList"
                    (", or ; expected after '" ++ s.cur.value ++ "'")))) := by
        intro asize s2 hlt2
        simp only [bind_currentToken s2 hlt2]
        by_cases hc1 : s2.cur.value = ","
        · rw [if_pos hc1, if_pos hc1]
          simp only [bind_advance s2 hlt2]
          rfl
        · rw [if_neg hc1, if_neg hc1]
          by_cases hc2 : s2.cur.value = ";"
          · rw [if_pos hc2, if_pos hc2]
            simp only [bind_advance s2 hlt2]
            rfl
          · rw [if_neg hc2, if_neg hc2, throwChecked_ok s2 _ _ (Nat.le_of_lt hlt2)]
            rfl
      by_cases hb : ({ s with current := s.current + 1 } : DSLBase).cur.value = "["
      · rw [if_pos hb, if_pos hb]
        have hs := readArray_ends lib { s with current := s.current + 1 } s.cur.value
          allowArray hlt1
        rw [readArray_checked lib { s with current := s.current + 1 } s.cur.value
          allowArray hlt1] at hs ⊢
        cases hl : readArray lib { s with current := s.current + 1 } s.cur.value allowArray with
        | error f => rfl
        | ok p =>
          obtain ⟨asize, s2⟩ := p
          rw [hl] at hs
          obtain ⟨ht2, hc2, hq2, -⟩ := hs
          simp only at ht2 hq2
          rw [← ht2] at hq2
          simp only [unchecked, ok_bind]
          exact hrest asize s2 hq2
      · rw [if_neg hb, if_neg hb]
        simp only [pure_bind]
        exact hrest 1 { s with current := s.current + 1 } hlt1

theorem readVarListLoop_checked (lib : Library) (type : String) (allowArray : Bool) :
    ∀ (n m : Nat) (s : DSLBase) (cont : List VariableDescription),
      s.current ≤ s.tokens.length → s.tokens.length - s.current < n →
      s.tokens.length - s.current ≤ m →
      Checked.readVarListLoop lib type allowArray n s cont
        = unchecked ((readVarListLoop lib type allowArray m s cont).map itemResult) := by
  intro n
  induction n with
  | zero =>
    intro m s cont h1 h2
    omega
  | succ n ih =>
    intro m s cont h1 h2 h3
    rw [Checked.readVarListLoop]
    by_cases he : s.current = s.tokens.length
    · rw [if_pos he]
      cases m with
      | zero => rfl
      | succ m =>
        rw [readVarListLoop, if_pos (by omega)]
        rfl
    · have hlt : s.current < s.tokens.length := by omega
      rw [if_neg he]
      cases m with
      | zero => omega
      | succ m =>
        rw [readVarListLoop, if_neg (by omega)]
        have hs := readVarListItem_ends lib s cont type allowArray hlt
        rw [readVarListItem_checked lib s cont type allowArray hlt] at hs ⊢
        cases hl : readVarListItem lib s cont type allowArray with
        | error f => rfl
        | ok p =>
          obtain ⟨cont1, s1, e⟩ := p
          rw [hl] at hs
          obtain ⟨ht1, hc1, hq1⟩ := hs
          simp only [itemResult] at ht1 hc1 hq1
          cases e with
          | some c => rfl
          | none =>
            simp only [unchecked, Except.map, itemResult, ok_bind]
            rw [← ht1] at hc1
            rw [ih m s1 cont1 hc1 (by rw [ht1]; omega) (by rw [ht1]; omega)]
            rfl

theorem readVarList_checked (lib : Library) (s : DSLBase) (cont : List VariableDescription)
    (type : String) (allowArray : Bool) (h : s.current ≤ s.tokens.length)
    (hne : s.tokens ≠ []) :
    Checked.readVarList lib s cont type allowArray
      = unchecked (readVarList lib s cont type allowArray) := by
  unfold Checked.readVarList readVarList
  have hpos : 0 < s.tokens.length := List.length_pos.mpr hne
  have hs := readVarListLoop_ends lib type allowArray (s.tokens.length + 1) s cont h
    (by omega)
  rw [readVarListLoop_checked lib type allowArray _ (s.tokens.length - s.current) s cont h
    (by omega) (Nat.le_refl _)] at hs ⊢
  cases hl : readVarListLoop lib type allowArray (s.tokens.length - s.current) s cont with
  | error f => rfl
  | ok p =>
    obtain ⟨cont1, s1, e⟩ := p
    rw [hl] at hs
    obtain ⟨ht1, hc1, hq1⟩ := hs
    simp only [itemResult] at ht1 hc1 hq1
    cases e with
    | none =>
      have h1 := hq1 rfl
      simp only [unchecked, Except.map, itemResult, ok_bind, Option.isNone_none, if_true]
      simp only [bind_stepBack s1 (by omega)]
      rw [throwChecked_ok _ _ _ (by simp only; rw [ht1]; omega)]
    | some c => rfl

theorem readScope_checked (lib : Library) :
    ∀ (n : Nat) (s : DSLBase) (type : String), s.current < s.tokens.length →
      s.tokens.length - s.current ≤ n →
      Checked.readScope lib n s type
        = unchecked (readScope lib (s.tokens.drop s.current) s type) := by
  intro n
  induction n with
  | zero =>
    intro s type h1 h2
    omega
  | succ n ih =>
    intro s type h1 h2
    rw [Checked.readScope, drop_cursor s h1, readScope]
    simp only [bind_currentToken s h1]
    by_cases hv : s.cur.value = "::"
    · rw [if_pos hv, if_pos hv]
      simp only [bind_advance s h1]
      by_cases he1 : s.current + 1 = s.tokens.length
      · rw [bind_check_end { s with current := s.current + 1 } _ _ he1]
        have hd := drop_end { s with current := s.current + 1 } he1
        simp only at hd
        rw [hd]
        rfl
      · have hlt1 : ({ s with current := s.current + 1 } : DSLBase).current
            < ({ s with current := s.current + 1 } : DSLBase).tokens.length := by
          simp only
          omega
        rw [bind_check_ok { s with current := s.current + 1 } _ _ hlt1]
        have hd := drop_cursor { s with current := s.current + 1 } hlt1
        simp only at hd
        rw [hd]
        simp only [bind_currentToken _ hlt1]
        by_cases hi : lib.isValidIdentifier
            ({ s with current := s.current + 1 } : DSLBase).cur.value false = false
        · rw [if_pos hi, if_pos hi]
          have hpos1 : 0 < ({ s with current := s.current + 1 } : DSLBase).current :=
            Nat.succ_pos _
          simp only [bind_stepBack { s with current := s.current + 1 } hpos1]
          rw [throwChecked_ok _ _ _
            (by show s.current + 1 - 1 ≤ s.tokens.length; omega)]
          rfl
        · rw [if_neg hi, if_neg hi]
          simp only [bind_advance _ hlt1]
          by_cases he2 : s.current + 1 + 1 = s.tokens.length
          · rw [bind_check_end { s with current := s.current + 1 + 1 } _ _ he2]
            have hd2 := drop_end { s with current := s.current + 1 + 1 } he2
            simp only at hd2
            rw [hd2, readScope]
            rfl
          · have hlt2 : ({ s with current := s.current + 1 + 1 } : DSLBase).current
                < ({ s with current := s.current + 1 + 1 } : DSLBase).tokens.length := by
              simp only at hlt1 ⊢
              omega
            rw [bind_check_ok { s with current := s.current + 1 + 1 } _ _ hlt2,
              ih { s with current := s.current + 1 + 1 } _ hlt2 (by simp only; omega)]
    · rw [if_neg hv, if_neg hv]
      rfl

theorem readTemplateArguments_single (lib : Library) (t : Token) (s : DSLBase)
    (type : String) (openBrackets : Nat) :
    readTemplateArguments lib [t] s type openBrackets
      = if invalidArgument lib t.value = true then
          .error (throwRuntimeError s "DSLBase::readVarList"
            ("given type '" ++ t.value ++ "' is not valid."))
        else .error (endOfFileFailure { s with current := s.current + 1 }
          "DSLBase::readVarList" "") := rfl

theorem readTemplateArguments_empty (lib : Library) (s : DSLBase) (type : String)
    (openBrackets : Nat) :
    readTemplateArguments lib [] s type openBrackets
      = .error (endOfFileFailure s "DSLBase::readVarList" "") := rfl

theorem readTemplateArguments_closed (lib : Library) (n : Nat) (s : DSLBase)
    (type : String) :
    Checked.readTemplateArguments lib (n + 1) s type 0 = .ok (type, s) := by
  rw [Checked.readTemplateArguments, if_pos rfl]
  rfl

theorem readTemplateArguments_checked (lib : Library) :
    ∀ (n : Nat) (s : DSLBase) (type : String) (openBrackets : Nat), openBrackets ≠ 0 →
      s.current < s.tokens.length → s.tokens.length - s.current ≤ n →
      Checked.readTemplateArguments lib n s type openBrackets
        = unchecked (readTemplateArguments lib (s.tokens.drop s.current) s type
            openBrackets) := by
  intro n
  induction n with
  | zero =>
    intro s type ob hob h1 h2
    omega
  | succ n ih =>
    intro s type ob hob h1 h2
    rw [Checked.readTemplateArguments, if_neg hob, drop_cursor s h1]
    simp only [bind_currentToken s h1]
    by_cases he1 : s.current + 1 = s.tokens.length
    · have hd := drop_end { s with current := s.current + 1 } he1
      simp only at hd
      rw [hd, readTemplateArguments_single]
      by_cases hi : invalidArgument lib s.cur.value = true
      · rw [if_pos hi, if_pos hi, throwChecked_ok s _ _ (Nat.le_of_lt h1)]
        rfl
      · rw [if_neg hi, if_neg hi]
        simp only [bind_advance s h1]
        rw [bind_check_end { s with current := s.current + 1 } _ _ he1]
        rfl
    · have hlt1 : ({ s with current := s.current + 1 } : DSLBase).current
          < ({ s with current := s.current + 1 } : DSLBase).tokens.length := by
        simp only
        omega
      have hd := drop_cursor { s with current := s.current + 1 } hlt1
      simp only at hd
      rw [hd, readTemplateArguments_turn]
      by_cases hi : invalidArgument lib s.cur.value = true
      · rw [if_pos hi, if_pos hi, throwChecked_ok s _ _ (Nat.le_of_lt h1)]
        rfl
      · rw [if_neg hi, if_neg hi]
        simp only [bind_advance s h1]
        rw [bind_check_ok { s with current := s.current + 1 } _ _ hlt1]
        simp only [bind_currentToken _ hlt1]
        have hn : ∃ k, n = k + 1 := ⟨n - 1, by simp only at hlt1; omega⟩
        have hnext : ∀ (ty : String) (ob1 : Nat),
            (Checked.advance { s with current := s.current + 1 } >>= fun s2 =>
              Checked.checkNotEndOfFile s2 "DSLBase::readVarList" "" >>= fun _ =>
                Checked.readTemplateArguments lib n s2 ty ob1)
              = unchecked (match s.tokens.drop (s.current + 1 + 1) with
                | [] => .error (endOfFileFailure { s with current := s.current + 1 + 1 }
                    "DSLBase::readVarList" "")
                | t3 :: rest3 =>
                  if ob1 ≠ 0 then
                    readTemplateArguments lib (t3 :: rest3)
                      { s with current := s.current + 1 + 1 } ty ob1
                  else .ok (ty, { s with current := s.current + 1 + 1 })) := by
          intro ty ob1
          simp only [bind_advance _ hlt1]
          by_cases he2 : s.current + 1 + 1 = s.tokens.length
          · rw [bind_check_end { s with current := s.current + 1 + 1 } _ _ he2]
            have hd2 := drop_end { s with current := s.current + 1 + 1 } he2
            simp only at hd2
            rw [hd2]
            rfl
          · have hlt2 : ({ s with current := s.current + 1 + 1 } : DSLBase).current
                < ({ s with current := s.current + 1 + 1 } : DSLBase).tokens.length := by
              simp only at hlt1 ⊢
              omega
            rw [bind_check_ok { s with current := s.current + 1 + 1 } _ _ hlt2]
            have hd2 := drop_cursor { s with current := s.current + 1 + 1 } hlt2
            simp only at hd2
            by_cases hob1 : ob1 = 0
            · obtain ⟨k, hk⟩ := hn
              rw [hob1, hk, readTemplateArguments_closed, hd2]
              simp only [ne_eq, not_true_eq_false, if_false]
              rfl
            · rw [ih { s with current := s.current + 1 + 1 } ty ob1 hob1 hlt2
                (by simp only; omega)]
              simp only [hd2, ne_eq, hob1, not_false_eq_true, if_true]
        by_cases hc : ({ s with current := s.current + 1 } : DSLBase).cur.value = ","
        · rw [if_pos hc, if_pos hc]
          simp only [bind_advance _ hlt1]
          by_cases he2 : s.current + 1 + 1 = s.tokens.length
          · rw [bind_check_end { s with current := s.current + 1 + 1 } _ _ he2]
            have hd2 := drop_end { s with current := s.current + 1 + 1 } he2
            simp only at hd2
            rw [hd2]
            rfl
          · have hlt2 : ({ s with current := s.current + 1 + 1 } : DSLBase).current
                < ({ s with current := s.current + 1 + 1 } : DSLBase).tokens.length := by
              simp only at hlt1 ⊢
              omega
            rw [bind_check_ok { s with current := s.current + 1 + 1 } _ _ hlt2]
            have hd2 := drop_cursor { s with current := s.current + 1 + 1 } hlt2
            simp only at hd2
            rw [hd2]
            simp only [bind_currentToken _ hlt2]
            by_cases hi3 : invalidArgument lib
                ({ s with current := s.current + 1 + 1 } : DSLBase).cur.value = true
            · rw [if_pos hi3, if_pos hi3]
              have hpos2 : 0 < ({ s with current := s.current + 1 + 1 } : DSLBase).current :=
                Nat.succ_pos _
              simp only [bind_stepBack { s with current := s.current + 1 + 1 } hpos2]
              rw [throwChecked_ok _ _ _
                (by show s.current + 1 + 1 - 1 ≤ s.tokens.length; omega)]
              rfl
            · rw [if_neg hi3, if_neg hi3,
                ih { s with current := s.current + 1 + 1 } _ ob hob hlt2
                  (by simp only; omega), hd2]
        · rw [if_neg hc, if_neg hc]
          by_cases hl : ({ s with current := s.current + 1 } : DSLBase).cur.value = "<"
          · rw [if_pos hl, if_pos hl]
            by_cases hint : isInteger s.cur.value = true
            · rw [if_pos hint, if_pos hint, throwChecked_ok _ _ _ (Nat.le_of_lt hlt1)]
              rfl
            · rw [if_neg hint, if_neg hint]
              exact hnext _ _
          · rw [if_neg hl, if_neg hl]
            by_cases hg : ({ s with current := s.current + 1 } : DSLBase).cur.value = ">"
            · rw [if_pos hg, if_pos hg]
              exact hnext _ _
            · rw [if_neg hg, if_neg hg,
                ih { s with current := s.current + 1 } _ ob hob hlt1 (by simp only; omega),
                hd]

theorem readVarListType_checked (lib : Library) (s : DSLBase)
    (h : s.current ≤ s.tokens.length)
    (h0 : 0 < s.current ∨ lib.isValidIdentifier s.cur.value false = true) :
    Checked.readVarListType lib s = unchecked (readVarListType lib s) := by
  unfold Checked.readVarListType readVarListType
  rw [bind_check s _ _ h]
  cases hck : checkNotEndOfFile s "DSLBase::readVarList" "Cannot read type of varName.\n" with
  | error f => rfl
  | ok u =>
    have hlt := checkNotEndOfFile_inv _ _ _ u hck
    simp only [bind_currentToken s hlt]
    by_cases hv : lib.isValidIdentifier s.cur.value false = false
    · rw [if_pos hv, if_pos hv]
      have hpos : 0 < s.current := by
        rcases h0 with h1 | h1
        · exact h1
        · rw [hv] at h1
          cases h1
      simp only [bind_stepBack s hpos]
      rw [throwChecked_ok _ _ _ (by simp only; omega)]
      rfl
    · rw [if_neg hv, if_neg hv]
      simp only [bind_advance s hlt]
      by_cases he1 : s.current + 1 = s.tokens.length
      · rw [bind_check_end { s with current := s.current + 1 } _ _ he1]
        have hd := drop_end { s with current := s.current + 1 } he1
        simp only at hd ⊢
        rw [hd, readScope]
        rfl
      · have hlt1 : ({ s with current := s.current + 1 } : DSLBase).current
            < ({ s with current := s.current + 1 } : DSLBase).tokens.length := by
          simp only
          omega
        have hs := readScope_ends lib
          (({ s with current := s.current + 1 } : DSLBase).tokens.length + 1)
          { s with current := s.current + 1 } s.cur.value hlt1 (by simp only; omega)
        rw [bind_check_ok { s with current := s.current + 1 } _ _ hlt1]
        rw [readScope_checked lib _ { s with current := s.current + 1 } s.cur.value hlt1
          (by simp only; omega)] at hs ⊢
        cases hl : readScope lib
            (({ s with current := s.current + 1 } : DSLBase).tokens.drop
              ({ s with current := s.current + 1 } : DSLBase).current)
            { s with current := s.current + 1 } s.cur.value with
        | error f => rfl
        | ok p =>
          obtain ⟨ty, s2⟩ := p
          rw [hl] at hs
          obtain ⟨ht2, hc2, hq2⟩ := hs
          simp only at ht2 hq2
          rw [← ht2] at hq2
          simp only [unchecked, ok_bind, bind_currentToken s2 hq2]
          by_cases hlt : s2.cur.value = "<"
          · rw [if_pos hlt, if_pos hlt]
            simp only [bind_advance s2 hq2]
            by_cases he3 : s2.current + 1 = s2.tokens.length
            · rw [bind_check_end { s2 with current := s2.current + 1 } _ _ he3]
              have hd3 := drop_end { s2 with current := s2.current + 1 } he3
              simp only at hd3 ⊢
              rw [hd3, readTemplateArguments_empty]
            · have hlt3 : ({ s2 with current := s2.current + 1 } : DSLBase).current
                  < ({ s2 with current := s2.current + 1 } : DSLBase).tokens.length := by
                simp only
                omega
              rw [bind_check_ok { s2 with current := s2.current + 1 } _ _ hlt3,
                readTemplateArguments_checked lib _ { s2 with current := s2.current + 1 } _ 1
                  (by decide) hlt3 (by simp only; omega)]
              rfl
          · rw [if_neg hlt, if_neg hlt]
            rfl

theorem readVarList2_checked (lib : Library) (s : DSLBase) (cont : List VariableDescription)
    (allowArray : Bool) (h : s.current ≤ s.tokens.length)
    (h0 : 0 < s.current ∨ lib.isValidIdentifier s.cur.value false = true) :
    Checked.readVarList2 lib s cont allowArray
      = unchecked (readVarList2 lib s cont allowArray) := by
  unfold Checked.readVarList2 readVarList2
  have hs := readVarListType_ends lib s h h0
  rw [readVarListType_checked lib s h h0] at hs ⊢
  cases hl : readVarListType lib s with
  | error f => rfl
  | ok p =>
    obtain ⟨ty, s1⟩ := p
    rw [hl] at hs
    obtain ⟨ht1, hc1, hq1⟩ := hs
    rw [← ht1] at hc1 hq1
    simp only [unchecked, ok_bind]
    exact readVarList_checked lib s1 cont ty allowArray hc1
      (fun e => by rw [e] at hq1; simp at hq1)

/-! ## Runs with a checked cursor: the invariant of the cursor -/

theorem throwRuntimeError_line (s : DSLBase) (h : s.tokens ≠ []) :
    (s.tokens.getD (if s.tokens.length ≤ s.current then s.tokens.length - 1 else s.current)
      default).line = errorLine s := by
  unfold errorLine
  by_cases hc : s.tokens.length ≤ s.current
  · rw [if_pos hc, List.getElem?_eq_none hc]
    have hpos : 0 < s.tokens.length := List.length_pos.mpr h
    have hlt : s.tokens.length - 1 < s.tokens.length := by omega
    rw [List.getLast?_eq_getElem?, List.getElem?_eq_getElem hlt]
    simp [List.getD_eq_getElem?_getD, List.getElem?_eq_getElem hlt]
  · rw [if_neg hc]
    have hlt : s.current < s.tokens.length := by omega
    rw [List.getElem?_eq_getElem hlt]
    simp [List.getD_eq_getElem?_getD, List.getElem?_eq_getElem hlt]

theorem throwRuntimeError_msg (s : DSLBase) (method m : String) :
    (throwRuntimeError s method m).msg = method ++ (errorText m ++ errorPlace s) := by
  unfold throwRuntimeError errorText errorPlace
  by_cases hm : m = ""
  · by_cases ht : s.tokens = []
    · simp [hm, ht]
    · simp only [hm, ht, ne_eq, not_true_eq_false, not_false_eq_true, if_true, if_false]
      rw [throwRuntimeError_line s ht]
      simp [String.append_assoc]
  · by_cases ht : s.tokens = []
    · simp [hm, ht, String.append_assoc]
    · simp only [hm, ht, ne_eq, not_true_eq_false, not_false_eq_true, if_true, if_false]
      rw [throwRuntimeError_line s ht]
      simp [String.append_assoc]

/-- C31: `throwRuntimeError(method,m)` always throws and never returns, in
every state whose cursor is a position of the tokens or their end: the
exception keeps the state, and its message is `method`, then `: ` and `m` when
`m` is not empty, then, when the tokens are not empty, `Error at line ` on a
new line and the line of the token under the cursor, or of the last token when
the cursor is at the end. -/
theorem throwRuntimeError_spec (s : DSLBase) (method m : String)
    (h : s.current ≤ s.tokens.length) :
    (∀ α : Type, ∃ f, (Checked.throwRuntimeError s method m : Except Abort α) = .error (.thrown f)
        ∧ f = throwRuntimeError s method m)
      ∧ (throwRuntimeError s method m).state = s
      ∧ (throwRuntimeError s method m).msg = method ++ (errorText m ++ errorPlace s)
      ∧ (m = "" → errorText m = "")
      ∧ (m ≠ "" → errorText m = ": " ++ m)
      ∧ (s.tokens = [] → errorPlace s = "")
      ∧ (s.tokens ≠ [] → ∃ n, errorPlace s = "\nError at line " ++ toString n
          ∧ (∀ t, s.tokens[s.current]? = some t → n = t.line)
          ∧ (∀ t, s.current = s.tokens.length → s.tokens.getLast? = some t → n = t.line)) := by
  refine ⟨fun α => ⟨_, throwChecked_ok s method m h, rfl⟩, rfl, throwRuntimeError_msg s method m,
    fun hm => ?_, fun hm => ?_, fun ht => ?_, fun ht => ?_⟩
  · unfold errorText
    rw [if_pos hm]
  · unfold errorText
    rw [if_neg hm]
  · unfold errorPlace
    rw [if_pos ht]
  · refine ⟨errorLine s, ?_, fun t e => ?_, fun t e1 e2 => ?_⟩
    · unfold errorPlace
      rw [if_neg ht]
    · unfold errorLine
      rw [e]
    · unfold errorLine
      rw [List.getElem?_eq_none (by omega), e2]

theorem throwRuntimeError_spec_witness :
    (throwRuntimeError { parserOn [tok "a" 3, tok ";" 7] with current := 2 } "DSLBase::f" "no word").msg
      = "DSLBase::f: no word\nError at line 7" := by
  have h := (throwRuntimeError_spec { parserOn [tok "a" 3, tok ";" 7] with current := 2 } "DSLBase::f" "no word"
    (by decide)).2.2.1
  rw [h]
  decide

/-! ## The readers of the boolean attributes: properties -/

/-- C34: `allowRuntimeModificationOfTheOutOfBoundsPolicy(d)` reads the attribute
`parameters_as_static_variables`, not `out_of_bounds_policy_runtime_modification`:
for every description it returns what `getAttribute<bool>` returns for
`parameters_as_static_variables` with the default `true`; a description that
holds `false` under `out_of_bounds_policy_runtime_modification` and nothing else
gives `true`, the same description with `false` under
`parameters_as_static_variables`, which differs from it by this attribute only,
gives `false`, and the value held under
`out_of_bounds_policy_runtime_modification` changes nothing. -/
theorem allowRuntimeModification_reads_parameters :
    (∀ d, allowRuntimeModificationOfTheOutOfBoundsPolicy d
        = getBooleanAttribute d parametersAsStaticVariables true)
      ∧ getBooleanAttribute frozenPolicy runtimeModificationOfTheOutOfBoundsPolicy true
          = .ok false
      ∧ allowRuntimeModificationOfTheOutOfBoundsPolicy frozenPolicy = .ok true
      ∧ (∀ k, k ≠ parametersAsStaticVariables →
          frozenPolicyWithParameters.attributes.lookup k = frozenPolicy.attributes.lookup k)
      ∧ allowRuntimeModificationOfTheOutOfBoundsPolicy frozenPolicyWithParameters = .ok false
      ∧ allowRuntimeModificationOfTheOutOfBoundsPolicy allowedPolicy
          = allowRuntimeModificationOfTheOutOfBoundsPolicy frozenPolicy := by
  refine ⟨fun d => rfl, rfl, rfl, fun k hk => ?_, rfl, rfl⟩
  unfold frozenPolicyWithParameters frozenPolicy
  by_cases h1 : k = runtimeModificationOfTheOutOfBoundsPolicy
  · subst h1
    decide
  · have e1 : (k == runtimeModificationOfTheOutOfBoundsPolicy) = false := by simpa using h1
    have e2 : (k == parametersAsStaticVariables) = false := by simpa using hk
    simp only [List.lookup, e1, e2]

theorem allowRuntimeModification_reads_parameters_witness :
    frozenPolicyWithParameters.attributes.lookup runtimeModificationOfTheOutOfBoundsPolicy
      = frozenPolicy.attributes.lookup runtimeModificationOfTheOutOfBoundsPolicy :=
  allowRuntimeModification_reads_parameters.2.2.2.1 runtimeModificationOfTheOutOfBoundsPolicy
    (by decide)

/-- C35: when an attribute `n` of the type of `a` exists, `setAttribute(n,a,true)`
succeeds and leaves the attributes as they were: every name has the attribute
that it had, `n` among them, whatever `a` is. -/
theorem setAttribute_keeps_existing (d : MaterialKnowledgeDescription) (n : String)
    (a p : MaterialKnowledgeAttribute) (h : d.attributes.lookup n = some p)
    (ht : a.getTypeIndex = p.getTypeIndex) :
    setAttribute d n a true = .ok d
      ∧ attributesAfter (setAttribute d n a true) = d
      ∧ (attributesAfter (setAttribute d n a true)).attributes.lookup n = some p := by
  have e : setAttribute d n a true = .ok d := by
    rw [setAttribute_present d n a p true h, if_neg (not_not.mpr ht)]
    simp
  rw [e]
  exact ⟨rfl, rfl, h⟩

theorem setAttribute_keeps_existing_witness :
    setAttribute frozenPolicy runtimeModificationOfTheOutOfBoundsPolicy (.boolean true) true
        = .ok frozenPolicy
      ∧ frozenPolicy.attributes.lookup runtimeModificationOfTheOutOfBoundsPolicy
          = some (.boolean false) :=
  ⟨(setAttribute_keeps_existing frozenPolicy runtimeModificationOfTheOutOfBoundsPolicy
      (.boolean true) (.boolean false) (by decide) (by decide)).1, by decide⟩

/-! ## The local data structures: the state after a failure -/

/-- When the loop on the specialised lists throws, the map at that time is the
map before the call in which `v` is appended to every list that precedes the
first list holding its name. -/
theorem addToSpecialised_split (v : Variable) :
    ∀ (sv : List (Hypothesis × List Variable)) (e : String)
      (sv1 : List (Hypothesis × List Variable)),
      addToSpecialised v sv = .error (e, sv1) →
      e = multiplyDefined v
        ∧ ∃ pre k c post, sv = pre ++ (k, c) :: post
            ∧ (∀ p ∈ pre, v.name ∉ variableNames p.2)
            ∧ v.name ∈ variableNames c
            ∧ sv1 = pre.map (fun p => (p.1, p.2 ++ [v])) ++ (k, c) :: post := by
  intro sv
  induction sv with
  | nil =>
    intro e sv1 h
    cases h
  | cons p sv ih =>
    intro e sv1 h
    obtain ⟨k, c⟩ := p
    rw [addToSpecialised, addVariableTo_eq] at h
    by_cases hc : v.name ∈ variableNames c
    · rw [if_pos hc] at h
      simp only [Except.error.injEq, Prod.mk.injEq] at h
      obtain ⟨h1, h2⟩ := h
      refine ⟨h1.symm, [], k, c, sv, rfl, ?_, hc, h2.symm⟩
      intro p hp
      cases hp
    · rw [if_neg hc] at h
      simp only at h
      cases hr : addToSpecialised v sv with
      | ok rest1 =>
        rw [hr] at h
        cases h
      | error er =>
        obtain ⟨e2, rest1⟩ := er
        rw [hr] at h
        simp only [Except.error.injEq, Prod.mk.injEq] at h
        obtain ⟨h1, h2⟩ := h
        obtain ⟨he, pre, k1, c1, post, hs, hpre, hc1, hrest⟩ := ih e2 rest1 hr
        refine ⟨h1 ▸ he, (k, c) :: pre, k1, c1, post, ?_, ?_, hc1, ?_⟩
        · rw [hs]
          rfl
        · intro p hp
          rcases List.mem_cons.mp hp with rfl | hp
          · exact hc
          · exact hpre p hp
        · rw [← h2, hrest]
          rfl

theorem lookup_takeWhile_dropWhile (sv : List (Hypothesis × List Variable))
    (f : Hypothesis × List Variable → Bool) (k : Hypothesis) :
    ((sv.takeWhile f).lookup k).or ((sv.dropWhile f).lookup k) = sv.lookup k := by
  induction sv with
  | nil => rfl
  | cons p sv ih =>
    obtain ⟨k1, c1⟩ := p
    by_cases hf : f (k1, c1) = true
    · rw [List.takeWhile_cons_of_pos hf, List.dropWhile_cons_of_pos hf]
      by_cases hk : k = k1
      · subst hk
        simp [List.lookup]
      · have e : (k == k1) = false := by simpa using hk
        simp only [List.lookup, e]
        exact ih
    · rw [List.takeWhile_cons_of_neg hf, List.dropWhile_cons_of_neg hf]
      rfl

theorem lookup_append_or (a b : List (Hypothesis × List Variable)) (k : Hypothesis) :
    (a ++ b).lookup k = (a.lookup k).or (b.lookup k) := by
  induction a with
  | nil => rfl
  | cons p a ih =>
    obtain ⟨k1, c1⟩ := p
    by_cases hk : k = k1
    · subst hk
      simp [List.lookup]
    · have e : (k == k1) = false := by simpa using hk
      simp only [List.cons_append, List.lookup, e]
      exact ih

/-- The insertion of the key `h` changes the list of no other key. -/
theorem lookup_specialisedInsert_ne (sv : List (Hypothesis × List Variable)) (h k : Hypothesis)
    (c : List Variable) (hk : k ≠ h) :
    (specialisedInsert sv h c).lookup k = sv.lookup k := by
  unfold specialisedInsert
  rw [lookup_append_or, lookup_hypothesis_ne _ k h c hk, lookup_takeWhile_dropWhile]

theorem specialisedHypotheses_append (v : Variable) (pre post : List (Hypothesis × List Variable))
    (k : Hypothesis) (c : List Variable) :
    (pre.map (fun p => (p.1, p.2 ++ [v])) ++ (k, c) :: post).map Prod.fst
      = (pre ++ (k, c) :: post).map Prod.fst := by
  simp [List.map_append, List.map_map, Function.comp_def]

/-- C36 (amended): a call `addVariable(h,v)` that throws `multiply defined`
leaves the structure as it was when `h` is the undefined hypothesis and the
base list has the name of `v`, and when `h` is a specialised hypothesis that
has a list. Otherwise the structure is changed: for the undefined hypothesis,
`v` is appended to the base list and to the specialised lists that precede the
first one holding its name, the hypotheses returned by
`getSpecialisedHypotheses` being the same; for another hypothesis without a
list, whose failure means that the base list has the name of `v`, the
hypothesis gains a list, which is the base list, the base list and the lists of
the other hypotheses being the same. -/
theorem addVariable_failure_state (mh : ModellingHypothesis) (ls : LocalDataStructure)
    (h : Hypothesis) (v : Variable) (e : LocalDataFailure)
    (he : addVariable mh ls h v = .error e) :
    e.msg = multiplyDefined v
      ∧ (h = mh.UNDEFINEDHYPOTHESIS → v.name ∈ variableNames ls.uv → e.state = ls)
      ∧ (h = mh.UNDEFINEDHYPOTHESIS → v.name ∉ variableNames ls.uv →
          ∃ pre k c post, ls.sv = pre ++ (k, c) :: post
            ∧ (∀ p ∈ pre, v.name ∉ variableNames p.2)
            ∧ v.name ∈ variableNames c
            ∧ e.state.uv = ls.uv ++ [v]
            ∧ e.state.sv = pre.map (fun p => (p.1, p.2 ++ [v])) ++ (k, c) :: post
            ∧ getSpecialisedHypotheses e.state = getSpecialisedHypotheses ls)
      ∧ (h ≠ mh.UNDEFINEDHYPOTHESIS → ls.sv.lookup h ≠ none → e.state = ls)
      ∧ (h ≠ mh.UNDEFINEDHYPOTHESIS → ls.sv.lookup h = none →
          v.name ∈ variableNames ls.uv
            ∧ e.state.uv = ls.uv
            ∧ e.state.sv = specialisedInsert ls.sv h ls.uv
            ∧ e.state.sv.lookup h = some ls.uv
            ∧ (∀ k, k ≠ h → e.state.sv.lookup k = ls.sv.lookup k)) := by
  by_cases hh : h = mh.UNDEFINEDHYPOTHESIS
  · subst hh
    by_cases hn : v.name ∈ variableNames ls.uv
    · rw [(addVariable_undefined mh ls v).1 hn] at he
      simp only [Except.error.injEq] at he
      subst he
      exact ⟨rfl, fun _ _ => rfl, fun _ h2 => absurd hn h2, fun h1 => absurd rfl h1,
        fun h1 => absurd rfl h1⟩
    · unfold addVariable at he
      rw [if_pos rfl, addVariableTo_eq, if_neg hn] at he
      simp only at he
      cases hr : addToSpecialised v ls.sv with
      | ok sv1 =>
        rw [hr] at he
        cases he
      | error er =>
        obtain ⟨e2, sv1⟩ := er
        rw [hr] at he
        simp only [Except.error.injEq] at he
        subst he
        obtain ⟨hm, pre, k, c, post, hs, hpre, hc, hsv1⟩ := addToSpecialised_split v ls.sv e2 sv1 hr
        refine ⟨hm, fun _ h2 => absurd h2 hn, fun _ _ => ?_, fun h1 => absurd rfl h1,
          fun h1 => absurd rfl h1⟩
        refine ⟨pre, k, c, post, hs, hpre, hc, rfl, hsv1, ?_⟩
        show sv1.map Prod.fst = ls.sv.map Prod.fst
        rw [hsv1, hs]
        exact specialisedHypotheses_append v pre post k c
  · cases hl : ls.sv.lookup h with
    | some c =>
      rw [(addVariable_specialised mh ls h v hh).1 c hl] at he
      by_cases hn : v.name ∈ variableNames c
      · rw [if_pos hn] at he
        simp only [Except.error.injEq] at he
        subst he
        refine ⟨rfl, fun h1 => absurd h1 hh, fun h1 => absurd h1 hh, fun _ _ => rfl, ?_⟩
        intro _ h2
        cases h2
      · rw [if_neg hn] at he
        cases he
    | none =>
      rw [(addVariable_specialised mh ls h v hh).2 hl] at he
      by_cases hn : v.name ∈ variableNames ls.uv
      · rw [if_pos hn] at he
        simp only [Except.error.injEq] at he
        subst he
        refine ⟨rfl, fun h1 => absurd h1 hh, fun h1 => absurd h1 hh, fun _ h2 => absurd rfl h2, ?_⟩
        intro _ _
        exact ⟨hn, rfl, rfl, lookup_specialisedInsert ls.sv h ls.uv hl,
          fun k hk => lookup_specialisedInsert_ne ls.sv h k ls.uv hk⟩
      · rw [if_neg hn] at he
        cases he

theorem addVariable_failure_state_witness :
    addVariable sampleHypotheses baseOnly 1 (realVariable "x") = .error baseOnlyFailure
      ∧ baseOnlyFailure.state.sv = specialisedInsert baseOnly.sv 1 baseOnly.uv
      ∧ baseOnlyFailure.state.sv.lookup 1 = some baseOnly.uv :=
  ⟨rfl,
    ((addVariable_failure_state sampleHypotheses baseOnly 1 (realVariable "x") baseOnlyFailure
      rfl).2.2.2.2 (by decide) rfl).2.2.1,
    ((addVariable_failure_state sampleHypotheses baseOnly 1 (realVariable "x") baseOnlyFailure
      rfl).2.2.2.2 (by decide) rfl).2.2.2.1⟩

/-- C36 (counterexample): the call `addVariable(1,x)` on the structure whose
base list holds `x`, and in which no hypothesis is specialised, throws
`multiply defined` and the hypothesis 1 is then specialised; the call
`addVariable(UNDEFINEDHYPOTHESIS,x)` on the structure in which only the list of
the hypothesis 1 holds `x` throws `multiply defined` and the base list then
holds `x`. -/
theorem addVariable_failure_state_counterexample :
    (∃ e, addVariable sampleHypotheses baseOnly 1 (realVariable "x") = .error e
        ∧ e.msg = multiplyDefined (realVariable "x")
        ∧ getSpecialisedHypotheses baseOnly = []
        ∧ getSpecialisedHypotheses e.state = [1])
      ∧ (∃ e, addVariable sampleHypotheses specialisedOnly 7 (realVariable "x") = .error e
          ∧ e.msg = multiplyDefined (realVariable "x")
          ∧ specialisedOnly.uv = []
          ∧ e.state.uv = [realVariable "x"]) :=
  ⟨⟨_, rfl, rfl, rfl, rfl⟩, ⟨_, rfl, rfl, rfl, rfl⟩⟩

/-! ## The description of a mechanical behaviour: the invariant of the type -/

/-- A failing call leaves the description as it was. -/
theorem result_error_state (less : DrivingVariable → DrivingVariable → Bool)
    (d : MechanicalBehaviourDescription) (c : BehaviourCall) (e : BehaviourFailure)
    (h : c.result less d = .error e) : e.state = d := by
  cases c with
  | smallStrain =>
    simp only [BehaviourCall.result] at h
    rw [declareAsASmallStrainStandardBehaviour_eq] at h
    by_cases hm : d.mvariables ≠ []
    · rw [if_pos hm] at h
      simp only [Except.error.injEq] at h
      rw [← h]
    · rw [if_neg hm] at h
      cases h
  | finiteStrain =>
    simp only [BehaviourCall.result] at h
    rw [declareAsAFiniteStrainStandardBehaviour_eq] at h
    by_cases hm : d.mvariables ≠ []
    · rw [if_pos hm] at h
      simp only [Except.error.injEq] at h
      rw [← h]
    · rw [if_neg hm] at h
      cases h
  | cohesiveZone =>
    simp only [BehaviourCall.result] at h
    rw [declareAsACohesiveZoneModel_eq] at h
    by_cases hm : d.mvariables ≠ []
    · rw [if_pos hm] at h
      simp only [Except.error.injEq] at h
      rw [← h]
    · rw [if_neg hm] at h
      cases h
  | mainVariable v f =>
    simp only [BehaviourCall.result] at h
    unfold addMainVariable at h
    by_cases ht : d.type ≠ BehaviourType.GENERALBEHAVIOUR
    · rw [if_pos ht] at h
      simp only [Except.error.injEq] at h
      rw [← h]
    · rw [if_neg ht] at h
      by_cases hi : (mapInsert less d.mvariables (v, f)).2 = false
      · rw [if_pos hi] at h
        simp only [Except.error.injEq] at h
        rw [← h]
        show { d with mvariables := (mapInsert less d.mvariables (v, f)).1 } = d
        rw [mapInsert_failed less d.mvariables (v, f) hi]
      · rw [if_neg hi] at h
        cases h

/-- A call keeps the invariant of the main variables. -/
theorem result_canonical (less : DrivingVariable → DrivingVariable → Bool)
    (d : MechanicalBehaviourDescription) (c : BehaviourCall) (h : CanonicalMainVariables d) :
    CanonicalMainVariables (stateAfter (c.result less d)) := by
  cases hr : c.result less d with
  | error e =>
    show CanonicalMainVariables e.state
    rw [result_error_state less d c e hr]
    exact h
  | ok d1 =>
    show CanonicalMainVariables d1
    cases c with
    | smallStrain =>
      simp only [BehaviourCall.result] at hr
      rw [declareAsASmallStrainStandardBehaviour_eq] at hr
      by_cases hm : d.mvariables ≠ []
      · rw [if_pos hm] at hr
        cases hr
      · rw [if_neg hm] at hr
        simp only [Except.ok.injEq] at hr
        subst hr
        intro p hp
        simp only [canonicalPair, Option.some.injEq] at hp
        rw [← hp]
    | finiteStrain =>
      simp only [BehaviourCall.result] at hr
      rw [declareAsAFiniteStrainStandardBehaviour_eq] at hr
      by_cases hm : d.mvariables ≠ []
      · rw [if_pos hm] at hr
        cases hr
      · rw [if_neg hm] at hr
        simp only [Except.ok.injEq] at hr
        subst hr
        intro p hp
        simp only [canonicalPair, Option.some.injEq] at hp
        rw [← hp]
    | cohesiveZone =>
      simp only [BehaviourCall.result] at hr
      rw [declareAsACohesiveZoneModel_eq] at hr
      by_cases hm : d.mvariables ≠ []
      · rw [if_pos hm] at hr
        cases hr
      · rw [if_neg hm] at hr
        simp only [Except.ok.injEq] at hr
        subst hr
        intro p hp
        simp only [canonicalPair, Option.some.injEq] at hp
        rw [← hp]
    | mainVariable v f =>
      simp only [BehaviourCall.result] at hr
      unfold addMainVariable at hr
      by_cases ht : d.type ≠ BehaviourType.GENERALBEHAVIOUR
      · rw [if_pos ht] at hr
        cases hr
      · rw [if_neg ht] at hr
        by_cases hi : (mapInsert less d.mvariables (v, f)).2 = false
        · rw [if_pos hi] at hr
          cases hr
        · rw [if_neg hi] at hr
          simp only [Except.ok.injEq] at hr
          subst hr
          intro p hp
          have hg : d.type = BehaviourType.GENERALBEHAVIOUR := not_not.mp ht
          simp only [hg, canonicalPair] at hp
          cases hp

theorem stateAfterCalls_canonical (less : DrivingVariable → DrivingVariable → Bool)
    (cs : List BehaviourCall) :
    ∀ d : MechanicalBehaviourDescription, CanonicalMainVariables d →
      CanonicalMainVariables (stateAfterCalls less d cs) := by
  induction cs with
  | nil => intro d h; exact h
  | cons c cs ih =>
    intro d h
    exact ih _ (result_canonical less d c h)

theorem canonicalPair_isSome (t : BehaviourType) (h : t ≠ BehaviourType.GENERALBEHAVIOUR) :
    ∃ p, canonicalPair t = some p
      ∧ (t = BehaviourType.SMALLSTRAINSTANDARDBEHAVIOUR → p = smallStrainPair)
      ∧ (t = BehaviourType.FINITESTRAINSTANDARDBEHAVIOUR → p = finiteStrainPair)
      ∧ (t = BehaviourType.COHESIVEZONEMODEL → p = cohesiveZonePair) := by
  cases t with
  | GENERALBEHAVIOUR => exact absurd rfl h
  | SMALLSTRAINSTANDARDBEHAVIOUR =>
    exact ⟨smallStrainPair, rfl, fun _ => rfl, (fun h1 => nomatch h1), (fun h1 => nomatch h1)⟩
  | FINITESTRAINSTANDARDBEHAVIOUR =>
    exact ⟨finiteStrainPair, rfl, (fun h1 => nomatch h1), fun _ => rfl, (fun h1 => nomatch h1)⟩
  | COHESIVEZONEMODEL =>
    exact ⟨cohesiveZonePair, rfl, (fun h1 => nomatch h1), (fun h1 => nomatch h1), fun _ => rfl⟩

/-- C38: in the description reached from a new `MechanicalBehaviourDescription`
by any calls of `declareAsASmallStrainStandardBehaviour`,
`declareAsAFiniteStrainStandardBehaviour`, `declareAsACohesiveZoneModel` and
`addMainVariable`, successful or failing, a type that is not the general one
means that the main variables are exactly one pair, the pair of this type
(`eto`/`sig`, `F`/`sig`, `u`/`t`); and a call that fails on this description
leaves its main variables and its type as they are. -/
theorem mainVariables_invariant (less : DrivingVariable → DrivingVariable → Bool)
    (cs : List BehaviourCall) :
    ((stateAfterCalls less newMechanicalBehaviourDescription cs).type
          ≠ BehaviourType.GENERALBEHAVIOUR →
        ∃ p, (stateAfterCalls less newMechanicalBehaviourDescription cs).mvariables = [p]
          ∧ canonicalPair (stateAfterCalls less newMechanicalBehaviourDescription cs).type = some p
          ∧ ((stateAfterCalls less newMechanicalBehaviourDescription cs).type
                = BehaviourType.SMALLSTRAINSTANDARDBEHAVIOUR → p = smallStrainPair)
          ∧ ((stateAfterCalls less newMechanicalBehaviourDescription cs).type
                = BehaviourType.FINITESTRAINSTANDARDBEHAVIOUR → p = finiteStrainPair)
          ∧ ((stateAfterCalls less newMechanicalBehaviourDescription cs).type
                = BehaviourType.COHESIVEZONEMODEL → p = cohesiveZonePair))
      ∧ (∀ (c : BehaviourCall) (e : BehaviourFailure),
          c.result less (stateAfterCalls less newMechanicalBehaviourDescription cs)
            = .error e →
          e.state = stateAfterCalls less newMechanicalBehaviourDescription cs
            ∧ stateAfter (c.result less (stateAfterCalls less newMechanicalBehaviourDescription cs))
                = stateAfterCalls less newMechanicalBehaviourDescription cs) := by
  have hinv : CanonicalMainVariables (stateAfterCalls less newMechanicalBehaviourDescription cs) := by
    apply stateAfterCalls_canonical
    intro p hp
    cases hp
  refine ⟨fun ht => ?_, fun c e he => ?_⟩
  · obtain ⟨p, hp, h1, h2, h3⟩ := canonicalPair_isSome _ ht
    exact ⟨p, hinv p hp, hp, h1, h2, h3⟩
  · have hs := result_error_state less _ c e he
    refine ⟨hs, ?_⟩
    rw [he]
    exact hs

theorem mainVariables_invariant_witness :
    (stateAfterCalls lessByName newMechanicalBehaviourDescription
        [.mainVariable sampleGradient sampleFlux, .smallStrain, .finiteStrain,
          .mainVariable sampleGradient sampleFlux]).type = BehaviourType.GENERALBEHAVIOUR
      ∧ ∃ p, (stateAfterCalls lessByName newMechanicalBehaviourDescription
            [.cohesiveZone, .smallStrain, .mainVariable sampleGradient sampleFlux]).mvariables = [p]
          ∧ p = cohesiveZonePair := by
  refine ⟨by decide, ?_⟩
  obtain ⟨p, h1, _, _, _, h4⟩ := (mainVariables_invariant lessByName
    [.cohesiveZone, .smallStrain, .mainVariable sampleGradient sampleFlux]).1 (by decide)
  exact ⟨p, h1, h4 (by decide)⟩

/-! ## Temporary variable names: properties -/

/-- The loop returns the first name that is not reserved. -/
theorem temporaryVariableLoop_first {R : Type} (sv : NameServices R) (r : R) (p : String) :
    ∀ (n i0 i : Nat), i0 ≤ i → i < i0 + n →
      sv.isNameReserved r (p ++ toString i) = false →
      (∀ j, i0 ≤ j → j < i → sv.isNameReserved r (p ++ toString j) = true) →
      temporaryVariableLoop sv r p n i0
        = match sv.reserveName r (p ++ toString i) with
          | .error e => some (.error e)
          | .ok r1 => some (.ok (p ++ toString i, r1)) := by
  intro n
  induction n with
  | zero =>
    intro i0 i h1 h2
    omega
  | succ n ih =>
    intro i0 i h1 h2 hf hb
    rw [temporaryVariableLoop]
    by_cases he : i0 = i
    · subst he
      simp only [hf, if_true]
    · have hr : sv.isNameReserved r (p ++ toString i0) = true := hb i0 (le_refl _) (by omega)
      simp only [hr, Bool.true_eq_false, if_false]
      exact ih (i0 + 1) i (by omega) (by omega) hf (fun j hj1 hj2 => hb j (by omega) hj2)

/-- The loop ends without a name when the names of all its turns are
reserved. -/
theorem temporaryVariableLoop_none {R : Type} (sv : NameServices R) (r : R) (p : String) :
    ∀ (n i0 : Nat),
      (∀ j, i0 ≤ j → j < i0 + n → sv.isNameReserved r (p ++ toString j) = true) →
      temporaryVariableLoop sv r p n i0 = none := by
  intro n
  induction n with
  | zero =>
    intro i0 _
    rfl
  | succ n ih =>
    intro i0 hb
    rw [temporaryVariableLoop]
    have hr : sv.isNameReserved r (p ++ toString i0) = true := hb i0 (le_refl _) (by omega)
    simp only [hr, Bool.true_eq_false, if_false]
    exact ih (i0 + 1) (fun j hj1 hj2 => hb j (by omega) (by omega))

/-- A name that the loop returns was not reserved, and has been reserved by
`reserveName`. -/
theorem temporaryVariableLoop_ok {R : Type} (sv : NameServices R) (r : R) (p : String) :
    ∀ (n i0 : Nat) (c : String) (r1 : R),
      temporaryVariableLoop sv r p n i0 = some (.ok (c, r1)) →
      sv.isNameReserved r c = false ∧ sv.reserveName r c = .ok r1 := by
  intro n
  induction n with
  | zero =>
    intro i0 c r1 h
    cases h
  | succ n ih =>
    intro i0 c r1 h
    rw [temporaryVariableLoop] at h
    by_cases hr : sv.isNameReserved r (p ++ toString i0) = false
    · simp only [hr, if_true] at h
      cases hv : sv.reserveName r (p ++ toString i0) with
      | error e =>
        rw [hv] at h
        cases h
      | ok r2 =>
        rw [hv] at h
        simp only [Option.some.injEq, Except.ok.injEq, Prod.mk.injEq] at h
        obtain ⟨h1, h2⟩ := h
        subst h1
        subst h2
        exact ⟨hr, hv⟩
    · simp only [hr, if_false] at h
      exact ih (i0 + 1) c r1 h

/-- A name that `getTemporaryVariableName` returns was not reserved. -/
theorem getTemporaryVariableName_ok {R : Type} (sv : NameServices R) (lib : Library)
    (s : DSLBase) (r : R) (p c : String) (r1 : R)
    (h : getTemporaryVariableName sv lib s r p = .ok (c, r1)) :
    sv.isNameReserved r c = false ∧ sv.reserveName r c = .ok r1 := by
  unfold getTemporaryVariableName at h
  by_cases hv : lib.isValidIdentifier p true = false
  · rw [if_pos hv] at h
    cases h
  · rw [if_neg hv] at h
    cases hl : temporaryVariableLoop sv r p uintMax 0 with
    | none =>
      rw [hl] at h
      cases h
    | some x =>
      cases x with
      | error e =>
        rw [hl] at h
        cases h
      | ok y =>
        rw [hl] at h
        simp only [Except.ok.injEq] at h
        subst h
        exact temporaryVariableLoop_ok sv r p uintMax 0 c r1 hl

/-- The failure of `getTemporaryVariableName` when the names of all the turns
of its loop are reserved. -/
theorem getTemporaryVariableName_exhausted {R : Type} (sv : NameServices R) (lib : Library)
    (s : DSLBase) (r : R) (p : String) (hv : lib.isValidIdentifier p true = true)
    (h : ∀ i, i < uintMax → sv.isNameReserved r (p ++ toString i) = true) :
    getTemporaryVariableName sv lib s r p
      = .error (throwRuntimeError s "DSLBase::getTemporaryVariableName"
          "unable to find a temporary variable") := by
  unfold getTemporaryVariableName
  rw [if_neg (by rw [hv]; decide),
    temporaryVariableLoop_none sv r p uintMax 0 (fun j _ hj => h j (by omega))]

/-- C32 (amended): `getTemporaryVariableName(p)` fails when `p` is not a valid
identifier. For a valid `p`, if `i` is the smallest counter whose name, `p`
followed by the decimal writing of `i`, is not reserved, and `i` is less than
`UINT_MAX`, the call returns this name and has reserved it: it was not reserved
before, it is reserved after the call, the names reserved before still are, and
a following call, whatever its prefix, returns another name. If the names of
all the counters below `UINT_MAX` are reserved, the call fails: no temporary
variable is found. The reserved names are those of a set that grows
(`ReservedNamesGrow`). -/
theorem getTemporaryVariableName_spec {R : Type} (sv : NameServices R) (lib : Library)
    (s : DSLBase) (r : R) (p : String) (hres : ReservedNamesGrow sv) :
    (lib.isValidIdentifier p true = false →
        getTemporaryVariableName sv lib s r p
          = .error (throwRuntimeError s "DSLBase::getTemporaryVariableName"
              ("invalid variable prefix '" ++ p ++ "'")))
      ∧ (lib.isValidIdentifier p true = true →
          ∀ i, i < uintMax → sv.isNameReserved r (p ++ toString i) = false →
            (∀ j, j < i → sv.isNameReserved r (p ++ toString j) = true) →
            ∃ r1, getTemporaryVariableName sv lib s r p = .ok (p ++ toString i, r1)
              ∧ sv.isNameReserved r1 (p ++ toString i) = true
              ∧ (∀ k, sv.isNameReserved r k = true → sv.isNameReserved r1 k = true)
              ∧ ∀ (s2 : DSLBase) (q c2 : String) (r2 : R),
                  getTemporaryVariableName sv lib s2 r1 q = .ok (c2, r2) →
                  c2 ≠ p ++ toString i)
      ∧ (lib.isValidIdentifier p true = true →
          (∀ i, i < uintMax → sv.isNameReserved r (p ++ toString i) = true) →
          getTemporaryVariableName sv lib s r p
            = .error (throwRuntimeError s "DSLBase::getTemporaryVariableName"
                "unable to find a temporary variable")) := by
  refine ⟨fun hv => ?_, fun hv i hi hf hb => ?_,
    fun hv h => getTemporaryVariableName_exhausted sv lib s r p hv h⟩
  · unfold getTemporaryVariableName
    rw [if_pos hv]
  · obtain ⟨r1, h1, h2, h3⟩ := hres r (p ++ toString i) hf
    refine ⟨r1, ?_, h2, h3, ?_⟩
    · unfold getTemporaryVariableName
      rw [if_neg (by rw [hv]; decide),
        temporaryVariableLoop_first sv r p uintMax 0 i (Nat.zero_le _) (by omega) hf
          (fun j _ hj => hb j hj), h1]
    · intro s2 q c2 r2 h hc
      have h4 := (getTemporaryVariableName_ok sv lib s2 r1 q c2 r2 h).1
      rw [hc, h2] at h4
      cases h4

theorem listedNames_grow : ReservedNamesGrow listedNames := by
  intro r n h
  have hn : n ∉ r := by simpa [listedNames] using h
  refine ⟨r ++ [n], ?_, ?_, ?_⟩
  · show (if n ∈ r then _ else _) = _
    rw [if_neg hn]
  · simp [listedNames]
  · intro k hk
    have hk1 : k ∈ r := by simpa [listedNames] using hk
    simp [listedNames, hk1]

theorem getTemporaryVariableName_spec_witness :
    ∃ r1, getTemporaryVariableName listedNames plainLibrary emptyDSL ["tmp0", "x", "tmp1"] "tmp"
        = .ok ("tmp2", r1)
      ∧ listedNames.isNameReserved r1 "tmp2" = true := by
  obtain ⟨r1, h1, h2, _⟩ := (getTemporaryVariableName_spec listedNames plainLibrary emptyDSL
    ["tmp0", "x", "tmp1"] "tmp" listedNames_grow).2.1 (by decide) 2 (by decide) (by decide)
    (by
      intro j hj
      interval_cases j <;> decide)
  exact ⟨r1, h1, h2⟩

theorem listedNames_reserved (r : List String) (n : String) :
    listedNames.isNameReserved r n = decide (n ∈ r) := rfl

theorem mem_allTemporaryNames (p : String) (i : Nat) (h : i < uintMax) :
    p ++ toString i ∈ allTemporaryNames p :=
  List.mem_map.mpr ⟨i, List.mem_range.mpr h, rfl⟩

/-- A name of more than ten digits is none of the names of the counters below
`UINT_MAX`. -/
theorem longName_not_temporary (p : String) :
    p ++ toString 10000000000 ∉ allTemporaryNames p := by
  intro h
  obtain ⟨i, hi, he⟩ := List.mem_map.mp h
  have hlt : i < uintMax := List.mem_range.mp hi
  have hl := congrArg String.length he
  rw [String.length_append, String.length_append] at hl
  have h1 : (Nat.repr i).length ≤ 10 :=
    Nat.repr_length i 10 (by decide) (by unfold uintMax at hlt; omega)
  have h2 : (toString 10000000000).length = 11 := by decide
  have h3 : (toString i).length = (Nat.repr i).length := rfl
  omega

/-- C32 (counterexample): when the names `tmp0`, `tmp1`, ..., up to the one of
the counter `UINT_MAX - 1`, are the reserved names, `getTemporaryVariableName`
returns no name for the valid prefix `tmp`: it fails, no temporary variable
being found, although there is a counter whose name is not reserved. -/
theorem getTemporaryVariableName_counterexample :
    plainLibrary.isValidIdentifier "tmp" true = true
      ∧ listedNames.isNameReserved (allTemporaryNames "tmp") ("tmp" ++ toString 10000000000)
          = false
      ∧ getTemporaryVariableName listedNames plainLibrary emptyDSL (allTemporaryNames "tmp") "tmp"
          = .error (throwRuntimeError emptyDSL "DSLBase::getTemporaryVariableName"
              "unable to find a temporary variable")
      ∧ ∀ c r1, getTemporaryVariableName listedNames plainLibrary emptyDSL
          (allTemporaryNames "tmp") "tmp" ≠ .ok (c, r1) := by
  have h := getTemporaryVariableName_exhausted listedNames plainLibrary emptyDSL
    (allTemporaryNames "tmp") "tmp" (by decide)
    (fun i hi => by
      rw [listedNames_reserved]
      exact decide_eq_true (mem_allTemporaryNames "tmp" i hi))
  refine ⟨by decide, ?_, h, ?_⟩
  · rw [listedNames_reserved]
    exact decide_eq_false (longName_not_temporary "tmp")
  · intro c r1 hc
    rw [h] at hc
    cases hc

/-! ## Reading the value of a keyword in a file: properties -/

/-- The statement `throw_if(++pt==pte,m,(--pt)->line)` leaves `pt` where it
was. -/
theorem stepAndCheck_position (leftFirst : Bool) (toks : List Token) (pt : Nat) (m : String)
    (p : Nat) (h : stepAndCheck leftFirst toks pt m = .returned p) : p = pt := by
  unfold stepAndCheck at h
  by_cases hl : leftFirst = true
  · rw [if_pos hl] at h
    simp only [Nat.add_sub_cancel] at h
    cases ht : toks[pt]? with
    | none =>
      rw [ht] at h
      cases h
    | some t =>
      rw [ht] at h
      simp only at h
      by_cases hb : decide (pt + 1 = toks.length) = true
      · rw [if_pos hb] at h
        cases h
      · rw [if_neg hb] at h
        simp only [Outcome.returned.injEq] at h
        exact h.symm
  · rw [if_neg hl] at h
    by_cases h0 : pt = 0
    · rw [if_pos h0] at h
      cases h
    · rw [if_neg h0] at h
      simp only at h
      cases ht : toks[pt - 1]? with
      | none =>
        rw [ht] at h
        cases h
      | some t =>
        rw [ht] at h
        simp only at h
        by_cases hb : decide (pt - 1 + 1 = toks.length) = true
        · rw [if_pos hb] at h
          cases h
        · rw [if_neg hb] at h
          simp only [Outcome.returned.injEq] at h
          omega

theorem stepAndCheck_finishes (leftFirst : Bool) (toks : List Token) (pt : Nat) (m : String) :
    stepAndCheck leftFirst toks pt m ≠ .unfinished := by
  intro h
  unfold stepAndCheck at h
  by_cases hl : leftFirst = true
  · rw [if_pos hl] at h
    simp only [Nat.add_sub_cancel] at h
    cases ht : toks[pt]? with
    | none =>
      rw [ht] at h
      cases h
    | some t =>
      rw [ht] at h
      simp only at h
      by_cases hb : decide (pt + 1 = toks.length) = true
      · rw [if_pos hb] at h
        cases h
      · rw [if_neg hb] at h
        cases h
  · rw [if_neg hl] at h
    by_cases h0 : pt = 0
    · rw [if_pos h0] at h
      cases h
    · rw [if_neg h0] at h
      simp only at h
      cases ht : toks[pt - 1]? with
      | none =>
        rw [ht] at h
        cases h
      | some t =>
        rw [ht] at h
        simp only at h
        by_cases hb : decide (pt - 1 + 1 = toks.length) = true
        · rw [if_pos hb] at h
          cases h
        · rw [if_neg hb] at h
          cases h

theorem beginsInstruction_finishes (toks : List Token) (t : Token) (pt : Nat) (p : String) :
    beginsInstruction toks t pt p ≠ .unfinished := by
  intro h
  unfold beginsInstruction at h
  by_cases h0 : pt ≠ 0
  · rw [if_pos h0] at h
    cases ht : toks[pt - 1]? with
    | none =>
      rw [ht] at h
      cases h
    | some tp =>
      rw [ht] at h
      simp only at h
      by_cases hv : tp.value ≠ ";"
      · rw [if_pos hv] at h
        cases h
      · rw [if_neg hv] at h
        cases h
  · rw [if_neg h0] at h
    cases h

/-- The statements that read the value of a keyword never go to their end: the
token that they take for the value is the keyword itself, which they refuse if
it is `;` and which is not the `;` that they expect after it otherwise; and
they do not reach the bound of a loop. -/
theorem readKeywordValue_stops (leftFirst : Bool) (file : String) (toks : List Token)
    (t : Token) (pt : Nat) (p : String) (k : Nat) (res : List String) :
    (∀ x, readKeywordValue leftFirst file toks t pt p k res ≠ .returned x)
      ∧ readKeywordValue leftFirst file toks t pt p k res ≠ .unfinished := by
  unfold readKeywordValue
  cases h1 : beginsInstruction toks t pt p with
  | outOfRange => exact ⟨fun x h => (by cases h), fun h => (by cases h)⟩
  | unfinished => exact absurd h1 (beginsInstruction_finishes toks t pt p)
  | thrown m => exact ⟨fun x h => (by cases h), fun h => (by cases h)⟩
  | returned u =>
    simp only
    cases h2 : stepAndCheck leftFirst toks pt
        ("unexepected end of file '" ++ file ++ "' (expected " ++ p ++ ").\n") with
    | outOfRange => exact ⟨fun x h => (by cases h), fun h => (by cases h)⟩
    | unfinished => exact absurd h2 (stepAndCheck_finishes _ _ _ _)
    | thrown m => exact ⟨fun x h => (by cases h), fun h => (by cases h)⟩
    | returned pt1 =>
      have e1 := stepAndCheck_position _ _ _ _ _ h2
      subst e1
      simp only
      cases ht1 : toks[pt1]? with
      | none => exact ⟨fun x h => (by cases h), fun h => (by cases h)⟩
      | some t1 =>
        simp only
        by_cases hv : t1.value = ";"
        · rw [if_pos hv]
          exact ⟨fun x h => (by cases h), fun h => (by cases h)⟩
        · rw [if_neg hv]
          cases h3 : stepAndCheck leftFirst toks pt1
              ("unexepected end of file '" ++ file ++ "' (expected ';').\n") with
          | outOfRange => exact ⟨fun x h => (by cases h), fun h => (by cases h)⟩
          | unfinished => exact absurd h3 (stepAndCheck_finishes _ _ _ _)
          | thrown m => exact ⟨fun x h => (by cases h), fun h => (by cases h)⟩
          | returned pt2 =>
            have e2 := stepAndCheck_position _ _ _ _ _ h3
            subst e2
            simp only
            rw [ht1]
            simp only
            rw [if_pos hv]
            exact ⟨fun x h => (by cases h), fun h => (by cases h)⟩

/-- The loop of `readSpecifiedValues` returns `res` as it was given: no turn
that finds a keyword goes to its end. -/
theorem readSpecifiedValuesLoop_returned (leftFirst : Bool) (file : String)
    (values : List String) (toks : List Token) :
    ∀ (n pt : Nat) (res res1 : List String),
      readSpecifiedValuesLoop leftFirst file values toks n pt res = .returned res1 →
      res1 = res := by
  intro n
  induction n with
  | zero =>
    intro pt res res1 h
    cases h
  | succ n ih =>
    intro pt res res1 h
    rw [readSpecifiedValuesLoop] at h
    by_cases he : pt = toks.length
    · rw [if_pos he] at h
      simp only [Outcome.returned.injEq] at h
      exact h.symm
    · rw [if_neg he] at h
      cases ht : toks[pt]? with
      | none =>
        rw [ht] at h
        cases h
      | some t =>
        rw [ht] at h
        simp only at h
        by_cases hk : values.indexOf t.value < values.length
        · rw [if_pos hk] at h
          cases hr : readKeywordValue leftFirst file toks t pt
              (values.getD (values.indexOf t.value) "") (values.indexOf t.value) res with
          | outOfRange => rw [hr] at h; cases h
          | unfinished => rw [hr] at h; cases h
          | thrown m => rw [hr] at h; cases h
          | returned x => exact absurd hr ((readKeywordValue_stops _ _ _ _ _ _ _ _).1 x)
        · rw [if_neg hk] at h
          exact ih (pt + 1) res res1 h

/-- The bound of the loop of `readSpecifiedValues` is not reached. -/
theorem readSpecifiedValuesLoop_finishes (leftFirst : Bool) (file : String)
    (values : List String) (toks : List Token) :
    ∀ (n pt : Nat) (res : List String), pt ≤ toks.length → toks.length - pt < n →
      readSpecifiedValuesLoop leftFirst file values toks n pt res ≠ .unfinished := by
  intro n
  induction n with
  | zero =>
    intro pt res _ h
    omega
  | succ n ih =>
    intro pt res hle hn h
    rw [readSpecifiedValuesLoop] at h
    by_cases he : pt = toks.length
    · rw [if_pos he] at h
      cases h
    · rw [if_neg he] at h
      cases ht : toks[pt]? with
      | none =>
        rw [ht] at h
        cases h
      | some t =>
        rw [ht] at h
        simp only at h
        by_cases hk : values.indexOf t.value < values.length
        · rw [if_pos hk] at h
          cases hr : readKeywordValue leftFirst file toks t pt
              (values.getD (values.indexOf t.value) "") (values.indexOf t.value) res with
          | outOfRange => rw [hr] at h; cases h
          | unfinished => exact absurd hr (readKeywordValue_stops _ _ _ _ _ _ _ _).2
          | thrown m => rw [hr] at h; cases h
          | returned x => exact absurd hr ((readKeywordValue_stops _ _ _ _ _ _ _ _).1 x)
        · rw [if_neg hk] at h
          exact ih (pt + 1) res (by omega) (by omega) h

/-- What `readSpecifiedValues` returns, when it returns, is one empty string
for each keyword. -/
theorem readSpecifiedValues_returned (fileTokens : String → Except String (List Token))
    (leftFirst : Bool) (file : String) (values res : List String)
    (h : readSpecifiedValues fileTokens leftFirst file values = .returned res) :
    res = List.replicate values.length "" := by
  unfold readSpecifiedValues at h
  cases hf : fileTokens file with
  | error e =>
    rw [hf] at h
    cases h
  | ok toks =>
    rw [hf] at h
    exact readSpecifiedValuesLoop_returned leftFirst file values toks _ _ _ _ h

/-- C33: `readSpecifiedValue(file,k)` reads the element of index 1 of the result
of `readSpecifiedValues(file,[k])`, which has one element, of index 0: for no
file, no keyword and no order of evaluation does it return a value. It throws
or leaves the range of a container; when `readSpecifiedValues` returns, its
result has one element and the index 1 is out of its range, as for the empty
file and for a file that does not hold the keyword. The loops of the model do
not reach their bound. -/
theorem readSpecifiedValue_out_of_range (fileTokens : String → Except String (List Token))
    (leftFirst : Bool) (file k : String) :
    (∀ v, readSpecifiedValue fileTokens leftFirst file k ≠ .returned v)
      ∧ readSpecifiedValue fileTokens leftFirst file k ≠ .unfinished
      ∧ (∀ res, readSpecifiedValues fileTokens leftFirst file (List.replicate 1 k)
            = .returned res →
          res.length = 1 ∧ res[1]? = none
            ∧ readSpecifiedValue fileTokens leftFirst file k = .outOfRange)
      ∧ readSpecifiedValues sampleFiles leftFirst "empty.mfront" (List.replicate 1 k)
          = .returned [""]
      ∧ readSpecifiedValue sampleFiles leftFirst "empty.mfront" k = .outOfRange
      ∧ readSpecifiedValue sampleFiles leftFirst "law.mfront" "@Material" = .outOfRange := by
  have key : ∀ res, readSpecifiedValues fileTokens leftFirst file (List.replicate 1 k)
      = .returned res → res = [""] := by
    intro res h
    exact readSpecifiedValues_returned fileTokens leftFirst file _ res h
  refine ⟨?_, ?_, ?_, rfl, rfl, ?_⟩
  · intro v h
    unfold readSpecifiedValue at h
    cases hr : readSpecifiedValues fileTokens leftFirst file (List.replicate 1 k) with
    | outOfRange => rw [hr] at h; cases h
    | unfinished => rw [hr] at h; cases h
    | thrown m => rw [hr] at h; cases h
    | returned res =>
      rw [hr, key res hr] at h
      cases h
  · intro h
    unfold readSpecifiedValue at h
    cases hr : readSpecifiedValues fileTokens leftFirst file (List.replicate 1 k) with
    | outOfRange => rw [hr] at h; cases h
    | unfinished =>
      unfold readSpecifiedValues at hr
      cases hf : fileTokens file with
      | error e => rw [hf] at hr; cases hr
      | ok toks =>
        rw [hf] at hr
        exact readSpecifiedValuesLoop_finishes leftFirst file _ toks _ 0 _ (Nat.zero_le _)
          (by omega) hr
    | thrown m => rw [hr] at h; cases h
    | returned res =>
      rw [hr, key res hr] at h
      cases h
  · intro res h
    have e := key res h
    subst e
    refine ⟨rfl, rfl, ?_⟩
    unfold readSpecifiedValue
    rw [h]
    rfl
  · cases leftFirst <;> rfl

theorem readSpecifiedValue_out_of_range_witness :
    readSpecifiedValue sampleFiles true "law.mfront" "@Law"
        = .thrown "DSLBase::readSpecifiedValues : unexepected token '@Law' (exepected ';')\nError at line 1"
      ∧ readSpecifiedValue sampleFiles true "empty.mfront" "@Law" = .outOfRange :=
  ⟨rfl, ((readSpecifiedValue_out_of_range sampleFiles true "empty.mfront" "@Law").2.2.1 [""]
    rfl).2.2⟩

/-! ## Reading a list of variables: the variables declared before -/

/-- The variable that a turn of the loop of `readVarList` appends has the value
and the line of the token under the cursor. -/
theorem readVarListItem_name (lib : Library) (s : DSLBase) (cont : List VariableDescription)
    (type : String) (allowArray : Bool) (cont1 : List VariableDescription) (s1 : DSLBase)
    (eot : Option String) (h : readVarListItem lib s cont type allowArray = .ok (cont1, s1, eot)) :
    ∃ v, cont1 = cont ++ [v] ∧ v.nameAndLine = s.cur.valueAndLine := by
  unfold readVarListItem at h
  simp only at h
  split at h
  · cases h
  · split at h
    · cases h
    · split at h
      · cases h
      · rename_i asize s2 hs2
        split at h
        · cases h
          exact ⟨_, rfl, rfl⟩
        · split at h
          · cases h
            exact ⟨_, rfl, rfl⟩
          · cases h

/-- The variables that the loop of `readVarList` appends are in the order of
the tokens that name them. -/
theorem readVarListLoop_order (lib : Library) (type : String) (allowArray : Bool) (fuel : Nat) :
    ∀ (s : DSLBase) (cont cont1 : List VariableDescription) (s1 : DSLBase)
      (eot : Option String),
      readVarListLoop lib type allowArray fuel s cont = .ok (cont1, s1, eot) →
      ∃ declared, cont1 = cont ++ declared
        ∧ List.Sublist (declared.map VariableDescription.nameAndLine)
            ((s.tokens.drop s.current).map Token.valueAndLine) := by
  induction fuel with
  | zero =>
    intro s cont cont1 s1 eot h
    rw [readVarListLoop] at h
    cases h
    exact ⟨[], by simp, by simp⟩
  | succ n ih =>
    intro s cont cont1 s1 eot h
    rw [readVarListLoop] at h
    by_cases h0 : s.tokens.length ≤ s.current
    · rw [if_pos h0] at h
      cases h
      exact ⟨[], by simp, by simp⟩
    · rw [if_neg h0] at h
      have hlt : s.current < s.tokens.length := by omega
      have hcur : s.cur = s.tokens[s.current] := by
        simp [DSLBase.cur, List.getD_eq_getElem?_getD, List.getElem?_eq_getElem hlt]
      have hdrop : s.tokens.drop s.current
          = s.tokens[s.current] :: s.tokens.drop (s.current + 1) :=
        List.drop_eq_getElem_cons hlt
      split at h
      · cases h
      · rename_i c2 s2 ec hitem
        cases h
        obtain ⟨v, hv1, hv2⟩ := readVarListItem_name lib s cont type allowArray _ _ _ hitem
        refine ⟨[v], hv1, ?_⟩
        rw [hdrop, List.map_cons, List.map_cons, List.map_nil, hv2, hcur]
        exact List.Sublist.cons₂ _ (List.nil_sublist _)
      · rename_i c2 s2 hitem
        obtain ⟨v, hv1, hv2⟩ := readVarListItem_name lib s cont type allowArray _ _ _ hitem
        obtain ⟨ht, -, -, -, -⟩ := readVarListItem_ok lib s cont type allowArray _ _ _ hitem
        have hc := readVarListItem_cursor lib s cont type allowArray _ _ _ hitem
        obtain ⟨declared, hd1, hd2⟩ := ih _ _ _ _ _ h
        refine ⟨v :: declared, ?_, ?_⟩
        · rw [hd1, hv1]
          simp
        · rw [hdrop, List.map_cons, List.map_cons, hv2, hcur]
          apply List.Sublist.cons₂
          rw [ht] at hd2
          exact hd2.trans ((List.drop_sublist_drop_left s.tokens (by omega)).map _)

theorem withEndComment_declaration (ec : String) (cont : List VariableDescription) :
    (withEndComment ec cont).map VariableDescription.declaration
      = cont.map VariableDescription.declaration := by
  unfold withEndComment
  by_cases h : ec ≠ ""
  · rw [if_pos h, List.map_map]
    rfl
  · rw [if_neg h]

/-- C37: a successful `readVarList` keeps the variables that the container
held as its first variables, in the same order and with the same type, name,
array size and line, and appends to them the variables declared, in the order
of the tokens that name them; when the terminating `;` has no comment, or when
the container was empty, the variables that it held are unchanged. But the
loop that adds the comment of the `;` (lines 581-586) runs over the whole
container, not over the variables of the statement: when the `;` has a comment,
the descriptions of the variables that the container held are changed, the
comment being appended to each of them, after a space when the description is
not empty. -/
theorem readVarList_appends (lib : Library) (s : DSLBase) (cont : List VariableDescription)
    (type : String) (allowArray : Bool) (cont1 : List VariableDescription) (s1 : DSLBase)
    (h : readVarList lib s cont type allowArray = .ok (cont1, s1)) :
    s1.prev.value = ";"
      ∧ ∃ declared,
          cont1 = withEndComment s1.prev.comment cont ++ declared
            ∧ (withEndComment s1.prev.comment cont).length = cont.length
            ∧ (withEndComment s1.prev.comment cont).map VariableDescription.declaration
                = cont.map VariableDescription.declaration
            ∧ (s1.prev.comment = "" → cont1 = cont ++ declared)
            ∧ (cont = [] → cont1 = cont ++ declared)
            ∧ (s1.prev.comment ≠ "" →
                withEndComment s1.prev.comment cont = cont.map (addEndComment s1.prev.comment)
                  ∧ ∀ c, (addEndComment s1.prev.comment c).description
                      = (if c.description ≠ "" then c.description ++ " " else c.description)
                          ++ s1.prev.comment)
            ∧ List.Sublist (declared.map VariableDescription.nameAndLine)
                ((s.tokens.drop s.current).map Token.valueAndLine)
            ∧ ∀ v ∈ declared, v.type = type := by
  unfold readVarList at h
  split at h
  · cases h
  · rename_i c2 s2 eot hloop
    obtain ⟨-, ⟨declared0, hd0, hd0t⟩, hec⟩ := readVarListLoop_ok lib type allowArray _ _ _ _ _ _
      hloop
    obtain ⟨declared, hd1, hd2⟩ := readVarListLoop_order lib type allowArray _ _ _ _ _ _ hloop
    have hsame : declared0 = declared := List.append_cancel_left (hd0.symm.trans hd1)
    subst hsame
    cases eot with
    | none => simp at h
    | some ec =>
      obtain ⟨hv, hc⟩ := hec ec rfl
      simp only [Option.getD_some, Option.isNone_some, Bool.false_eq_true, if_false,
        Except.ok.injEq, Prod.mk.injEq] at h
      obtain ⟨h1, h2⟩ := h
      subst h2
      refine ⟨hv, ?_⟩
      rw [hc]
      have hlen : (withEndComment ec cont).length = cont.length := by
        have := congrArg List.length (withEndComment_declaration ec cont)
        simpa using this
      by_cases he : ec = ""
      · have hw : withEndComment ec cont = cont := by
          unfold withEndComment
          rw [if_neg (not_not.mpr he)]
        refine ⟨declared0, ?_, hlen, withEndComment_declaration ec cont, ?_, ?_,
          fun hne => absurd he hne, hd2, fun v hv => (hd0t v hv).2⟩
        · rw [← h1, hd0, hw, if_neg (not_not.mpr he)]
        · intro _
          rw [← h1, hd0, if_neg (not_not.mpr he)]
        · intro _
          rw [← h1, hd0, if_neg (not_not.mpr he)]
      · have hw : withEndComment ec cont = cont.map (addEndComment ec) := by
          unfold withEndComment
          rw [if_pos he]
        refine ⟨declared0.map (addEndComment ec), ?_, hlen, withEndComment_declaration ec cont,
          fun h0 => absurd h0 he, ?_, fun _ => ⟨hw, fun c => rfl⟩, ?_, ?_⟩
        · rw [← h1, hd0, hw, if_pos he, List.map_append]
        · intro hnil
          rw [← h1, hd0, if_pos he, List.map_append, hnil]
          rfl
        · rw [List.map_map]
          exact hd2
        · intro v hv
          obtain ⟨w, hw1, rfl⟩ := List.mem_map.mp hv
          exact (hd0t w hw1).2

theorem readVarList_appends_witness :
    ∃ declared,
      [⟨"real", "z", 1, 0, "old two moduli"⟩, ⟨"real", "a", 1, 1, "two moduli"⟩,
          ⟨"real", "b", 1, 1, "two moduli"⟩]
        = withEndComment "two moduli" [earlierVariable] ++ declared
      ∧ List.Sublist (declared.map VariableDescription.nameAndLine)
          (((parserOn declTokens).tokens.drop 0).map Token.valueAndLine) := by
  obtain ⟨declared, h1, -, -, -, -, -, h2, -⟩ := (readVarList_appends sampleLibrary
    (parserOn declTokens) [earlierVariable] "real" true
    [⟨"real", "z", 1, 0, "old two moduli"⟩, ⟨"real", "a", 1, 1, "two moduli"⟩,
      ⟨"real", "b", 1, 1, "two moduli"⟩] { parserOn declTokens with current := 4 } rfl).2
  exact ⟨declared, h1, h2⟩

/-- The failing input of C37: the declaration `a , b ;` whose `;` has the
comment `two moduli`, read in a container that holds a variable `z` of
description `old`, is read with success and leaves `z` with the description
`old two moduli`. -/
theorem readVarList_earlier_description :
    ∃ c1 rest s1,
      readVarList sampleLibrary (parserOn declTokens) [earlierVariable] "real" true
          = .ok (c1 :: rest, s1)
        ∧ c1.name = earlierVariable.name
        ∧ earlierVariable.description = "old"
        ∧ c1.description = "old two moduli" :=
  ⟨_, _, _, rfl, rfl, rfl, rfl⟩

/-! ## The orthotropic stiffness tensors: properties -/

theorem stiffness3D_block {K : Type} [Field K] (C : Matrix (Fin 6) (Fin 6) K) (props : Nat → K) :
    upperLeftBlock (by decide) (CastemComputeOrthotropicStiffnessTensor3D C props)
      = stiffnessBlock (compliance props) := by
  ext i j
  fin_cases i <;> fin_cases j <;> rfl

theorem stiffness2D_block {K : Type} [Field K] (C : Matrix (Fin 4) (Fin 4) K) (props : Nat → K) :
    upperLeftBlock (by decide) (CastemComputeOrthotropicStiffnessTensor2D C props)
      = stiffnessBlock (compliance props) := by
  ext i j
  fin_cases i <;> fin_cases j <;> rfl

theorem stiffness1D_block {K : Type} [Field K] (C : Matrix (Fin 3) (Fin 3) K) (props : Nat → K) :
    CastemComputeOrthotropicStiffnessTensor1D C props = stiffnessBlock (compliance props) := by
  ext i j
  fin_cases i <;> fin_cases j <;> rfl

/-- The determinant of the compliance matrix is the expression that the code
inverts. -/
theorem complianceMatrix_det {K : Type} [Field K] (props : Nat → K) :
    (complianceMatrix props).det
      = (compliance props).S11 * (compliance props).S22 * (compliance props).S33
        + 2 * (compliance props).S23 * (compliance props).S13 * (compliance props).S12
        - (compliance props).S11 * (compliance props).S23 * (compliance props).S23
        - (compliance props).S22 * (compliance props).S13 * (compliance props).S13
        - (compliance props).S33 * (compliance props).S12 * (compliance props).S12 := by
  rw [Matrix.det_fin_three]
  simp only [complianceMatrix, compliance, Matrix.of_apply, Matrix.cons_val_zero,
    Matrix.cons_val_one, Matrix.head_cons, Matrix.cons_val_two, Matrix.tail_cons]
  ring

/-- The matrix of the cofactors of a symmetric matrix, divided by its
determinant, is its inverse. -/
theorem cofactors_mul {K : Type} [Field K] (a b c d e f : K)
    (h : a * b * c + 2 * f * e * d - a * f * f - b * e * e - c * d * d ≠ 0) :
    (Matrix.of ![![(b * c - f * f) * (1 / (a * b * c + 2 * f * e * d - a * f * f - b * e * e
            - c * d * d)),
          (e * f - d * c) * (1 / (a * b * c + 2 * f * e * d - a * f * f - b * e * e - c * d * d)),
          (d * f - e * b) * (1 / (a * b * c + 2 * f * e * d - a * f * f - b * e * e
            - c * d * d))],
        ![(e * f - d * c) * (1 / (a * b * c + 2 * f * e * d - a * f * f - b * e * e - c * d * d)),
          (a * c - e * e) * (1 / (a * b * c + 2 * f * e * d - a * f * f - b * e * e - c * d * d)),
          (d * e - a * f) * (1 / (a * b * c + 2 * f * e * d - a * f * f - b * e * e
            - c * d * d))],
        ![(d * f - e * b) * (1 / (a * b * c + 2 * f * e * d - a * f * f - b * e * e - c * d * d)),
          (d * e - a * f) * (1 / (a * b * c + 2 * f * e * d - a * f * f - b * e * e - c * d * d)),
          (a * b - d * d) * (1 / (a * b * c + 2 * f * e * d - a * f * f - b * e * e
            - c * d * d))]] : Matrix (Fin 3) (Fin 3) K)
      * Matrix.of ![![a, d, e], ![d, b, f], ![e, f, c]] = 1 := by
  ext i j
  fin_cases i <;> fin_cases j <;>
    simp [Matrix.mul_apply, Fin.sum_univ_three] <;> field_simp <;> ring

theorem stiffnessBlock_mul {K : Type} [Field K] (props : Nat → K)
    (hdet : (complianceMatrix props).det ≠ 0) :
    stiffnessBlock (compliance props) * complianceMatrix props = 1 := by
  rw [complianceMatrix_det] at hdet
  exact cofactors_mul (1 / props 0) (1 / props 1) (1 / props 2) (-props 3 / props 0)
    (-props 5 / props 0) (-props 4 / props 1) hdet

theorem stiffnessBlock_symmetric {K : Type} [Field K] (c : Compliance K) :
    (stiffnessBlock c).transpose = stiffnessBlock c := by
  ext i j
  fin_cases i <;> fin_cases j <;> rfl

/-- C40: over a field, for properties whose moduli `E1`, `E2`, `E3` are not
zero, so that `S11`, `S22`, `S33` are their inverses, and whose compliance
matrix `S` has a determinant that is not zero, the upper-left block of size 3
that `CastemComputeOrthotropicStiffnessTensor3D` writes is symmetric and is the
inverse of `S`: its product with `S`, on either side, is the identity; and
`CastemComputeOrthotropicStiffnessTensor1D` and `2D` write the same block,
whatever the tensors held before. -/
theorem orthotropicStiffness_inverse {K : Type} [Field K] (props : Nat → K)
    (C1 : Matrix (Fin 3) (Fin 3) K) (C2 : Matrix (Fin 4) (Fin 4) K)
    (C3 : Matrix (Fin 6) (Fin 6) K)
    (hE1 : props 0 ≠ 0) (hE2 : props 1 ≠ 0) (hE3 : props 2 ≠ 0)
    (hdet : (complianceMatrix props).det ≠ 0) :
    (upperLeftBlock (by decide) (CastemComputeOrthotropicStiffnessTensor3D C3 props)).transpose
        = upperLeftBlock (by decide) (CastemComputeOrthotropicStiffnessTensor3D C3 props)
      ∧ upperLeftBlock (by decide) (CastemComputeOrthotropicStiffnessTensor3D C3 props)
          * complianceMatrix props = 1
      ∧ complianceMatrix props
          * upperLeftBlock (by decide) (CastemComputeOrthotropicStiffnessTensor3D C3 props) = 1
      ∧ CastemComputeOrthotropicStiffnessTensor1D C1 props
          = upperLeftBlock (by decide) (CastemComputeOrthotropicStiffnessTensor3D C3 props)
      ∧ upperLeftBlock (by decide) (CastemComputeOrthotropicStiffnessTensor2D C2 props)
          = upperLeftBlock (by decide) (CastemComputeOrthotropicStiffnessTensor3D C3 props)
      ∧ props 0 * complianceMatrix props 0 0 = 1
      ∧ props 1 * complianceMatrix props 1 1 = 1
      ∧ props 2 * complianceMatrix props 2 2 = 1 := by
  rw [stiffness3D_block, stiffness2D_block, stiffness1D_block]
  refine ⟨stiffnessBlock_symmetric _, stiffnessBlock_mul props hdet,
    (Matrix.mul_eq_one_comm).mp (stiffnessBlock_mul props hdet), rfl, rfl, ?_, ?_, ?_⟩
  · show props 0 * (1 / props 0) = 1
    field_simp
  · show props 1 * (1 / props 1) = 1
    field_simp
  · show props 2 * (1 / props 2) = 1
    field_simp

theorem orthotropicStiffness_inverse_witness :
    upperLeftBlock (by decide) (CastemComputeOrthotropicStiffnessTensor3D 0 sampleProperties)
        * complianceMatrix sampleProperties = 1 :=
  (orthotropicStiffness_inverse sampleProperties 0 0 0 (by decide) (by decide) (by decide)
    (by
      rw [Matrix.det_fin_three]
      simp only [complianceMatrix, sampleProperties, Matrix.of_apply, Matrix.cons_val_zero,
        Matrix.cons_val_one, Matrix.head_cons, Matrix.cons_val_two, Matrix.tail_cons,
        List.getD_cons_zero, List.getD_cons_succ]
      norm_num)).2.1

/-! ## The instruction that `ignoreKeyWord` skips -/

theorem skipOutcome_succ (s : DSLBase) (key : String) (o : Option Nat) :
    skipOutcome { s with current := s.current + 1 } key o
      = skipOutcome s key (o.map (· + 1)) := by
  cases o with
  | none => rfl
  | some i =>
    have e : s.current + 1 + i = s.current + (i + 1) := by omega
    simp only [skipOutcome, Option.map_some']
    rw [e]

theorem instructionStop_spec (ts : List Token) :
    ∀ i, instructionStop ts = some i →
      i < ts.length ∧ ((ts.getD i default).value = "\x7b" ∨ (ts.getD i default).value = ";")
        ∧ ∀ k, k < i → (ts.getD k default).value ≠ "\x7b" ∧ (ts.getD k default).value ≠ ";" := by
  induction ts with
  | nil =>
    intro i h
    cases h
  | cons t ts ih =>
    intro i h
    rw [instructionStop] at h
    by_cases hv : t.value = "\x7b" ∨ t.value = ";"
    · rw [if_pos hv] at h
      cases h
      exact ⟨Nat.succ_pos _, hv, fun k hk => absurd hk (Nat.not_lt_zero k)⟩
    · rw [if_neg hv] at h
      cases hr : instructionStop ts with
      | none =>
        rw [hr] at h
        cases h
      | some j =>
        rw [hr] at h
        simp only [Option.map_some', Option.some.injEq] at h
        subst h
        obtain ⟨h1, h2, h3⟩ := ih j hr
        refine ⟨Nat.succ_lt_succ h1, h2, ?_⟩
        intro k hk
        cases k with
        | zero => exact ⟨fun e => hv (Or.inl e), fun e => hv (Or.inr e)⟩
        | succ k => exact h3 k (by omega)

/-- The first loop of `ignoreKeyWord` stops on the first token that is `;` or
`\x7b`, or fails at the end of the tokens. -/
theorem ignoreKeyWordWords_run (key : String) :
    ∀ (ts : List Token) (s : DSLBase) (n : Nat), s.tokens.drop s.current = ts →
      s.current < s.tokens.length → ts.length ≤ n →
      Checked.ignoreKeyWordWords key n s = skipOutcome s key (instructionStop ts) := by
  intro ts
  induction ts with
  | nil =>
    intro s n hts hlt _
    rw [drop_cursor s hlt] at hts
    cases hts
  | cons t ts ih =>
    intro s n hts hlt hn
    rw [drop_cursor s hlt] at hts
    obtain ⟨ht, hrest⟩ := List.cons.inj hts
    cases n with
    | zero => simp at hn
    | succ n =>
      rw [Checked.ignoreKeyWordWords]
      simp only [bind_currentToken s hlt]
      rw [instructionStop, ← ht]
      by_cases hv : s.cur.value = "\x7b" ∨ s.cur.value = ";"
      · rw [if_pos hv, if_neg (by
          intro hc
          rcases hv with hv | hv
          · exact hc.1 hv
          · exact hc.2 hv)]
        rfl
      · rw [if_neg hv, if_pos ⟨fun e => hv (Or.inl e), fun e => hv (Or.inr e)⟩]
        simp only [bind_advance s hlt]
        rw [← skipOutcome_succ]
        by_cases he : s.current + 1 = s.tokens.length
        · rw [bind_check_end { s with current := s.current + 1 } _ _ he]
          have hnil : ts = [] := by
            rw [← hrest, he, List.drop_length]
          rw [hnil]
          show _ = Except.error (Abort.thrown (endOfFileFailure
            { s with current := s.tokens.length } _ _))
          rw [← he]
        · have hlt1 : ({ s with current := s.current + 1 } : DSLBase).current
              < ({ s with current := s.current + 1 } : DSLBase).tokens.length := by
            show s.current + 1 < s.tokens.length
            omega
          rw [bind_check_ok { s with current := s.current + 1 } _ _ hlt1]
          exact ih { s with current := s.current + 1 } n hrest hlt1
            (by simp only [List.length_cons] at hn; omega)

/-- The second loop of `ignoreKeyWord`, from a token on which it does not end,
ends on the token that `ignoreKeyWordBlockEnd` gives, or fails at the end of
the tokens. -/
theorem ignoreKeyWordBlock_run (key : String) :
    ∀ (ts : List Token) (s : DSLBase) (o n : Nat), s.tokens.drop (s.current + 1) = ts →
      s.current < s.tokens.length → ts.length + 1 < n →
      ¬ (s.cur.value = "\x7d" ∧ o = 0) →
      Checked.ignoreKeyWordBlock key n s o
        = skipOutcome s key ((ignoreKeyWordBlockEnd o ts).map (· + 1)) := by
  intro ts
  induction ts with
  | nil =>
    intro s o n hts hlt hn hgo
    have he : s.current + 1 = s.tokens.length := by
      have := congrArg List.length hts
      simp only [List.length_drop, List.length_nil] at this
      omega
    cases n with
    | zero => omega
    | succ n =>
      rw [Checked.ignoreKeyWordBlock]
      simp only [bind_currentToken s hlt]
      rw [if_pos hgo]
      simp only [bind_advance s hlt]
      rw [bind_check_end { s with current := s.current + 1 } _ _ he]
      show _ = Except.error (Abort.thrown (endOfFileFailure { s with current := s.tokens.length }
        _ _))
      rw [← he]
  | cons t ts ih =>
    intro s o n hts hlt hn hgo
    have hlt1 : ({ s with current := s.current + 1 } : DSLBase).current
        < ({ s with current := s.current + 1 } : DSLBase).tokens.length := by
      show s.current + 1 < s.tokens.length
      have := congrArg List.length hts
      simp only [List.length_drop, List.length_cons] at this
      omega
    have hts1 := hts
    rw [drop_cursor { s with current := s.current + 1 } hlt1] at hts1
    obtain ⟨ht, hrest⟩ := List.cons.inj hts1
    cases n with
    | zero => omega
    | succ n =>
      rw [Checked.ignoreKeyWordBlock]
      simp only [bind_currentToken s hlt]
      rw [if_pos hgo]
      simp only [bind_advance s hlt]
      rw [bind_check_ok { s with current := s.current + 1 } _ _ hlt1]
      simp only [bind_currentToken { s with current := s.current + 1 } hlt1]
      rw [ht]
      show Checked.ignoreKeyWordBlock key n { s with current := s.current + 1 } (countBracket o t)
        = _
      rw [ignoreKeyWordBlockEnd]
      by_cases hstop : t.value = "\x7d" ∧ countBracket o t = 0
      · rw [if_pos hstop]
        cases n with
        | zero => simp only [List.length_cons] at hn; omega
        | succ n =>
          rw [Checked.ignoreKeyWordBlock]
          simp only [bind_currentToken { s with current := s.current + 1 } hlt1]
          rw [ht, if_neg (not_not.mpr hstop)]
          rfl
      · rw [if_neg hstop, ← skipOutcome_succ]
        exact ih { s with current := s.current + 1 } (countBracket o t) n hrest hlt1
          (by simp only [List.length_cons] at hn; omega) (by rw [ht]; exact hstop)

theorem ignoreKeyWordBlockEnd_lt :
    ∀ (ts : List Token) (o j : Nat), ignoreKeyWordBlockEnd o ts = some j → j < ts.length := by
  intro ts
  induction ts with
  | nil =>
    intro o j h
    cases h
  | cons t ts ih =>
    intro o j h
    rw [ignoreKeyWordBlockEnd] at h
    by_cases hstop : t.value = "\x7d" ∧ countBracket o t = 0
    · rw [if_pos hstop] at h
      cases h
      exact Nat.succ_pos _
    · rw [if_neg hstop] at h
      cases hr : ignoreKeyWordBlockEnd (countBracket o t) ts with
      | none =>
        rw [hr] at h
        cases h
      | some k =>
        rw [hr] at h
        simp only [Option.map_some', Option.some.injEq] at h
        subst h
        exact Nat.succ_lt_succ (ih _ k hr)

theorem le_deepest : ∀ (ts : List Token) (d : Nat), d ≤ deepest d ts := by
  intro ts
  cases ts with
  | nil => intro d; exact Nat.le_refl d
  | cons t ts =>
    intro d
    rw [deepest]
    by_cases hstop : t.value = "\x7d" ∧ depthAfter d t = 0
    · rw [if_pos hstop]
    · rw [if_neg hstop]
      exact Nat.le_max_left _ _

/-- The counter of the code is the number of the opened blocks modulo 65536. -/
theorem countBracket_depth (d : Nat) (t : Token) (h : 1 ≤ d) :
    countBracket (d % ushortRange) t = depthAfter d t % ushortRange := by
  unfold countBracket depthAfter ushortRange
  by_cases h1 : t.value = "\x7b"
  · have h2 : t.value ≠ "\x7d" := by
      rw [h1]
      decide
    simp only [if_pos h1, if_neg h2]
    omega
  · by_cases h2 : t.value = "\x7d"
    · simp only [if_neg h1, if_pos h2]
      omega
    · simp only [if_neg h1, if_neg h2]

/-- While no more than 65536 blocks are opened at a time, the second loop of
`ignoreKeyWord` ends on the `\x7d` that closes the block. -/
theorem ignoreKeyWordBlockEnd_matching :
    ∀ (ts : List Token) (d : Nat), 1 ≤ d → deepest d ts ≤ ushortRange →
      ignoreKeyWordBlockEnd (d % ushortRange) ts = matchingClose d ts := by
  intro ts
  induction ts with
  | nil =>
    intro d _ _
    rfl
  | cons t ts ih =>
    intro d h1 h2
    rw [ignoreKeyWordBlockEnd, matchingClose, countBracket_depth d t h1]
    have hd : d ≤ ushortRange := Nat.le_trans (le_deepest (t :: ts) d) h2
    by_cases hc : t.value = "\x7d"
    · have hda : depthAfter d t = d - 1 := by
        unfold depthAfter
        have h0 : t.value ≠ "\x7b" := by
          rw [hc]
          decide
        rw [if_neg h0, if_pos hc]
      have hmod : depthAfter d t % ushortRange = depthAfter d t := by
        rw [hda]
        apply Nat.mod_eq_of_lt
        unfold ushortRange at hd ⊢
        omega
      rw [hmod]
      by_cases hz : depthAfter d t = 0
      · rw [if_pos ⟨hc, hz⟩, if_pos ⟨hc, hz⟩]
      · rw [if_neg (fun h => hz h.2), if_neg (fun h => hz h.2)]
        rw [deepest, if_neg (fun h => hz h.2)] at h2
        rw [← hmod, ih (depthAfter d t) (by omega) (Nat.le_trans (Nat.le_max_right _ _) h2)]
        rw [hmod]
    · rw [if_neg (fun h => hc h.1), if_neg (fun h => hc h.1)]
      rw [deepest, if_neg (fun h => hc h.1)] at h2
      have hpos : 1 ≤ depthAfter d t := by
        unfold depthAfter
        rw [if_neg hc]
        by_cases h0 : t.value = "\x7b"
        · rw [if_pos h0]
          omega
        · rw [if_neg h0]
          exact h1
      rw [ih (depthAfter d t) hpos (Nat.le_trans (Nat.le_max_right _ _) h2)]

theorem cur_drop (s : DSLBase) (i : Nat) :
    ({ s with current := s.current + i } : DSLBase).cur
      = (s.tokens.drop s.current).getD i default := by
  unfold DSLBase.cur
  simp only [List.getD_eq_getElem?_getD, List.getElem?_drop]

/-- The run of `ignoreKeyWord`, the end of a block being the token on which its
second loop ends. -/
theorem ignoreKeyWord_run (s : DSLBase) (key : String) (h : s.current ≤ s.tokens.length) :
    Checked.ignoreKeyWord s key
      = skipOutcome s key
          (skipInstructionWith (ignoreKeyWordBlockEnd 1) (s.tokens.drop s.current)) := by
  unfold Checked.ignoreKeyWord
  by_cases he : s.current = s.tokens.length
  · rw [bind_check_end s _ _ he, drop_end s he]
    show _ = Except.error (Abort.thrown (endOfFileFailure { s with current := s.tokens.length }
      _ _))
    rw [← he]
  · have hlt : s.current < s.tokens.length := by omega
    rw [bind_check_ok s _ _ hlt,
      ignoreKeyWordWords_run key _ s _ rfl hlt (by simp only [List.length_drop]; omega)]
    unfold skipInstructionWith
    cases hi : instructionStop (s.tokens.drop s.current) with
    | none => rfl
    | some i =>
      obtain ⟨hi1, hi2, -⟩ := instructionStop_spec _ i hi
      simp only [List.length_drop] at hi1
      have hlt1 : ({ s with current := s.current + i } : DSLBase).current
          < ({ s with current := s.current + i } : DSLBase).tokens.length := by
        show s.current + i < s.tokens.length
        omega
      simp only [skipOutcome, ok_bind, bind_currentToken { s with current := s.current + i } hlt1]
      rw [cur_drop s i]
      by_cases hb : ((s.tokens.drop s.current).getD i default).value = "\x7b"
      · have hsemi : ((s.tokens.drop s.current).getD i default).value ≠ ";" := by
          rw [hb]
          decide
        rw [if_pos hb, if_neg hsemi]
        have hafter : ({ s with current := s.current + i } : DSLBase).tokens.drop
            (({ s with current := s.current + i } : DSLBase).current + 1)
            = (s.tokens.drop s.current).drop (i + 1) := by
          show s.tokens.drop (s.current + i + 1) = _
          rw [List.drop_drop]
          rfl
        have hgo : ¬ (({ s with current := s.current + i } : DSLBase).cur.value = "\x7d"
            ∧ 1 = 0) := fun hc => absurd hc.2 (by decide)
        rw [ignoreKeyWordBlock_run key _ { s with current := s.current + i } 1 _ hafter hlt1
          (by
            show ((s.tokens.drop s.current).drop (i + 1)).length + 1 < s.tokens.length + 1
            simp only [List.length_drop]
            omega) hgo]
        cases hj : ignoreKeyWordBlockEnd 1 ((s.tokens.drop s.current).drop (i + 1)) with
        | none => rfl
        | some j =>
          have hj1 := ignoreKeyWordBlockEnd_lt _ _ _ hj
          simp only [List.length_drop] at hj1
          have hlt2 : ({ s with current := s.current + i + (j + 1) } : DSLBase).current
              < ({ s with current := s.current + i + (j + 1) } : DSLBase).tokens.length := by
            show s.current + i + (j + 1) < s.tokens.length
            omega
          simp only [skipOutcome, Option.map_some', ok_bind]
          simp only [bind_advance { s with current := s.current + i + (j + 1) } hlt2]
          unfold skipBlock
          simp only [List.head?_drop, List.getElem?_drop]
          by_cases hend : s.current + i + (j + 1) + 1 = s.tokens.length
          · rw [if_pos hend]
            simp only [pure_bind, bind_advance { s with current := s.current + i + (j + 1) } hlt2]
            rw [List.getElem?_eq_none (by omega)]
            simp only [Option.map_none', if_false, Option.map_some']
            have e : s.current + i + (j + 1) + 1 = s.current + (j + 1 + (i + 1)) := by omega
            rw [e]
            rfl
          · rw [if_neg hend]
            have hlt3 : ({ s with current := s.current + i + (j + 1) + 1 } : DSLBase).current
                < ({ s with current := s.current + i + (j + 1) + 1 } : DSLBase).tokens.length := by
              show s.current + i + (j + 1) + 1 < s.tokens.length
              omega
            simp only [bind_currentToken { s with current := s.current + i + (j + 1) + 1 } hlt3]
            have hidx : s.current + (i + 1 + (j + 1)) = s.current + i + (j + 1) + 1 := by omega
            have hnext : ({ s with current := s.current + i + (j + 1) + 1 } : DSLBase).cur
                = s.tokens[s.current + i + (j + 1) + 1] := by
              simp [DSLBase.cur, List.getD_eq_getElem?_getD, List.getElem?_eq_getElem hlt3]
            rw [hnext, hidx, List.getElem?_eq_getElem hlt3]
            simp only [Option.map_some', Option.some.injEq]
            by_cases hs : (s.tokens[s.current + i + (j + 1) + 1]).value = ";"
            · rw [if_pos hs, if_pos hs]
              simp only [pure_bind,
                bind_advance { s with current := s.current + i + (j + 1) + 1 } hlt3,
                Option.map_some']
              have e : s.current + i + (j + 1) + 1 + 1 = s.current + (j + 2 + (i + 1)) := by omega
              rw [e]
              rfl
            · rw [if_neg hs, if_neg hs]
              simp only [pure_bind,
                bind_advance { s with current := s.current + i + (j + 1) } hlt2,
                Option.map_some']
              have e : s.current + i + (j + 1) + 1 = s.current + (j + 1 + (i + 1)) := by omega
              rw [e]
              rfl
      · have hsemi : ((s.tokens.drop s.current).getD i default).value = ";" := by
          rcases hi2 with h1 | h1
          · exact absurd h1 hb
          · exact h1
        rw [if_neg hb, if_pos hsemi]
        simp only [pure_bind, bind_advance { s with current := s.current + i } hlt1]
        rfl

theorem skipInstructionWith_congr (close1 close2 : List Token → Option Nat) (ts : List Token)
    (h : ∀ i, instructionStop ts = some i → (ts.getD i default).value = "\x7b" →
      close1 (ts.drop (i + 1)) = close2 (ts.drop (i + 1))) :
    skipInstructionWith close1 ts = skipInstructionWith close2 ts := by
  unfold skipInstructionWith
  cases hi : instructionStop ts with
  | none => rfl
  | some i =>
    obtain ⟨-, hi2, -⟩ := instructionStop_spec ts i hi
    by_cases hs : (ts.getD i default).value = ";"
    · simp only [if_pos hs]
    · have hb : (ts.getD i default).value = "\x7b" := by
        rcases hi2 with h1 | h1
        · exact h1
        · exact absurd h1 hs
      simp only [if_neg hs]
      rw [h i hi hb]

/-- C39 (amended): from a cursor within the tokens or at their end,
`ignoreKeyWord` skips the instruction at the cursor, as `skipInstruction` tells
it: it goes to the first token that is `;` or `\x7b`; after a `;` the cursor is
left just after it; after a `\x7b` the cursor is left just after the `\x7d`
that matches it, the nested blocks being balanced, and after the `;` that
immediately follows this `\x7d` when there is one; when the tokens end before
the `;` or before the matching `\x7d`, it throws the exception of an unexpected
end of file. This holds when no more than 65536 blocks are opened at a time in
the block, the range of the counter of the opened blocks. Whatever the blocks,
the run ends: it returns or throws, with the cursor within the tokens or at
their end, and the bound of no loop is reached. -/
theorem ignoreKeyWord_skips (s : DSLBase) (key : String) (h : s.current ≤ s.tokens.length) :
    ((∀ i, instructionStop (s.tokens.drop s.current) = some i →
          ((s.tokens.drop s.current).getD i default).value = "\x7b" →
          deepest 1 ((s.tokens.drop s.current).drop (i + 1)) ≤ ushortRange) →
        Checked.ignoreKeyWord s key
          = skipOutcome s key (skipInstruction (s.tokens.drop s.current)))
      ∧ EndsWell s.tokens (Checked.ignoreKeyWord s key)
      ∧ ∀ a, Checked.ignoreKeyWord s key ≠ .error (.unfinished a) := by
  refine ⟨fun hd => ?_, ignoreKeyWord_ends s key h, ?_⟩
  · rw [ignoreKeyWord_run s key h]
    unfold skipInstruction
    rw [skipInstructionWith_congr (ignoreKeyWordBlockEnd 1) (matchingClose 1)]
    intro i hi hb
    have e : 1 % ushortRange = 1 := by decide
    have hm := ignoreKeyWordBlockEnd_matching ((s.tokens.drop s.current).drop (i + 1)) 1
      (Nat.le_refl 1) (hd i hi hb)
    rw [e] at hm
    exact hm
  · intro a ha
    have hw := ignoreKeyWord_ends s key h
    rw [ha] at hw
    exact hw

theorem ignoreKeyWord_skips_witness :
    Checked.ignoreKeyWord { parserOn nestedInstruction with current := 1 } "@K"
        = .ok ((), { parserOn nestedInstruction with current := 9 })
      ∧ skipInstruction (nestedInstruction.drop 1) = some 8 :=
  ⟨((ignoreKeyWord_skips { parserOn nestedInstruction with current := 1 } "@K"
      (by decide)).1 (by
        intro i hi _
        have e : instructionStop
            (({ parserOn nestedInstruction with current := 1 } : DSLBase).tokens.drop
              ({ parserOn nestedInstruction with current := 1 } : DSLBase).current)
            = some 1 := by decide
        rw [e] at hi
        cases hi
        decide)).trans (by rfl), by decide⟩

theorem countBracket_opening (o : Nat) :
    countBracket o openingBrace = (o + 1) % ushortRange := by
  unfold countBracket
  have h1 : openingBrace.value = "\x7b" := rfl
  have h2 : openingBrace.value ≠ "\x7d" := by decide
  simp only [if_pos h1, if_neg h2]

/-- The second loop of `ignoreKeyWord` on `k` tokens `\x7b`. -/
theorem ignoreKeyWordBlockEnd_opens (rest : List Token) :
    ∀ (k o : Nat), o < ushortRange →
      ignoreKeyWordBlockEnd o (List.replicate k openingBrace ++ rest)
        = (ignoreKeyWordBlockEnd ((o + k) % ushortRange) rest).map (· + k) := by
  intro k
  induction k with
  | zero =>
    intro o ho
    rw [List.replicate_zero, List.nil_append, Nat.add_zero, Nat.mod_eq_of_lt ho]
    cases ignoreKeyWordBlockEnd o rest <;> rfl
  | succ k ih =>
    intro o ho
    rw [List.replicate_succ, List.cons_append, ignoreKeyWordBlockEnd, countBracket_opening,
      if_neg (fun hc => absurd hc.1 (by decide)),
      ih ((o + 1) % ushortRange) (Nat.mod_lt _ (by decide))]
    have e : ((o + 1) % ushortRange + k) % ushortRange = (o + (k + 1)) % ushortRange := by
      unfold ushortRange
      omega
    rw [e]
    cases ignoreKeyWordBlockEnd ((o + (k + 1)) % ushortRange) rest <;> rfl

theorem depthAfter_opening (d : Nat) : depthAfter d openingBrace = d + 1 := by
  unfold depthAfter
  have h1 : openingBrace.value = "\x7b" := rfl
  rw [if_pos h1]

theorem depthAfter_closing (d : Nat) : depthAfter d closingBrace = d - 1 := by
  unfold depthAfter
  have h1 : closingBrace.value ≠ "\x7b" := by decide
  have h2 : closingBrace.value = "\x7d" := rfl
  rw [if_neg h1, if_pos h2]

/-- The `\x7d` that matches, after `k` tokens `\x7b`. -/
theorem matchingClose_opens (rest : List Token) :
    ∀ (k d : Nat),
      matchingClose d (List.replicate k openingBrace ++ rest)
        = (matchingClose (d + k) rest).map (· + k) := by
  intro k
  induction k with
  | zero =>
    intro d
    rw [List.replicate_zero, List.nil_append, Nat.add_zero]
    cases matchingClose d rest <;> rfl
  | succ k ih =>
    intro d
    rw [List.replicate_succ, List.cons_append, matchingClose, depthAfter_opening,
      if_neg (fun hc => absurd hc.1 (by decide)), ih (d + 1)]
    have e : d + 1 + k = d + (k + 1) := by omega
    rw [e]
    cases matchingClose (d + (k + 1)) rest <;> rfl

/-- The last of `d` tokens `\x7d` closes the outermost of `d` opened blocks. -/
theorem matchingClose_closes (rest : List Token) :
    ∀ (d : Nat), matchingClose (d + 1) (List.replicate (d + 1) closingBrace ++ rest) = some d := by
  intro d
  induction d with
  | zero =>
    rw [List.replicate_succ, List.cons_append, matchingClose, depthAfter_closing]
    rw [if_pos ⟨rfl, rfl⟩]
  | succ d ih =>
    rw [List.replicate_succ, List.cons_append, matchingClose, depthAfter_closing]
    rw [if_neg (fun hc => absurd hc.2 (by omega))]
    show (matchingClose (d + 1) (List.replicate (d + 1) closingBrace ++ rest)).map (· + 1) = _
    rw [ih]
    rfl

theorem deepBlock_after :
    deepBlock.drop 1 = List.replicate 65536 openingBrace ++ List.replicate 65537 closingBrace :=
  rfl

/-- The second loop of `ignoreKeyWord` on 65537 nested blocks ends on the first
`\x7d`. -/
theorem deepBlock_end :
    ignoreKeyWordBlockEnd 1 (List.replicate 65536 openingBrace ++ List.replicate 65537 closingBrace)
      = some 65536 := by
  rw [ignoreKeyWordBlockEnd_opens _ 65536 1 (by decide)]
  have e : (1 + 65536) % ushortRange = 1 := by decide
  have e2 : List.replicate 65537 closingBrace
      = closingBrace :: List.replicate 65536 closingBrace :=
    List.replicate_succ closingBrace 65536
  rw [e, e2, ignoreKeyWordBlockEnd, if_pos ⟨rfl, by decide⟩]
  rfl

/-- The `\x7d` that matches the first `\x7b` of 65537 nested blocks is the
last one. -/
theorem deepBlock_matching :
    matchingClose 1 (List.replicate 65536 openingBrace ++ List.replicate 65537 closingBrace)
      = some 131072 := by
  rw [matchingClose_opens _ 65536 1]
  have e : List.replicate 65537 closingBrace = List.replicate (65536 + 1) closingBrace ++ [] := by
    rw [List.append_nil]
  rw [e]
  show (matchingClose (65536 + 1) (List.replicate (65536 + 1) closingBrace ++ [])).map
    (· + 65536) = _
  rw [matchingClose_closes [] 65536]
  rfl

theorem deepBlock_drop_first :
    (List.replicate 65536 openingBrace ++ List.replicate 65537 closingBrace).drop (65536 + 1)
      = List.replicate 65536 closingBrace := by
  rw [List.drop_append_eq_append_drop, List.length_replicate, List.drop_replicate,
    List.drop_replicate]
  rfl

theorem deepBlock_drop_last :
    (List.replicate 65536 openingBrace ++ List.replicate 65537 closingBrace).drop (131072 + 1)
      = [] := by
  apply List.drop_eq_nil_of_le
  rw [List.length_append, List.length_replicate, List.length_replicate]

/-- C39 (counterexample): on 65537 nested blocks, 65537 tokens `\x7b` followed
by 65537 tokens `\x7d`, `ignoreKeyWord` leaves the cursor after the first
`\x7d`, at the position 65538, whereas the `\x7d` that matches the first
`\x7b` is the last token, so that the instruction has the 131074 tokens: the
counter of the opened blocks, an `unsigned short`, is 0 again once 65536 blocks
are opened after the first one. -/
theorem ignoreKeyWord_skips_counterexample :
    Checked.ignoreKeyWord (parserOn deepBlock) "@K"
        = .ok ((), { parserOn deepBlock with current := 65538 })
      ∧ matchingClose 1 (deepBlock.drop 1) = some 131072
      ∧ skipInstruction deepBlock = some 131074
      ∧ deepBlock.length = 131074 := by
  have hstop : instructionStop deepBlock = some 0 := rfl
  have hfirst : (deepBlock.getD 0 default).value ≠ ";" := by decide
  refine ⟨?_, ?_, ?_, ?_⟩
  · rw [ignoreKeyWord_run (parserOn deepBlock) "@K" (Nat.zero_le _)]
    show skipOutcome (parserOn deepBlock) "@K" (skipInstructionWith (ignoreKeyWordBlockEnd 1)
      deepBlock) = _
    unfold skipInstructionWith
    rw [hstop]
    simp only [if_neg hfirst]
    rw [deepBlock_after, deepBlock_end]
    unfold skipBlock
    simp only [deepBlock_drop_first]
    rfl
  · rw [deepBlock_after, deepBlock_matching]
  · unfold skipInstruction skipInstructionWith
    rw [hstop]
    simp only [if_neg hfirst]
    rw [deepBlock_after, deepBlock_matching]
    unfold skipBlock
    simp only [deepBlock_drop_last]
    rfl
  · unfold deepBlock
    rw [List.length_cons, List.length_append, List.length_replicate, List.length_replicate]

/-! ## Reading a block: the range of the counter of opened blocks -/

/-- The loop of `readNextBlock` on `k` opening delimiters: they are counted
modulo `2 ^ 32`. -/
theorem readNextBlockLoop_opens (o : CodeBlockParserOptions) (opT : Token) (rest : List Token)
    (hop : opT.value = o.delim1) (hcl : opT.value ≠ o.delim2) (hsc : opT.value ≠ ";") :
    ∀ (k : Nat) (previous : Token) (s : DSLBase) (acc : BlockAcc),
      acc.openedBlock < uintRange →
      ∃ previous1 s1 acc1,
        readNextBlockLoop o (List.replicate k opT ++ rest) previous s acc
            = readNextBlockLoop o rest previous1 s1 acc1
          ∧ s1.tokens = s.tokens ∧ s1.current = s.current + k
          ∧ acc1.openedBlock = (acc.openedBlock + k) % uintRange := by
  intro k
  induction k with
  | zero =>
    intro previous s acc hacc
    exact ⟨previous, s, acc, rfl, rfl, rfl, (Nat.mod_eq_of_lt hacc).symm⟩
  | succ k ih =>
    intro previous s acc hacc
    have hstep : (treatToken o s previous opT (lineChange o s opT acc)).openedBlock
        = (acc.openedBlock + 1) % uintRange := by
      simp only [treatToken, lineChange_openedBlock, if_pos hop, if_neg hcl]
    obtain ⟨previous1, s1, acc1, e, ht, hc, ho⟩ := ih opT
      { analyse o s opT.value with current := (analyse o s opT.value).current + 1 }
      (treatToken o s previous opT (lineChange o s opT acc))
      (by rw [hstep]; exact Nat.mod_lt _ (by decide))
    refine ⟨previous1, s1, acc1, ?_, ?_, ?_, ?_⟩
    · rw [List.replicate_succ, List.cons_append, readNextBlockLoop,
        if_neg (fun hc1 => hcl hc1.1)]
      simp only [if_neg (fun hc1 : opT.value = ";" ∧ o.allowSemiColon = false => hsc hc1.1)]
      exact e
    · rw [ht]
      exact analyse_tokens o s opT.value
    · rw [hc]
      show (analyse o s opT.value).current + 1 + k = s.current + (k + 1)
      rw [analyse_current]
      omega
    · rw [ho, hstep]
      unfold uintRange
      omega

theorem deepBody_opens :
    opens semiColonForbidden deepBody - closes semiColonForbidden deepBody = 4294967296 := by
  have h1 : opens semiColonForbidden deepBody = 4294967296 := by
    unfold opens deepBody
    rw [List.countP_cons_of_pos _ _ (by decide), List.countP_replicate, if_pos (by decide)]
  have h2 : closes semiColonForbidden deepBody = 0 := by
    unfold closes deepBody
    rw [List.countP_cons_of_neg _ _ (by decide), List.countP_replicate, if_neg (by decide)]
  rw [h1, h2]

theorem deepBody_free : ∀ t ∈ deepBody, t.value ≠ ";" := by
  intro t ht
  have h : t = openingBrace := by
    unfold deepBody at ht
    rcases List.mem_cons.1 ht with h | h
    · exact h
    · exact List.eq_of_mem_replicate h
  rw [h]
  decide

theorem deepSemiColon_length : deepSemiColon.length = 4294967298 := by
  unfold deepSemiColon
  rw [List.length_cons, List.length_cons, List.length_append, List.length_replicate,
    List.length_singleton]

/-- The loop of `readNextBlock` is entered after the first token of the body,
with the tokens that follow it. -/
theorem readNextBlock_enters (o : CodeBlockParserOptions) (s : DSLBase) (t1 t2 : Token)
    (rest : List Token) (hs : s.tokens = t1 :: t2 :: rest) (hc : s.current = 0)
    (h1 : t1.value = o.delim1) (hsc : ¬ (t2.value = ";" ∧ o.allowSemiColon = false))
    (hcl : t2.value ≠ o.delim2) :
    ∃ s2 acc, readNextBlock s o = readNextBlockLoop o rest t2 s2 acc
      ∧ s2.tokens = s.tokens ∧ s2.current = 2
      ∧ acc.openedBlock = if t2.value = o.delim1 then 1 else 0 := by
  have hlen : s.tokens.length = rest.length + 2 := by
    rw [hs, List.length_cons, List.length_cons]
  have hcur0 : s.cur = t1 := cur_eq s [] t1 (t2 :: rest) hs hc
  have hfirst : readSpecifiedToken s "DSLBase::readNextBlock" o.delim1
      = .ok ((), { s with current := s.current + 1 }) :=
    readSpecifiedToken_ok s _ _ (by omega) (by rw [hcur0, h1])
  have hcur1 : ({ s with current := s.current + 1 } : DSLBase).cur = t2 :=
    cur_eq _ [t1] t2 rest hs (by show s.current + 1 = 1; omega)
  have hdrop : s.tokens.drop (s.current + 1 + 1) = rest := by
    rw [hs, hc]
    rfl
  refine ⟨{ analyse o { s with current := s.current + 1 } t2.value with
      current := (analyse o { s with current := s.current + 1 } t2.value).current + 1 },
    treatFirstToken o { s with current := s.current + 1 } t2 (initialBlock s)
      (if t2.value = o.delim1 then (0 + 1) % uintRange else 0), ?_, ?_, ?_, ?_⟩
  · unfold readNextBlock
    simp only [hfirst]
    rw [checkNotEndOfFile_ok _ _ _ (by show s.current + 1 < s.tokens.length; omega)]
    simp only [hcur1]
    rw [if_neg hsc, if_neg hcl, hdrop]
  · show (analyse o { s with current := s.current + 1 } t2.value).tokens = s.tokens
    rw [analyse_tokens]
  · show (analyse o { s with current := s.current + 1 } t2.value).current + 1 = 2
    rw [analyse_current]
    show s.current + 1 + 1 = 2
    omega
  · show (if t2.value = o.delim1 then (0 + 1) % uintRange else 0)
      = if t2.value = o.delim1 then 1 else 0
    rfl

/-- Counterexample of C5 as stated, without a bound on the number of tokens: in
a block whose body is 4294967296 tokens `\x7b` followed by its first `;`, with
`allowSemiColon` false, the message of the error cites 0 opened block at the
`;`, whereas 4294967296 blocks are opened there: the counter of the opened
blocks is an `unsigned int`. -/
theorem readNextBlock_semicolon_counterexample :
    deepSemiColon = openingBrace :: (deepBody ++ [tok ";" 1])
      ∧ (∀ t ∈ deepBody, t.value ≠ ";")
      ∧ opens semiColonForbidden deepBody - closes semiColonForbidden deepBody = 4294967296
      ∧ ∃ f, readNextBlock (parserOn deepSemiColon) semiColonForbidden = .error f
          ∧ f.msg = "DSLBase::readNextBlock: read ';' before the end of block.\nNumber of block opened : 0\nError at line 1" := by
  refine ⟨rfl, deepBody_free, deepBody_opens, ?_⟩
  obtain ⟨s0, acc0, e0, ht0, hc0, ho0⟩ := readNextBlock_enters semiColonForbidden
    (parserOn deepSemiColon) openingBrace openingBrace
    (List.replicate 4294967295 openingBrace ++ [tok ";" 1]) rfl rfl rfl
    (fun hx => absurd hx.1 (by decide)) (by decide)
  have ho1 : acc0.openedBlock = 1 := by
    rw [ho0]
    rfl
  obtain ⟨previous1, s1, acc1, e, ht, hc, ho⟩ := readNextBlockLoop_opens semiColonForbidden
    openingBrace [tok ";" 1] rfl (by decide) (by decide) 4294967295 openingBrace s0 acc0
    (by rw [ho1]; decide)
  have ht1 : s1.tokens = deepSemiColon := by
    rw [ht, ht0]
    rfl
  have hc2 : s1.current = 4294967297 := by
    rw [hc, hc0]
  have hzero : acc1.openedBlock = 0 := by
    rw [ho, ho1]
    decide
  have hcur : s1.cur = tok ";" 1 :=
    cur_eq s1 (openingBrace :: openingBrace :: List.replicate 4294967295 openingBrace)
      (tok ";" 1) [] (by rw [ht1]; rfl)
      (by
        rw [hc2, List.length_cons, List.length_cons, List.length_replicate])
  have hlt : s1.current < s1.tokens.length := by
    rw [hc2, ht1, deepSemiColon_length]
    decide
  refine ⟨throwRuntimeError s1 "DSLBase::readNextBlock"
    ("read ';' before the end of block.\nNumber of block opened : "
      ++ toString (lineChange semiColonForbidden s1 (tok ";" 1) acc1).openedBlock), ?_, ?_⟩
  · rw [e0, e, readNextBlockLoop, if_neg (fun hx => absurd hx.1 (by decide))]
    simp only [if_pos (show (tok ";" 1).value = ";" ∧ semiColonForbidden.allowSemiColon = false
      from ⟨rfl, rfl⟩)]
  · rw [throwRuntimeError_eq _ _ _ (append_ne_empty _ _ (by decide)) hlt, hcur,
      lineChange_openedBlock, hzero]
    rfl

/-! ## Reading the size of an array: the variables of a statement -/

theorem declaratorTokens_append (front : List Declarator) (rest : List Declarator) :
    declaratorTokens (front ++ rest) = declaratorTokens front ++ declaratorTokens rest := by
  induction front with
  | nil => rfl
  | cons d front ih =>
    show d.tokens ++ declaratorTokens (front ++ rest)
      = d.tokens ++ declaratorTokens front ++ declaratorTokens rest
    rw [ih, List.append_assoc]

end MFront
